import Mathlib

/-!
# LibGA genetic-algorithm engine: chromosomes, crossover, mutation, pools, selection,
replacement and the generational scheduler

A shallow embedding of `src/libgaALL.c` (and `src/libga100/mutate.c`).

Conventions of the embedding

* `Gene_Type` and `Chrom_Type` are declared in `ga.h`, which is not part of the
  sources at hand.  The code prints genes with `%G`, reads them with `%lf` and
  compares them through `(int)` casts, so a gene is a floating value; it is
  modelled by an exact rational and `(int)x` by truncation toward zero
  (`toInt`).  No operator treated here does arithmetic on genes.
* The gene array and its `length` field are one list (`Chrom.gene`,
  `Chrom.length`).
* `UT_error` aborts the run: operators return `Except GAError _`.
* `RAND_DOM`, `RAND_BIT` and `RAND_FRAC` are macros of `ga.h`; the values they
  deliver are passed in (a list of successive draws, or the one draw `u`).
* Floating-point fields (`fitness`, `ptf`, `gap`, the pool statistics) are exact
  rationals and the arithmetic on them is exact; an explicit cast `(float)` is
  the rounding `toFloat`; where a statement is about rounded arithmetic, the
  operator has a second translation that takes the rounding of each operation
  as the argument `fl`.  `sqrt` and `qsort` of the C library are a parameter
  and a sort by insertion.
* A function pointer is a value of `FN_Ptr`; calls through the pointers of
  `ga_info` that the scheduler makes are parameters of the scheduler.
* `while(TRUE)` loops take a fuel argument; running out of fuel is the error
  `GAError.noFuel`.
-/

namespace LibGA

/-! ## Data model -/

/-- Gene values (`Gene_Type`). -/
abbrev Gene := ℚ

/-- The C conversion `(int)x`: truncation toward zero. -/
def toInt (q : Gene) : Int := if 0 ≤ q then ⌊q⌋ else ⌈q⌉

/-- Representation tags `DT_BIT`, `DT_INT`, `DT_INT_PERM`, `DT_REAL`. -/
inductive DataType where
  | DT_BIT
  | DT_INT
  | DT_INT_PERM
  | DT_REAL
  deriving DecidableEq, Repr

/-- Ways in which a run aborts (`UT_error`), plus the two outcomes that only
the embedding has: an index outside the gene array and an exhausted fuel or
draw supply. -/
inductive GAError where
  | badDataType
  | heterozygous
  | badRange
  | invalidIndex
  | badLength
  | idxMinOutOfBounds
  | idxMaxOutOfBounds
  | geneOutOfBounds
  | geneDuplicate
  | outOfBounds
  | noFuel
  | noDraws
  | scaledFitnessNonPos
  | newTotalNonPos
  | totalNonPos
  | invalidSelection
  | invalidUnderGenerational
  | invalidChrom
  | nullFunction
  deriving DecidableEq, Repr

instance GAError.instDecidableEqExcept {α : Type} [DecidableEq α] :
    DecidableEq (Except GAError α)
  | .ok a, .ok b =>
    if h : a = b then isTrue (by rw [h]) else isFalse (by intro e; cases e; exact h rfl)
  | .error a, .error b =>
    if h : a = b then isTrue (by rw [h]) else isFalse (by intro e; cases e; exact h rfl)
  | .ok _, .error _ => isFalse (by intro e; cases e)
  | .error _, .ok _ => isFalse (by intro e; cases e)

/-- A chromosome (`Chrom_Type`), with the fields that `CH_reset` initialises. -/
structure Chrom where
  gene : List Gene
  fitness : ℚ
  ptf : ℚ
  index : Int
  idx_min : Int
  idx_max : Int
  parent_1 : Int
  parent_2 : Int
  xp1 : Int
  xp2 : Int
  deriving DecidableEq

/-- The `length` field: the number of genes. -/
def Chrom.length (c : Chrom) : Nat := c.gene.length

/-- Read `chrom->gene[i]`. -/
def Chrom.g (c : Chrom) (i : Nat) : Gene := c.gene.getD i 0

/-- The assignment `chrom->gene[i] = v`. -/
def Chrom.setGene (c : Chrom) (i : Nat) (v : Gene) : Chrom :=
  { c with gene := c.gene.set i v }

/-- The functions that the tables of `libgaALL.c` hold (`FN_Ptr`): the
built-in ones by name, and the functions that a user registers. -/
inductive FN_Ptr where
  | SE_uniform_random
  | SE_roulette
  | SE_rank_biased
  | X_simple
  | X_uniform
  | X_order1
  | X_order2
  | X_pos
  | X_cycle
  | X_pmx
  | X_uox
  | X_rox
  | X_asex
  | MU_simple_invert
  | MU_simple_random
  | MU_swap
  | MU_float_random
  | MU_float_rnd_pert
  | MU_float_LS
  | MU_float_gauss_pert
  | RE_append
  | RE_by_rank
  | RE_first_weaker
  | RE_weakest
  | GA_generational
  | GA_steady_state
  | user (id : Nat)
  deriving DecidableEq, Repr

/-- The part of `GA_Info` that the operators below read or write; a function
field holds `none` for `NULL`. -/
structure GA_Info where
  datatype : DataType
  minimize : Bool
  elitist : Bool
  converged : Bool
  use_convergence : Bool
  scale_factor : ℚ
  pool_size : Int
  iter : Int
  max_iter : Int
  gap : ℚ
  SE_fun : Option FN_Ptr
  X_fun : Option FN_Ptr
  MU_fun : Option FN_Ptr
  RE_fun : Option FN_Ptr
  GA_fun : Option FN_Ptr
  deriving DecidableEq

/-- The defaults that `CF_reset` gives to these fields. -/
def CF_reset : GA_Info :=
  { datatype := DataType.DT_INT_PERM, minimize := true, elitist := true, converged := false,
    use_convergence := true, scale_factor := 0, pool_size := 100, iter := -1, max_iter := -1,
    gap := 0, SE_fun := some FN_Ptr.SE_roulette, X_fun := some FN_Ptr.X_order1,
    MU_fun := some FN_Ptr.MU_swap, RE_fun := some FN_Ptr.RE_append,
    GA_fun := some FN_Ptr.GA_generational }

/-- The permutation invariant: `n` genes, and each value of `1..n` occurs
exactly once among them. -/
def validPerm (n : Nat) (g : List Gene) : Prop :=
  g.length = n ∧ ∀ k, k < n → g.count ((k : Gene) + 1) = 1

instance validPerm.instDecidable (n : Nat) (g : List Gene) : Decidable (validPerm n g) := by
  unfold validPerm; infer_instance

/-! ## Crossover utilities -/

/-- The search loop of `X_map`: `k` positions starting at `i`. -/
def X_map_scan (allele : Gene) (chrom : Chrom) : Nat → Nat → Int
  | _, 0 => -1
  | i, k + 1 =>
    if toInt allele = toInt (chrom.g i) then (i : Int)
    else X_map_scan allele chrom (i + 1) k

/-- Allele map in `chrom->gene[lo..hi]`: the first index holding `allele`, or
`-1`; aborts on a bad range. -/
def X_map (allele : Gene) (chrom : Chrom) (lo hi : Int) : Except GAError Int :=
  if lo < 0 ∨ lo > hi ∨ hi ≥ (chrom.length : Int) then .error .badRange
  else .ok (X_map_scan allele chrom lo.toNat ((hi - lo + 1).toNat))

/-- The macro `RAND_DOM(lo, hi)` of `ga.h`, a random integer of `[lo, hi]`: the
next draw of the supply. -/
def RAND_DOM (_lo _hi : Int) : List Int → Except GAError (Int × List Int)
  | [] => .error .noDraws
  | r :: rnd => .ok (r, rnd)

/-- One crossover point in `[idx_min..idx_max-1]`. -/
def X_gen_xp (idx_min idx_max : Int) (rnd : List Int) : Except GAError (Int × List Int) :=
  RAND_DOM idx_min (idx_max - 1) rnd

/-- The resampling loop `while(bad(*xp)) X_gen_xp(idx_min, idx_max, xp)`. -/
def X_gen_redraw (idx_min idx_max : Int) (bad : Int → Bool) :
    Int → List Int → Except GAError (Int × List Int)
  | x, [] => if bad x then X_gen_xp idx_min idx_max [] else .ok (x, [])
  | x, r :: rnd =>
    if bad x then X_gen_redraw idx_min idx_max bad r rnd else .ok (x, r :: rnd)

/-- Two sorted crossover points. -/
def X_gen_2_xp (unique : Bool) (idx_min idx_max : Int) (rnd : List Int) :
    Except GAError (Int × Int × List Int) :=
  match X_gen_xp idx_min idx_max rnd with
  | .error e => .error e
  | .ok (xp1, rnd1) =>
    match X_gen_xp idx_min idx_max rnd1 with
    | .error e => .error e
    | .ok (xp2, rnd2) =>
      match (if unique then X_gen_redraw idx_min idx_max (fun x => x == xp1) xp2 rnd2
             else .ok (xp2, rnd2)) with
      | .error e => .error e
      | .ok (xp2, rnd3) =>
        if xp1 > xp2 then .ok (xp2, xp1, rnd3) else .ok (xp1, xp2, rnd3)

/-! ## Order1 crossover -/

/-- The loop `while(TRUE) { p = (p + 1) % length; if(X_map(&other->gene[p], donor, xp1, xp2) < 0) break; }`
of `X_order1`; gives the new `p`. -/
def X_order1_next (other donor : Chrom) (n : Nat) (xp1 xp2 : Int) :
    Nat → Nat → Except GAError Nat
  | 0, _ => .error .noFuel
  | fuel + 1, p =>
    let p' := (p + 1) % n
    match X_map (other.g p') donor xp1 xp2 with
    | .error e => .error e
    | .ok r => if r < 0 then .ok p' else X_order1_next other donor n xp1 xp2 fuel p'

/-- The loop of `X_order1` that copies `gene[xp1..xp2]` of each parent into its
child: `k` positions from `i` on. -/
def X_order1_copy (parent_1 parent_2 : Chrom) : Nat → Nat → Chrom → Chrom → Chrom × Chrom
  | 0, _, child_1, child_2 => (child_1, child_2)
  | k + 1, i, child_1, child_2 =>
    X_order1_copy parent_1 parent_2 k (i + 1)
      (child_1.setGene i (parent_1.g i)) (child_2.setGene i (parent_2.g i))

/-- The loop of `X_order1` that inherits the remainder from the other parent:
`k` iterations are left, `i` is the loop counter. -/
def X_order1_fill (parent_1 parent_2 : Chrom) (xp1 xp2 : Int) (fuel : Nat) :
    Nat → Nat → Nat → Nat → Chrom → Chrom → Except GAError (Chrom × Chrom)
  | 0, _, _, _, child_1, child_2 => .ok (child_1, child_2)
  | k + 1, i, p1, p2, child_1, child_2 =>
    let c := (xp2.toNat + 1 + i) % parent_1.length
    match X_order1_next parent_2 parent_1 parent_1.length xp1 xp2 fuel p2 with
    | .error e => .error e
    | .ok p2' =>
      match X_order1_next parent_1 parent_2 parent_2.length xp1 xp2 fuel p1 with
      | .error e => .error e
      | .ok p1' =>
        X_order1_fill parent_1 parent_2 xp1 xp2 fuel k (i + 1) p1' p2'
          (child_1.setGene c (parent_2.g p2')) (child_2.setGene c (parent_1.g p1'))

/-- Order1 crossover. `rnd` holds the draws of `RAND_DOM`, `fuel` bounds each
`while(TRUE)` loop. -/
def X_order1 (ga_info : GA_Info) (parent_1 parent_2 child_1 child_2 : Chrom)
    (rnd : List Int) (fuel : Nat) : Except GAError (Chrom × Chrom) :=
  if ga_info.datatype ≠ DataType.DT_INT_PERM then .error .badDataType
  else if parent_1.length ≠ parent_2.length then .error .heterozygous
  else
    match X_gen_2_xp false 0 parent_1.length rnd with
    | .error e => .error e
    | .ok (xp1, xp2, _) =>
      if xp1 < 0 ∨ xp2 ≥ (parent_1.length : Int) then .error .outOfBounds
      else
        let child_1 := { child_1 with xp1 := xp1, xp2 := xp2 }
        let child_2 := { child_2 with xp1 := xp1, xp2 := xp2 }
        let (child_1, child_2) :=
          X_order1_copy parent_1 parent_2 ((xp2 - xp1 + 1).toNat) xp1.toNat child_1 child_2
        X_order1_fill parent_1 parent_2 xp1 xp2 fuel
          (((parent_1.length : Int) - (xp2 - xp1 + 1)).toNat) 0 xp2.toNat xp2.toNat
          child_1 child_2

/-- Four sorted crossover points: four draws, the resampling loops of the
unique mode, then the five compare-and-swap steps. -/
def X_gen_4_xp (unique : Bool) (idx_min idx_max : Int) (rnd : List Int) :
    Except GAError (Int × Int × Int × Int × List Int) :=
  match rnd with
  | r1 :: r2 :: r3 :: r4 :: rnd0 =>
    let xp1 := r1
    match (if unique then X_gen_redraw idx_min idx_max (fun x => x == xp1) r2 rnd0
           else .ok (r2, rnd0)) with
    | .error e => .error e
    | .ok (xp2, rnd1) =>
      match (if unique then
               X_gen_redraw idx_min idx_max (fun x => x == xp1 || x == xp2) r3 rnd1
             else .ok (r3, rnd1)) with
      | .error e => .error e
      | .ok (xp3, rnd2) =>
        match (if unique then
                 X_gen_redraw idx_min idx_max (fun x => x == xp1 || x == xp2 || x == xp3) r4 rnd2
               else .ok (r4, rnd2)) with
        | .error e => .error e
        | .ok (xp4, rnd3) =>
          let (xp1, xp2) := if xp1 > xp2 then (xp2, xp1) else (xp1, xp2)
          let (xp3, xp4) := if xp3 > xp4 then (xp4, xp3) else (xp3, xp4)
          let (xp2, xp3) := if xp2 > xp3 then (xp3, xp2) else (xp2, xp3)
          let (xp1, xp2) := if xp1 > xp2 then (xp2, xp1) else (xp1, xp2)
          let (xp3, xp4) := if xp3 > xp4 then (xp4, xp3) else (xp3, xp4)
          .ok (xp1, xp2, xp3, xp4, rnd3)
  | _ => .error .noDraws

/-- The loop `for(i = 0; i < length; i++) dst->gene[i] = src->gene[i]`, from
position `i` on, `k` positions. -/
def copy_genes (src : Chrom) : Nat → Nat → Chrom → Chrom
  | 0, _, dst => dst
  | k + 1, i, dst => copy_genes src k (i + 1) (dst.setGene i (src.g i))

/-! ## Order2 crossover -/

/-- The test of `X_order2` and `X_pos`: is `allele` one of the four key
alleles `donor->gene[xp1..xp4]`, compared through `(int)`. -/
def isKey (allele : Gene) (donor : Chrom) (xp1 xp2 xp3 xp4 : Nat) : Bool :=
  toInt allele == toInt (donor.g xp1) || toInt allele == toInt (donor.g xp2) ||
  toInt allele == toInt (donor.g xp3) || toInt allele == toInt (donor.g xp4)

/-- The loop of `X_order2` that records in `xidx_1` (`xidx_2`) where the key
alleles of parent 1 (parent 2) stand in the other parent. -/
def X_order2_scan (parent_1 parent_2 : Chrom) (xp1 xp2 xp3 xp4 : Nat) :
    Nat → Nat → List Nat → List Nat → List Nat × List Nat
  | 0, _, xidx_1, xidx_2 => (xidx_1, xidx_2)
  | k + 1, i, xidx_1, xidx_2 =>
    let xidx_1 := if isKey (parent_2.g i) parent_1 xp1 xp2 xp3 xp4 then xidx_1 ++ [i] else xidx_1
    let xidx_2 := if isKey (parent_1.g i) parent_2 xp1 xp2 xp3 xp4 then xidx_2 ++ [i] else xidx_2
    X_order2_scan parent_1 parent_2 xp1 xp2 xp3 xp4 k (i + 1) xidx_1 xidx_2

/-- Order2 crossover.  The arrays `xidx_1[4]`, `xidx_2[4]` are lists; anything
but four entries in one of them is an access outside the array. -/
def X_order2 (ga_info : GA_Info) (parent_1 parent_2 child_1 child_2 : Chrom)
    (rnd : List Int) : Except GAError (Chrom × Chrom) :=
  if ga_info.datatype ≠ DataType.DT_INT_PERM then .error .badDataType
  else if parent_1.length ≠ parent_2.length then .error .heterozygous
  else
    match X_gen_4_xp true 0 parent_1.length rnd with
    | .error e => .error e
    | .ok (xp1, xp2, xp3, xp4, _) =>
      if xp1 < 0 ∨ xp4 ≥ (parent_1.length : Int) then .error .outOfBounds
      else
        let child_1 := { child_1 with xp1 := xp1, xp2 := xp2 }
        let child_2 := { child_2 with xp1 := xp3, xp2 := xp4 }
        let child_1 := copy_genes parent_1 parent_1.length 0 child_1
        let child_2 := copy_genes parent_2 parent_1.length 0 child_2
        let (xidx_1, xidx_2) :=
          X_order2_scan parent_1 parent_2 xp1.toNat xp2.toNat xp3.toNat xp4.toNat
            parent_1.length 0 [] []
        match xidx_1, xidx_2 with
        | [a0, a1, a2, a3], [b0, b1, b2, b3] =>
          let child_1 := child_1.setGene xp1.toNat (parent_2.g a0)
          let child_1 := child_1.setGene xp2.toNat (parent_2.g a1)
          let child_1 := child_1.setGene xp3.toNat (parent_2.g a2)
          let child_1 := child_1.setGene xp4.toNat (parent_2.g a3)
          let child_2 := child_2.setGene xp1.toNat (parent_1.g b0)
          let child_2 := child_2.setGene xp2.toNat (parent_1.g b1)
          let child_2 := child_2.setGene xp3.toNat (parent_1.g b2)
          let child_2 := child_2.setGene xp4.toNat (parent_1.g b3)
          .ok (child_1, child_2)
        | _, _ => .error .outOfBounds

/-! ## Position crossover -/

/-- The loop `while(j == xp1 || j == xp2 || j == xp3 || j == xp4) j++` of
`X_pos`. -/
def X_pos_skip (xp1 xp2 xp3 xp4 : Nat) : Nat → Nat → Except GAError Nat
  | 0, _ => .error .noFuel
  | fuel + 1, j =>
    if j = xp1 ∨ j = xp2 ∨ j = xp3 ∨ j = xp4 then X_pos_skip xp1 xp2 xp3 xp4 fuel (j + 1)
    else .ok j

/-- One child's half of the body of the main loop of `X_pos`: transfer
`other->gene[i]` to `child->gene[j]` unless it is a key allele of `donor`; a
write at `j >= length` is outside the gene array. -/
def X_pos_put (donor other : Chrom) (xp1 xp2 xp3 xp4 fuel i : Nat) (j : Nat) (child : Chrom) :
    Except GAError (Nat × Chrom) :=
  if isKey (other.g i) donor xp1 xp2 xp3 xp4 then .ok (j, child)
  else
    match X_pos_skip xp1 xp2 xp3 xp4 fuel j with
    | .error e => .error e
    | .ok j' =>
      if j' < child.length then .ok (j' + 1, child.setGene j' (other.g i))
      else .error .outOfBounds

/-- The main loop of `X_pos`. -/
def X_pos_loop (parent_1 parent_2 : Chrom) (xp1 xp2 xp3 xp4 fuel : Nat) :
    Nat → Nat → Nat → Nat → Chrom → Chrom → Except GAError (Chrom × Chrom)
  | 0, _, _, _, child_1, child_2 => .ok (child_1, child_2)
  | k + 1, i, j1, j2, child_1, child_2 =>
    match X_pos_put parent_1 parent_2 xp1 xp2 xp3 xp4 fuel i j1 child_1 with
    | .error e => .error e
    | .ok (j1, child_1) =>
      match X_pos_put parent_2 parent_1 xp1 xp2 xp3 xp4 fuel i j2 child_2 with
      | .error e => .error e
      | .ok (j2, child_2) =>
        X_pos_loop parent_1 parent_2 xp1 xp2 xp3 xp4 fuel k (i + 1) j1 j2 child_1 child_2

/-- Position crossover. -/
def X_pos (ga_info : GA_Info) (parent_1 parent_2 child_1 child_2 : Chrom)
    (rnd : List Int) (fuel : Nat) : Except GAError (Chrom × Chrom) :=
  if ga_info.datatype ≠ DataType.DT_INT_PERM then .error .badDataType
  else if parent_1.length ≠ parent_2.length then .error .heterozygous
  else
    match X_gen_4_xp false 0 parent_1.length rnd with
    | .error e => .error e
    | .ok (xp1, xp2, xp3, xp4, _) =>
      if xp1 < 0 ∨ xp4 ≥ (parent_1.length : Int) then .error .outOfBounds
      else
        let child_1 := { child_1 with xp1 := xp1, xp2 := xp2 }
        let child_2 := { child_2 with xp1 := xp3, xp2 := xp4 }
        let child_1 := child_1.setGene xp1.toNat (parent_1.g xp1.toNat)
        let child_1 := child_1.setGene xp2.toNat (parent_1.g xp2.toNat)
        let child_1 := child_1.setGene xp3.toNat (parent_1.g xp3.toNat)
        let child_1 := child_1.setGene xp4.toNat (parent_1.g xp4.toNat)
        let child_2 := child_2.setGene xp1.toNat (parent_2.g xp1.toNat)
        let child_2 := child_2.setGene xp2.toNat (parent_2.g xp2.toNat)
        let child_2 := child_2.setGene xp3.toNat (parent_2.g xp3.toNat)
        let child_2 := child_2.setGene xp4.toNat (parent_2.g xp4.toNat)
        X_pos_loop parent_1 parent_2 xp1.toNat xp2.toNat xp3.toNat xp4.toNat fuel
          parent_1.length 0 0 0 child_1 child_2

/-! ## Cycle crossover -/

/-- A cycle-following loop of `X_cycle`:
`for (i=xp; ; ) { child->gene[i] = donor->gene[i]; i = X_map(&other->gene[i], donor, 0, length - 1); if(i == xp) break; }`.
A result `-1` of `X_map` would be used as an index. -/
def X_cycle_loop (donor other : Chrom) (xp : Nat) : Nat → Nat → Chrom → Except GAError Chrom
  | 0, _, _ => .error .noFuel
  | fuel + 1, i, child =>
    let child := child.setGene i (donor.g i)
    match X_map (other.g i) donor 0 ((donor.length : Int) - 1) with
    | .error e => .error e
    | .ok r =>
      if r < 0 then .error .outOfBounds
      else if r = (xp : Int) then .ok child
      else X_cycle_loop donor other xp fuel r.toNat child

/-- Cycle crossover. -/
def X_cycle (ga_info : GA_Info) (parent_1 parent_2 child_1 child_2 : Chrom)
    (rnd : List Int) (fuel : Nat) : Except GAError (Chrom × Chrom) :=
  if ga_info.datatype ≠ DataType.DT_INT_PERM then .error .badDataType
  else if parent_1.length ≠ parent_2.length then .error .heterozygous
  else
    match X_gen_xp 0 parent_1.length rnd with
    | .error e => .error e
    | .ok (xp, _) =>
      if xp < 0 ∨ xp ≥ (parent_1.length : Int) then .error .outOfBounds
      else
        let child_1 := { child_1 with xp1 := xp }
        let child_2 := { child_2 with xp1 := xp }
        let child_1 := copy_genes parent_2 parent_1.length 0 child_1
        let child_2 := copy_genes parent_1 parent_1.length 0 child_2
        match X_cycle_loop parent_1 parent_2 xp.toNat fuel xp.toNat child_1 with
        | .error e => .error e
        | .ok child_1 =>
          match X_cycle_loop parent_2 parent_1 xp.toNat fuel xp.toNat child_2 with
          | .error e => .error e
          | .ok child_2 => .ok (child_1, child_2)

/-! ## PMX crossover -/

/-- The loop of `X_pmx` that copies the parents into the children, the genes
of `[xp1, xp2]` exchanged. -/
def X_pmx_copy (parent_1 parent_2 : Chrom) (xp1 xp2 : Int) :
    Nat → Nat → Chrom → Chrom → Chrom × Chrom
  | 0, _, child_1, child_2 => (child_1, child_2)
  | k + 1, i, child_1, child_2 =>
    if (i : Int) < xp1 ∨ (i : Int) > xp2 then
      X_pmx_copy parent_1 parent_2 xp1 xp2 k (i + 1)
        (child_1.setGene i (parent_1.g i)) (child_2.setGene i (parent_2.g i))
    else
      X_pmx_copy parent_1 parent_2 xp1 xp2 k (i + 1)
        (child_1.setGene i (parent_2.g i)) (child_2.setGene i (parent_1.g i))

/-- The loop
`while(TRUE) { child->gene[i] = parent->gene[j]; if((j = X_map(&child->gene[i], child, xp1, xp2)) < 0) break; }`
of `X_pmx`. -/
def X_pmx_chain (parent : Chrom) (xp1 xp2 : Int) (i : Nat) :
    Nat → Nat → Chrom → Except GAError Chrom
  | 0, _, _ => .error .noFuel
  | fuel + 1, j, child =>
    let child := child.setGene i (parent.g j)
    match X_map (child.g i) child xp1 xp2 with
    | .error e => .error e
    | .ok r => if r < 0 then .ok child else X_pmx_chain parent xp1 xp2 i fuel r.toNat child

/-- One child's half of the body of the fixup loop of `X_pmx`. -/
def X_pmx_fix (parent : Chrom) (xp1 xp2 : Int) (fuel i : Nat) (child : Chrom) :
    Except GAError Chrom :=
  match X_map (child.g i) child xp1 xp2 with
  | .error e => .error e
  | .ok j => if j ≥ 0 then X_pmx_chain parent xp1 xp2 i fuel j.toNat child else .ok child

/-- The fixup loop of `X_pmx`. -/
def X_pmx_fixup (parent_1 parent_2 : Chrom) (xp1 xp2 : Int) (fuel : Nat) :
    Nat → Nat → Chrom → Chrom → Except GAError (Chrom × Chrom)
  | 0, _, child_1, child_2 => .ok (child_1, child_2)
  | k + 1, i, child_1, child_2 =>
    if (i : Int) ≥ xp1 ∧ (i : Int) ≤ xp2 then
      X_pmx_fixup parent_1 parent_2 xp1 xp2 fuel k (i + 1) child_1 child_2
    else
      match X_pmx_fix parent_1 xp1 xp2 fuel i child_1 with
      | .error e => .error e
      | .ok child_1 =>
        match X_pmx_fix parent_2 xp1 xp2 fuel i child_2 with
        | .error e => .error e
        | .ok child_2 => X_pmx_fixup parent_1 parent_2 xp1 xp2 fuel k (i + 1) child_1 child_2

/-- PMX crossover. -/
def X_pmx (ga_info : GA_Info) (parent_1 parent_2 child_1 child_2 : Chrom)
    (rnd : List Int) (fuel : Nat) : Except GAError (Chrom × Chrom) :=
  if ga_info.datatype ≠ DataType.DT_INT_PERM then .error .badDataType
  else if parent_1.length ≠ parent_2.length then .error .heterozygous
  else
    match X_gen_2_xp false 0 parent_1.length rnd with
    | .error e => .error e
    | .ok (xp1, xp2, _) =>
      let child_1 := { child_1 with xp1 := xp1, xp2 := xp2 }
      let child_2 := { child_2 with xp1 := xp1, xp2 := xp2 }
      let (child_1, child_2) :=
        X_pmx_copy parent_1 parent_2 xp1 xp2 parent_1.length 0 child_1 child_2
      X_pmx_fixup parent_1 parent_2 xp1 xp2 fuel parent_1.length 0 child_1 child_2

/-! ## Uniform order crossover -/

/-- The loops of `X_uox` that place the alleles selected by the mask and mark
the other positions with `-1`. -/
def X_uox_mask (parent : Chrom) (m : List Bool) : Nat → Nat → Chrom → Chrom
  | 0, _, child => child
  | k + 1, i, child =>
    X_uox_mask parent m k (i + 1)
      (if m.getD i false then child.setGene i (parent.g i) else child.setGene i (-1))

/-- The loop
`while(X_map(&other->gene[j], child, 0, length-1) != -1) if(j < length) j++; else UT_error(..)`
of `X_uox`; gives the new `j`.  Reading `other->gene[j]` at `j >= length` is
outside the gene array. -/
def X_uox_find (other child : Chrom) : Nat → Nat → Except GAError Nat
  | 0, _ => .error .noFuel
  | fuel + 1, j =>
    if j ≥ other.length then .error .outOfBounds
    else
      match X_map (other.g j) child 0 ((child.length : Int) - 1) with
      | .error e => .error e
      | .ok r =>
        if r ≠ -1 then
          (if j < other.length then X_uox_find other child fuel (j + 1)
           else .error .invalidIndex)
        else .ok j

/-- The loop of `X_uox` that places the remaining alleles of one child. -/
def X_uox_fill (other : Chrom) (fuel : Nat) : Nat → Nat → Nat → Chrom → Except GAError Chrom
  | 0, _, _, child => .ok child
  | k + 1, i, j, child =>
    if toInt (child.g i) = -1 then
      match X_uox_find other child fuel j with
      | .error e => .error e
      | .ok j' => X_uox_fill other fuel k (i + 1) j' (child.setGene i (other.g j'))
    else X_uox_fill other fuel k (i + 1) j child

/-- Uniform order crossover; `bits` holds the draws of `RAND_BIT`, one for each
position. -/
def X_uox (ga_info : GA_Info) (parent_1 parent_2 child_1 child_2 : Chrom)
    (bits : List Bool) (fuel : Nat) : Except GAError (Chrom × Chrom) :=
  if ga_info.datatype ≠ DataType.DT_INT_PERM then .error .badDataType
  else if parent_1.length ≠ parent_2.length then .error .heterozygous
  else if bits.length < parent_1.length then .error .noDraws
  else
    let m1 := bits.take parent_1.length
    let m2 := m1
    let child_1 := X_uox_mask parent_1 m1 parent_1.length 0 child_1
    let child_2 := X_uox_mask parent_2 m2 parent_2.length 0 child_2
    match X_uox_fill parent_2 fuel parent_1.length 0 0 child_1 with
    | .error e => .error e
    | .ok child_1 =>
      match X_uox_fill parent_1 fuel parent_2.length 0 0 child_2 with
      | .error e => .error e
      | .ok child_2 => .ok (child_1, child_2)

/-! ## Asexual crossover -/

/-- Asexual crossover of one parent (`X_do_asex`); gives the child and the
draws left. -/
def X_do_asex (parent child : Chrom) (rnd : List Int) : Except GAError (Chrom × List Int) :=
  let child := copy_genes parent parent.length 0 child
  let child := { child with idx_min := parent.idx_min }
  if parent.idx_min ≥ (parent.length : Int) - 1 then .ok (child, rnd)
  else
    match X_gen_2_xp true parent.idx_min parent.length rnd with
    | .error e => .error e
    | .ok (xp1, xp2, rnd) =>
      if xp1 < 0 ∨ xp2 ≥ (parent.length : Int) then .error .outOfBounds
      else
        let child := { child with xp1 := xp1, xp2 := xp2 }
        let child := child.setGene xp1.toNat (parent.g xp2.toNat)
        let child := child.setGene xp2.toNat (parent.g xp1.toNat)
        .ok (child, rnd)

/-- Asexual crossover (`X_asex`): one independent `X_do_asex` for each child. -/
def X_asex (ga_info : GA_Info) (parent_1 parent_2 child_1 child_2 : Chrom)
    (rnd : List Int) : Except GAError (Chrom × Chrom) :=
  if ga_info.datatype ≠ DataType.DT_INT_PERM then .error .badDataType
  else
    match X_do_asex parent_1 child_1 rnd with
    | .error e => .error e
    | .ok (child_1, rnd) =>
      match X_do_asex parent_2 child_2 rnd with
      | .error e => .error e
      | .ok (child_2, _) => .ok (child_1, child_2)

/-! ## Chromosome verification -/

/-- The loop of `CH_verify` over the genes of a permutation chromosome;
`allele_count` is the vector of counters. -/
def CH_verify_loop (chrom : Chrom) : Nat → Nat → List Nat → Except GAError Unit
  | 0, _, _ => .ok ()
  | k + 1, i, allele_count =>
    if chrom.g i < 1 ∨ toInt (chrom.g i) > (chrom.length : Int) then .error .geneOutOfBounds
    else
      let a := (toInt (chrom.g i) - 1).toNat
      let allele_count := allele_count.set a (allele_count.getD a 0 + 1)
      if allele_count.getD a 0 > 1 then .error .geneDuplicate
      else CH_verify_loop chrom k (i + 1) allele_count

/-- Verify a chromosome. -/
def CH_verify (ga_info : GA_Info) (chrom : Chrom) : Except GAError Unit :=
  if (chrom.length : Int) ≤ 0 then .error .badLength
  else if chrom.idx_min < 0 ∨ chrom.idx_min > (chrom.length : Int) then .error .idxMinOutOfBounds
  else if chrom.idx_max < 0 ∨ chrom.idx_max > (chrom.length : Int) then .error .idxMaxOutOfBounds
  else if ga_info.datatype = DataType.DT_INT_PERM then
    CH_verify_loop chrom chrom.length 0 (List.replicate chrom.length 0)
  else .ok ()

/-! ## Swap mutation -/

/-- Swap random elements (`MU_swap`, the same text in `libgaALL.c` and in
`libga100/mutate.c`); gives the chromosome and the draws left.  A drawn index
outside the gene array is the error `outOfBounds`. -/
def MU_swap (_ga_info : GA_Info) (chrom : Chrom) (rnd : List Int) :
    Except GAError (Chrom × List Int) :=
  match RAND_DOM chrom.idx_min ((chrom.length : Int) - 1) rnd with
  | .error e => .error e
  | .ok (i, rnd) =>
    match RAND_DOM chrom.idx_min ((chrom.length : Int) - 1) rnd with
    | .error e => .error e
    | .ok (j, rnd) =>
      if i < 0 ∨ i ≥ (chrom.length : Int) ∨ j < 0 ∨ j ≥ (chrom.length : Int) then
        .error .outOfBounds
      else
        let tmp := chrom.g i.toNat
        let chrom := chrom.setGene i.toNat (chrom.g j.toNat)
        let chrom := chrom.setGene j.toNat tmp
        .ok (chrom, rnd)

/-! ## Pool statistics -/

/-- A pool (`Pool_Type`): the live chromosomes `chrom[0..size-1]` and the
fields that `PL_reset` and `PL_stats` set. -/
structure Pool where
  chrom : List Chrom
  total_fitness : ℚ
  min : ℚ
  max : ℚ
  ave : ℚ
  var : ℚ
  dev : ℚ
  min_index : Int
  max_index : Int
  best_index : Int
  minimize : Bool
  sorted : Bool
  deriving DecidableEq

/-- The `size` field: the number of live chromosomes. -/
def Pool.size (pool : Pool) : Nat := pool.chrom.length

/-- Read `pool->chrom[i]->fitness`. -/
def Pool.fit (pool : Pool) (i : Nat) : ℚ :=
  match pool.chrom[i]? with
  | some c => c.fitness
  | none => 0

/-- The assignment `pool->chrom[i]->index = v`. -/
def Pool.setIndex (pool : Pool) (i : Nat) (v : Int) : Pool :=
  match pool.chrom[i]? with
  | some c => { pool with chrom := pool.chrom.set i { c with index := v } }
  | none => pool

/-- The local variables of `PL_stats`. -/
structure StatsAcc where
  min : ℚ
  max : ℚ
  total : ℚ
  var : ℚ
  min_index : Nat
  max_index : Nat
  no_variance : Bool
  sorted : Bool
  deriving DecidableEq

/-- The number of binary digits of `n`; `fuel` bounds the recursion, and `n`
itself is enough fuel. -/
def bitLength : Nat → Nat → Nat
  | 0, _ => 0
  | fuel + 1, n => if n = 0 then 0 else bitLength fuel (n / 2) + 1

/-- Round to the nearest value with `p` significant bits, ties to even: the
conversion to a binary floating-point format of precision `p`, with the
exponent range taken as unbounded (no overflow, no gradual underflow).  With
`2^e <= |q| < 2^(e+1)`, the value `|q| / 2^s` for `s = e - (p - 1)` is rounded
to the integer `k`, and the result is `k * 2^s` with the sign of `q`. -/
def roundBits (p : Nat) (q : ℚ) : ℚ :=
  if q = 0 then 0
  else
    let n := q.num.natAbs
    let d := q.den
    let e0 : Int := (bitLength n n : Int) - (bitLength d d : Int)
    let e : Int :=
      if (if 0 ≤ e0 then decide (n < d * 2 ^ e0.toNat) else decide (n * 2 ^ (-e0).toNat < d))
      then e0 - 1 else e0
    let s : Int := e - ((p : Int) - 1)
    let N := if 0 ≤ s then n else n * 2 ^ (-s).toNat
    let D := if 0 ≤ s then d * 2 ^ s.toNat else d
    let f := N / D
    let r := N % D
    let k := if 2 * r < D then f else if D < 2 * r then f + 1 else if f % 2 = 0 then f else f + 1
    let a : ℚ :=
      if 0 ≤ s then ((k * 2 ^ s.toNat : Nat) : ℚ) else (k : ℚ) / ((2 ^ (-s).toNat : Nat) : ℚ)
    if q < 0 then -a else a

/-- The cast `(float)`: the value is rounded to IEEE 754 single precision (24
significant bits). -/
def toFloat (q : ℚ) : ℚ := roundBits 24 q

/-- The main loop of `PL_stats`: `k` iterations are left, `i` is the loop
counter.  The sum of squares is taken of the fitness cast to `float`, as in
the source; the product and the sums are exact. -/
def PL_stats_loop : Nat → Nat → Pool → StatsAcc → Pool × StatsAcc
  | 0, _, pool, s => (pool, s)
  | k + 1, i, pool, s =>
    let f := pool.fit i
    let no_variance :=
      if i ≠ 0 ∧ s.no_variance ∧ f ≠ pool.fit (i - 1) then false else s.no_variance
    let sorted :=
      if i ≠ 0 then
        (if s.sorted ∧ pool.minimize then
           (if f < pool.fit (i - 1) then false else s.sorted)
         else if s.sorted then
           (if f > pool.fit (i - 1) then false else s.sorted)
         else s.sorted)
      else s.sorted
    let (min, min_index) := if f < s.min then (f, i) else (s.min, s.min_index)
    let (max, max_index) := if f > s.max then (f, i) else (s.max, s.max_index)
    let total := s.total + f
    let var := s.var + toFloat f * toFloat f
    PL_stats_loop k (i + 1) (pool.setIndex i i)
      { min := min, max := max, total := total, var := var, min_index := min_index,
        max_index := max_index, no_variance := no_variance, sorted := sorted }

/-- Compute statistics for a pool.  `sqrt` is the square root of the C
library. -/
def PL_stats (sqrt : ℚ → ℚ) (ga_info : GA_Info) (pool : Pool) : GA_Info × Pool :=
  if (pool.size : Int) ≤ 0 then
    (ga_info,
     { pool with min := 0, max := 0, ave := 0, var := 0, dev := 0, total_fitness := 0,
                 min_index := -1, max_index := -1, best_index := -1 })
  else if pool.size = 1 then
    (ga_info,
     { pool with min := pool.fit 0, max := pool.fit 0, ave := pool.fit 0, var := 0, dev := 0,
                 total_fitness := pool.fit 0, min_index := 0, max_index := 0, best_index := 0 })
  else
    let (pool, s) := PL_stats_loop pool.size 0 pool
      { min := pool.fit 0, max := pool.fit 0, total := 0, var := 0, min_index := 0,
        max_index := 0, no_variance := true, sorted := true }
    let ave := s.total / (pool.size : ℚ)
    let pool := { pool with min := s.min, max := s.max, ave := ave, min_index := s.min_index,
                            max_index := s.max_index,
                            best_index := if pool.minimize then s.min_index else s.max_index,
                            total_fitness := s.total }
    let var := (s.var - ave * s.total) / ((pool.size : ℚ) - 1)
    if s.no_variance ∨ var ≤ 0 then
      ({ ga_info with converged := true }, { pool with var := 0, dev := 0 })
    else
      ({ ga_info with converged := false }, { pool with var := var, dev := sqrt var })

/-! ## Notions used in the statements and proofs -/

/-- The reference list `1, 2, .., n`. -/
def idPerm (n : Nat) : List Gene := (List.range n).map (fun (k : Nat) => (k : Gene) + 1)

/-- A gene that holds an integer value. -/
def isIntGene (x : Gene) : Prop := ∃ z : Int, x = (z : Gene)

/-- The check that `CH_verify` makes on the genes of a permutation chromosome:
no gene below 1, and the integer parts of the genes are a valid permutation. -/
def truncPerm (n : Nat) (g : List Gene) : Prop :=
  (∀ x, x ∈ g → 1 ≤ x) ∧ validPerm n (g.map (fun x => ((toInt x : Int) : Gene)))

/-- The items `f 0, .., f (d-1)` that satisfy `pr`, in this order. -/
def filtPrefix {α : Type} (f : Nat → α) (pr : α → Bool) (d : Nat) : List α :=
  ((List.range d).map f).filter pr

/-- The gene of `other` at the `e`-th position of the circular walk that
starts right after `b`. -/
def rotG (other : Chrom) (n b e : Nat) : Gene := other.g ((b + 1 + e) % n)

/-- The test of `X_order1` on an allele: `X_map` does not find it in
`donor->gene[a..b]`. -/
def notInSeg (donor : Chrom) (a b : Nat) (v : Gene) : Bool :=
  decide (X_map_scan v donor a (b - a + 1) < 0)

/-- The genes `donor->gene[a..b]`. -/
def segGenes (donor : Chrom) (a b : Nat) : List Gene :=
  (List.range (b + 1 - a)).map (fun (t : Nat) => donor.g (a + t))

/-- One child's share of `X_order1_fill`. -/
def X_order1_fill1 (other donor : Chrom) (n : Nat) (xp1 xp2 : Int) (fuel : Nat) :
    Nat → Nat → Nat → Chrom → Except GAError Chrom
  | 0, _, _, child => .ok child
  | k + 1, i, p, child =>
    match X_order1_next other donor n xp1 xp2 fuel p with
    | .error e => .error e
    | .ok p' =>
      X_order1_fill1 other donor n xp1 xp2 fuel k (i + 1) p'
        (child.setGene ((xp2.toNat + 1 + i) % n) (other.g p'))

/-- The index map followed by `X_cycle`: the position in `donor` of the allele
that `other` holds at `i`, as `X_map` finds it. -/
def cycleMap (donor other : Chrom) (i : Nat) : Nat :=
  (X_map_scan (other.g i) donor 0 donor.length).toNat

/-- Where the gene of position `x` of an Order2 child comes from in the donor,
when the key positions `x1..x4` receive the donor's genes of `y0..y3`. -/
def keyMap (x1 x2 x3 x4 y0 y1 y2 y3 x : Nat) : Nat :=
  if x = x4 then y3 else if x = x3 then y2 else if x = x2 then y1 else if x = x1 then y0 else x

/-- The test of the skipping loop of `X_pos`, negated: `p` is none of the four
key positions. -/
def notKeyPos (x1 x2 x3 x4 p : Nat) : Bool :=
  !(decide (p = x1) || decide (p = x2) || decide (p = x3) || decide (p = x4))

/-- The test of the main loop of `X_pos` on an allele: it is none of the four
key alleles of `donor`. -/
def notKeyVal (donor : Chrom) (x1 x2 x3 x4 : Nat) (v : Gene) : Bool :=
  !isKey v donor x1 x2 x3 x4

/-- One child's share of `X_pos_loop`. -/
def X_pos_loop1 (donor other : Chrom) (xp1 xp2 xp3 xp4 fuel : Nat) :
    Nat → Nat → Nat → Chrom → Except GAError Chrom
  | 0, _, _, child => .ok child
  | k + 1, i, j, child =>
    match X_pos_put donor other xp1 xp2 xp3 xp4 fuel i j child with
    | .error e => .error e
    | .ok (j, child) => X_pos_loop1 donor other xp1 xp2 xp3 xp4 fuel k (i + 1) j child

/-- The test of `X_uox` on an allele: `X_map` does not find it anywhere in
`c`. -/
def notFound (c : Chrom) (v : Gene) : Bool :=
  decide (X_map_scan v c 0 c.length = -1)

/-- The positions that the mask of `X_uox` leaves open. -/
def unmasked (m : List Bool) (p : Nat) : Bool := !m.getD p false

/-- How many positions before `p` the mask leaves open. -/
def openRank (m : List Bool) (p : Nat) : Nat := (filtPrefix (fun q => q) (unmasked m) p).length

/-- One child's share of `X_pmx_copy`: the genes of `outer` outside
`[xp1, xp2]`, those of `inner` inside. -/
def X_pmx_copy1 (outer inner : Chrom) (xp1 xp2 : Int) : Nat → Nat → Chrom → Chrom
  | 0, _, child => child
  | k + 1, i, child =>
    X_pmx_copy1 outer inner xp1 xp2 k (i + 1)
      (if (i : Int) < xp1 ∨ (i : Int) > xp2 then child.setGene i (outer.g i)
       else child.setGene i (inner.g i))

/-- One child's share of `X_pmx_fixup`. -/
def X_pmx_fixup1 (parent : Chrom) (xp1 xp2 : Int) (fuel : Nat) :
    Nat → Nat → Chrom → Except GAError Chrom
  | 0, _, child => .ok child
  | k + 1, i, child =>
    if (i : Int) ≥ xp1 ∧ (i : Int) ≤ xp2 then X_pmx_fixup1 parent xp1 xp2 fuel k (i + 1) child
    else
      match X_pmx_fix parent xp1 xp2 fuel i child with
      | .error e => .error e
      | .ok child => X_pmx_fixup1 parent xp1 xp2 fuel k (i + 1) child

/-- The way back along a PMX chain: from position `t`, while inside `[a, b]`,
go to the position where `outer` holds the allele that `inner` holds at `t`;
`f` bounds the number of steps. -/
def pmxBack (outer inner : Chrom) (a b : Nat) : Nat → Nat → Nat
  | 0, t => t
  | f + 1, t => if a ≤ t ∧ t ≤ b then pmxBack outer inner a b f (cycleMap outer inner t) else t

/-! ## Chromosome management -/

/-- Reset a chromosome (`CH_reset`): every gene and the bookkeeping fields. -/
def CH_reset (chrom : Chrom) : Chrom :=
  { gene := List.replicate chrom.length 0, fitness := 0, ptf := 0, index := -1, idx_min := 0,
    idx_max := (chrom.length : Int), parent_1 := -1, parent_2 := -1, xp1 := -1, xp2 := -1 }

/-- Allocate a chromosome (`CH_alloc`); the two `calloc` calls are taken to
succeed. -/
def CH_alloc (length : Int) : Except GAError Chrom :=
  if length ≤ 0 then .error .badLength
  else
    .ok (CH_reset { gene := List.replicate length.toNat 0, fitness := 0, ptf := 0, index := 0,
                    idx_min := 0, idx_max := 0, parent_1 := 0, parent_2 := 0, xp1 := 0, xp2 := 0 })

/-- Resize a chromosome (`CH_resize`): `realloc` keeps the genes that fit (the
new cells are taken as 0), then the chromosome is reset. -/
def CH_resize (chrom : Chrom) (length : Int) : Except GAError Chrom :=
  if length ≤ 0 then .error .badLength
  else
    .ok (CH_reset { chrom with
      gene := chrom.gene.take length.toNat ++ List.replicate (length.toNat - chrom.length) 0 })

/-- Copy a chromosome (`CH_copy`); gives the new `dst`.  The `memcpy` of the
record brings every field of `src`, the `memcpy` of the genes overwrites the
first `src->length` cells of the gene array of `dst`. -/
def CH_copy (src dst : Chrom) : Except GAError Chrom :=
  match (if dst.length ≠ src.length then CH_resize dst (src.length : Int) else .ok dst) with
  | .error e => .error e
  | .ok dst => .ok { src with gene := src.gene.take src.length ++ dst.gene.drop src.length }

/-- Compare chromosomes (`CH_cmp`): `-1` when `a` is better, `1` when `b` is
better, `0` otherwise. -/
def CH_cmp (ga_info : GA_Info) (a b : Chrom) : Int :=
  if ga_info.minimize then
    (if a.fitness < b.fitness then -1 else if a.fitness > b.fitness then 1 else 0)
  else
    (if a.fitness > b.fitness then -1 else if a.fitness < b.fitness then 1 else 0)

/-! ## Percent of total fitness -/

/-- The first loop of `PL_update_ptf`; the state is `scale_factor`,
`sf_changed`, `all_positive`. -/
def PL_update_ptf_scale : List Chrom → ℚ × Bool × Bool → ℚ × Bool × Bool
  | [], s => s
  | c :: cs, (scale_factor, sf_changed, all_positive) =>
    PL_update_ptf_scale cs
      (if c.fitness + scale_factor ≤ 0 then scale_factor + (1 - (c.fitness + scale_factor))
       else scale_factor,
       if c.fitness + scale_factor ≤ 0 then true else sf_changed,
       if c.fitness ≤ 0 then false else all_positive)

/-- The loop of `PL_update_ptf` that finds the total of the scaled fitness
values. -/
def PL_update_ptf_total (scale_factor : ℚ) : List Chrom → ℚ → ℚ
  | [], total => total
  | c :: cs, total => PL_update_ptf_total scale_factor cs (total + (c.fitness + scale_factor))

/-- The first loop of the minimizing branch of `PL_update_ptf`: the inverted
fitness goes to `ptf`, and `new_total_fitness` is accumulated. -/
def PL_update_ptf_invert (scale_factor total : ℚ) :
    List Chrom → ℚ → Except GAError (List Chrom × ℚ)
  | [], new_total => .ok ([], new_total)
  | c :: cs, new_total =>
    if c.fitness + scale_factor ≤ 0 then .error .scaledFitnessNonPos
    else
      match PL_update_ptf_invert scale_factor total cs
          (new_total + total / (c.fitness + scale_factor)) with
      | .error e => .error e
      | .ok (cs, new_total) =>
        .ok ({ c with ptf := total / (c.fitness + scale_factor) } :: cs, new_total)

/-- The second loop of the minimizing branch of `PL_update_ptf`. -/
def PL_update_ptf_renorm (new_total : ℚ) : List Chrom → Except GAError (List Chrom)
  | [] => .ok []
  | c :: cs =>
    if new_total ≤ 0 then .error .newTotalNonPos
    else
      match PL_update_ptf_renorm new_total cs with
      | .error e => .error e
      | .ok cs => .ok ({ c with ptf := c.ptf * (100 / new_total) } :: cs)

/-- The loop of the maximizing branch of `PL_update_ptf`. -/
def PL_update_ptf_max (scale_factor total : ℚ) : List Chrom → Except GAError (List Chrom)
  | [] => .ok []
  | c :: cs =>
    if total ≤ 0 then .error .totalNonPos
    else
      match PL_update_ptf_max scale_factor total cs with
      | .error e => .error e
      | .ok cs => .ok ({ c with ptf := (c.fitness + scale_factor) / total * 100 } :: cs)

/-- Update `ptf` (percent of total fitness) for each chromosome
(`PL_update_ptf`), with exact arithmetic.  The report of a changed scale factor
is output only and is left out. -/
def PL_update_ptf (ga_info : GA_Info) (pool : Pool) : Except GAError (GA_Info × Pool) :=
  let s := PL_update_ptf_scale pool.chrom (ga_info.scale_factor, false, true)
  let scale_factor := if s.2.2 then 0 else s.1
  let ga_info := { ga_info with scale_factor := scale_factor }
  let total := PL_update_ptf_total scale_factor pool.chrom 0
  let pool := { pool with total_fitness := total }
  if ga_info.minimize then
    match PL_update_ptf_invert scale_factor total pool.chrom 0 with
    | .error e => .error e
    | .ok (chrom, new_total) =>
      match PL_update_ptf_renorm new_total chrom with
      | .error e => .error e
      | .ok chrom => .ok (ga_info, { pool with chrom := chrom })
  else
    match PL_update_ptf_max scale_factor total pool.chrom with
    | .error e => .error e
    | .ok chrom => .ok (ga_info, { pool with chrom := chrom })

/-! ## Selection -/

/-- Read `pool->chrom[i]->ptf`. -/
def Pool.ptf (pool : Pool) (i : Nat) : ℚ :=
  match pool.chrom[i]? with
  | some c => c.ptf
  | none => 0

/-- The loop `while(val < spin_val && i < pool->size) val += pool->chrom[i++]->fitness`
of `SE_max_roulette`; `k` is `pool->size - i`.  Gives the final `i`. -/
def SE_max_roulette_loop (pool : Pool) (spin_val : ℚ) : Nat → Nat → ℚ → Nat
  | 0, i, _ => i
  | k + 1, i, val =>
    if val < spin_val then SE_max_roulette_loop pool spin_val k (i + 1) (val + pool.fit i)
    else i

/-- Roulette helper, maximizing (`SE_max_roulette`); `u` is the value of
`RAND_FRAC()`.  The source holds `val` and `spin_val` in `float`; they are
exact here. -/
def SE_max_roulette (_ga_info : GA_Info) (pool : Pool) (u : ℚ) : Int :=
  let i := SE_max_roulette_loop pool (u * pool.total_fitness) pool.size 0 0
  if i > 0 then (i : Int) - 1 else (i : Int)

/-- The loop of `SE_min_roulette`, over the `ptf` values. -/
def SE_min_roulette_loop (pool : Pool) (spin_val : ℚ) : Nat → Nat → ℚ → Nat
  | 0, i, _ => i
  | k + 1, i, val =>
    if val < spin_val then SE_min_roulette_loop pool spin_val k (i + 1) (val + pool.ptf i)
    else i

/-- Roulette helper, minimizing (`SE_min_roulette`). -/
def SE_min_roulette (_ga_info : GA_Info) (pool : Pool) (u : ℚ) : Int :=
  let i := SE_min_roulette_loop pool (u * 100) pool.size 0 0
  if i > 0 then (i : Int) - 1 else (i : Int)

/-- Roulette selection (`SE_roulette`): gives the index, and `ga_info` and the
pool as `PL_update_ptf` leaves them. -/
def SE_roulette (ga_info : GA_Info) (pool : Pool) (u : ℚ) :
    Except GAError (Int × GA_Info × Pool) :=
  match PL_update_ptf ga_info pool with
  | .error e => .error e
  | .ok (ga_info, pool) =>
    if ga_info.minimize then .ok (SE_min_roulette ga_info pool u, ga_info, pool)
    else .ok (SE_max_roulette ga_info pool u, ga_info, pool)

/-! ## Simple and uniform crossover -/

/-- The first loop of `X_simple`: positions `0..xp` come from the own
parent. -/
def X_simple_head (parent_1 parent_2 : Chrom) : Nat → Nat → Chrom → Chrom → Chrom × Chrom
  | 0, _, child_1, child_2 => (child_1, child_2)
  | k + 1, i, child_1, child_2 =>
    X_simple_head parent_1 parent_2 k (i + 1)
      (child_1.setGene i (parent_1.g i)) (child_2.setGene i (parent_2.g i))

/-- The second loop of `X_simple`: positions `xp+1..length-1` come from the
other parent. -/
def X_simple_tail (parent_1 parent_2 : Chrom) : Nat → Nat → Chrom → Chrom → Chrom × Chrom
  | 0, _, child_1, child_2 => (child_1, child_2)
  | k + 1, i, child_1, child_2 =>
    X_simple_tail parent_1 parent_2 k (i + 1)
      (child_1.setGene i (parent_2.g i)) (child_2.setGene i (parent_1.g i))

/-- Simple crossover (`X_simple`).  A cut point outside the gene array is the
error `outOfBounds`. -/
def X_simple (ga_info : GA_Info) (parent_1 parent_2 child_1 child_2 : Chrom)
    (rnd : List Int) : Except GAError (Chrom × Chrom) :=
  if ga_info.datatype = DataType.DT_INT_PERM then .error .badDataType
  else if parent_1.length ≠ parent_2.length then .error .heterozygous
  else
    match X_gen_xp 0 ((parent_1.length : Int) - 1) rnd with
    | .error e => .error e
    | .ok (xp, _) =>
      if xp < 0 ∨ xp ≥ (parent_1.length : Int) then .error .outOfBounds
      else
        let child_1 := { child_1 with xp1 := xp }
        let child_2 := { child_2 with xp1 := xp }
        let (child_1, child_2) :=
          X_simple_head parent_1 parent_2 (xp.toNat + 1) 0 child_1 child_2
        .ok (X_simple_tail parent_1 parent_2 (parent_1.length - (xp.toNat + 1)) (xp.toNat + 1)
          child_1 child_2)

/-- The loop of `X_uniform`; `bits` are the values of `RAND_BIT()`. -/
def X_uniform_loop (parent_1 parent_2 : Chrom) :
    Nat → Nat → List Bool → Chrom → Chrom → Except GAError (Chrom × Chrom)
  | 0, _, _, child_1, child_2 => .ok (child_1, child_2)
  | _ + 1, _, [], _, _ => .error .noDraws
  | k + 1, i, b :: bits, child_1, child_2 =>
    if b then
      X_uniform_loop parent_1 parent_2 k (i + 1) bits
        (child_1.setGene i (parent_1.g i)) (child_2.setGene i (parent_2.g i))
    else
      X_uniform_loop parent_1 parent_2 k (i + 1) bits
        (child_1.setGene i (parent_2.g i)) (child_2.setGene i (parent_1.g i))

/-- Uniform crossover (`X_uniform`). -/
def X_uniform (ga_info : GA_Info) (parent_1 parent_2 child_1 child_2 : Chrom)
    (bits : List Bool) : Except GAError (Chrom × Chrom) :=
  if ga_info.datatype = DataType.DT_INT_PERM then .error .badDataType
  else if parent_1.length ≠ parent_2.length then .error .heterozygous
  else X_uniform_loop parent_1 parent_2 parent_1.length 0 bits child_1 child_2

/-! ## Notions used in the statements on these functions -/

/-- The order of the claims on `CH_cmp`: `a` is better than `b` when its
fitness is lower (minimizing) or higher (maximizing). -/
def isBetter (ga_info : GA_Info) (a b : Chrom) : Prop :=
  if ga_info.minimize then a.fitness < b.fitness else a.fitness > b.fitness

instance isBetter.instDecidable (ga_info : GA_Info) (a b : Chrom) :
    Decidable (isBetter ga_info a b) := by
  unfold isBetter; infer_instance

/-- The fitness values of a pool, in pool order. -/
def Pool.fits (pool : Pool) : List ℚ := pool.chrom.map (fun c => c.fitness)

/-- The `ptf` values of a pool, in pool order. -/
def Pool.ptfs (pool : Pool) : List ℚ := pool.chrom.map (fun c => c.ptf)

/-- The state of the main loop of `PL_stats` before iteration `i`, for the
fitness values `fit 0, .., fit (n-1)`. -/
def StatsInv (fit : Nat → ℚ) (n i : Nat) (s : StatsAcc) : Prop :=
  s.min = fit s.min_index ∧ s.min_index < n ∧ (∀ j, j < i → s.min ≤ fit j) ∧
  s.max = fit s.max_index ∧ s.max_index < n ∧ (∀ j, j < i → fit j ≤ s.max) ∧
  s.total = ((List.range i).map fit).sum ∧
  s.var = ((List.range i).map (fun j => toFloat (fit j) * toFloat (fit j))).sum ∧
  (s.no_variance = true ↔ ∀ j, 0 < j → j < i → fit j = fit (j - 1))

/-! ## Function tables -/

/-- One slot of a function table (`FN_Table_Type`); `none` is `NULL`. -/
structure FN_Table_Type where
  name : Option String
  fn : Option FN_Ptr
  deriving DecidableEq

/-- The test `!strncmp(s, t, n)` of the C library: the first `n` characters of
the two strings agree. -/
def strncmp_eq (s t : String) (n : Nat) : Bool := s.data.take n == t.data.take n

/-- The search loop of `FN_select` over the slots from index 1 on; it stops at
the first slot without a function (the end of the list counts as one). -/
def FN_select_scan (fn_name : String) : List FN_Table_Type → Except GAError (Option FN_Ptr)
  | [] => .error .invalidSelection
  | e :: rest =>
    match e.fn with
    | none => .error .invalidSelection
    | some f =>
      match e.name with
      | none => .error .outOfBounds
      | some name =>
        if strncmp_eq fn_name name (min fn_name.length name.length) then .ok (some f)
        else FN_select_scan fn_name rest

/-- Select a function by name (`FN_select`); gives the value written to
`*rtn_fun`.  The warning on a `NULL` user function is output only. -/
def FN_select (fn_table : List FN_Table_Type) (fn_name : String) :
    Except GAError (Option FN_Ptr) :=
  match fn_table with
  | [] => .error .outOfBounds
  | user :: rest =>
    match user.name with
    | some uname =>
      if strncmp_eq fn_name uname uname.length then .ok user.fn
      else FN_select_scan fn_name rest
    | none => FN_select_scan fn_name rest

/-- The loop `for(i = 0; i == 0 || fn_table[i].fun != NULL; i++)` of `FN_name`;
`first` tells whether `i == 0`. -/
def FN_name_scan (fn_ptr : Option FN_Ptr) : Bool → List FN_Table_Type → String
  | _, [] => "Unknown"
  | first, e :: rest =>
    if first = true ∨ e.fn ≠ none then
      if fn_ptr = e.fn then
        (match e.name with
         | none => "Unspecified"
         | some name => name)
      else FN_name_scan fn_ptr false rest
    else "Unknown"

/-- The name of a function (`FN_name`). -/
def FN_name (fn_table : List FN_Table_Type) (fn_ptr : Option FN_Ptr) : String :=
  FN_name_scan fn_ptr true fn_table

/-- The table `SE_table`, with no user function registered. -/
def SE_table : List FN_Table_Type :=
  [⟨none, none⟩, ⟨some "uniform_random", some FN_Ptr.SE_uniform_random⟩,
   ⟨some "roulette", some FN_Ptr.SE_roulette⟩, ⟨some "rank_biased", some FN_Ptr.SE_rank_biased⟩,
   ⟨none, none⟩]

/-- The table `X_table`, with no user function registered. -/
def X_table : List FN_Table_Type :=
  [⟨none, none⟩, ⟨some "simple", some FN_Ptr.X_simple⟩, ⟨some "uniform", some FN_Ptr.X_uniform⟩,
   ⟨some "order1", some FN_Ptr.X_order1⟩, ⟨some "order2", some FN_Ptr.X_order2⟩,
   ⟨some "position", some FN_Ptr.X_pos⟩, ⟨some "cycle", some FN_Ptr.X_cycle⟩,
   ⟨some "pmx", some FN_Ptr.X_pmx⟩, ⟨some "uox", some FN_Ptr.X_uox⟩,
   ⟨some "rox", some FN_Ptr.X_rox⟩, ⟨some "asexual", some FN_Ptr.X_asex⟩, ⟨none, none⟩]

/-- The table `MU_table`, with no user function registered. -/
def MU_table : List FN_Table_Type :=
  [⟨none, none⟩, ⟨some "simple_invert", some FN_Ptr.MU_simple_invert⟩,
   ⟨some "simple_random", some FN_Ptr.MU_simple_random⟩, ⟨some "swap", some FN_Ptr.MU_swap⟩,
   ⟨some "float_random", some FN_Ptr.MU_float_random⟩,
   ⟨some "float_rnd_pert", some FN_Ptr.MU_float_rnd_pert⟩,
   ⟨some "float_LS", some FN_Ptr.MU_float_LS⟩,
   ⟨some "float_gauss_pert", some FN_Ptr.MU_float_gauss_pert⟩, ⟨none, none⟩]

/-- The table `RE_table`, with no user function registered. -/
def RE_table : List FN_Table_Type :=
  [⟨none, none⟩, ⟨some "append", some FN_Ptr.RE_append⟩, ⟨some "by_rank", some FN_Ptr.RE_by_rank⟩,
   ⟨some "first_weaker", some FN_Ptr.RE_first_weaker⟩, ⟨some "weakest", some FN_Ptr.RE_weakest⟩,
   ⟨none, none⟩]

/-- The table `GA_table`, with no user function registered. -/
def GA_table : List FN_Table_Type :=
  [⟨none, none⟩, ⟨some "generational", some FN_Ptr.GA_generational⟩,
   ⟨some "steady_state", some FN_Ptr.GA_steady_state⟩, ⟨none, none⟩]

/-- The name of the current scheduler (`GA_name`); `ga_table` is the global
`GA_table` as it is at the time of the call. -/
def GA_name (ga_table : List FN_Table_Type) (ga_info : GA_Info) : String :=
  FN_name ga_table ga_info.GA_fun

/-! ## Pool manipulation

The list `Pool.chrom` holds the slots `chrom[0..size-1]`.  A slot that holds
`NULL` is the chromosome without genes (`CH_null`), which `CH_alloc` cannot
return.  The slots from `size` on and `max_size` are not part of the model: a
write to slot `size` shows as the list growing by one, and an index beyond is
the error `invalidIndex`. -/

/-- The content of a slot that holds `NULL`. -/
def CH_null : Chrom :=
  { gene := [], fitness := 0, ptf := 0, index := 0, idx_min := 0, idx_max := 0, parent_1 := 0,
    parent_2 := 0, xp1 := 0, xp2 := 0 }

/-- The test `CH_valid`: the slot holds a chromosome with a gene array. -/
def CH_valid (chrom : Chrom) : Bool := !chrom.gene.isEmpty

/-- Read the slot `pool->chrom[i]`. -/
def Pool.chromAt (pool : Pool) (i : Nat) : Chrom := pool.chrom.getD i CH_null

/-- Write the slot `pool->chrom[i]`, for `i <= size`. -/
def Pool.setChrom (pool : Pool) (i : Nat) (c : Chrom) : Pool :=
  { pool with chrom := if i < pool.size then pool.chrom.set i c else pool.chrom ++ [c] }

/-- Replace a chromosome in the pool (`PL_insert`). -/
def PL_insert (pool : Pool) (index : Int) (chrom : Chrom) (make_copy : Bool) :
    Except GAError Pool :=
  if ¬ (CH_valid chrom = true) then .error .invalidChrom
  else if index < 0 ∨ index > (pool.size : Int) then .error .invalidIndex
  else if make_copy then
    match (if CH_valid (pool.chromAt index.toNat) then .ok (pool.chromAt index.toNat)
           else CH_alloc (chrom.length : Int)) with
    | .error e => .error e
    | .ok slot =>
      match CH_copy chrom slot with
      | .error e => .error e
      | .ok c => .ok (pool.setChrom index.toNat c)
  else .ok (pool.setChrom index.toNat chrom)

/-- Append a chromosome to the pool (`PL_append`): `PL_insert` at `size`, then
`++size`, which is the list having grown. -/
def PL_append (pool : Pool) (chrom : Chrom) (make_copy : Bool) : Except GAError Pool :=
  if ¬ (CH_valid chrom = true) then .error .invalidChrom
  else PL_insert pool (pool.size : Int) chrom make_copy

/-- Remove a chromosome from the pool (`PL_remove`): the slot becomes
`NULL`. -/
def PL_remove (pool : Pool) (index : Int) : Except GAError Pool :=
  if index < 0 ∨ index ≥ (pool.size : Int) then .error .invalidIndex
  else .ok { pool with chrom := pool.chrom.set index.toNat CH_null }

/-- Move a chromosome in the pool (`PL_move`). -/
def PL_move (pool : Pool) (idx_src idx_dst : Int) : Except GAError Pool :=
  if idx_src < 0 ∨ idx_src ≥ (pool.size : Int) then .error .invalidIndex
  else if idx_dst < 0 ∨ idx_dst ≥ (pool.size : Int) then .error .invalidIndex
  else
    .ok { pool with
      chrom := (pool.chrom.set idx_dst.toNat (pool.chromAt idx_src.toNat)).set idx_src.toNat
        CH_null }

/-- Swap chromosomes in the pool (`PL_swap`). -/
def PL_swap (pool : Pool) (idx1 idx2 : Int) : Except GAError Pool :=
  if idx1 < 0 ∨ idx1 ≥ (pool.size : Int) then .error .invalidIndex
  else if idx2 < 0 ∨ idx2 ≥ (pool.size : Int) then .error .invalidIndex
  else
    .ok { pool with
      chrom := (pool.chrom.set idx1.toNat (pool.chromAt idx2.toNat)).set idx2.toNat
        (pool.chromAt idx1.toNat) }

/-- The loop of `PL_index`: `k` slots from `i` on. -/
def PL_index_loop : Nat → Nat → Pool → Pool
  | 0, _, pool => pool
  | k + 1, i, pool => PL_index_loop k (i + 1) (pool.setIndex i i)

/-- Update the indices in the pool (`PL_index`). -/
def PL_index (pool : Pool) : Pool := PL_index_loop pool.size 0 pool

/-- Sort comparison function for a minimizing GA (`PL_cmp_min`). -/
def PL_cmp_min (a b : Chrom) : Int :=
  if a.fitness < b.fitness then -1 else if a.fitness > b.fitness then 1 else 0

/-- Sort comparison function for a maximizing GA (`PL_cmp_max`). -/
def PL_cmp_max (a b : Chrom) : Int :=
  if a.fitness < b.fitness then 1 else if a.fitness > b.fitness then -1 else 0

/-- The `qsort` of the C library, which is not part of the sources: it leaves
the array in an order in which `cmp` of an element and a later one is never
positive.  Insertion sort stands for it. -/
def qsort (cmp : Chrom → Chrom → Int) (l : List Chrom) : List Chrom :=
  l.insertionSort (fun a b => cmp a b ≤ 0)

/-- Sort the pool (`PL_sort`). -/
def PL_sort (ga_info : GA_Info) (pool : Pool) : Pool :=
  let pool := { pool with
    chrom := if ga_info.minimize then qsort PL_cmp_min pool.chrom else qsort PL_cmp_max pool.chrom }
  let pool := PL_index pool
  { pool with sorted := true }

/-! ## Replacement -/

/-- Append the children to the pool (`RE_append`). -/
def RE_append (_ga_info : GA_Info) (pool : Pool) (_p1 _p2 c1 c2 : Chrom) : Except GAError Pool :=
  match PL_append pool c1 true with
  | .error e => .error e
  | .ok pool => PL_append pool c2 true

/-- The loop of `RE_do_by_rank` that bubbles the new chromosome into position,
from index `i` down. -/
def RE_do_by_rank_bubble (ga_info : GA_Info) : Nat → Pool → Except GAError Pool
  | 0, pool => .ok pool
  | i + 1, pool =>
    if CH_cmp ga_info (pool.chromAt i) (pool.chromAt (i + 1)) ≤ 0 then .ok pool
    else
      match PL_swap pool (i : Int) ((i : Int) + 1) with
      | .error e => .error e
      | .ok pool => RE_do_by_rank_bubble ga_info i pool

/-- Insert a chromosome by rank (`RE_do_by_rank`).  On an empty pool the
source reads `chrom[-1]`, here the error `outOfBounds`. -/
def RE_do_by_rank (ga_info : GA_Info) (pool : Pool) (chrom : Chrom) : Except GAError Pool :=
  if pool.size = 0 then .error .outOfBounds
  else if CH_cmp ga_info (pool.chromAt (pool.size - 1)) chrom ≤ 0 then .ok pool
  else
    match PL_insert pool ((pool.size : Int) - 1) chrom true with
    | .error e => .error e
    | .ok pool => RE_do_by_rank_bubble ga_info (pool.size - 1) pool

/-- Insert in ranked order (`RE_by_rank`); `ga_table` is the global
`GA_table`. -/
def RE_by_rank (ga_table : List FN_Table_Type) (ga_info : GA_Info) (pool : Pool)
    (_p1 _p2 c1 c2 : Chrom) : Except GAError Pool :=
  if GA_name ga_table ga_info = "generational" then .error .invalidUnderGenerational
  else
    match RE_do_by_rank ga_info pool c1 with
    | .error e => .error e
    | .ok pool => RE_do_by_rank ga_info pool c2

/-- The loop of `RE_first_weaker` for one child: `k` slots from `i` on. -/
def RE_first_weaker_scan (ga_info : GA_Info) (c : Chrom) : Nat → Nat → Pool → Except GAError Pool
  | 0, _, pool => .ok pool
  | k + 1, i, pool =>
    if CH_cmp ga_info (pool.chromAt i) c > 0 then PL_insert pool (i : Int) c true
    else RE_first_weaker_scan ga_info c k (i + 1) pool

/-- Replace the first weaker member (`RE_first_weaker`). -/
def RE_first_weaker (ga_table : List FN_Table_Type) (ga_info : GA_Info) (pool : Pool)
    (_p1 _p2 c1 c2 : Chrom) : Except GAError Pool :=
  if GA_name ga_table ga_info = "generational" then .error .invalidUnderGenerational
  else
    match RE_first_weaker_scan ga_info c1 pool.size 0 pool with
    | .error e => .error e
    | .ok pool => RE_first_weaker_scan ga_info c2 pool.size 0 pool

/-- The search loop of `RE_weakest`; the state is `weakest`, `index`. -/
def RE_weakest_find (ga_info : GA_Info) (pool : Pool) : Nat → Nat → Chrom × Nat → Chrom × Nat
  | 0, _, s => s
  | k + 1, i, (weakest, index) =>
    RE_weakest_find ga_info pool k (i + 1)
      (if CH_cmp ga_info (pool.chromAt i) weakest ≥ 0 then (pool.chromAt i, i)
       else (weakest, index))

/-- One child's share of `RE_weakest`.  On an empty pool the source reads the
slot `chrom[0]`, which is not live, here the error `outOfBounds`. -/
def RE_weakest_put (ga_info : GA_Info) (pool : Pool) (c : Chrom) : Except GAError Pool :=
  if pool.size = 0 then .error .outOfBounds
  else
    let s := RE_weakest_find ga_info pool pool.size 0 (pool.chromAt 0, 0)
    if CH_cmp ga_info s.1 c ≥ 0 then PL_insert pool (s.2 : Int) c true else .ok pool

/-- Replace the weakest member (`RE_weakest`). -/
def RE_weakest (ga_table : List FN_Table_Type) (ga_info : GA_Info) (pool : Pool)
    (_p1 _p2 c1 c2 : Chrom) : Except GAError Pool :=
  if GA_name ga_table ga_info = "generational" then .error .invalidUnderGenerational
  else
    match RE_weakest_put ga_info pool c1 with
    | .error e => .error e
    | .ok pool => RE_weakest_put ga_info pool c2

/-- One of the two blocks of `RE_pick_best`: the worse child gives way to the
parent `p` when `p` is better; the child keeps its `xp1` and `xp2`. -/
def RE_pick_best_step (ga_info : GA_Info) (p c1 c2 : Chrom) : Except GAError (Chrom × Chrom) :=
  if CH_cmp ga_info c1 c2 > 0 then
    if CH_cmp ga_info c1 p > 0 then
      match CH_copy p c1 with
      | .error e => .error e
      | .ok c => .ok ({ c with xp1 := c1.xp1, xp2 := c1.xp2 }, c2)
    else .ok (c1, c2)
  else
    if CH_cmp ga_info c2 p > 0 then
      match CH_copy p c2 with
      | .error e => .error e
      | .ok c => .ok (c1, { c with xp1 := c2.xp1, xp2 := c2.xp2 })
    else .ok (c1, c2)

/-- Pick the best 2 of 4 chromosomes (`RE_pick_best`); gives the new `c1`,
`c2`. -/
def RE_pick_best (ga_info : GA_Info) (p1 p2 c1 c2 : Chrom) : Except GAError (Chrom × Chrom) :=
  match RE_pick_best_step ga_info p1 c1 c2 with
  | .error e => .error e
  | .ok (c1, c2) =>
    match RE_pick_best_step ga_info p2 c1 c2 with
    | .error e => .error e
    | .ok (c1, c2) =>
      .ok ({ c1 with parent_1 := p1.index, parent_2 := p2.index },
           { c2 with parent_1 := p1.index, parent_2 := p2.index })

/-! ## Notions used in the statements on tables, pools and replacement -/

/-- Two names agree as `FN_select` compares them: one is a prefix of the
other. -/
def namesAgree (s t : String) : Prop := s.data <+: t.data ∨ t.data <+: s.data

instance namesAgree.instDecidable (s t : String) : Decidable (namesAgree s t) := by
  unfold namesAgree; infer_instance

/-- The name and the function of a built-in slot. -/
def FN_builtin (name : String) (f : FN_Ptr) : FN_Table_Type := ⟨some name, some f⟩

/-- A chromosome without its `index` field. -/
def Chrom.unindexed (c : Chrom) : Chrom := { c with index := 0 }

/-- The order of a pool that is sorted best first: `CH_cmp` of a chromosome and
a later one is never positive. -/
def bestFirst (ga_info : GA_Info) (l : List Chrom) : Prop :=
  l.Pairwise (fun a b => CH_cmp ga_info a b ≤ 0)

/-! ## The generational scheduler

The run state is `ga_info` with its two pools, the best chromosome so far and
the two static child buffers.  The calls through the function pointers are
parameters: `select` stands for `ga_info->SE_fun(ga_info, pool)`, which may
rewrite `ga_info` and the pool and uses up random draws `r`; `breed` stands
for the crossover, mutation and evaluation steps of a trial (`X_fun`,
`MU_fun` twice, `EV_fun` twice).  `GA_gen_init`, which builds the pools, and
the reports are not part of the model: a run starts from the state that
`GA_gen_init` leaves. -/

/-- The state of a run. -/
structure GA_Run where
  ga_info : GA_Info
  old_pool : Pool
  new_pool : Pool
  best : Chrom
  child1 : Chrom
  child2 : Chrom
  deriving DecidableEq

/-- Uniform random selection (`SE_uniform_random`). -/
def SE_uniform_random (_ga_info : GA_Info) (pool : Pool) (rnd : List Int) :
    Except GAError (Int × List Int) :=
  RAND_DOM 0 ((pool.size : Int) - 1) rnd

/-- Read `pool->chrom[i]` for an index held in an `int` field; a read outside
`[0, size)` is the error `outOfBounds`. -/
def Pool.chromAtIdx (pool : Pool) (i : Int) : Except GAError Chrom :=
  if i < 0 ∨ i ≥ (pool.size : Int) then .error .outOfBounds else .ok (pool.chromAt i.toNat)

/-- Selection interface (`SE_fun`).  The source returns the pointer
`pool->chrom[idx]`; the model returns the checked index, and the caller reads
the slot when it uses the pointer. -/
def SE_fun {R : Type} (select : GA_Info → Pool → R → Except GAError (Int × GA_Info × Pool × R))
    (ga_info : GA_Info) (pool : Pool) (r : R) : Except GAError (Nat × GA_Info × Pool × R) :=
  if ga_info.SE_fun = none then .error .nullFunction
  else
    match select ga_info pool r with
    | .error e => .error e
    | .ok (idx, ga_info, pool, r) =>
      if idx < 0 ∨ idx ≥ (pool.size : Int) then .error .invalidIndex
      else if pool.chromAt idx.toNat = CH_null then .error .invalidChrom
      else .ok (idx.toNat, ga_info, pool, r)

/-- The call `ga_info->RE_fun(ga_info, pool, p1, p2, c1, c2)` for a pointer
`f` of the replacement table; any other pointer is not modelled and shows as
the error `nullFunction`. -/
def RE_call (ga_table : List FN_Table_Type) (f : Option FN_Ptr) (ga_info : GA_Info) (pool : Pool)
    (p1 p2 c1 c2 : Chrom) : Except GAError Pool :=
  match f with
  | some FN_Ptr.RE_append => RE_append ga_info pool p1 p2 c1 c2
  | some FN_Ptr.RE_by_rank => RE_by_rank ga_table ga_info pool p1 p2 c1 c2
  | some FN_Ptr.RE_first_weaker => RE_first_weaker ga_table ga_info pool p1 p2 c1 c2
  | some FN_Ptr.RE_weakest => RE_weakest ga_table ga_info pool p1 p2 c1 c2
  | _ => .error .nullFunction

/-- Replacement interface (`RE_fun`); gives the pool and the two children,
which `RE_pick_best` rewrites in place. -/
def RE_fun (ga_table : List FN_Table_Type) (ga_info : GA_Info) (pool : Pool)
    (p1 p2 c1 c2 : Chrom) : Except GAError (Pool × Chrom × Chrom) :=
  if p1 = CH_null ∨ p2 = CH_null ∨ c1 = CH_null ∨ c2 = CH_null then .error .invalidChrom
  else if ga_info.RE_fun = none then .error .nullFunction
  else
    match (if ga_info.elitist then RE_pick_best ga_info p1 p2 c1 c2 else .ok (c1, c2)) with
    | .error e => .error e
    | .ok (c1, c2) =>
      match RE_call ga_table ga_info.RE_fun ga_info pool p1 p2 c1 c2 with
      | .error e => .error e
      | .ok pool => .ok (pool, c1, c2)

/-- One of the two tests of `GA_cum`: `c` becomes the best so far when it
beats it. -/
def GA_cum_step (ga_info : GA_Info) (best c : Chrom) : Except GAError Chrom :=
  if ga_info.minimize then
    if c.fitness < best.fitness then CH_copy c best else .ok best
  else
    if c.fitness > best.fitness then CH_copy c best else .ok best

/-- See if the children are the best so far (`GA_cum`); gives the new
`ga_info->best`. -/
def GA_cum (ga_info : GA_Info) (best c1 c2 : Chrom) : Except GAError Chrom :=
  match GA_cum_step ga_info best c1 with
  | .error e => .error e
  | .ok best => GA_cum_step ga_info best c2

/-- Setup for a new set of trials (`GA_init_trial`). -/
def GA_init_trial (run : GA_Run) : Except GAError GA_Run :=
  let new_pool := { run.new_pool with chrom := [] }
  if ¬ (run.ga_info.elitist = true) then .ok { run with new_pool := new_pool }
  else
    match run.old_pool.chromAtIdx
        (if run.ga_info.minimize then run.old_pool.min_index else run.old_pool.max_index) with
    | .error e => .error e
    | .ok elite =>
      match PL_append new_pool elite true with
      | .error e => .error e
      | .ok new_pool =>
        match PL_append new_pool elite true with
        | .error e => .error e
        | .ok new_pool => .ok { run with new_pool := new_pool }

/-- The loop of `GA_gap`: `k` clones are left to make. -/
def GA_gap_loop {R : Type}
    (select : GA_Info → Pool → R → Except GAError (Int × GA_Info × Pool × R)) :
    Nat → GA_Run → R → Except GAError (GA_Run × R)
  | 0, run, r => .ok (run, r)
  | k + 1, run, r =>
    if run.new_pool.size < run.old_pool.size then
      match SE_fun select run.ga_info run.old_pool r with
      | .error e => .error e
      | .ok (i, ga_info, old_pool, r) =>
        match PL_append run.new_pool (old_pool.chromAt i) true with
        | .error e => .error e
        | .ok new_pool =>
          GA_gap_loop select k
            { run with ga_info := ga_info, old_pool := old_pool, new_pool := new_pool } r
    else .ok (run, r)

/-- Handle the generation gap (`GA_gap`).  The product `pool_size * gap` is
exact here (the source computes it in floating point). -/
def GA_gap {R : Type} (select : GA_Info → Pool → R → Except GAError (Int × GA_Info × Pool × R))
    (sqrt : ℚ → ℚ) (run : GA_Run) (r : R) : Except GAError (GA_Run × R) :=
  if run.ga_info.gap ≤ 0 then .ok (run, r)
  else
    let num_clones := toInt ((run.ga_info.pool_size : ℚ) * run.ga_info.gap)
    match GA_gap_loop select num_clones.toNat run r with
    | .error e => .error e
    | .ok (run, r) =>
      if run.new_pool.size = run.old_pool.size then
        .ok ({ run with ga_info := (PL_stats sqrt run.ga_info run.new_pool).1,
                        new_pool := (PL_stats sqrt run.ga_info run.new_pool).2 }, r)
      else .ok (run, r)

/-- A single trial (`GA_trial`).  The parents are pointers into the old pool
and are read when the crossover runs, after both selections. -/
def GA_trial {R : Type} (select : GA_Info → Pool → R → Except GAError (Int × GA_Info × Pool × R))
    (breed : GA_Info → Chrom → Chrom → Chrom → Chrom → R → Except GAError (Chrom × Chrom × R))
    (sqrt : ℚ → ℚ) (ga_table : List FN_Table_Type) (run : GA_Run) (r : R) :
    Except GAError (GA_Run × R) :=
  match SE_fun select run.ga_info run.old_pool r with
  | .error e => .error e
  | .ok (i1, ga_info, old_pool, r) =>
    match SE_fun select ga_info old_pool r with
    | .error e => .error e
    | .ok (i2, ga_info, old_pool, r) =>
      match CH_verify ga_info (old_pool.chromAt i1) with
      | .error e => .error e
      | .ok _ =>
        match CH_verify ga_info (old_pool.chromAt i2) with
        | .error e => .error e
        | .ok _ =>
          match breed ga_info (old_pool.chromAt i1) (old_pool.chromAt i2)
              run.child1 run.child2 r with
          | .error e => .error e
          | .ok (child1, child2, r) =>
            match CH_verify ga_info child1 with
            | .error e => .error e
            | .ok _ =>
              match CH_verify ga_info child2 with
              | .error e => .error e
              | .ok _ =>
                match RE_fun ga_table ga_info run.new_pool (old_pool.chromAt i1)
                    (old_pool.chromAt i2) child1 child2 with
                | .error e => .error e
                | .ok (new_pool, child1, child2) =>
                  match GA_cum ga_info run.best child1 child2 with
                  | .error e => .error e
                  | .ok best =>
                    .ok ({ ga_info := (PL_stats sqrt ga_info new_pool).1, old_pool := old_pool,
                           new_pool := (PL_stats sqrt ga_info new_pool).2, best := best,
                           child1 := child1, child2 := child2 }, r)

/-- The inner loop of `GA_generational`,
`for( ; new_pool->size < old_pool->size; ) GA_trial(ga_info)`; the fuel
bounds the number of trials. -/
def GA_trials {R : Type} (select : GA_Info → Pool → R → Except GAError (Int × GA_Info × Pool × R))
    (breed : GA_Info → Chrom → Chrom → Chrom → Chrom → R → Except GAError (Chrom × Chrom × R))
    (sqrt : ℚ → ℚ) (ga_table : List FN_Table_Type) :
    Nat → GA_Run → R → Except GAError (GA_Run × R)
  | 0, run, r => if run.new_pool.size < run.old_pool.size then .error .noFuel else .ok (run, r)
  | fuel + 1, run, r =>
    if run.new_pool.size < run.old_pool.size then
      match GA_trial select breed sqrt ga_table run r with
      | .error e => .error e
      | .ok (run, r) => GA_trials select breed sqrt ga_table fuel run r
    else .ok (run, r)

/-- The body of the outer loop of `GA_generational` after the convergence
test: one generation.  `inner` is the fuel of the inner loop. -/
def GA_generation {R : Type}
    (select : GA_Info → Pool → R → Except GAError (Int × GA_Info × Pool × R))
    (breed : GA_Info → Chrom → Chrom → Chrom → Chrom → R → Except GAError (Chrom × Chrom × R))
    (sqrt : ℚ → ℚ) (ga_table : List FN_Table_Type) (inner : Nat) (run : GA_Run) (r : R) :
    Except GAError (GA_Run × R) :=
  match GA_init_trial run with
  | .error e => .error e
  | .ok run =>
    match GA_gap select sqrt run r with
    | .error e => .error e
    | .ok (run, r) =>
      match GA_trials select breed sqrt ga_table inner run r with
      | .error e => .error e
      | .ok (run, r) =>
        .ok ({ run with old_pool := run.new_pool, new_pool := run.old_pool }, r)

/-- The outer loop of `GA_generational`, entered at the loop test; the fuel
bounds the number of generations. -/
def GA_generational_loop {R : Type}
    (select : GA_Info → Pool → R → Except GAError (Int × GA_Info × Pool × R))
    (breed : GA_Info → Chrom → Chrom → Chrom → Chrom → R → Except GAError (Chrom × Chrom × R))
    (sqrt : ℚ → ℚ) (ga_table : List FN_Table_Type) (inner : Nat) :
    Nat → GA_Run → R → Except GAError (GA_Run × R)
  | 0, run, r =>
    if run.ga_info.max_iter < 0 ∨ run.ga_info.iter < run.ga_info.max_iter then
      if run.ga_info.use_convergence = true ∧ run.ga_info.converged = true then .ok (run, r)
      else .error .noFuel
    else .ok (run, r)
  | fuel + 1, run, r =>
    if run.ga_info.max_iter < 0 ∨ run.ga_info.iter < run.ga_info.max_iter then
      if run.ga_info.use_convergence = true ∧ run.ga_info.converged = true then .ok (run, r)
      else
        match GA_generation select breed sqrt ga_table inner run r with
        | .error e => .error e
        | .ok (run, r) =>
          GA_generational_loop select breed sqrt ga_table inner fuel
            { run with ga_info := { run.ga_info with iter := run.ga_info.iter + 1 } } r
    else .ok (run, r)

/-- Generational GA (`GA_generational`), from the state that `GA_gen_init`
leaves. -/
def GA_generational {R : Type}
    (select : GA_Info → Pool → R → Except GAError (Int × GA_Info × Pool × R))
    (breed : GA_Info → Chrom → Chrom → Chrom → Chrom → R → Except GAError (Chrom × Chrom × R))
    (sqrt : ℚ → ℚ) (ga_table : List FN_Table_Type) (inner fuel : Nat) (run : GA_Run) (r : R) :
    Except GAError (GA_Run × R) :=
  GA_generational_loop select breed sqrt ga_table inner fuel
    { run with ga_info := { run.ga_info with iter := 0 } } r

/-! ## Notions used in the statements on the scheduler -/

/-- The state at the start of generation `g` of a run in which the generations
`0 .. g-1` have all been run. -/
def GA_generational_state {R : Type}
    (select : GA_Info → Pool → R → Except GAError (Int × GA_Info × Pool × R))
    (breed : GA_Info → Chrom → Chrom → Chrom → Chrom → R → Except GAError (Chrom × Chrom × R))
    (sqrt : ℚ → ℚ) (ga_table : List FN_Table_Type) (inner : Nat) :
    Nat → GA_Run → R → Except GAError (GA_Run × R)
  | 0, run, r => .ok ({ run with ga_info := { run.ga_info with iter := 0 } }, r)
  | g + 1, run, r =>
    match GA_generational_state select breed sqrt ga_table inner g run r with
    | .error e => .error e
    | .ok (run, r) =>
      match GA_generation select breed sqrt ga_table inner run r with
      | .error e => .error e
      | .ok (run, r) =>
        .ok ({ run with ga_info := { run.ga_info with iter := run.ga_info.iter + 1 } }, r)

/-- The convergence test of the outer loop, `use_convergence && converged`. -/
def GA_stop (ga_info : GA_Info) : Prop :=
  ga_info.use_convergence = true ∧ ga_info.converged = true

instance GA_stop.instDecidable (ga_info : GA_Info) : Decidable (GA_stop ga_info) := by
  unfold GA_stop; infer_instance

/-- Two `ga_info` states agree on the fields that the outer loop test reads
and no generation writes. -/
def GA_Info.sameControl (a b : GA_Info) : Prop :=
  a.max_iter = b.max_iter ∧ a.iter = b.iter ∧ a.use_convergence = b.use_convergence

/-- The clone branch of `X_fun` (taken when the draw exceeds `x_rate`), with no
mutation and an evaluation that leaves the fitness of a copy as it is: the
children are copies of the parents. -/
def X_fun_clone (_ga_info : GA_Info) (parent_1 parent_2 child_1 child_2 : Chrom) (rnd : List Int) :
    Except GAError (Chrom × Chrom × List Int) :=
  match CH_copy parent_1 (CH_reset child_1) with
  | .error e => .error e
  | .ok child_1 =>
    match CH_copy parent_2 (CH_reset child_2) with
    | .error e => .error e
    | .ok child_2 =>
      .ok ({ child_1 with parent_1 := parent_1.index, parent_2 := parent_2.index },
           { child_2 with parent_1 := parent_1.index, parent_2 := parent_2.index }, rnd)

/-- The call of `SE_uniform_random` through `ga_info->SE_fun`: `ga_info` and
the pool stay as they are. -/
def SE_uniform_random_call (ga_info : GA_Info) (pool : Pool) (rnd : List Int) :
    Except GAError (Int × GA_Info × Pool × List Int) :=
  match SE_uniform_random ga_info pool rnd with
  | .error e => .error e
  | .ok (idx, rnd) => .ok (idx, ga_info, pool, rnd)

/-! ## Mutation of real-valued genes

`RAND_FRAC()` is the draw `u` (a list `us` of draws where a loop calls it);
`ga_info->pert_range`, a field that `CF_reset` does not set, is the parameter
`pert_range`.  A drawn index outside the gene array is the error
`outOfBounds`. -/

/-- Random perturbation of one gene (`MU_float_rnd_pert`). -/
def MU_float_rnd_pert (_ga_info : GA_Info) (pert_range : ℚ) (chrom : Chrom) (rnd : List Int)
    (u : ℚ) : Except GAError (Chrom × List Int) :=
  match RAND_DOM chrom.idx_min (chrom.length : Int) rnd with
  | .error e => .error e
  | .ok (i, rnd) =>
    if i ≠ (chrom.length : Int) then
      if i < 0 ∨ i > (chrom.length : Int) then .error .outOfBounds
      else
        let chrom := chrom.setGene i.toNat (chrom.g i.toNat + pert_range * (1 - 2 * u))
        let chrom := if chrom.g i.toNat > 1 then chrom.setGene i.toNat 1 else chrom
        let chrom := if chrom.g i.toNat < 0 then chrom.setGene i.toNat 0 else chrom
        .ok (chrom, rnd)
    else .ok (chrom, rnd)

/-- A fresh random value for one gene (`MU_float_random`). -/
def MU_float_random (_ga_info : GA_Info) (chrom : Chrom) (rnd : List Int) (u : ℚ) :
    Except GAError (Chrom × List Int) :=
  match RAND_DOM chrom.idx_min ((chrom.length : Int) - 1) rnd with
  | .error e => .error e
  | .ok (i, rnd) =>
    if i < 0 ∨ i ≥ (chrom.length : Int) then .error .outOfBounds
    else
      let chrom := chrom.setGene i.toNat u
      let chrom := if chrom.g i.toNat > 1 then chrom.setGene i.toNat 1 else chrom
      let chrom := if chrom.g i.toNat < 0 then chrom.setGene i.toNat 0 else chrom
      .ok (chrom, rnd)

/-- One sweep of `MU_float_LS` over the genes: `k` genes are left, `i` is the
loop counter.  The call of the evaluation function is commented out in the
source (`//obj_fun(chrom);`), so `new_fit` is the fitness field as it
stands. -/
def MU_float_LS_sweep : Nat → Nat → Chrom → List ℚ → Except GAError (Chrom × List ℚ)
  | 0, _, chrom, us => .ok (chrom, us)
  | _ + 1, _, _, [] => .error .noDraws
  | k + 1, i, chrom, u :: us =>
    let prev_fit := chrom.fitness
    let prev_val := chrom.g i
    let chrom := chrom.setGene i (chrom.g i + 1 / 10 * (1 - 2 * u))
    let chrom := if chrom.g i > 1 then chrom.setGene i 1 else chrom
    let chrom := if chrom.g i < 0 then chrom.setGene i 0 else chrom
    let new_fit := chrom.fitness
    let chrom :=
      if new_fit > prev_fit then { chrom.setGene i prev_val with fitness := prev_fit } else chrom
    MU_float_LS_sweep k (i + 1) chrom us

/-- The `while(1)` loop of `MU_float_LS`; the fuel bounds the number of
sweeps. -/
def MU_float_LS_loop : Nat → Chrom → List ℚ → Except GAError (Chrom × List ℚ)
  | 0, _, _ => .error .noFuel
  | fuel + 1, chrom, us =>
    let old_fit := chrom.fitness
    match MU_float_LS_sweep ((chrom.length : Int) - chrom.idx_min).toNat chrom.idx_min.toNat
        chrom us with
    | .error e => .error e
    | .ok (chrom, us) =>
      if chrom.fitness ≥ old_fit then .ok (chrom, us) else MU_float_LS_loop fuel chrom us

/-- Local search (`MU_float_LS`). -/
def MU_float_LS (_ga_info : GA_Info) (chrom : Chrom) (us : List ℚ) (fuel : Nat) :
    Except GAError (Chrom × List ℚ) :=
  if chrom.idx_min < 0 ∧ chrom.idx_min < (chrom.length : Int) then .error .outOfBounds
  else MU_float_LS_loop fuel chrom us

/-- Gaussian-like perturbation of one gene (`MU_float_gauss_pert`): `pert` is
built from three draws of `RAND_DOM(0, c2)`, then the index is drawn.  The
constant `c3` is the decimal `3.05185e-05`. -/
def MU_float_gauss_pert (_ga_info : GA_Info) (pert_range : ℚ) (chrom : Chrom) (rnd : List Int) :
    Except GAError (Chrom × List Int) :=
  let c2 : Int := 10922
  let c3 : ℚ := 305185 / 10000000000
  match RAND_DOM 0 c2 rnd with
  | .error e => .error e
  | .ok (d1, rnd) =>
    match RAND_DOM 0 c2 rnd with
    | .error e => .error e
    | .ok (d2, rnd) =>
      match RAND_DOM 0 c2 rnd with
      | .error e => .error e
      | .ok (d3, rnd) =>
        let pert : ℚ := ((2 * (d1 + d2 + d3) - 3 * c2 : Int) : ℚ) * c3
        match RAND_DOM chrom.idx_min ((chrom.length : Int) - 1) rnd with
        | .error e => .error e
        | .ok (i, rnd) =>
          if i < 0 ∨ i ≥ (chrom.length : Int) then .error .outOfBounds
          else
            let chrom := chrom.setGene i.toNat (chrom.g i.toNat + pert_range * pert)
            let chrom := if chrom.g i.toNat > 1 then chrom.setGene i.toNat 1 else chrom
            let chrom := if chrom.g i.toNat < 0 then chrom.setGene i.toNat 0 else chrom
            .ok (chrom, rnd)

/-! ## Notions used in the statements on mutation, replacement and elitism -/

/-- The statements that end each float mutation: store `v` in gene `i`, then
`if(gene[i] > 1) gene[i] = 1; if(gene[i] < 0) gene[i] = 0;`. -/
def clampStore (chrom : Chrom) (i : Nat) (v : Gene) : Chrom :=
  let chrom := chrom.setGene i v
  let chrom := if chrom.g i > 1 then chrom.setGene i 1 else chrom
  if chrom.g i < 0 then chrom.setGene i 0 else chrom

/-- The chromosome `c` differs from `chrom` in at most one gene, and a gene
that differs holds a value of `[0, 1]`. -/
def oneGeneClamped (chrom c : Chrom) : Prop :=
  c.length = chrom.length ∧
  ∃ i, (∀ j, j ≠ i → c.g j = chrom.g j) ∧ (c.g i ≠ chrom.g i → 0 ≤ c.g i ∧ c.g i ≤ 1)

/-- The order of fitness values that `CH_cmp` compares by: `x` is at least as
good as `y`. -/
def fitLE (ga_info : GA_Info) (x y : ℚ) : Prop :=
  if ga_info.minimize then x ≤ y else y ≤ x

instance fitLE.instDecidable (ga_info : GA_Info) (x y : ℚ) : Decidable (fitLE ga_info x y) := by
  unfold fitLE; infer_instance

/-- The fitness values of the best two of a list of chromosomes: sort by
`CH_cmp`, best first, and take two. -/
def bestTwo (ga_info : GA_Info) (l : List Chrom) : List ℚ :=
  ((qsort (CH_cmp ga_info) l).take 2).map (fun c => c.fitness)

/-- The pool holds, in its first slot, a chromosome with the genes and the
fitness of `E`. -/
def Pool.holdsElite (E : Chrom) (pool : Pool) : Prop :=
  ∃ c rest, pool.chrom = c :: rest ∧ c.gene = E.gene ∧ c.fitness = E.fitness

/-- The elite of a pool, as `GA_init_trial` reads it: the chromosome at
`min_index` when minimizing, at `max_index` otherwise. -/
def Pool.elite (ga_info : GA_Info) (pool : Pool) : Chrom :=
  pool.chromAt (if ga_info.minimize then pool.min_index else pool.max_index).toNat

/-! ## Percent of total fitness, with rounded arithmetic

A second translation of `PL_update_ptf`, statement by statement, in which the
result of every floating-point operation is rounded by `fl`.  The types of the
operands are declared in `ga.h`, so one rounding stands for them all; with the
identity for `fl` this is `PL_update_ptf`. -/

/-- The first loop of `PL_update_ptf`, rounded. -/
def PL_update_ptf_scale_fl (fl : ℚ → ℚ) : List Chrom → ℚ × Bool × Bool → ℚ × Bool × Bool
  | [], s => s
  | c :: cs, (scale_factor, sf_changed, all_positive) =>
    PL_update_ptf_scale_fl fl cs
      (if fl (c.fitness + scale_factor) ≤ 0 then
         fl (scale_factor + fl (1 - fl (c.fitness + scale_factor)))
       else scale_factor,
       if fl (c.fitness + scale_factor) ≤ 0 then true else sf_changed,
       if c.fitness ≤ 0 then false else all_positive)

/-- The loop of `PL_update_ptf` that finds the total, rounded. -/
def PL_update_ptf_total_fl (fl : ℚ → ℚ) (scale_factor : ℚ) : List Chrom → ℚ → ℚ
  | [], total => total
  | c :: cs, total =>
    PL_update_ptf_total_fl fl scale_factor cs (fl (total + fl (c.fitness + scale_factor)))

/-- The first loop of the minimizing branch of `PL_update_ptf`, rounded. -/
def PL_update_ptf_invert_fl (fl : ℚ → ℚ) (scale_factor total : ℚ) :
    List Chrom → ℚ → Except GAError (List Chrom × ℚ)
  | [], new_total => .ok ([], new_total)
  | c :: cs, new_total =>
    if fl (c.fitness + scale_factor) ≤ 0 then .error .scaledFitnessNonPos
    else
      match PL_update_ptf_invert_fl fl scale_factor total cs
          (fl (new_total + fl (total / fl (c.fitness + scale_factor)))) with
      | .error e => .error e
      | .ok (cs, new_total) =>
        .ok ({ c with ptf := fl (total / fl (c.fitness + scale_factor)) } :: cs, new_total)

/-- The second loop of the minimizing branch of `PL_update_ptf`, rounded. -/
def PL_update_ptf_renorm_fl (fl : ℚ → ℚ) (new_total : ℚ) :
    List Chrom → Except GAError (List Chrom)
  | [] => .ok []
  | c :: cs =>
    if new_total ≤ 0 then .error .newTotalNonPos
    else
      match PL_update_ptf_renorm_fl fl new_total cs with
      | .error e => .error e
      | .ok cs => .ok ({ c with ptf := fl (c.ptf * fl (100 / new_total)) } :: cs)

/-- The loop of the maximizing branch of `PL_update_ptf`, rounded. -/
def PL_update_ptf_max_fl (fl : ℚ → ℚ) (scale_factor total : ℚ) :
    List Chrom → Except GAError (List Chrom)
  | [] => .ok []
  | c :: cs =>
    if total ≤ 0 then .error .totalNonPos
    else
      match PL_update_ptf_max_fl fl scale_factor total cs with
      | .error e => .error e
      | .ok cs =>
        .ok ({ c with ptf := fl (fl (fl (c.fitness + scale_factor) / total) * 100) } :: cs)

/-- Update `ptf` for each chromosome (`PL_update_ptf`), with every operation
rounded by `fl`. -/
def PL_update_ptf_fl (fl : ℚ → ℚ) (ga_info : GA_Info) (pool : Pool) :
    Except GAError (GA_Info × Pool) :=
  let s := PL_update_ptf_scale_fl fl pool.chrom (ga_info.scale_factor, false, true)
  let scale_factor := if s.2.2 then 0 else s.1
  let ga_info := { ga_info with scale_factor := scale_factor }
  let total := PL_update_ptf_total_fl fl scale_factor pool.chrom 0
  let pool := { pool with total_fitness := total }
  if ga_info.minimize then
    match PL_update_ptf_invert_fl fl scale_factor total pool.chrom 0 with
    | .error e => .error e
    | .ok (chrom, new_total) =>
      match PL_update_ptf_renorm_fl fl new_total chrom with
      | .error e => .error e
      | .ok chrom => .ok (ga_info, { pool with chrom := chrom })
  else
    match PL_update_ptf_max_fl fl scale_factor total pool.chrom with
    | .error e => .error e
    | .ok chrom => .ok (ga_info, { pool with chrom := chrom })

theorem toInt_intCast (z : Int) : toInt (z : ℚ) = z := by
  simp [toInt]

theorem toInt_natCast_succ (k : Nat) : toInt ((k : ℚ) + 1) = (k : Int) + 1 := by
  have : ((k : ℚ) + 1) = (((k : Int) + 1 : Int) : ℚ) := by push_cast; rfl
  rw [this, toInt_intCast]


theorem idPerm_nodup (n : Nat) : (idPerm n).Nodup := by
  unfold idPerm
  refine (List.nodup_range n).map ?_
  intro a b h
  simpa using h

theorem mem_idPerm {n : Nat} {x : Gene} : x ∈ idPerm n ↔ ∃ k, k < n ∧ x = (k : Gene) + 1 := by
  simp [idPerm, eq_comm]

theorem validPerm_iff_perm {n : Nat} {g : List Gene} : validPerm n g ↔ g.Perm (idPerm n) := by
  constructor
  · rintro ⟨hl, hc⟩
    have hsub : idPerm n ⊆ g := by
      intro x hx
      obtain ⟨k, hk, rfl⟩ := mem_idPerm.1 hx
      exact List.count_pos_iff.1 (by rw [hc k hk]; exact Nat.one_pos)
    have h1 := List.subperm_of_subset (idPerm_nodup n) hsub
    exact (h1.perm_of_length_le (by simp [idPerm, hl])).symm
  · intro h
    refine ⟨by simpa [idPerm] using h.length_eq, ?_⟩
    intro k hk
    rw [h.count_eq]
    exact List.count_eq_one_of_mem (idPerm_nodup n) (mem_idPerm.2 ⟨k, hk, rfl⟩)

theorem validPerm.nodup {n : Nat} {g : List Gene} (h : validPerm n g) : g.Nodup :=
  (validPerm_iff_perm.1 h).nodup_iff.2 (idPerm_nodup n)

theorem validPerm.length_eq {n : Nat} {g : List Gene} (h : validPerm n g) : g.length = n := h.1

theorem validPerm.mem {n : Nat} {g : List Gene} (h : validPerm n g) {x : Gene} (hx : x ∈ g) :
    ∃ k, k < n ∧ x = (k : Gene) + 1 :=
  mem_idPerm.1 ((validPerm_iff_perm.1 h).mem_iff.1 hx)

theorem validPerm.perm {n : Nat} {g g' : List Gene} (h : validPerm n g) (h' : validPerm n g') :
    g.Perm g' :=
  (validPerm_iff_perm.1 h).trans (validPerm_iff_perm.1 h').symm

theorem validPerm.of_perm {n : Nat} {g g' : List Gene} (h : validPerm n g) (h' : g'.Perm g) :
    validPerm n g' :=
  validPerm_iff_perm.2 (h'.trans (validPerm_iff_perm.1 h))

theorem validPerm_of_nodup {n : Nat} {g : List Gene} (hl : g.length = n) (hd : g.Nodup)
    (hm : ∀ x ∈ g, ∃ k, k < n ∧ x = (k : Gene) + 1) : validPerm n g := by
  rw [validPerm_iff_perm]
  have hsub : g ⊆ idPerm n := fun x hx => mem_idPerm.2 (hm x hx)
  exact (List.subperm_of_subset hd hsub).perm_of_length_le (by simp [idPerm, hl])


theorem isIntGene.toInt_inj {x y : Gene} (hx : isIntGene x) (hy : isIntGene y) :
    toInt x = toInt y ↔ x = y := by
  obtain ⟨a, rfl⟩ := hx
  obtain ⟨b, rfl⟩ := hy
  simp [toInt_intCast]

theorem validPerm.isInt {n : Nat} {g : List Gene} (h : validPerm n g) {x : Gene} (hx : x ∈ g) :
    isIntGene x := by
  obtain ⟨k, _, rfl⟩ := h.mem hx
  exact ⟨(k : Int) + 1, by push_cast; rfl⟩

@[simp] theorem Chrom.length_setGene (c : Chrom) (i : Nat) (v : Gene) :
    (c.setGene i v).length = c.length := by
  simp [Chrom.setGene, Chrom.length]

theorem Chrom.g_setGene (c : Chrom) (i j : Nat) (v : Gene) :
    (c.setGene i v).g j = if i = j ∧ i < c.length then v else c.g j := by
  simp only [Chrom.setGene, Chrom.g, Chrom.length, List.getD_eq_getElem?_getD, List.getElem?_set]
  by_cases h : i = j
  · subst h
    by_cases h2 : i < c.gene.length
    · simp [h2]
    · simp [h2, List.getElem?_eq_none (not_lt.1 h2)]
  · simp [h]

theorem Chrom.g_setGene_self (c : Chrom) (i : Nat) (v : Gene) (h : i < c.length) :
    (c.setGene i v).g i = v := by
  simp [Chrom.g_setGene, h]

theorem Chrom.g_setGene_ne (c : Chrom) {i j : Nat} (v : Gene) (h : i ≠ j) :
    (c.setGene i v).g j = c.g j := by
  simp [Chrom.g_setGene, h]

theorem Chrom.g_eq_getElem (c : Chrom) {i : Nat} (h : i < c.gene.length) : c.g i = c.gene[i] := by
  simp [Chrom.g, List.getD_eq_getElem?_getD, List.getElem?_eq_getElem h]

theorem Chrom.g_mem (c : Chrom) {i : Nat} (h : i < c.length) : c.g i ∈ c.gene := by
  rw [Chrom.g_eq_getElem c h]
  exact List.getElem_mem _

theorem Chrom.exists_of_mem (c : Chrom) {x : Gene} (h : x ∈ c.gene) :
    ∃ i, i < c.length ∧ c.g i = x := by
  obtain ⟨i, hi, rfl⟩ := List.getElem_of_mem h
  exact ⟨i, hi, Chrom.g_eq_getElem c hi⟩

/-- Two gene lists with the same length and the same reads are equal. -/
theorem gene_ext {c d : Chrom} (hl : c.length = d.length)
    (h : ∀ i, i < c.length → c.g i = d.g i) : c.gene = d.gene := by
  apply List.ext_getElem hl
  intro i h1 h2
  have := h i h1
  rwa [Chrom.g_eq_getElem c h1, Chrom.g_eq_getElem d h2] at this

theorem validPerm.g_inj {n : Nat} {c : Chrom} (h : validPerm n c.gene) {i j : Nat}
    (hi : i < n) (hj : j < n) (e : c.g i = c.g j) : i = j := by
  have hi' : i < c.gene.length := by rw [h.1]; exact hi
  have hj' : j < c.gene.length := by rw [h.1]; exact hj
  rw [Chrom.g_eq_getElem c hi', Chrom.g_eq_getElem c hj'] at e
  exact (h.nodup.getElem_inj_iff).1 e

theorem validPerm.g_isInt {n : Nat} {c : Chrom} (h : validPerm n c.gene) {i : Nat}
    (hi : i < n) : isIntGene (c.g i) :=
  h.isInt (Chrom.g_mem c (by rw [Chrom.length, h.1]; exact hi))

theorem validPerm.g_range {n : Nat} {c : Chrom} (h : validPerm n c.gene) {i : Nat}
    (hi : i < n) : ∃ k, k < n ∧ c.g i = (k : Gene) + 1 :=
  h.mem (Chrom.g_mem c (by rw [Chrom.length, h.1]; exact hi))

/-- Build the permutation invariant from reads: every read is in range and
the reads are pairwise different. -/
theorem validPerm_of_g {n : Nat} {c : Chrom} (hl : c.length = n)
    (hr : ∀ i, i < n → ∃ k, k < n ∧ c.g i = (k : Gene) + 1)
    (hinj : ∀ i j, i < n → j < n → c.g i = c.g j → i = j) : validPerm n c.gene := by
  apply validPerm_of_nodup hl
  · rw [List.nodup_iff_injective_get]
    intro a b hab
    have ha : a.1 < n := by rw [← hl]; exact a.2
    have hb : b.1 < n := by rw [← hl]; exact b.2
    have := hinj a.1 b.1 ha hb (by
      rw [Chrom.g_eq_getElem c a.2, Chrom.g_eq_getElem c b.2]
      simpa [List.get_eq_getElem] using hab)
    exact Fin.ext this
  · intro x hx
    obtain ⟨i, hi, rfl⟩ := Chrom.exists_of_mem c hx
    exact hr i (hl ▸ hi)

/-! ### `X_map` -/

theorem X_map_scan_spec (a : Gene) (c : Chrom) (k : Nat) : ∀ i : Nat,
    (X_map_scan a c i k = -1 ∧ ∀ j, i ≤ j → j < i + k → toInt a ≠ toInt (c.g j)) ∨
    (∃ j, i ≤ j ∧ j < i + k ∧ X_map_scan a c i k = (j : Int) ∧ toInt a = toInt (c.g j) ∧
      ∀ j', i ≤ j' → j' < j → toInt a ≠ toInt (c.g j')) := by
  induction k with
  | zero =>
    intro i
    left
    exact ⟨rfl, fun j h1 h2 => by omega⟩
  | succ k ih =>
    intro i
    by_cases h : toInt a = toInt (c.g i)
    · right
      exact ⟨i, le_refl _, by omega, by simp [X_map_scan, h], h, fun j' h1 h2 => by omega⟩
    · rcases ih (i + 1) with ⟨h1, h2⟩ | ⟨j, h1, h2, h3, h4, h5⟩
      · left
        refine ⟨by simp [X_map_scan, h, h1], ?_⟩
        intro j hj1 hj2
        rcases Nat.eq_or_lt_of_le hj1 with e | e
        · subst e; exact h
        · exact h2 j e (by omega)
      · right
        refine ⟨j, by omega, by omega, by simp [X_map_scan, h, h3], h4, ?_⟩
        intro j' hj1 hj2
        rcases Nat.eq_or_lt_of_le hj1 with e | e
        · subst e; exact h
        · exact h5 j' e hj2

theorem X_map_scan_congr (a : Gene) (c d : Chrom) (k : Nat) : ∀ i : Nat,
    (∀ j, i ≤ j → j < i + k → c.g j = d.g j) → X_map_scan a c i k = X_map_scan a d i k := by
  induction k with
  | zero => intro i _; rfl
  | succ k ih =>
    intro i h
    simp only [X_map_scan]
    rw [h i (le_refl _) (by omega), ih (i + 1) (fun j h1 h2 => h j (by omega) (by omega))]

theorem X_map_ok (a : Gene) (c : Chrom) {lo hi : Nat} (h1 : lo ≤ hi) (h2 : hi < c.length) :
    X_map a c (lo : Int) (hi : Int) = .ok (X_map_scan a c lo (hi - lo + 1)) := by
  unfold X_map
  have e1 : ¬ ((lo : Int) < 0 ∨ (lo : Int) > hi ∨ (hi : Int) ≥ (c.length : Int)) := by omega
  rw [if_neg e1]
  congr 2
  · omega

/-! ### Copying genes -/

theorem copy_genes_fields (src : Chrom) (k : Nat) : ∀ (i : Nat) (dst : Chrom),
    copy_genes src k i dst = { dst with gene := (copy_genes src k i dst).gene } := by
  induction k with
  | zero => intro i dst; rfl
  | succ k ih =>
    intro i dst
    simp only [copy_genes]
    rw [ih (i + 1) (dst.setGene i (src.g i))]
    simp [Chrom.setGene]

theorem copy_genes_length (src : Chrom) (k : Nat) : ∀ (i : Nat) (dst : Chrom),
    (copy_genes src k i dst).length = dst.length := by
  induction k with
  | zero => intro i dst; rfl
  | succ k ih => intro i dst; simp only [copy_genes]; rw [ih]; simp

theorem copy_genes_g (src : Chrom) (k : Nat) : ∀ (i : Nat) (dst : Chrom) (j : Nat),
    (copy_genes src k i dst).g j =
      if i ≤ j ∧ j < i + k ∧ j < dst.length then src.g j else dst.g j := by
  induction k with
  | zero =>
    intro i dst j
    have : ¬ (i ≤ j ∧ j < i + 0 ∧ j < dst.length) := by omega
    simp only [copy_genes, if_neg this]
  | succ k ih =>
    intro i dst j
    simp only [copy_genes]
    rw [ih, Chrom.length_setGene, Chrom.g_setGene]
    by_cases h1 : i = j
    · subst h1
      by_cases h2 : i < dst.length
      · simp [h2]
      · simp [h2]
    · by_cases h2 : i + 1 ≤ j ∧ j < i + 1 + k ∧ j < dst.length
      · have : i ≤ j ∧ j < i + (k + 1) ∧ j < dst.length := by omega
        simp [h2, this]
      · have : ¬ (i ≤ j ∧ j < i + (k + 1) ∧ j < dst.length) := by omega
        simp [h2, this, h1]

theorem copy_genes_all (src dst : Chrom) (h : dst.length = src.length) :
    (copy_genes src src.length 0 dst).gene = src.gene := by
  apply gene_ext
  · rw [copy_genes_length, h]
  · intro i hi
    rw [copy_genes_length] at hi
    rw [copy_genes_g]
    simp [hi]
    intro h2
    omega

/-! ### Exchanging two genes -/

theorem swap_g (c : Chrom) {a b : Nat} (ha : a < c.length) (hb : b < c.length) (k : Nat) :
    ((c.setGene a (c.g b)).setGene b (c.g a)).g k =
      if k = b then c.g a else if k = a then c.g b else c.g k := by
  rw [Chrom.g_setGene, Chrom.g_setGene, Chrom.length_setGene]
  by_cases h1 : b = k
  · subst h1; simp [hb]
  · by_cases h2 : a = k
    · subst h2; simp [h1, ha, Ne.symm h1]
    · simp [h1, h2, Ne.symm h1, Ne.symm h2]

theorem swap_valid {n : Nat} {c : Chrom} (h : validPerm n c.gene) {a b : Nat}
    (ha : a < n) (hb : b < n) :
    validPerm n ((c.setGene a (c.g b)).setGene b (c.g a)).gene := by
  have hl : c.length = n := h.1
  apply validPerm_of_g
  · simp [hl]
  · intro i hi
    rw [swap_g c (hl ▸ ha) (hl ▸ hb)]
    split_ifs
    · exact h.g_range ha
    · exact h.g_range hb
    · exact h.g_range hi
  · intro i j hi hj
    rw [swap_g c (hl ▸ ha) (hl ▸ hb), swap_g c (hl ▸ ha) (hl ▸ hb)]
    split_ifs with h1 h2 h3 h4 h5 h6 h7 h8 <;> intro e
    all_goals first
      | omega
      | (have hh := h.g_inj ha hb e; omega)
      | (have hh := h.g_inj hb ha e; omega)
      | (have hh := h.g_inj ha hj e; omega)
      | (have hh := h.g_inj hb hj e; omega)
      | (have hh := h.g_inj hi ha e; omega)
      | (have hh := h.g_inj hi hb e; omega)
      | (have hh := h.g_inj hi hj e; omega)

theorem swap_self (c : Chrom) (a : Nat) : (c.setGene a (c.g a)).setGene a (c.g a) = c := by
  have : (c.setGene a (c.g a)) = c := by
    cases c with
    | mk gene f p ix imin imax p1 p2 x1 x2 =>
      simp only [Chrom.setGene, Chrom.g, Chrom.mk.injEq, and_true]
      apply List.ext_getElem?
      intro i
      rw [List.getElem?_set]
      by_cases h : a = i
      · subst h
        by_cases h2 : a < gene.length
        · simp [h2, List.getD_eq_getElem?_getD]
        · simp [h2, List.getElem?_eq_none (not_lt.1 h2)]
      · simp [h]
  rw [this, this]

/-! ### Drawing crossover points -/

theorem X_gen_redraw_ok (lo hi : Int) (bad : Int → Bool) : ∀ (rnd : List Int) (x : Int),
    (∃ r, r ∈ x :: rnd ∧ bad r = false) →
    ∃ y rnd', X_gen_redraw lo hi bad x rnd = .ok (y, rnd') ∧ bad y = false ∧ y ∈ x :: rnd := by
  intro rnd
  induction rnd with
  | nil =>
    intro x h
    obtain ⟨r, hr, hb⟩ := h
    simp only [List.mem_singleton] at hr
    subst hr
    exact ⟨r, [], by simp [X_gen_redraw, hb], hb, by simp⟩
  | cons r rnd ih =>
    intro x h
    by_cases hx : bad x = true
    · have h' : ∃ r', r' ∈ r :: rnd ∧ bad r' = false := by
        obtain ⟨r', hr', hb⟩ := h
        rcases List.mem_cons.1 hr' with e | e
        · subst e; rw [hx] at hb; exact absurd hb (by simp)
        · exact ⟨r', e, hb⟩
      obtain ⟨y, rnd', h1, h2, h3⟩ := ih r h'
      exact ⟨y, rnd', by simp [X_gen_redraw, hx, h1], h2, List.mem_cons_of_mem _ h3⟩
    · have hx' : bad x = false := by simpa using hx
      exact ⟨x, r :: rnd, by simp [X_gen_redraw, hx'], hx', by simp⟩

theorem X_gen_2_xp_unique (lo hi : Int) (r1 : Int) (rnd1 : List Int)
    (h : ∃ r, r ∈ rnd1 ∧ r ≠ r1) :
    ∃ xp1 xp2 rnd', X_gen_2_xp true lo hi (r1 :: rnd1) = .ok (xp1, xp2, rnd') ∧
      xp1 < xp2 ∧ xp1 ∈ r1 :: rnd1 ∧ xp2 ∈ r1 :: rnd1 := by
  obtain ⟨r, hr, hne⟩ := h
  cases rnd1 with
  | nil => simp at hr
  | cons r2 rnd2 =>
    obtain ⟨y, rnd', h1, h2, h3⟩ :=
      X_gen_redraw_ok lo hi (fun x => x == r1) rnd2 r2 ⟨r, hr, by simpa using hne⟩
    have hy : y ≠ r1 := by simpa using h2
    by_cases hlt : r1 > y
    · exact ⟨y, r1, rnd', by simp [X_gen_2_xp, X_gen_xp, RAND_DOM, h1, hlt], hlt,
        List.mem_cons_of_mem _ h3, by simp⟩
    · exact ⟨r1, y, rnd', by simp [X_gen_2_xp, X_gen_xp, RAND_DOM, h1, hlt],
        by omega, by simp, List.mem_cons_of_mem _ h3⟩

theorem X_gen_2_xp_plain (lo hi : Int) (r1 r2 : Int) (rnd : List Int) :
    X_gen_2_xp false lo hi (r1 :: r2 :: rnd) = .ok (min r1 r2, max r1 r2, rnd) := by
  by_cases h : r1 > r2
  · simp [X_gen_2_xp, X_gen_xp, RAND_DOM, h, min_eq_right (le_of_lt h), max_eq_left (le_of_lt h)]
  · simp [X_gen_2_xp, X_gen_xp, RAND_DOM, h, min_eq_left (not_lt.1 h), max_eq_right (not_lt.1 h)]

/-- C9. Swap mutation: for a valid permutation chromosome with
`0 <= idx_min <= length-1` and drawn indices `i`, `j` of `[idx_min, length-1]`,
`MU_swap` succeeds, leaves every field but the genes as it was, exchanges the
genes at `i` and `j`, leaves the other genes, gives a valid permutation again,
and changes nothing when `i = j`. -/
theorem MU_swap_preserves_perm (ga_info : GA_Info) (chrom : Chrom) (n : Nat) (i j : Int)
    (rnd : List Int) (hv : validPerm n chrom.gene)
    (h0 : 0 ≤ chrom.idx_min) (_h1 : chrom.idx_min ≤ (n : Int) - 1)
    (hi : chrom.idx_min ≤ i ∧ i ≤ (n : Int) - 1) (hj : chrom.idx_min ≤ j ∧ j ≤ (n : Int) - 1) :
    ∃ c, MU_swap ga_info chrom (i :: j :: rnd) = .ok (c, rnd) ∧
      c = { chrom with gene := c.gene } ∧ c.length = n ∧
      c.g i.toNat = chrom.g j.toNat ∧ c.g j.toNat = chrom.g i.toNat ∧
      (∀ k, k ≠ i.toNat → k ≠ j.toNat → c.g k = chrom.g k) ∧
      validPerm n c.gene ∧ (i = j → c = chrom) := by
  have hl : chrom.length = n := hv.1
  have hin : i.toNat < n := by omega
  have hjn : j.toNat < n := by omega
  have hg : ¬ (i < 0 ∨ i ≥ (chrom.length : Int) ∨ j < 0 ∨ j ≥ (chrom.length : Int)) := by
    rw [hl]; omega
  refine ⟨(chrom.setGene i.toNat (chrom.g j.toNat)).setGene j.toNat (chrom.g i.toNat), ?_, ?_, ?_,
    ?_, ?_, ?_, ?_, ?_⟩
  · simp only [MU_swap, RAND_DOM, if_neg hg]
  · simp [Chrom.setGene]
  · simp [hl]
  · rw [swap_g chrom (hl ▸ hin) (hl ▸ hjn)]
    by_cases e : i.toNat = j.toNat
    · simp [e]
    · simp [e]
  · rw [swap_g chrom (hl ▸ hin) (hl ▸ hjn)]
    simp
  · intro k h1 h2
    rw [swap_g chrom (hl ▸ hin) (hl ▸ hjn)]
    simp [h1, h2]
  · exact swap_valid hv hin hjn
  · intro e
    subst e
    exact swap_self chrom _

/-- C9, at a concrete chromosome. -/
theorem MU_swap_preserves_perm_witness :
    ∃ c, MU_swap CF_reset
        ⟨[1, 2, 3], 0, 0, -1, 0, 3, -1, -1, -1, -1⟩ [0, 2] = .ok (c, []) ∧
      validPerm 3 c.gene := by
  obtain ⟨c, h1, _, _, _, _, _, h2, _⟩ :=
    MU_swap_preserves_perm CF_reset
      ⟨[1, 2, 3], 0, 0, -1, 0, 3, -1, -1, -1, -1⟩ 3 0 2 [] (by decide!) (by decide) (by decide)
      (by decide) (by decide)
  exact ⟨c, h1, h2⟩

/-- C7. Asexual crossover of one parent, the child as long as the parent.
If `idx_min >= length-1` the child's genes are a copy of the parent's.
Otherwise, for `idx_min >= 0`, draws of `[idx_min, length-1]` and a supply in
which some draw after the first differs from the first, the operator succeeds
and the child's genes are the parent's with the genes at two positions
`xp1 < xp2` of `[idx_min, length-1]` exchanged.  In both cases
`child.idx_min = parent.idx_min` and a valid permutation gives a valid
permutation. -/
theorem X_do_asex_spec (parent child : Chrom) (rnd : List Int)
    (hlen : child.length = parent.length) :
    (parent.idx_min ≥ (parent.length : Int) - 1 →
      ∃ c, X_do_asex parent child rnd = .ok (c, rnd) ∧ c.gene = parent.gene ∧
        c.idx_min = parent.idx_min ∧
        (validPerm parent.length parent.gene → validPerm parent.length c.gene)) ∧
    (parent.idx_min < (parent.length : Int) - 1 → 0 ≤ parent.idx_min →
      (∀ r, r ∈ rnd → parent.idx_min ≤ r ∧ r ≤ (parent.length : Int) - 1) →
      (∃ r1 rnd1, rnd = r1 :: rnd1 ∧ ∃ r, r ∈ rnd1 ∧ r ≠ r1) →
      ∃ (c : Chrom) (rnd' : List Int) (xp1 xp2 : Nat), X_do_asex parent child rnd = .ok (c, rnd') ∧
        parent.idx_min ≤ (xp1 : Int) ∧ xp1 < xp2 ∧ xp2 < parent.length ∧
        c.g xp1 = parent.g xp2 ∧ c.g xp2 = parent.g xp1 ∧
        (∀ k, k ≠ xp1 → k ≠ xp2 → c.g k = parent.g k) ∧
        c.length = parent.length ∧ c.idx_min = parent.idx_min ∧
        (validPerm parent.length parent.gene → validPerm parent.length c.gene)) := by
  have hcopy := copy_genes_all parent child hlen
  constructor
  · intro h
    refine ⟨{ copy_genes parent parent.length 0 child with idx_min := parent.idx_min }, ?_, ?_,
      rfl, ?_⟩
    · simp only [X_do_asex, if_pos h]
    · exact hcopy
    · intro hv
      show validPerm _ (copy_genes parent parent.length 0 child).gene
      rw [hcopy]; exact hv
  · intro h h0 hr hex
    obtain ⟨r1, rnd1, rfl, hex⟩ := hex
    obtain ⟨xp1, xp2, rnd', hx, hlt, hm1, hm2⟩ :=
      X_gen_2_xp_unique parent.idx_min parent.length r1 rnd1 hex
    have b1 := hr xp1 hm1
    have b2 := hr xp2 hm2
    have hg : ¬ (xp1 < 0 ∨ xp2 ≥ (parent.length : Int)) := by omega
    have e1 : xp1.toNat < parent.length := by omega
    have e2 : xp2.toNat < parent.length := by omega
    have hgene : ∀ (c0 : Chrom), c0.gene = parent.gene → ∀ (a b : Nat),
        ((c0.setGene a (parent.g b)).setGene b (parent.g a)).gene =
        ((parent.setGene a (parent.g b)).setGene b (parent.g a)).gene := by
      intro c0 hc0 a b
      simp only [Chrom.setGene, hc0]
    have hgen : ∀ (c0 : Chrom), c0.gene = parent.gene → ∀ (a b k : Nat),
        ((c0.setGene a (parent.g b)).setGene b (parent.g a)).g k =
        ((parent.setGene a (parent.g b)).setGene b (parent.g a)).g k := by
      intro c0 hc0 a b k
      exact congrArg (fun l => l.getD k 0) (hgene c0 hc0 a b)
    have hc0 : ({ copy_genes parent parent.length 0 child with
      idx_min := parent.idx_min, xp1 := xp1, xp2 := xp2 } : Chrom).gene = parent.gene := hcopy
    refine ⟨(({ copy_genes parent parent.length 0 child with
      idx_min := parent.idx_min, xp1 := xp1, xp2 := xp2 } : Chrom).setGene xp1.toNat
        (parent.g xp2.toNat)).setGene xp2.toNat (parent.g xp1.toNat),
      rnd', xp1.toNat, xp2.toNat, ?_, by omega, by omega, e2, ?_, ?_, ?_, ?_, ?_, ?_⟩
    · simp only [X_do_asex, if_neg (not_le.2 h), hx, if_neg hg]
    · rw [hgen _ hc0, swap_g parent e1 e2]
      have : xp1.toNat ≠ xp2.toNat := by omega
      simp [this]
    · rw [hgen _ hc0, swap_g parent e1 e2]
      simp
    · intro k h1 h2
      rw [hgen _ hc0, swap_g parent e1 e2]
      simp [h1, h2]
    · refine (congrArg List.length (hgene _ hc0 xp1.toNat xp2.toNat)).trans ?_
      simp [Chrom.setGene, Chrom.length]
    · rfl
    · intro hv
      rw [hgene _ hc0]
      exact swap_valid hv e1 e2

/-- C7, at a concrete parent: the first two draws coincide, the third gives
the second point. -/
theorem X_do_asex_spec_witness :
    ∃ c rnd', X_do_asex ⟨[1, 2, 3], 0, 0, -1, 0, 3, -1, -1, -1, -1⟩
        ⟨[0, 0, 0], 0, 0, -1, 0, 3, -1, -1, -1, -1⟩ [0, 0, 2] = .ok (c, rnd') ∧
      validPerm 3 c.gene := by
  obtain ⟨c, rnd', _, _, h, _, _, _, _, _, _, _, _, hv⟩ :=
    (X_do_asex_spec ⟨[1, 2, 3], 0, 0, -1, 0, 3, -1, -1, -1, -1⟩
      ⟨[0, 0, 0], 0, 0, -1, 0, 3, -1, -1, -1, -1⟩ [0, 0, 2] rfl).2
      (by decide) (by decide) (by decide) ⟨0, [0, 2], rfl, 2, by decide, by decide⟩
  exact ⟨c, rnd', h, hv (by decide!)⟩

/-! ### `CH_verify` -/

theorem one_le_toInt {x : Gene} (h : 1 ≤ x) : 1 ≤ toInt x := by
  have : 0 ≤ x := le_trans zero_le_one h
  simp only [toInt, if_pos this]
  exact Int.le_floor.2 (by simpa using h)

theorem CH_verify_loop_iff (chrom : Chrom) (k : Nat) : ∀ (i : Nat) (cnt : List Nat),
    cnt.length = chrom.length →
    (CH_verify_loop chrom k i cnt = .ok () ↔
      ∀ j, i ≤ j → j < i + k →
        (1 ≤ chrom.g j ∧ toInt (chrom.g j) ≤ (chrom.length : Int) ∧
         cnt.getD (toInt (chrom.g j) - 1).toNat 0 = 0 ∧
         ∀ j', i ≤ j' → j' < j → toInt (chrom.g j') ≠ toInt (chrom.g j))) := by
  induction k with
  | zero =>
    intro i cnt _
    simp only [CH_verify_loop, true_iff]
    intro j h1 h2
    omega
  | succ k ih =>
    intro i cnt hc
    simp only [CH_verify_loop]
    by_cases hb : chrom.g i < 1 ∨ toInt (chrom.g i) > (chrom.length : Int)
    · rw [if_pos hb]
      constructor
      · intro h; cases h
      · intro h
        have := h i (le_refl _) (by omega)
        rcases hb with hb | hb
        · exact absurd this.1 (not_le.2 hb)
        · exact absurd this.2.1 (not_le.2 hb)
    · rw [if_neg hb]
      have hb1 : 1 ≤ chrom.g i := by
        by_contra h; exact hb (Or.inl (not_le.1 h))
      have hb2 : toInt (chrom.g i) ≤ (chrom.length : Int) := by
        by_contra h; exact hb (Or.inr (not_le.1 h))
      have hb3 := one_le_toInt hb1
      have ha : (toInt (chrom.g i) - 1).toNat < cnt.length := by rw [hc]; omega
      have hget : (cnt.set (toInt (chrom.g i) - 1).toNat
          (cnt.getD (toInt (chrom.g i) - 1).toNat 0 + 1)).getD (toInt (chrom.g i) - 1).toNat 0 =
          cnt.getD (toInt (chrom.g i) - 1).toNat 0 + 1 := by
        rw [List.getD_eq_getElem?_getD, List.getElem?_set, if_pos rfl, if_pos ha]
        rfl
      rw [hget]
      by_cases hz : cnt.getD (toInt (chrom.g i) - 1).toNat 0 = 0
      · have hgt : ¬ (cnt.getD (toInt (chrom.g i) - 1).toNat 0 + 1 > 1) := by omega
        rw [if_neg hgt, ih (i + 1) _ (by simp [hc])]
        constructor
        · intro h j h1 h2
          rcases Nat.eq_or_lt_of_le h1 with e | e
          · subst e
            exact ⟨hb1, hb2, hz, fun j' h3 h4 => by omega⟩
          · obtain ⟨c1, c2, c3, c4⟩ := h j e (by omega)
            have c1' := one_le_toInt c1
            rw [List.getD_eq_getElem?_getD, List.getElem?_set] at c3
            by_cases hne : (toInt (chrom.g i) - 1).toNat = (toInt (chrom.g j) - 1).toNat
            · rw [if_pos hne, if_pos ha] at c3
              simp at c3
            · rw [if_neg hne] at c3
              refine ⟨c1, c2, by rw [List.getD_eq_getElem?_getD]; exact c3, ?_⟩
              intro j' h3 h4
              rcases Nat.eq_or_lt_of_le h3 with e' | e'
              · subst e'
                intro hh
                apply hne
                rw [hh]
              · exact c4 j' e' h4
        · intro h j h1 h2
          obtain ⟨c1, c2, c3, c4⟩ := h j (by omega) (by omega)
          have c1' := one_le_toInt c1
          have hne : toInt (chrom.g i) ≠ toInt (chrom.g j) := c4 i (le_refl _) (by omega)
          refine ⟨c1, c2, ?_, fun j' h3 h4 => c4 j' (by omega) h4⟩
          rw [List.getD_eq_getElem?_getD, List.getElem?_set]
          have : ¬ (toInt (chrom.g i) - 1).toNat = (toInt (chrom.g j) - 1).toNat := by omega
          rw [if_neg this, ← List.getD_eq_getElem?_getD]
          exact c3
      · have hgt : cnt.getD (toInt (chrom.g i) - 1).toNat 0 + 1 > 1 := by omega
        rw [if_pos hgt]
        constructor
        · intro h; cases h
        · intro h
          exact absurd (h i (le_refl _) (by omega)).2.2.1 hz


theorem map_trunc_of_isInt {g : List Gene} (h : ∀ x, x ∈ g → isIntGene x) :
    g.map (fun x => ((toInt x : Int) : Gene)) = g := by
  conv_rhs => rw [← List.map_id g]
  apply List.map_congr_left
  intro x hx
  obtain ⟨z, rfl⟩ := h x hx
  simp [toInt_intCast]

theorem truncPerm_iff_of_isInt {n : Nat} {g : List Gene} (h : ∀ x, x ∈ g → isIntGene x) :
    truncPerm n g ↔ validPerm n g := by
  unfold truncPerm
  rw [map_trunc_of_isInt h]
  constructor
  · exact fun h => h.2
  · intro hv
    refine ⟨?_, hv⟩
    intro x hx
    obtain ⟨k, _, rfl⟩ := hv.mem hx
    have : (0 : Gene) ≤ (k : Gene) := Nat.cast_nonneg k
    linarith

theorem CH_verify_loop_all (chrom : Chrom) :
    CH_verify_loop chrom chrom.length 0 (List.replicate chrom.length 0) = .ok () ↔
      truncPerm chrom.length chrom.gene := by
  rw [CH_verify_loop_iff chrom chrom.length 0 _ (by simp)]
  constructor
  · intro h
    have hg : ∀ j, j < chrom.length → 1 ≤ chrom.g j ∧ toInt (chrom.g j) ≤ (chrom.length : Int) :=
      fun j hj => ⟨(h j (Nat.zero_le _) (by omega)).1, (h j (Nat.zero_le _) (by omega)).2.1⟩
    refine ⟨?_, ?_⟩
    · intro x hx
      obtain ⟨i, hi, rfl⟩ := Chrom.exists_of_mem chrom hx
      exact (hg i hi).1
    · apply validPerm_of_nodup (by simp [Chrom.length])
      · rw [List.nodup_iff_injective_get]
        intro a b hab
        simp only [List.get_eq_getElem, List.getElem_map] at hab
        have ha : a.1 < chrom.length := by simpa [Chrom.length] using a.2
        have hb : b.1 < chrom.length := by simpa [Chrom.length] using b.2
        have hab' : toInt (chrom.g a.1) = toInt (chrom.g b.1) := by
          rw [Chrom.g_eq_getElem chrom ha, Chrom.g_eq_getElem chrom hb]
          exact_mod_cast hab
        apply Fin.ext
        by_contra hne
        rcases Nat.lt_or_gt_of_ne hne with hlt | hlt
        · exact (h b.1 (Nat.zero_le _) (by omega)).2.2.2 a.1 (Nat.zero_le _) hlt hab'
        · exact (h a.1 (Nat.zero_le _) (by omega)).2.2.2 b.1 (Nat.zero_le _) hlt hab'.symm
      · intro x hx
        obtain ⟨y, hy, rfl⟩ := List.mem_map.1 hx
        obtain ⟨i, hi, rfl⟩ := Chrom.exists_of_mem chrom hy
        have h1 := one_le_toInt (hg i hi).1
        have h2 := (hg i hi).2
        refine ⟨(toInt (chrom.g i) - 1).toNat, by omega, ?_⟩
        have : ((toInt (chrom.g i) - 1).toNat : Int) = toInt (chrom.g i) - 1 := by omega
        have e : (((toInt (chrom.g i) - 1).toNat : Int) : Gene) = ((toInt (chrom.g i) - 1 : Int) : Gene) := by
          rw [this]
        push_cast at e
        rw [e]; ring
  · rintro ⟨h1, h2⟩ j _ hj
    simp only [Nat.zero_add] at hj
    have hm : (((toInt (chrom.g j) : Int)) : Gene) ∈ chrom.gene.map (fun x => ((toInt x : Int) : Gene)) :=
      List.mem_map.2 ⟨chrom.g j, Chrom.g_mem chrom hj, rfl⟩
    obtain ⟨k, hk, hke⟩ := h2.mem hm
    have hke' : toInt (chrom.g j) = (k : Int) + 1 := by exact_mod_cast hke
    refine ⟨h1 _ (Chrom.g_mem chrom hj), by omega, ?_, ?_⟩
    · rw [List.getD_eq_getElem?_getD, List.getElem?_replicate]
      split_ifs <;> rfl
    · intro j' _ hj' hh
      have hnd := h2.nodup
      rw [List.nodup_iff_injective_get] at hnd
      have hjl : j < (chrom.gene.map (fun x => ((toInt x : Int) : Gene))).length := by
        simpa [Chrom.length] using hj
      have hjl' : j' < (chrom.gene.map (fun x => ((toInt x : Int) : Gene))).length := by
        simp only [List.length_map]; exact lt_trans hj' (by simpa [Chrom.length] using hj)
      have := @hnd ⟨j', hjl'⟩ ⟨j, hjl⟩ (by
        simp only [List.get_eq_getElem, List.getElem_map]
        rw [← Chrom.g_eq_getElem chrom (by simpa using hjl'), ← Chrom.g_eq_getElem chrom (by simpa using hjl), hh])
      have := Fin.mk.inj this
      omega

/-- C8 (amended). `CH_verify` succeeds exactly when the length is positive,
`idx_min` and `idx_max` lie in `[0, length]` and, under the permutation
datatype, no gene is below 1 and the integer parts `(int)gene[i]` are a valid
permutation of `1..length`; the genes play no part under another datatype.
For genes that hold integer values the gene condition is the permutation
invariant itself. -/
theorem CH_verify_iff (ga_info : GA_Info) (chrom : Chrom) :
    (CH_verify ga_info chrom = .ok () ↔
      0 < chrom.length ∧ (0 ≤ chrom.idx_min ∧ chrom.idx_min ≤ (chrom.length : Int)) ∧
      (0 ≤ chrom.idx_max ∧ chrom.idx_max ≤ (chrom.length : Int)) ∧
      (ga_info.datatype = DataType.DT_INT_PERM → truncPerm chrom.length chrom.gene)) ∧
    ((∀ x, x ∈ chrom.gene → isIntGene x) →
      (truncPerm chrom.length chrom.gene ↔ validPerm chrom.length chrom.gene)) := by
  refine ⟨?_, truncPerm_iff_of_isInt⟩
  unfold CH_verify
  by_cases h1 : (chrom.length : Int) ≤ 0
  · rw [if_pos h1]
    constructor
    · intro h; cases h
    · rintro ⟨h, _⟩; omega
  rw [if_neg h1]
  by_cases h2 : chrom.idx_min < 0 ∨ chrom.idx_min > (chrom.length : Int)
  · rw [if_pos h2]
    constructor
    · intro h; cases h
    · rintro ⟨_, h, _⟩; omega
  rw [if_neg h2]
  by_cases h3 : chrom.idx_max < 0 ∨ chrom.idx_max > (chrom.length : Int)
  · rw [if_pos h3]
    constructor
    · intro h; cases h
    · rintro ⟨_, _, h, _⟩; omega
  rw [if_neg h3]
  by_cases h4 : ga_info.datatype = DataType.DT_INT_PERM
  · rw [if_pos h4, CH_verify_loop_all]
    constructor
    · intro h
      exact ⟨by omega, by omega, by omega, fun _ => h⟩
    · rintro ⟨_, _, _, h⟩
      exact h h4
  · rw [if_neg h4]
    constructor
    · intro _
      exact ⟨by omega, by omega, by omega, fun h => absurd h h4⟩
    · intro _; rfl

/-- C8, at a concrete chromosome with integer genes: it is a valid
permutation, so `CH_verify` accepts it. -/
theorem CH_verify_iff_witness :
    CH_verify CF_reset
      ⟨[2, 3, 1], 0, 0, -1, 0, 3, -1, -1, -1, -1⟩ = .ok () := by
  have h := CH_verify_iff CF_reset
    ⟨[2, 3, 1], 0, 0, -1, 0, 3, -1, -1, -1, -1⟩
  refine h.1.2 ⟨by decide, by decide, by decide, fun _ => ?_⟩
  refine (h.2 ?_).2 (by decide!)
  intro x hx
  simp only [List.mem_cons, List.mem_singleton, List.not_mem_nil, or_false] at hx
  rcases hx with rfl | rfl | rfl
  · exact ⟨2, by norm_num⟩
  · exact ⟨3, by norm_num⟩
  · exact ⟨1, by norm_num⟩

/-- C8, as stated, fails: under the permutation datatype `CH_verify` accepts
the genes `5/2, 1` of a chromosome of length 2, one of which lies outside
`[1, 2]`; the genes are not a bijection onto `{1, 2}`. -/
theorem CH_verify_accepts_fractional :
    CH_verify CF_reset
      ⟨[5 / 2, 1], 0, 0, -1, 0, 2, -1, -1, -1, -1⟩ = .ok () ∧
    ¬ validPerm 2 [5 / 2, 1] ∧ ¬ ((5 / 2 : Gene) ≤ 2) := by
  decide!

/-- C10. On a pool of one chromosome `PL_stats` sets `var` and `dev` to 0 and
returns `ga_info` as it was given: the `converged` flag keeps the value it had
before the call, it is not set to true. -/
theorem PL_stats_single (sqrt : ℚ → ℚ) (ga_info : GA_Info) (pool : Pool) (c : Chrom) :
    (PL_stats sqrt ga_info { pool with chrom := [c] }).2.var = 0 ∧
    (PL_stats sqrt ga_info { pool with chrom := [c] }).2.dev = 0 ∧
    (PL_stats sqrt ga_info { pool with chrom := [c] }).1 = ga_info ∧
    (PL_stats sqrt { ga_info with converged := false } { pool with chrom := [c] }).1.converged
      = false := by
  simp [PL_stats, Pool.size]

/-! ### Scanning a sequence of alleles for those that pass a test -/

theorem filtPrefix_succ {α : Type} (f : Nat → α) (pr : α → Bool) (d : Nat) :
    filtPrefix f pr (d + 1) = filtPrefix f pr d ++ (if pr (f d) = true then [f d] else []) := by
  simp only [filtPrefix, List.range_succ, List.map_append, List.filter_append, List.map_cons,
    List.map_nil]
  congr 1
  by_cases h : pr (f d) = true
  · simp [h]
  · simp [h]

theorem filtPrefix_skip {α : Type} (f : Nat → α) (pr : α → Bool) (d : Nat) : ∀ d', d ≤ d' →
    (∀ e, d ≤ e → e < d' → pr (f e) = false) → filtPrefix f pr d' = filtPrefix f pr d := by
  intro d' h
  induction d', h using Nat.le_induction with
  | base => intro _; rfl
  | succ d' hd ih =>
    intro hf
    rw [filtPrefix_succ, ih (fun e h1 h2 => hf e h1 (by omega)), hf d' hd (by omega)]
    simp

theorem filtPrefix_prefix {α : Type} (f : Nat → α) (pr : α → Bool) (d : Nat) : ∀ d', d ≤ d' →
    ∃ R, filtPrefix f pr d' = filtPrefix f pr d ++ R := by
  intro d' h
  induction d', h using Nat.le_induction with
  | base => exact ⟨[], by simp⟩
  | succ d' hd ih =>
    obtain ⟨R, hR⟩ := ih
    exact ⟨R ++ (if pr (f d') = true then [f d'] else []), by
      rw [filtPrefix_succ, hR, List.append_assoc]⟩

theorem filtPrefix_next {α : Type} (f : Nat → α) (pr : α → Bool) (dflt : α) {d n : Nat}
    (hd : d ≤ n)
    (hlt : (filtPrefix f pr d).length < (filtPrefix f pr n).length) :
    ∃ e, d ≤ e ∧ e < n ∧ pr (f e) = true ∧ (∀ e', d ≤ e' → e' < e → pr (f e') = false) ∧
      filtPrefix f pr (e + 1) = filtPrefix f pr d ++ [f e] ∧
      (filtPrefix f pr n).getD (filtPrefix f pr d).length dflt = f e := by
  have hex : ∃ e, d ≤ e ∧ e < n ∧ pr (f e) = true := by
    by_contra hcon
    have := filtPrefix_skip f pr d n hd (fun e h1 h2 => by
      by_contra h3
      exact hcon ⟨e, h1, h2, by simpa using h3⟩)
    rw [this] at hlt
    exact lt_irrefl _ hlt
  classical
  have hmin := fun (m : Nat) => @Nat.find_min _ _ hex m
  obtain ⟨h1, h2, h3⟩ := Nat.find_spec hex
  have hskip : ∀ e', d ≤ e' → e' < Nat.find hex → pr (f e') = false := by
    intro e' h4 h5
    have := hmin e' h5
    by_contra h6
    exact this ⟨h4, by omega, by simpa using h6⟩
  have hstep : filtPrefix f pr (Nat.find hex + 1) = filtPrefix f pr d ++ [f (Nat.find hex)] := by
    rw [filtPrefix_succ, filtPrefix_skip f pr d _ h1 hskip, if_pos h3]
  refine ⟨Nat.find hex, h1, h2, h3, hskip, hstep, ?_⟩
  obtain ⟨R, hR⟩ := filtPrefix_prefix f pr (Nat.find hex + 1) n (by omega)
  rw [hR, hstep, List.getD_eq_getElem?_getD, List.append_assoc,
    List.getElem?_append_right (le_refl _)]
  simp

/-! ### Order1 crossover -/

theorem notInSeg_eq_true {donor : Chrom} {a b : Nat} (hab : a ≤ b) {v : Gene} :
    notInSeg donor a b v = true ↔ ∀ j, a ≤ j → j ≤ b → toInt v ≠ toInt (donor.g j) := by
  unfold notInSeg
  rw [decide_eq_true_iff]
  rcases X_map_scan_spec v donor (b - a + 1) a with ⟨h1, h2⟩ | ⟨j, h1, h2, h3, h4, _⟩
  · rw [h1]
    constructor
    · intro _ j hj1 hj2
      exact h2 j hj1 (by omega)
    · intro _; decide
  · rw [h3]
    constructor
    · intro h
      have : (0 : Int) ≤ (j : Int) := Int.natCast_nonneg j
      omega
    · intro h
      exact absurd h4 (h j h1 (by omega))

theorem X_order1_next_spec (other donor : Chrom) (n a b : Nat) (hab : a ≤ b)
    (hb : b < donor.length) : ∀ (fuel d e : Nat), d ≤ e →
    (∀ e', d ≤ e' → e' < e → notInSeg donor a b (rotG other n b e') = false) →
    notInSeg donor a b (rotG other n b e) = true → e - d < fuel →
    X_order1_next other donor n (a : Int) (b : Int) fuel ((b + d) % n) = .ok ((b + e + 1) % n) := by
  intro fuel
  induction fuel with
  | zero => intro d e _ _ _ h; omega
  | succ fuel ih =>
    intro d e hde hskip hfree hfuel
    have hp : ((b + d) % n + 1) % n = (b + 1 + d) % n := by
      rw [Nat.mod_add_mod]; congr 1; omega
    simp only [X_order1_next, hp, X_map_ok _ donor hab hb]
    have hrot : other.g ((b + 1 + d) % n) = rotG other n b d := rfl
    rw [hrot]
    rcases Nat.eq_or_lt_of_le hde with e1 | e1
    · subst e1
      have : X_map_scan (rotG other n b d) donor a (b - a + 1) < 0 := by
        simpa [notInSeg] using hfree
      rw [if_pos this]
      congr 2
      omega
    · have h1 := hskip d (le_refl _) e1
      have : ¬ X_map_scan (rotG other n b d) donor a (b - a + 1) < 0 := by
        simpa [notInSeg] using h1
      rw [if_neg this]
      have := ih (d + 1) e e1 (fun e' h2 h3 => hskip e' (by omega) h3) hfree (by omega)
      rw [show b + (d + 1) = b + 1 + d by omega] at this
      exact this

theorem X_order1_fill_pair (parent_1 parent_2 : Chrom) (hl : parent_1.length = parent_2.length)
    (xp1 xp2 : Int) (fuel : Nat) : ∀ (k i p1 p2 : Nat) (c1 c2 c1' c2' : Chrom),
    X_order1_fill1 parent_2 parent_1 parent_1.length xp1 xp2 fuel k i p2 c1 = .ok c1' →
    X_order1_fill1 parent_1 parent_2 parent_1.length xp1 xp2 fuel k i p1 c2 = .ok c2' →
    X_order1_fill parent_1 parent_2 xp1 xp2 fuel k i p1 p2 c1 c2 = .ok (c1', c2') := by
  intro k
  induction k with
  | zero =>
    intro i p1 p2 c1 c2 c1' c2' h1 h2
    simp only [X_order1_fill1, Except.ok.injEq] at h1 h2
    subst h1 h2
    rfl
  | succ k ih =>
    intro i p1 p2 c1 c2 c1' c2' h1 h2
    simp only [X_order1_fill1] at h1 h2
    simp only [X_order1_fill, ← hl]
    cases hn2 : X_order1_next parent_2 parent_1 parent_1.length xp1 xp2 fuel p2 with
    | error e => rw [hn2] at h1; cases h1
    | ok p2' =>
      cases hn1 : X_order1_next parent_1 parent_2 parent_1.length xp1 xp2 fuel p1 with
      | error e => rw [hn1] at h2; cases h2
      | ok p1' =>
        rw [hn2] at h1
        rw [hn1] at h2
        exact ih _ _ _ _ _ _ _ h1 h2

theorem mod_ne_of_lt {n x y : Nat} (h1 : x < y) (h2 : y - x < n) : x % n ≠ y % n := by
  intro h
  have hd : n ∣ y - x := (Nat.modEq_iff_dvd' (le_of_lt h1)).1 h
  have := Nat.le_of_dvd (by omega) hd
  omega

theorem X_order1_fill1_spec (other donor : Chrom) (n a b : Nat) (hn : donor.length = n)
    (hab : a ≤ b) (hbn : b < n) (fuel : Nat) (hfuel : n ≤ fuel) (m : Nat) (hmn : m ≤ n)
    (hF : (filtPrefix (rotG other n b) (notInSeg donor a b) n).length = m) :
    ∀ (k i d : Nat) (child : Chrom), i + k = m → d ≤ n →
      (filtPrefix (rotG other n b) (notInSeg donor a b) d).length = i → child.length = n →
      ∃ child', X_order1_fill1 other donor n (a : Int) (b : Int) fuel k i ((b + d) % n) child
          = .ok child' ∧
        child'.length = n ∧ child' = { child with gene := child'.gene } ∧
        (∀ t, i ≤ t → t < m → child'.g ((b + 1 + t) % n) =
          (filtPrefix (rotG other n b) (notInSeg donor a b) n).getD t 0) ∧
        (∀ j, (∀ t, i ≤ t → t < m → j ≠ (b + 1 + t) % n) → child'.g j = child.g j) := by
  intro k
  induction k with
  | zero =>
    intro i d child hik _ _ hc
    refine ⟨child, rfl, hc, rfl, ?_, fun _ _ => rfl⟩
    intro t h1 h2
    omega
  | succ k ih =>
    intro i d child hik hd hlen hc
    have hlt : (filtPrefix (rotG other n b) (notInSeg donor a b) d).length <
        (filtPrefix (rotG other n b) (notInSeg donor a b) n).length := by omega
    obtain ⟨e, he1, he2, he3, he4, he5, he6⟩ := filtPrefix_next _ _ 0 hd hlt
    have hnext := X_order1_next_spec other donor n a b hab (hn ▸ hbn) fuel d e he1 he4 he3
      (by omega)
    have hp : other.g ((b + e + 1) % n) = rotG other n b e := by
      unfold rotG; congr 2; omega
    have hn0 : 0 < n := by omega
    have hci : (b + 1 + i) % n < n := Nat.mod_lt _ hn0
    obtain ⟨child', h1, h2, h3, h4, h5⟩ := ih (i + 1) (e + 1)
      (child.setGene ((b + 1 + i) % n) (rotG other n b e)) (by omega) (by omega)
      (by rw [he5, List.length_append, hlen]; rfl) (by simp [hc])
    refine ⟨child', ?_, h2, ?_, ?_, ?_⟩
    · simp only [X_order1_fill1, hnext, Int.toNat_ofNat, hp]
      rw [show b + (e + 1) = b + e + 1 by omega] at h1
      exact h1
    · rw [h3]; simp [Chrom.setGene]
    · intro t ht1 ht2
      rcases Nat.eq_or_lt_of_le ht1 with e1 | e1
      · subst e1
        rw [h5 _ (fun t' ht3 ht4 => mod_ne_of_lt (by omega) (by omega)),
          Chrom.g_setGene_self _ _ _ (by rw [hc]; exact hci), ← he6, hlen]
      · exact h4 t e1 ht2
    · intro j hj
      rw [h5 j (fun t ht1 ht2 => hj t (by omega) ht2),
        Chrom.g_setGene_ne _ _ (Ne.symm (hj i (le_refl _) (by omega)))]

theorem rotG_list_eq (other : Chrom) (n b : Nat) (hn : other.length = n) :
    (List.range n).map (rotG other n b) = other.gene.rotate (b + 1) := by
  apply List.ext_getElem
  · simp [← hn, Chrom.length]
  · intro t h1 h2
    simp only [List.length_map, List.length_range] at h1
    rw [List.getElem_map, List.getElem_range, List.getElem_rotate]
    unfold rotG
    have hlt : (t + (b + 1)) % other.gene.length < other.gene.length :=
      Nat.mod_lt _ (by rw [← Chrom.length, hn]; omega)
    rw [← Chrom.g_eq_getElem other hlt]
    congr 1
    rw [← Chrom.length, hn]
    congr 1
    omega

theorem segGenes_mem {donor : Chrom} {a b : Nat} {x : Gene} :
    x ∈ segGenes donor a b ↔ ∃ j, a ≤ j ∧ j ≤ b ∧ donor.g j = x := by
  unfold segGenes
  simp only [List.mem_map, List.mem_range]
  constructor
  · rintro ⟨t, ht, rfl⟩
    exact ⟨a + t, by omega, by omega, rfl⟩
  · rintro ⟨j, h1, h2, rfl⟩
    exact ⟨j - a, by omega, by congr 1; omega⟩

theorem segGenes_nodup {n : Nat} {donor : Chrom} (hv : validPerm n donor.gene) {a b : Nat}
    (hbn : b < n) : (segGenes donor a b).Nodup := by
  unfold segGenes
  apply List.Nodup.map_on _ (List.nodup_range _)
  intro x hx y hy hxy
  rw [List.mem_range] at hx hy
  have := hv.g_inj (by omega) (by omega) hxy
  omega

/-- The alleles of the other parent that are not in the donor's segment, in
the order of the circular walk, followed by the segment, are a rearrangement of
the donor. -/
theorem order1_perm {n : Nat} {other donor : Chrom} (hvo : validPerm n other.gene)
    (hvd : validPerm n donor.gene) {a b : Nat} (hab : a ≤ b) (hbn : b < n) :
    (filtPrefix (rotG other n b) (notInSeg donor a b) n ++ segGenes donor a b).Perm donor.gene := by
  have hns : ∀ x, x ∈ donor.gene → (notInSeg donor a b x = true ↔ x ∉ segGenes donor a b) := by
    intro x hx
    rw [notInSeg_eq_true hab, segGenes_mem]
    constructor
    · rintro h ⟨j, h1, h2, rfl⟩
      exact h j h1 h2 rfl
    · intro h j h1 h2 e
      apply h
      refine ⟨j, h1, h2, ?_⟩
      exact ((hvd.isInt hx).toInt_inj (hvd.g_isInt (by omega))).1 e |>.symm
  have hL : ((List.range n).map (rotG other n b)).Perm donor.gene := by
    rw [rotG_list_eq other n b hvo.1]
    exact (List.rotate_perm _ _).trans (hvo.perm hvd)
  have h1 : (filtPrefix (rotG other n b) (notInSeg donor a b) n).Perm
      (donor.gene.filter (notInSeg donor a b)) := hL.filter _
  have h2 : (segGenes donor a b).Perm (donor.gene.filter (fun x => !notInSeg donor a b x)) := by
    rw [List.perm_ext_iff_of_nodup (segGenes_nodup hvd hbn) (hvd.nodup.filter _)]
    intro x
    rw [List.mem_filter]
    constructor
    · intro hx
      have hx' : x ∈ donor.gene := by
        obtain ⟨j, h1, h2, rfl⟩ := segGenes_mem.1 hx
        exact Chrom.g_mem donor (by rw [Chrom.length, hvd.1]; omega)
      refine ⟨hx', ?_⟩
      have := (hns x hx').not.2 (not_not.2 hx)
      simpa using this
    · rintro ⟨hx', hx⟩
      have : ¬ notInSeg donor a b x = true := by simpa using hx
      exact not_not.1 ((hns x hx').not.1 this)
  exact (h1.append h2).trans (List.filter_append_perm _ _)

theorem order1_pos_outside {n a b t : Nat} (hab : a ≤ b) (hbn : b < n)
    (ht : t < n - (b + 1 - a)) : (b + 1 + t) % n < a ∨ b < (b + 1 + t) % n := by
  by_cases h : b + 1 + t < n
  · rw [Nat.mod_eq_of_lt h]; omega
  · have : (b + 1 + t) % n = b + 1 + t - n := by
      rw [Nat.mod_eq_sub_mod (by omega), Nat.mod_eq_of_lt (by omega)]
    rw [this]; omega

theorem order1_pos_seg {n a b s : Nat} (hab : a ≤ b) (hbn : b < n) (hs : a + s ≤ b) :
    (b + 1 + (n - (b + 1 - a) + s)) % n = a + s := by
  have : b + 1 + (n - (b + 1 - a) + s) = a + s + n := by omega
  rw [this, Nat.add_mod_right, Nat.mod_eq_of_lt (by omega)]

/-- One child of Order1: after the segment has been copied from the donor, the
fill loop succeeds with any fuel of at least `n`; read circularly from `b+1`
the child is the other parent's alleles outside the segment, in the order of
the circular walk, followed by the segment; and it is a valid permutation. -/
theorem order1_child {n : Nat} {other donor : Chrom} (hvo : validPerm n other.gene)
    (hvd : validPerm n donor.gene) {a b : Nat} (hab : a ≤ b) (hbn : b < n) (child0 : Chrom)
    (hc0 : child0.length = n) (hseg : ∀ j, a ≤ j → j ≤ b → child0.g j = donor.g j)
    (fuel : Nat) (hfuel : n ≤ fuel) :
    ∃ child', X_order1_fill1 other donor n (a : Int) (b : Int) fuel (n - (b + 1 - a)) 0 b child0
        = .ok child' ∧
      child' = { child0 with gene := child'.gene } ∧
      child'.gene.rotate (b + 1) =
        filtPrefix (rotG other n b) (notInSeg donor a b) n ++ segGenes donor a b ∧
      validPerm n child'.gene := by
  have hperm := order1_perm hvo hvd hab hbn
  have hFlen : (filtPrefix (rotG other n b) (notInSeg donor a b) n).length = n - (b + 1 - a) := by
    have := hperm.length_eq
    rw [List.length_append, hvd.1] at this
    have hs : (segGenes donor a b).length = b + 1 - a := by simp [segGenes]
    omega
  obtain ⟨child', h1, h2, h3, h4, h5⟩ := X_order1_fill1_spec other donor n a b hvd.1 hab hbn fuel
    hfuel (n - (b + 1 - a)) (by omega) hFlen (n - (b + 1 - a)) 0 0 child0 (by omega) (by omega)
    (by simp [filtPrefix]) hc0
  have hb0 : (b + 0) % n = b := by rw [Nat.add_zero]; exact Nat.mod_eq_of_lt hbn
  rw [hb0] at h1
  have hrot : child'.gene.rotate (b + 1) =
      filtPrefix (rotG other n b) (notInSeg donor a b) n ++ segGenes donor a b := by
    apply List.ext_getElem
    · rw [List.length_rotate, hperm.length_eq, hvd.1]
      exact h2
    · intro t ht1 ht2
      rw [List.length_rotate] at ht1
      have ht1' : t < n := by rw [← h2]; exact ht1
      rw [List.getElem_rotate]
      have hlt : (t + (b + 1)) % child'.gene.length < child'.gene.length := Nat.mod_lt _ (by omega)
      rw [← Chrom.g_eq_getElem child' hlt]
      have hidx : (t + (b + 1)) % child'.gene.length = (b + 1 + t) % n := by
        rw [← Chrom.length, h2]; congr 1; omega
      rw [hidx]
      by_cases htm : t < n - (b + 1 - a)
      · rw [h4 t (Nat.zero_le _) htm, List.getElem_append_left (by rw [hFlen]; exact htm),
          List.getD_eq_getElem?_getD, List.getElem?_eq_getElem (by rw [hFlen]; exact htm)]
        rfl
      · have hs : a + (t - (n - (b + 1 - a))) ≤ b := by omega
        have ht : t = n - (b + 1 - a) + (t - (n - (b + 1 - a))) := by omega
        have hpos := order1_pos_seg hab hbn hs
        rw [← ht] at hpos
        rw [hpos, h5 _ (fun t' _ ht' => by
          have := order1_pos_outside hab hbn ht'
          omega), hseg _ (by omega) hs,
          List.getElem_append_right (by rw [hFlen]; omega)]
        simp only [segGenes, List.getElem_map, List.getElem_range, hFlen]
  refine ⟨child', h1, h3, hrot, ?_⟩
  have hp2 : (child'.gene.rotate (b + 1)).Perm donor.gene := by rw [hrot]; exact hperm
  exact hvd.of_perm ((List.rotate_perm _ _).symm.trans hp2)

theorem X_order1_copy_eq (parent_1 parent_2 : Chrom) : ∀ (k i : Nat) (c1 c2 : Chrom),
    X_order1_copy parent_1 parent_2 k i c1 c2 =
      (copy_genes parent_1 k i c1, copy_genes parent_2 k i c2) := by
  intro k
  induction k with
  | zero => intro i c1 c2; rfl
  | succ k ih => intro i c1 c2; simp only [X_order1_copy, copy_genes, ih]

/-- C1. Order1 crossover: for valid permutation parents of length `n >= 1`,
children of `n` genes, two draws of `[0, n-1]` (sorted into the cut points by
`X_gen_2_xp`) and any fuel of at least `n` for the `while(TRUE)` loops, the
operator returns, and both children are valid permutations of `1..n`. -/
theorem X_order1_valid (ga_info : GA_Info) (parent_1 parent_2 child_1 child_2 : Chrom)
    (n : Nat) (r1 r2 : Int) (rnd : List Int) (fuel : Nat)
    (hdt : ga_info.datatype = DataType.DT_INT_PERM) (_hn : 1 ≤ n)
    (hv1 : validPerm n parent_1.gene) (hv2 : validPerm n parent_2.gene)
    (hc1 : child_1.length = n) (hc2 : child_2.length = n)
    (hr1 : 0 ≤ r1 ∧ r1 ≤ (n : Int) - 1) (hr2 : 0 ≤ r2 ∧ r2 ≤ (n : Int) - 1)
    (hfuel : n ≤ fuel) :
    ∃ c1 c2, X_order1 ga_info parent_1 parent_2 child_1 child_2 (r1 :: r2 :: rnd) fuel
        = .ok (c1, c2) ∧
      validPerm n c1.gene ∧ validPerm n c2.gene := by
  have hl1 : parent_1.length = n := hv1.1
  have hl2 : parent_2.length = n := hv2.1
  obtain ⟨a, ha⟩ : ∃ a : Nat, min r1 r2 = (a : Int) :=
    ⟨(min r1 r2).toNat, (Int.toNat_of_nonneg (le_min hr1.1 hr2.1)).symm⟩
  obtain ⟨b, hb⟩ : ∃ b : Nat, max r1 r2 = (b : Int) :=
    ⟨(max r1 r2).toNat, (Int.toNat_of_nonneg (le_trans hr1.1 (le_max_left _ _))).symm⟩
  have hab : a ≤ b := by
    have : min r1 r2 ≤ max r1 r2 := le_trans (min_le_left _ _) (le_max_left _ _)
    omega
  have hbn : b < n := by
    have : max r1 r2 ≤ (n : Int) - 1 := max_le hr1.2 hr2.2
    omega
  have hk1 : ((b : Int) - (a : Int) + 1).toNat = b + 1 - a := by omega
  have hk2 : ((n : Int) - ((b : Int) - (a : Int) + 1)).toNat = n - (b + 1 - a) := by omega
  have hcopy : ∀ (src c : Chrom), c.length = n → ∀ j, a ≤ j → j ≤ b →
      (copy_genes src (b + 1 - a) a c).g j = src.g j := by
    intro src c hc j h1 h2
    rw [copy_genes_g, if_pos ⟨h1, by omega, by omega⟩]
  obtain ⟨c1, e1, _, _, v1⟩ := order1_child hv2 hv1 hab hbn
    (copy_genes parent_1 (b + 1 - a) a { child_1 with xp1 := (a : Int), xp2 := (b : Int) })
    (by rw [copy_genes_length]; exact hc1) (hcopy parent_1 _ hc1) fuel hfuel
  obtain ⟨c2, e2, _, _, v2⟩ := order1_child hv1 hv2 hab hbn
    (copy_genes parent_2 (b + 1 - a) a { child_2 with xp1 := (a : Int), xp2 := (b : Int) })
    (by rw [copy_genes_length]; exact hc2) (hcopy parent_2 _ hc2) fuel hfuel
  refine ⟨c1, c2, ?_, v1, v2⟩
  have hg : ¬ ((a : Int) < 0 ∨ (b : Int) ≥ (parent_1.length : Int)) := by rw [hl1]; omega
  simp only [X_order1, hdt, ne_eq, not_true_eq_false, if_false, hl1, hl2, X_gen_2_xp_plain, ha, hb,
    X_order1_copy_eq, hk1, hk2, Int.toNat_ofNat]
  rw [if_neg (by omega)]
  apply X_order1_fill_pair parent_1 parent_2 (hl1.trans hl2.symm)
  · rw [hl1]; exact e1
  · rw [hl1]; exact e2

/-! ### Cycle crossover -/

theorem validPerm.exists_g {n : Nat} {c : Chrom} (h : validPerm n c.gene) {d : Chrom}
    (hd : validPerm n d.gene) {i : Nat} (hi : i < n) : ∃ j, j < n ∧ c.g j = d.g i := by
  have hm : d.g i ∈ c.gene :=
    (hd.perm h).mem_iff.1 (Chrom.g_mem d (by rw [Chrom.length, hd.1]; exact hi))
  obtain ⟨j, hj, e⟩ := Chrom.exists_of_mem c hm
  exact ⟨j, by rw [← h.1]; exact hj, e⟩

theorem cycleMap_spec {n : Nat} {donor other : Chrom} (hvd : validPerm n donor.gene)
    (hvo : validPerm n other.gene) {i : Nat} (hi : i < n) :
    cycleMap donor other i < n ∧ donor.g (cycleMap donor other i) = other.g i ∧
    X_map (other.g i) donor 0 ((donor.length : Int) - 1) = .ok ((cycleMap donor other i : Nat) : Int) := by
  have hl : donor.length = n := hvd.1
  obtain ⟨j0, hj0, e0⟩ := hvd.exists_g hvo hi
  have hx : X_map (other.g i) donor 0 ((donor.length : Int) - 1) =
      .ok (X_map_scan (other.g i) donor 0 donor.length) := by
    have := X_map_ok (other.g i) donor (Nat.zero_le (n - 1)) (by rw [hl]; omega)
    rw [show ((n - 1 : Nat) : Int) = (donor.length : Int) - 1 by rw [hl]; omega,
      show n - 1 - 0 + 1 = donor.length by rw [hl]; omega] at this
    exact this
  rcases X_map_scan_spec (other.g i) donor donor.length 0 with ⟨_, h2⟩ | ⟨j, _, h2, h3, h4, _⟩
  · exact absurd (by rw [e0]) (h2 j0 (Nat.zero_le _) (by rw [hl]; omega))
  · have hjn : j < n := by omega
    have hc : cycleMap donor other i = j := by
      unfold cycleMap; rw [h3]; rfl
    rw [hc, hx, h3]
    refine ⟨hjn, ?_, rfl⟩
    exact (((hvo.g_isInt hi).toInt_inj (hvd.g_isInt hjn)).1 h4).symm

theorem cycleMap_inj {n : Nat} {donor other : Chrom} (hvd : validPerm n donor.gene)
    (hvo : validPerm n other.gene) {i j : Nat} (hi : i < n) (hj : j < n)
    (e : cycleMap donor other i = cycleMap donor other j) : i = j := by
  have h1 := (cycleMap_spec hvd hvo hi).2.1
  have h2 := (cycleMap_spec hvd hvo hj).2.1
  rw [e, h2] at h1
  exact hvo.g_inj hj hi h1 |>.symm

theorem nodup_length_le {n : Nat} {V : List Nat} (hnd : V.Nodup) (hlt : ∀ v, v ∈ V → v < n) :
    V.length ≤ n := by
  have hsub : V ⊆ List.range n := fun v hv => List.mem_range.2 (hlt v hv)
  have := (List.subperm_of_subset hnd hsub).length_le
  simpa using this

theorem X_cycle_loop_spec {n : Nat} {donor other : Chrom} (hvd : validPerm n donor.gene)
    (hvo : validPerm n other.gene) (xp : Nat) (child0 : Chrom) :
    ∀ (fuel i : Nat) (child : Chrom) (V : List Nat),
      i < n → (∀ v, v ∈ V → v < n) → (i :: V).Nodup →
      (∀ v, v ∈ V → v ≠ xp → ∃ u, u ∈ V ∧ cycleMap donor other u = v) →
      (i ≠ xp → ∃ u, u ∈ V ∧ cycleMap donor other u = i) →
      (xp ∈ V ∨ i = xp) →
      child.length = n → child = { child0 with gene := child.gene } →
      (∀ x, child.g x = if x ∈ V then donor.g x else child0.g x) →
      n - V.length ≤ fuel →
      ∃ (child' : Chrom) (O : List Nat), X_cycle_loop donor other xp fuel i child = .ok child' ∧
        child'.length = n ∧ child' = { child0 with gene := child'.gene } ∧
        (∀ x, child'.g x = if x ∈ O then donor.g x else child0.g x) ∧
        xp ∈ O ∧ (∀ v, v ∈ O → v < n ∧ ∃ u, u ∈ O ∧ cycleMap donor other u = v) := by
  intro fuel
  induction fuel with
  | zero =>
    intro i child V hi hV hnd _ _ _ _ _ _ hfuel
    have := nodup_length_le hnd (fun v hv => by
      rcases List.mem_cons.1 hv with e | e
      · rw [e]; exact hi
      · exact hV v e)
    simp only [List.length_cons] at this
    omega
  | succ fuel ih =>
    intro i child V hi hV hnd hpred hcur hxp hlen hfld hg hfuel
    obtain ⟨hs1, hs2, hs3⟩ := cycleMap_spec hvd hvo hi
    have hiV : i ∉ V := (List.nodup_cons.1 hnd).1
    have hg' : ∀ x, (child.setGene i (donor.g i)).g x =
        if x ∈ i :: V then donor.g x else child0.g x := by
      intro x
      rw [Chrom.g_setGene, hg x]
      by_cases hx : i = x
      · subst hx; simp [hlen, hi]
      · have : ¬ (i = x ∧ i < child.length) := fun h => hx h.1
        rw [if_neg this]
        simp [List.mem_cons, Ne.symm hx]
    have hfld' : child.setGene i (donor.g i) =
        { child0 with gene := (child.setGene i (donor.g i)).gene } := by
      rw [hfld]; simp [Chrom.setGene]
    have hV' : ∀ v, v ∈ i :: V → v < n := by
      intro v hv
      rcases List.mem_cons.1 hv with e | e
      · rw [e]; exact hi
      · exact hV v e
    have hpred' : ∀ v, v ∈ i :: V → v ≠ xp → ∃ u, u ∈ i :: V ∧ cycleMap donor other u = v := by
      intro v hv hne
      rcases List.mem_cons.1 hv with e | e
      · subst e
        obtain ⟨u, hu, hu2⟩ := hcur hne
        exact ⟨u, List.mem_cons_of_mem _ hu, hu2⟩
      · obtain ⟨u, hu, hu2⟩ := hpred v e hne
        exact ⟨u, List.mem_cons_of_mem _ hu, hu2⟩
    have hxp' : xp ∈ i :: V := by
      rcases hxp with h | h
      · exact List.mem_cons_of_mem _ h
      · rw [h]; exact List.mem_cons_self _ _
    simp only [X_cycle_loop, hs3]
    have hnn : ¬ ((cycleMap donor other i : Nat) : Int) < 0 := by omega
    rw [if_neg hnn]
    by_cases hr : ((cycleMap donor other i : Nat) : Int) = (xp : Int)
    · rw [if_pos hr]
      have hr' : cycleMap donor other i = xp := by exact_mod_cast hr
      refine ⟨_, i :: V, rfl, by simp [hlen], hfld', hg', hxp', ?_⟩
      intro v hv
      refine ⟨hV' v hv, ?_⟩
      by_cases hvx : v = xp
      · exact ⟨i, List.mem_cons_self _ _, by rw [hvx]; exact hr'⟩
      · exact hpred' v hv hvx
    · rw [if_neg hr]
      have hr' : cycleMap donor other i ≠ xp := fun h => hr (by rw [h])
      have hnew : cycleMap donor other i ∉ i :: V := by
        intro hmem
        rcases List.mem_cons.1 hmem with e | e
        · obtain ⟨w, hw, hw2⟩ := hcur (by rw [← e]; exact hr')
          have := cycleMap_inj hvd hvo (hV w hw) hi (hw2.trans e.symm)
          rw [this] at hw
          exact hiV hw
        · obtain ⟨u, hu, hu2⟩ := hpred _ e hr'
          have := cycleMap_inj hvd hvo (hV u hu) hi hu2
          rw [this] at hu
          exact hiV hu
      simp only [Int.toNat_ofNat]
      exact ih (cycleMap donor other i) _ (i :: V) hs1 hV' (List.nodup_cons.2 ⟨hnew, hnd⟩) hpred'
        (fun _ => ⟨i, List.mem_cons_self _ _, rfl⟩) (Or.inl hxp') (by simp [hlen]) hfld' hg'
        (by simp only [List.length_cons]; omega)

/-- One child of the cycle crossover: started at `xp` on a copy of the other
parent, the cycle-following loop returns with any fuel of at least `n`; the
child holds the donor's genes on the visited positions, the other parent's
genes elsewhere, and is a valid permutation. -/
theorem cycle_child {n : Nat} {donor other : Chrom} (hvd : validPerm n donor.gene)
    (hvo : validPerm n other.gene) {xp : Nat} (hxp : xp < n) (child0 : Chrom)
    (hc0 : child0.gene = other.gene) (fuel : Nat) (hfuel : n ≤ fuel) :
    ∃ (child' : Chrom) (O : List Nat), X_cycle_loop donor other xp fuel xp child0 = .ok child' ∧
      child' = { child0 with gene := child'.gene } ∧
      (∀ x, child'.g x = if x ∈ O then donor.g x else other.g x) ∧
      xp ∈ O ∧ (∀ v, v ∈ O → v < n ∧ ∃ u, u ∈ O ∧ cycleMap donor other u = v) ∧
      validPerm n child'.gene := by
  have hg0 : ∀ x, child0.g x = other.g x := fun x => by simp only [Chrom.g, hc0]
  obtain ⟨child', O, h1, h2, h3, h4, h5, h6⟩ := X_cycle_loop_spec hvd hvo xp child0 fuel xp child0 []
    hxp (fun v hv => by simp at hv) (by simp) (fun v hv => by simp at hv)
    (fun h => absurd rfl h) (Or.inr rfl) (by rw [Chrom.length, hc0]; exact hvo.1) rfl
    (fun x => by simp) (by simpa using hfuel)
  have h4' : ∀ x, child'.g x = if x ∈ O then donor.g x else other.g x := by
    intro x; rw [h4 x, hg0 x]
  refine ⟨child', O, h1, h3, h4', h5, h6, ?_⟩
  have hcross : ∀ x y, x < n → y < n → x ∈ O → y ∉ O → donor.g x ≠ other.g y := by
    intro x y _ hy hxO hyO e
    obtain ⟨_, u, hu, hu2⟩ := h6 x hxO
    have hun := (h6 u hu).1
    have e2 := (cycleMap_spec hvd hvo hun).2.1
    rw [hu2, e] at e2
    have := hvo.g_inj hy hun e2
    rw [this] at hyO
    exact hyO hu
  apply validPerm_of_g h2
  · intro i hi
    rw [h4' i]
    split_ifs
    · exact hvd.g_range hi
    · exact hvo.g_range hi
  · intro i j hi hj
    rw [h4' i, h4' j]
    split_ifs with hiO hjO hjO
    · exact hvd.g_inj hi hj
    · intro e; exact absurd e (hcross i j hi hj hiO hjO)
    · intro e; exact absurd e.symm (hcross j i hj hi hjO hiO)
    · exact hvo.g_inj hi hj

/-- C3. Cycle crossover: for valid permutation parents of length `n`,
children of `n` genes and a start index drawn in `[0, n-1]`, each of the two
cycle-following loops is back at the start index within `n` iterations (any
fuel of at least `n` is enough for the operator to return), and both children
are valid permutations of `1..n`. -/
theorem X_cycle_valid (ga_info : GA_Info) (parent_1 parent_2 child_1 child_2 : Chrom)
    (n : Nat) (r : Int) (rnd : List Int) (fuel : Nat)
    (hdt : ga_info.datatype = DataType.DT_INT_PERM)
    (hv1 : validPerm n parent_1.gene) (hv2 : validPerm n parent_2.gene)
    (hc1 : child_1.length = n) (hc2 : child_2.length = n)
    (hr : 0 ≤ r ∧ r ≤ (n : Int) - 1) (hfuel : n ≤ fuel) :
    ∃ c1 c2, X_cycle ga_info parent_1 parent_2 child_1 child_2 (r :: rnd) fuel = .ok (c1, c2) ∧
      validPerm n c1.gene ∧ validPerm n c2.gene := by
  have hl1 : parent_1.length = n := hv1.1
  have hl2 : parent_2.length = n := hv2.1
  obtain ⟨xp, rfl⟩ : ∃ xp : Nat, r = (xp : Int) := ⟨r.toNat, (Int.toNat_of_nonneg hr.1).symm⟩
  have hxp : xp < n := by omega
  obtain ⟨c1, _, e1, _, _, _, _, v1⟩ := cycle_child hv1 hv2 hxp
    (copy_genes parent_2 n 0 { child_1 with xp1 := (xp : Int) })
    (by rw [← hl2]; exact copy_genes_all parent_2 _ (hc1.trans hl2.symm)) fuel hfuel
  obtain ⟨c2, _, e2, _, _, _, _, v2⟩ := cycle_child hv2 hv1 hxp
    (copy_genes parent_1 n 0 { child_2 with xp1 := (xp : Int) })
    (by rw [← hl1]; exact copy_genes_all parent_1 _ (hc2.trans hl1.symm)) fuel hfuel
  refine ⟨c1, c2, ?_, v1, v2⟩
  have hg : ¬ ((xp : Int) < 0 ∨ (xp : Int) ≥ (n : Int)) := by omega
  simp only [X_cycle, hdt, ne_eq, not_true_eq_false, if_false, hl1, hl2, X_gen_xp, RAND_DOM,
    if_neg hg, Int.toNat_ofNat, e1, e2]

/-! ### Order2 crossover -/

theorem isKey_iff {n : Nat} {donor : Chrom} (hvd : validPerm n donor.gene) {x1 x2 x3 x4 : Nat}
    (h1 : x1 < n) (h2 : x2 < n) (h3 : x3 < n) (h4 : x4 < n) {v : Gene} (hv : isIntGene v) :
    isKey v donor x1 x2 x3 x4 = true ↔
      v = donor.g x1 ∨ v = donor.g x2 ∨ v = donor.g x3 ∨ v = donor.g x4 := by
  simp only [isKey, Bool.or_eq_true, beq_iff_eq, hv.toInt_inj (hvd.g_isInt h1),
    hv.toInt_inj (hvd.g_isInt h2), hv.toInt_inj (hvd.g_isInt h3), hv.toInt_inj (hvd.g_isInt h4),
    or_assoc]

theorem X_order2_scan_eq (parent_1 parent_2 : Chrom) (x1 x2 x3 x4 : Nat) :
    ∀ (k i : Nat) (l1 l2 : List Nat),
    X_order2_scan parent_1 parent_2 x1 x2 x3 x4 k i l1 l2 =
      (l1 ++ (List.range' i k).filter (fun j => isKey (parent_2.g j) parent_1 x1 x2 x3 x4),
       l2 ++ (List.range' i k).filter (fun j => isKey (parent_1.g j) parent_2 x1 x2 x3 x4)) := by
  intro k
  induction k with
  | zero => intro i l1 l2; simp [X_order2_scan]
  | succ k ih =>
    intro i l1 l2
    simp only [X_order2_scan, ih, List.range'_succ, List.filter_cons]
    by_cases h1 : isKey (parent_2.g i) parent_1 x1 x2 x3 x4 = true <;>
    by_cases h2 : isKey (parent_1.g i) parent_2 x1 x2 x3 x4 = true <;>
    simp [h1, h2]

theorem map_g_range (c : Chrom) : (List.range c.length).map c.g = c.gene := by
  apply List.ext_getElem
  · simp [Chrom.length]
  · intro i h1 h2
    rw [List.getElem_map, List.getElem_range, Chrom.g_eq_getElem c h2]

theorem keys_nodup {n : Nat} {donor : Chrom} (hvd : validPerm n donor.gene) {x1 x2 x3 x4 : Nat}
    (h1 : x1 < n) (h2 : x2 < n) (h3 : x3 < n) (h4 : x4 < n)
    (hd : x1 ≠ x2 ∧ x1 ≠ x3 ∧ x1 ≠ x4 ∧ x2 ≠ x3 ∧ x2 ≠ x4 ∧ x3 ≠ x4) :
    [donor.g x1, donor.g x2, donor.g x3, donor.g x4].Nodup := by
  have i12 : donor.g x1 ≠ donor.g x2 := fun e => hd.1 (hvd.g_inj h1 h2 e)
  have i13 : donor.g x1 ≠ donor.g x3 := fun e => hd.2.1 (hvd.g_inj h1 h3 e)
  have i14 : donor.g x1 ≠ donor.g x4 := fun e => hd.2.2.1 (hvd.g_inj h1 h4 e)
  have i23 : donor.g x2 ≠ donor.g x3 := fun e => hd.2.2.2.1 (hvd.g_inj h2 h3 e)
  have i24 : donor.g x2 ≠ donor.g x4 := fun e => hd.2.2.2.2.1 (hvd.g_inj h2 h4 e)
  have i34 : donor.g x3 ≠ donor.g x4 := fun e => hd.2.2.2.2.2 (hvd.g_inj h3 h4 e)
  simp [i12, i13, i14, i23, i24, i34]

theorem keyMap_key {x1 x2 x3 x4 : Nat} (y0 y1 y2 y3 : Nat) {i : Nat}
    (hi : i = x1 ∨ i = x2 ∨ i = x3 ∨ i = x4) :
    (keyMap x1 x2 x3 x4 y0 y1 y2 y3 i = y0 ∧ i = x1) ∨
    (keyMap x1 x2 x3 x4 y0 y1 y2 y3 i = y1 ∧ i = x2) ∨
    (keyMap x1 x2 x3 x4 y0 y1 y2 y3 i = y2 ∧ i = x3) ∨
    (keyMap x1 x2 x3 x4 y0 y1 y2 y3 i = y3 ∧ i = x4) := by
  unfold keyMap
  split_ifs <;> omega

theorem keyMap_nonkey {x1 x2 x3 x4 y0 y1 y2 y3 i : Nat}
    (hi : ¬ (i = x1 ∨ i = x2 ∨ i = x3 ∨ i = x4)) :
    keyMap x1 x2 x3 x4 y0 y1 y2 y3 i = i := by
  unfold keyMap
  split_ifs <;> omega

theorem keyMap_key_key {x1 x2 x3 x4 y0 y1 y2 y3 i j : Nat}
    (dy : y0 ≠ y1 ∧ y0 ≠ y2 ∧ y0 ≠ y3 ∧ y1 ≠ y2 ∧ y1 ≠ y3 ∧ y2 ≠ y3)
    (hi : i = x1 ∨ i = x2 ∨ i = x3 ∨ i = x4) (hj : j = x1 ∨ j = x2 ∨ j = x3 ∨ j = x4)
    (e : keyMap x1 x2 x3 x4 y0 y1 y2 y3 i = keyMap x1 x2 x3 x4 y0 y1 y2 y3 j) : i = j := by
  have hi' := keyMap_key y0 y1 y2 y3 hi
  have hj' := keyMap_key y0 y1 y2 y3 hj
  clear hi hj
  omega

theorem keyMap_inj {x1 x2 x3 x4 y0 y1 y2 y3 : Nat}
    (dy : y0 ≠ y1 ∧ y0 ≠ y2 ∧ y0 ≠ y3 ∧ y1 ≠ y2 ∧ y1 ≠ y3 ∧ y2 ≠ y3)
    (hy0 : y0 = x1 ∨ y0 = x2 ∨ y0 = x3 ∨ y0 = x4) (hy1 : y1 = x1 ∨ y1 = x2 ∨ y1 = x3 ∨ y1 = x4)
    (hy2 : y2 = x1 ∨ y2 = x2 ∨ y2 = x3 ∨ y2 = x4) (hy3 : y3 = x1 ∨ y3 = x2 ∨ y3 = x3 ∨ y3 = x4)
    {i j : Nat} (e : keyMap x1 x2 x3 x4 y0 y1 y2 y3 i = keyMap x1 x2 x3 x4 y0 y1 y2 y3 j) :
    i = j := by
  have hkk : ∀ i, (i = x1 ∨ i = x2 ∨ i = x3 ∨ i = x4) →
      (keyMap x1 x2 x3 x4 y0 y1 y2 y3 i = x1 ∨ keyMap x1 x2 x3 x4 y0 y1 y2 y3 i = x2 ∨
       keyMap x1 x2 x3 x4 y0 y1 y2 y3 i = x3 ∨ keyMap x1 x2 x3 x4 y0 y1 y2 y3 i = x4) := by
    intro i hi
    rcases keyMap_key y0 y1 y2 y3 hi with
      ⟨h, _⟩ | ⟨h, _⟩ | ⟨h, _⟩ | ⟨h, _⟩ <;> rw [h] <;> assumption
  by_cases hi : i = x1 ∨ i = x2 ∨ i = x3 ∨ i = x4
  · by_cases hj : j = x1 ∨ j = x2 ∨ j = x3 ∨ j = x4
    · exact keyMap_key_key dy hi hj e
    · have := hkk i hi
      rw [e, keyMap_nonkey hj] at this
      exact absurd this hj
  · by_cases hj : j = x1 ∨ j = x2 ∨ j = x3 ∨ j = x4
    · have := hkk j hj
      rw [← e, keyMap_nonkey hi] at this
      exact absurd this hi
    · rw [keyMap_nonkey hi, keyMap_nonkey hj] at e
      exact e

theorem keyMap_lt {n x1 x2 x3 x4 y0 y1 y2 y3 i : Nat} (hi : i < n)
    (h0 : y0 < n) (h1 : y1 < n) (h2 : y2 < n) (h3 : y3 < n) :
    keyMap x1 x2 x3 x4 y0 y1 y2 y3 i < n := by
  unfold keyMap
  split_ifs <;> assumption

/-- The alleles that the other parent holds at the recorded positions are a
rearrangement of the donor's four key alleles. -/
theorem order2_keys_perm {n : Nat} {donor other : Chrom} (hvd : validPerm n donor.gene)
    (hvo : validPerm n other.gene) {x1 x2 x3 x4 : Nat}
    (h1 : x1 < n) (h2 : x2 < n) (h3 : x3 < n) (h4 : x4 < n)
    (hd : x1 ≠ x2 ∧ x1 ≠ x3 ∧ x1 ≠ x4 ∧ x2 ≠ x3 ∧ x2 ≠ x4 ∧ x3 ≠ x4) :
    (((List.range n).filter (fun j => isKey (other.g j) donor x1 x2 x3 x4)).map other.g).Perm
      [donor.g x1, donor.g x2, donor.g x3, donor.g x4] := by
  have e1 : ((List.range n).filter (fun j => isKey (other.g j) donor x1 x2 x3 x4)).map other.g =
      other.gene.filter (fun v => isKey v donor x1 x2 x3 x4) := by
    have hr : List.range n = List.range other.length := by rw [Chrom.length, hvo.1]
    conv_rhs => rw [← map_g_range other]
    rw [List.filter_map, hr]
    rfl
  rw [e1]
  have hK := keys_nodup hvd h1 h2 h3 h4 hd
  refine (List.Perm.filter _ (hvo.perm hvd)).trans ?_
  rw [List.perm_ext_iff_of_nodup (hvd.nodup.filter _) hK]
  intro v
  rw [List.mem_filter]
  constructor
  · rintro ⟨hv, hk⟩
    have := (isKey_iff hvd h1 h2 h3 h4 (hvd.isInt hv)).1 hk
    simpa using this
  · intro hv
    have hv' : v = donor.g x1 ∨ v = donor.g x2 ∨ v = donor.g x3 ∨ v = donor.g x4 := by
      simpa using hv
    have hmem : v ∈ donor.gene := by
      have hl : donor.length = n := hvd.1
      rcases hv' with e | e | e | e <;> rw [e] <;> apply Chrom.g_mem <;> omega
    exact ⟨hmem, (isKey_iff hvd h1 h2 h3 h4 (hvd.isInt hmem)).2 hv'⟩

theorem list_length_four {α : Type} {l : List α} (h : l.length = 4) :
    ∃ a b c d, l = [a, b, c, d] := by
  match l, h with
  | [a, b, c, d], _ => exact ⟨a, b, c, d, rfl⟩

/-- One child of Order2: the recorded positions are four, and the child that
carries the donor's genes with the four key positions overwritten is a valid
permutation. -/
theorem order2_child {n : Nat} {donor other : Chrom} (hvd : validPerm n donor.gene)
    (hvo : validPerm n other.gene) {x1 x2 x3 x4 : Nat}
    (h1 : x1 < n) (h2 : x2 < n) (h3 : x3 < n) (h4 : x4 < n)
    (hd : x1 ≠ x2 ∧ x1 ≠ x3 ∧ x1 ≠ x4 ∧ x2 ≠ x3 ∧ x2 ≠ x4 ∧ x3 ≠ x4)
    (child0 : Chrom) (hc0 : child0.gene = donor.gene) :
    ∃ a0 a1 a2 a3,
      (List.range n).filter (fun j => isKey (other.g j) donor x1 x2 x3 x4) = [a0, a1, a2, a3] ∧
      validPerm n ((((child0.setGene x1 (other.g a0)).setGene x2 (other.g a1)).setGene x3
        (other.g a2)).setGene x4 (other.g a3)).gene := by
  have hperm := order2_keys_perm hvd hvo h1 h2 h3 h4 hd
  have hlen : ((List.range n).filter (fun j => isKey (other.g j) donor x1 x2 x3 x4)).length = 4 := by
    have := hperm.length_eq
    simpa using this
  obtain ⟨a0, a1, a2, a3, hx⟩ := list_length_four hlen
  refine ⟨a0, a1, a2, a3, hx, ?_⟩
  rw [hx] at hperm
  simp only [List.map_cons, List.map_nil] at hperm
  have hK := keys_nodup hvd h1 h2 h3 h4 hd
  have hnd := hperm.nodup_iff.2 hK
  have hkey : ∀ v, v ∈ [other.g a0, other.g a1, other.g a2, other.g a3] →
      ∃ y, (y = x1 ∨ y = x2 ∨ y = x3 ∨ y = x4) ∧ v = donor.g y := by
    intro v hv
    have := hperm.mem_iff.1 hv
    simp only [List.mem_cons, List.mem_singleton, List.not_mem_nil, or_false] at this
    rcases this with e | e | e | e
    · exact ⟨x1, by simp, e⟩
    · exact ⟨x2, by simp, e⟩
    · exact ⟨x3, by simp, e⟩
    · exact ⟨x4, by simp, e⟩
  obtain ⟨y0, hy0, e0⟩ := hkey (other.g a0) (by simp)
  obtain ⟨y1, hy1, e1⟩ := hkey (other.g a1) (by simp)
  obtain ⟨y2, hy2, e2⟩ := hkey (other.g a2) (by simp)
  obtain ⟨y3, hy3, e3⟩ := hkey (other.g a3) (by simp)
  rw [e0, e1, e2, e3] at hnd ⊢
  simp only [List.nodup_cons, List.mem_cons, List.mem_singleton, List.not_mem_nil, or_false,
    not_or, List.nodup_nil, and_true, not_false_eq_true] at hnd
  obtain ⟨⟨n01, n02, n03⟩, ⟨n12, n13⟩, n23⟩ := hnd
  have d01 : y0 ≠ y1 := fun e => n01 (by rw [e])
  have d02 : y0 ≠ y2 := fun e => n02 (by rw [e])
  have d03 : y0 ≠ y3 := fun e => n03 (by rw [e])
  have d12 : y1 ≠ y2 := fun e => n12 (by rw [e])
  have d13 : y1 ≠ y3 := fun e => n13 (by rw [e])
  have d23 : y2 ≠ y3 := fun e => n23 (by rw [e])
  have hl0 : child0.length = n := by rw [Chrom.length, hc0]; exact hvd.1
  have hg0 : ∀ x, child0.g x = donor.g x := fun x => by simp only [Chrom.g, hc0]
  have hread : ∀ x, ((((child0.setGene x1 (donor.g y0)).setGene x2 (donor.g y1)).setGene x3
      (donor.g y2)).setGene x4 (donor.g y3)).g x =
      donor.g (keyMap x1 x2 x3 x4 y0 y1 y2 y3 x) := by
    intro x
    simp only [Chrom.g_setGene, Chrom.length_setGene, hl0, h1, h2, h3, h4, and_true, hg0, keyMap]
    split_ifs <;> first | rfl | omega
  have hyn : ∀ y, (y = x1 ∨ y = x2 ∨ y = x3 ∨ y = x4) → y < n := by
    intro y hy
    rcases hy with e | e | e | e <;> rw [e] <;> assumption
  apply validPerm_of_g (by simp [hl0])
  · intro i hi
    rw [hread]
    exact hvd.g_range (keyMap_lt hi (hyn _ hy0) (hyn _ hy1) (hyn _ hy2) (hyn _ hy3))
  · intro i j hi hj
    rw [hread, hread]
    intro e
    exact keyMap_inj ⟨d01, d02, d03, d12, d13, d23⟩ hy0 hy1 hy2 hy3
      (hvd.g_inj (keyMap_lt hi (hyn _ hy0) (hyn _ hy1) (hyn _ hy2) (hyn _ hy3))
        (keyMap_lt hj (hyn _ hy0) (hyn _ hy1) (hyn _ hy2) (hyn _ hy3)) e)

/-- C4. Order2 crossover: for valid permutation parents of length `n >= 4`,
children of `n` genes, and draws from which `X_gen_4_xp` (unique mode) returns
four pairwise distinct positions of `[0, n-1]`, in whatever order, the operator
returns and both children are valid permutations of `1..n`. -/
theorem X_order2_valid (ga_info : GA_Info) (parent_1 parent_2 child_1 child_2 : Chrom)
    (n : Nat) (rnd rnd' : List Int) (xp1 xp2 xp3 xp4 : Int)
    (hdt : ga_info.datatype = DataType.DT_INT_PERM) (_hn : 4 ≤ n)
    (hv1 : validPerm n parent_1.gene) (hv2 : validPerm n parent_2.gene)
    (hc1 : child_1.length = n) (hc2 : child_2.length = n)
    (hgen : X_gen_4_xp true 0 (n : Int) rnd = .ok (xp1, xp2, xp3, xp4, rnd'))
    (hr1 : 0 ≤ xp1 ∧ xp1 ≤ (n : Int) - 1) (hr2 : 0 ≤ xp2 ∧ xp2 ≤ (n : Int) - 1)
    (hr3 : 0 ≤ xp3 ∧ xp3 ≤ (n : Int) - 1) (hr4 : 0 ≤ xp4 ∧ xp4 ≤ (n : Int) - 1)
    (hd : xp1 ≠ xp2 ∧ xp1 ≠ xp3 ∧ xp1 ≠ xp4 ∧ xp2 ≠ xp3 ∧ xp2 ≠ xp4 ∧ xp3 ≠ xp4) :
    ∃ c1 c2, X_order2 ga_info parent_1 parent_2 child_1 child_2 rnd = .ok (c1, c2) ∧
      validPerm n c1.gene ∧ validPerm n c2.gene := by
  have hl1 : parent_1.length = n := hv1.1
  have hl2 : parent_2.length = n := hv2.1
  have h1 : xp1.toNat < n := by omega
  have h2 : xp2.toNat < n := by omega
  have h3 : xp3.toNat < n := by omega
  have h4 : xp4.toNat < n := by omega
  have hd' : xp1.toNat ≠ xp2.toNat ∧ xp1.toNat ≠ xp3.toNat ∧ xp1.toNat ≠ xp4.toNat ∧
      xp2.toNat ≠ xp3.toNat ∧ xp2.toNat ≠ xp4.toNat ∧ xp3.toNat ≠ xp4.toNat := by omega
  obtain ⟨a0, a1, a2, a3, ea, v1⟩ := order2_child hv1 hv2 h1 h2 h3 h4 hd'
    (copy_genes parent_1 n 0 { child_1 with xp1 := xp1, xp2 := xp2 })
    (by rw [← hl1]; exact copy_genes_all parent_1 _ (hc1.trans hl1.symm))
  obtain ⟨b0, b1, b2, b3, eb, v2⟩ := order2_child hv2 hv1 h1 h2 h3 h4 hd'
    (copy_genes parent_2 n 0 { child_2 with xp1 := xp3, xp2 := xp4 })
    (by rw [← hl2]; exact copy_genes_all parent_2 _ (hc2.trans hl2.symm))
  refine ⟨_, _, ?_, v1, v2⟩
  have hg : ¬ (xp1 < 0 ∨ xp4 ≥ (n : Int)) := by omega
  rw [List.range_eq_range'] at ea eb
  simp only [X_order2, hdt, ne_eq, not_true_eq_false, if_false, hl1, hl2, hgen, if_neg hg,
    X_order2_scan_eq, List.nil_append, ea, eb]

/-- C4, at concrete parents of length 5 with the draws `3, 0, 4, 1`. -/
theorem X_order2_valid_witness :
    ∃ c1 c2, X_order2 CF_reset
        ⟨[1, 2, 3, 4, 5], 0, 0, -1, 0, 5, -1, -1, -1, -1⟩
        ⟨[3, 5, 1, 2, 4], 0, 0, -1, 0, 5, -1, -1, -1, -1⟩
        ⟨[0, 0, 0, 0, 0], 0, 0, -1, 0, 5, -1, -1, -1, -1⟩
        ⟨[0, 0, 0, 0, 0], 0, 0, -1, 0, 5, -1, -1, -1, -1⟩ [3, 0, 4, 1] = .ok (c1, c2) ∧
      validPerm 5 c1.gene ∧ validPerm 5 c2.gene :=
  X_order2_valid CF_reset
    ⟨[1, 2, 3, 4, 5], 0, 0, -1, 0, 5, -1, -1, -1, -1⟩
    ⟨[3, 5, 1, 2, 4], 0, 0, -1, 0, 5, -1, -1, -1, -1⟩
    ⟨[0, 0, 0, 0, 0], 0, 0, -1, 0, 5, -1, -1, -1, -1⟩
    ⟨[0, 0, 0, 0, 0], 0, 0, -1, 0, 5, -1, -1, -1, -1⟩ 5 [3, 0, 4, 1] [] 0 1 3 4
    rfl (by decide) (by decide!) (by decide!) rfl rfl (by decide) (by decide) (by decide)
    (by decide) (by decide) (by decide)

/-- C1, at concrete parents of length 5 with the draws `3, 1`. -/
theorem X_order1_valid_witness :
    ∃ c1 c2, X_order1 CF_reset
        ⟨[1, 2, 3, 4, 5], 0, 0, -1, 0, 5, -1, -1, -1, -1⟩
        ⟨[3, 5, 1, 2, 4], 0, 0, -1, 0, 5, -1, -1, -1, -1⟩
        ⟨[0, 0, 0, 0, 0], 0, 0, -1, 0, 5, -1, -1, -1, -1⟩
        ⟨[0, 0, 0, 0, 0], 0, 0, -1, 0, 5, -1, -1, -1, -1⟩ [3, 1] 5 = .ok (c1, c2) ∧
      validPerm 5 c1.gene ∧ validPerm 5 c2.gene :=
  X_order1_valid CF_reset
    ⟨[1, 2, 3, 4, 5], 0, 0, -1, 0, 5, -1, -1, -1, -1⟩
    ⟨[3, 5, 1, 2, 4], 0, 0, -1, 0, 5, -1, -1, -1, -1⟩
    ⟨[0, 0, 0, 0, 0], 0, 0, -1, 0, 5, -1, -1, -1, -1⟩
    ⟨[0, 0, 0, 0, 0], 0, 0, -1, 0, 5, -1, -1, -1, -1⟩ 5 3 1 [] 5
    rfl (by decide) (by decide!) (by decide!) rfl rfl (by decide) (by decide) (le_refl _)

/-- C3, at concrete parents of length 5 with the start index 4. -/
theorem X_cycle_valid_witness :
    ∃ c1 c2, X_cycle CF_reset
        ⟨[1, 2, 3, 4, 5], 0, 0, -1, 0, 5, -1, -1, -1, -1⟩
        ⟨[3, 5, 1, 2, 4], 0, 0, -1, 0, 5, -1, -1, -1, -1⟩
        ⟨[0, 0, 0, 0, 0], 0, 0, -1, 0, 5, -1, -1, -1, -1⟩
        ⟨[0, 0, 0, 0, 0], 0, 0, -1, 0, 5, -1, -1, -1, -1⟩ [4] 5 = .ok (c1, c2) ∧
      validPerm 5 c1.gene ∧ validPerm 5 c2.gene :=
  X_cycle_valid CF_reset
    ⟨[1, 2, 3, 4, 5], 0, 0, -1, 0, 5, -1, -1, -1, -1⟩
    ⟨[3, 5, 1, 2, 4], 0, 0, -1, 0, 5, -1, -1, -1, -1⟩
    ⟨[0, 0, 0, 0, 0], 0, 0, -1, 0, 5, -1, -1, -1, -1⟩
    ⟨[0, 0, 0, 0, 0], 0, 0, -1, 0, 5, -1, -1, -1, -1⟩ 5 4 [] 5
    rfl (by decide!) (by decide!) rfl rfl (by decide) (le_refl _)

/-! ### More on filtered prefixes -/

theorem filtPrefix_length_le {α : Type} (f : Nat → α) (pr : α → Bool) {d d' : Nat} (h : d ≤ d') :
    (filtPrefix f pr d).length ≤ (filtPrefix f pr d').length := by
  obtain ⟨R, hR⟩ := filtPrefix_prefix f pr d d' h
  rw [hR, List.length_append]
  omega

theorem filtPrefix_getD_stable {α : Type} (f : Nat → α) (pr : α → Bool) (dflt : α) {d d' : Nat}
    (h : d ≤ d') {s : Nat} (hs : s < (filtPrefix f pr d).length) :
    (filtPrefix f pr d').getD s dflt = (filtPrefix f pr d).getD s dflt := by
  obtain ⟨R, hR⟩ := filtPrefix_prefix f pr d d' h
  rw [hR, List.getD_eq_getElem?_getD, List.getD_eq_getElem?_getD, List.getElem?_append_left hs]

theorem filtPrefix_mem {α : Type} (f : Nat → α) (pr : α → Bool) {d : Nat} {x : α} :
    x ∈ filtPrefix f pr d ↔ ∃ e, e < d ∧ f e = x ∧ pr x = true := by
  simp only [filtPrefix, List.mem_filter, List.mem_map, List.mem_range]
  constructor
  · rintro ⟨⟨e, h1, h2⟩, h3⟩
    exact ⟨e, h1, h2, h3⟩
  · rintro ⟨e, h1, h2, h3⟩
    exact ⟨⟨e, h1, h2⟩, h3⟩

theorem filtPrefix_getD_mem {α : Type} (f : Nat → α) (pr : α → Bool) (dflt : α) {d s : Nat}
    (hs : s < (filtPrefix f pr d).length) : (filtPrefix f pr d).getD s dflt ∈ filtPrefix f pr d := by
  rw [List.getD_eq_getElem?_getD, List.getElem?_eq_getElem hs]
  exact List.getElem_mem _

theorem filtPrefix_g (c : Chrom) (pr : Gene → Bool) : filtPrefix c.g pr c.length = c.gene.filter pr := by
  unfold filtPrefix
  rw [map_g_range]

/-! ### Position crossover -/

theorem notKeyPos_eq_false {x1 x2 x3 x4 p : Nat} :
    notKeyPos x1 x2 x3 x4 p = false ↔ (p = x1 ∨ p = x2 ∨ p = x3 ∨ p = x4) := by
  unfold notKeyPos
  simp only [Bool.not_eq_false', Bool.or_eq_true, decide_eq_true_eq, or_assoc]

theorem notKeyPos_eq_true {x1 x2 x3 x4 p : Nat} :
    notKeyPos x1 x2 x3 x4 p = true ↔ ¬ (p = x1 ∨ p = x2 ∨ p = x3 ∨ p = x4) := by
  rw [← notKeyPos_eq_false]; simp

theorem X_pos_skip_spec (x1 x2 x3 x4 : Nat) : ∀ (fuel j e : Nat), j ≤ e →
    (∀ p, j ≤ p → p < e → notKeyPos x1 x2 x3 x4 p = false) →
    notKeyPos x1 x2 x3 x4 e = true → e - j < fuel →
    X_pos_skip x1 x2 x3 x4 fuel j = .ok e := by
  intro fuel
  induction fuel with
  | zero => intro j e _ _ _ h; omega
  | succ fuel ih =>
    intro j e hje hskip he hfuel
    simp only [X_pos_skip]
    rcases Nat.eq_or_lt_of_le hje with e1 | e1
    · subst e1
      rw [if_neg (notKeyPos_eq_true.1 he)]
    · rw [if_pos (notKeyPos_eq_false.1 (hskip j (le_refl _) e1))]
      exact ih (j + 1) e e1 (fun p h1 h2 => hskip p (by omega) h2) he (by omega)

theorem X_pos_loop1_succ (donor other : Chrom) (x1 x2 x3 x4 fuel : Nat)
    (k i j : Nat) (c : Chrom) :
    X_pos_loop1 donor other x1 x2 x3 x4 fuel (k + 1) i j c =
    match X_pos_put donor other x1 x2 x3 x4 fuel i j c with
    | .error e => .error e
    | .ok (j, child) => X_pos_loop1 donor other x1 x2 x3 x4 fuel k (i + 1) j child := rfl

theorem X_pos_loop_succ (parent_1 parent_2 : Chrom) (x1 x2 x3 x4 fuel : Nat)
    (k i j1 j2 : Nat) (c1 c2 : Chrom) :
    X_pos_loop parent_1 parent_2 x1 x2 x3 x4 fuel (k + 1) i j1 j2 c1 c2 =
    match X_pos_put parent_1 parent_2 x1 x2 x3 x4 fuel i j1 c1 with
    | .error e => .error e
    | .ok (j1, child_1) =>
      match X_pos_put parent_2 parent_1 x1 x2 x3 x4 fuel i j2 c2 with
      | .error e => .error e
      | .ok (j2, child_2) =>
        X_pos_loop parent_1 parent_2 x1 x2 x3 x4 fuel k (i + 1) j1 j2 child_1 child_2 := rfl

theorem X_pos_loop1_spec (donor other : Chrom) (n x1 x2 x3 x4 fuel : Nat) (hfuel : n ≤ fuel)
    (hcount : (filtPrefix other.g (notKeyVal donor x1 x2 x3 x4) n).length =
      (filtPrefix (fun p => p) (notKeyPos x1 x2 x3 x4) n).length) :
    ∀ (k i j : Nat) (child : Chrom), i + k = n → j ≤ n → child.length = n →
      (filtPrefix (fun p => p) (notKeyPos x1 x2 x3 x4) j).length =
        (filtPrefix other.g (notKeyVal donor x1 x2 x3 x4) i).length →
      ∃ child', X_pos_loop1 donor other x1 x2 x3 x4 fuel k i j child = .ok child' ∧
        child'.length = n ∧ child' = { child with gene := child'.gene } ∧
        (∀ p, (p < j ∨ notKeyPos x1 x2 x3 x4 p = false) → child'.g p = child.g p) ∧
        (∀ s, (filtPrefix other.g (notKeyVal donor x1 x2 x3 x4) i).length ≤ s →
          s < (filtPrefix other.g (notKeyVal donor x1 x2 x3 x4) n).length →
          child'.g ((filtPrefix (fun p => p) (notKeyPos x1 x2 x3 x4) n).getD s 0) =
            (filtPrefix other.g (notKeyVal donor x1 x2 x3 x4) n).getD s 0) := by
  intro k
  induction k with
  | zero =>
    intro i j child hik _ hc _
    refine ⟨child, rfl, hc, rfl, fun _ _ => rfl, ?_⟩
    intro s h1 h2
    have : i = n := by omega
    subst this
    omega
  | succ k ih =>
    intro i j child hik hj hc hlen
    by_cases hkey : isKey (other.g i) donor x1 x2 x3 x4 = true
    · have hW : filtPrefix other.g (notKeyVal donor x1 x2 x3 x4) (i + 1) =
          filtPrefix other.g (notKeyVal donor x1 x2 x3 x4) i := by
        rw [filtPrefix_succ]; simp [notKeyVal, hkey]
      obtain ⟨child', h1, h2, h3, h4, h5⟩ := ih (i + 1) j child (by omega) hj hc (by rw [hW]; exact hlen)
      refine ⟨child', ?_, h2, h3, h4, ?_⟩
      · rw [X_pos_loop1_succ]
        simp only [X_pos_put, hkey, if_true]
        exact h1
      · intro s hs1 hs2
        exact h5 s (by rw [hW]; exact hs1) hs2
    · have hnk : notKeyVal donor x1 x2 x3 x4 (other.g i) = true := by simp [notKeyVal, hkey]
      have hW : filtPrefix other.g (notKeyVal donor x1 x2 x3 x4) (i + 1) =
          filtPrefix other.g (notKeyVal donor x1 x2 x3 x4) i ++ [other.g i] := by
        rw [filtPrefix_succ, if_pos hnk]
      have hWlen := filtPrefix_length_le other.g (notKeyVal donor x1 x2 x3 x4)
        (show i + 1 ≤ n by omega)
      rw [hW, List.length_append, List.length_singleton] at hWlen
      have hWt : (filtPrefix other.g (notKeyVal donor x1 x2 x3 x4) n).getD
          (filtPrefix other.g (notKeyVal donor x1 x2 x3 x4) i).length 0 = other.g i := by
        rw [filtPrefix_getD_stable other.g _ 0 (show i + 1 ≤ n by omega)
          (by rw [hW, List.length_append, List.length_singleton]; omega), hW,
          List.getD_eq_getElem?_getD, List.getElem?_append_right (le_refl _)]
        simp
      obtain ⟨e, he1, he2, he3, he4, he5, he6⟩ :=
        filtPrefix_next (fun p => p) (notKeyPos x1 x2 x3 x4) 0 hj (by rw [hlen, ← hcount]; omega)
      have hskip := X_pos_skip_spec x1 x2 x3 x4 fuel j e he1 he4 he3 (by omega)
      obtain ⟨child', h1, h2, h3, h4, h5⟩ := ih (i + 1) (e + 1) (child.setGene e (other.g i))
        (by omega) (by omega) (by simp [hc])
        (by rw [he5, hW, List.length_append, List.length_append, hlen]; rfl)
      refine ⟨child', ?_, h2, ?_, ?_, ?_⟩
      · rw [X_pos_loop1_succ]
        simp only [X_pos_put, hkey, hskip, hc, he2, if_true]
        exact h1
      · rw [h3]; simp [Chrom.setGene]
      · intro p hp
        have hpe : e ≠ p := by
          rcases hp with hp | hp
          · omega
          · intro h; rw [h] at he3; rw [he3] at hp; cases hp
        rw [h4 p (by rcases hp with hp | hp; exact Or.inl (by omega); exact Or.inr hp),
          Chrom.g_setGene_ne _ _ hpe]
      · intro s hs1 hs2
        rcases Nat.eq_or_lt_of_le hs1 with e1 | e1
        · rw [← e1, hWt, ← hlen, he6, h4 e (Or.inl (by omega)),
            Chrom.g_setGene_self _ _ _ (by rw [hc]; exact he2)]
        · exact h5 s (by rw [hW, List.length_append, List.length_singleton]; omega) hs2

theorem isKey_self (donor : Chrom) {x1 x2 x3 x4 p : Nat}
    (hp : p = x1 ∨ p = x2 ∨ p = x3 ∨ p = x4) : isKey (donor.g p) donor x1 x2 x3 x4 = true := by
  unfold isKey
  rcases hp with e | e | e | e <;> subst e <;> simp

theorem notKeyVal_g {n : Nat} {donor : Chrom} (hvd : validPerm n donor.gene) {x1 x2 x3 x4 : Nat}
    (h1 : x1 < n) (h2 : x2 < n) (h3 : x3 < n) (h4 : x4 < n) {p : Nat} (hp : p < n) :
    notKeyVal donor x1 x2 x3 x4 (donor.g p) = notKeyPos x1 x2 x3 x4 p := by
  by_cases hk : p = x1 ∨ p = x2 ∨ p = x3 ∨ p = x4
  · rw [notKeyPos_eq_false.2 hk]
    simp [notKeyVal, isKey_self donor hk]
  · rw [notKeyPos_eq_true.2 hk]
    have : ¬ isKey (donor.g p) donor x1 x2 x3 x4 = true := by
      rw [isKey_iff hvd h1 h2 h3 h4 (hvd.g_isInt hp)]
      intro h
      apply hk
      rcases h with e | e | e | e
      · exact Or.inl (hvd.g_inj hp h1 e)
      · exact Or.inr (Or.inl (hvd.g_inj hp h2 e))
      · exact Or.inr (Or.inr (Or.inl (hvd.g_inj hp h3 e)))
      · exact Or.inr (Or.inr (Or.inr (hvd.g_inj hp h4 e)))
    simp [notKeyVal, this]

/-- The other parent holds as many alleles that are not key alleles of the
donor as there are positions that are not key positions. -/
theorem pos_count {n : Nat} {donor other : Chrom} (hvd : validPerm n donor.gene)
    (hvo : validPerm n other.gene) {x1 x2 x3 x4 : Nat}
    (h1 : x1 < n) (h2 : x2 < n) (h3 : x3 < n) (h4 : x4 < n) :
    (filtPrefix other.g (notKeyVal donor x1 x2 x3 x4) n).length =
      (filtPrefix (fun p => p) (notKeyPos x1 x2 x3 x4) n).length := by
  have e1 : filtPrefix other.g (notKeyVal donor x1 x2 x3 x4) n =
      other.gene.filter (notKeyVal donor x1 x2 x3 x4) := by
    rw [← filtPrefix_g, Chrom.length, hvo.1]
  have e2 : donor.gene.filter (notKeyVal donor x1 x2 x3 x4) =
      ((List.range n).filter (notKeyPos x1 x2 x3 x4)).map donor.g := by
    conv_lhs => rw [← map_g_range donor]
    rw [List.filter_map, Chrom.length, hvd.1]
    congr 1
    apply List.filter_congr
    intro p hp
    exact notKeyVal_g hvd h1 h2 h3 h4 (List.mem_range.1 hp)
  rw [e1, (List.Perm.filter _ (hvo.perm hvd)).length_eq, e2, List.length_map]
  simp [filtPrefix]

/-- One child of the position crossover: with the donor's genes already at
the key positions, the main loop returns with any fuel of at least `n`, writes
inside the gene array only, and leaves a valid permutation. -/
theorem pos_child {n : Nat} {donor other : Chrom} (hvd : validPerm n donor.gene)
    (hvo : validPerm n other.gene) {x1 x2 x3 x4 : Nat}
    (h1 : x1 < n) (h2 : x2 < n) (h3 : x3 < n) (h4 : x4 < n) (child0 : Chrom)
    (hc0 : child0.length = n)
    (hk0 : ∀ p, (p = x1 ∨ p = x2 ∨ p = x3 ∨ p = x4) → child0.g p = donor.g p)
    (fuel : Nat) (hfuel : n ≤ fuel) :
    ∃ child', X_pos_loop1 donor other x1 x2 x3 x4 fuel n 0 0 child0 = .ok child' ∧
      child' = { child0 with gene := child'.gene } ∧
      (∀ p, (p = x1 ∨ p = x2 ∨ p = x3 ∨ p = x4) → child'.g p = donor.g p) ∧
      (∀ s, s < (filtPrefix other.g (notKeyVal donor x1 x2 x3 x4) n).length →
        child'.g ((filtPrefix (fun p => p) (notKeyPos x1 x2 x3 x4) n).getD s 0) =
          (filtPrefix other.g (notKeyVal donor x1 x2 x3 x4) n).getD s 0) ∧
      validPerm n child'.gene := by
  have hcount := pos_count hvd hvo h1 h2 h3 h4
  obtain ⟨child', e1, e2, e3, e4, e5⟩ := X_pos_loop1_spec donor other n x1 x2 x3 x4 fuel hfuel
    hcount n 0 0 child0 (by omega) (Nat.zero_le _) hc0 (by simp [filtPrefix])
  have hkey : ∀ p, (p = x1 ∨ p = x2 ∨ p = x3 ∨ p = x4) → child'.g p = donor.g p := by
    intro p hp
    rw [e4 p (Or.inr (notKeyPos_eq_false.2 hp)), hk0 p hp]
  have hfill : ∀ s, s < (filtPrefix other.g (notKeyVal donor x1 x2 x3 x4) n).length →
      child'.g ((filtPrefix (fun p => p) (notKeyPos x1 x2 x3 x4) n).getD s 0) =
        (filtPrefix other.g (notKeyVal donor x1 x2 x3 x4) n).getD s 0 :=
    fun s hs => e5 s (by simp [filtPrefix]) hs
  refine ⟨child', e1, e3, hkey, hfill, ?_⟩
  -- every position that is not a key position is the `s`-th such position for some `s`
  have hpos : ∀ p, p < n → ¬ (p = x1 ∨ p = x2 ∨ p = x3 ∨ p = x4) →
      ∃ s, s < (filtPrefix other.g (notKeyVal donor x1 x2 x3 x4) n).length ∧
        (filtPrefix (fun p => p) (notKeyPos x1 x2 x3 x4) n).getD s 0 = p := by
    intro p hp hnk
    have hm : p ∈ filtPrefix (fun p => p) (notKeyPos x1 x2 x3 x4) n :=
      (filtPrefix_mem _ _).2 ⟨p, hp, rfl, notKeyPos_eq_true.2 hnk⟩
    obtain ⟨s, hs, hs2⟩ := List.getElem_of_mem hm
    refine ⟨s, by rw [hcount]; exact hs, ?_⟩
    rw [List.getD_eq_getElem?_getD, List.getElem?_eq_getElem hs, hs2]
    rfl
  have hW : ∀ s, s < (filtPrefix other.g (notKeyVal donor x1 x2 x3 x4) n).length →
      (filtPrefix other.g (notKeyVal donor x1 x2 x3 x4) n).getD s 0 ∈ other.gene ∧
      notKeyVal donor x1 x2 x3 x4
        ((filtPrefix other.g (notKeyVal donor x1 x2 x3 x4) n).getD s 0) = true := by
    intro s hs
    obtain ⟨e, he, he2, he3⟩ := (filtPrefix_mem _ _).1 (filtPrefix_getD_mem other.g _ 0 hs)
    refine ⟨?_, he3⟩
    rw [← he2]
    exact Chrom.g_mem other (by rw [Chrom.length, hvo.1]; exact he)
  have hWnd : (filtPrefix other.g (notKeyVal donor x1 x2 x3 x4) n).Nodup := by
    rw [← hvo.1, ← Chrom.length, filtPrefix_g]
    exact hvo.nodup.filter _
  have hWinj : ∀ s s', s < (filtPrefix other.g (notKeyVal donor x1 x2 x3 x4) n).length →
      s' < (filtPrefix other.g (notKeyVal donor x1 x2 x3 x4) n).length →
      (filtPrefix other.g (notKeyVal donor x1 x2 x3 x4) n).getD s 0 =
        (filtPrefix other.g (notKeyVal donor x1 x2 x3 x4) n).getD s' 0 → s = s' := by
    intro s s' hs hs' e
    rw [List.getD_eq_getElem?_getD, List.getD_eq_getElem?_getD, List.getElem?_eq_getElem hs,
      List.getElem?_eq_getElem hs'] at e
    exact (hWnd.getElem_inj_iff).1 (by simpa using e)
  have hcross : ∀ p s, (p = x1 ∨ p = x2 ∨ p = x3 ∨ p = x4) →
      s < (filtPrefix other.g (notKeyVal donor x1 x2 x3 x4) n).length →
      donor.g p ≠ (filtPrefix other.g (notKeyVal donor x1 x2 x3 x4) n).getD s 0 := by
    intro p s hp hs e
    have := (hW s hs).2
    rw [← e] at this
    simp [notKeyVal, isKey_self donor hp] at this
  apply validPerm_of_g e2
  · intro i hi
    by_cases hk : i = x1 ∨ i = x2 ∨ i = x3 ∨ i = x4
    · rw [hkey i hk]; exact hvd.g_range hi
    · obtain ⟨s, hs, hs2⟩ := hpos i hi hk
      rw [← hs2, hfill s hs]
      exact hvo.mem (hW s hs).1
  · intro i j hi hj e
    by_cases hki : i = x1 ∨ i = x2 ∨ i = x3 ∨ i = x4
    · by_cases hkj : j = x1 ∨ j = x2 ∨ j = x3 ∨ j = x4
      · rw [hkey i hki, hkey j hkj] at e
        exact hvd.g_inj hi hj e
      · obtain ⟨s, hs, hs2⟩ := hpos j hj hkj
        rw [hkey i hki, ← hs2, hfill s hs] at e
        exact absurd e (hcross i s hki hs)
    · obtain ⟨s, hs, hs2⟩ := hpos i hi hki
      by_cases hkj : j = x1 ∨ j = x2 ∨ j = x3 ∨ j = x4
      · rw [hkey j hkj, ← hs2, hfill s hs] at e
        exact absurd e.symm (hcross j s hkj hs)
      · obtain ⟨s', hs', hs2'⟩ := hpos j hj hkj
        rw [← hs2, ← hs2', hfill s hs, hfill s' hs'] at e
        rw [← hs2, ← hs2', hWinj s s' hs hs' e]

theorem X_pos_loop_pair (parent_1 parent_2 : Chrom) (x1 x2 x3 x4 fuel : Nat) :
    ∀ (k i j1 j2 : Nat) (c1 c2 c1' c2' : Chrom),
    X_pos_loop1 parent_1 parent_2 x1 x2 x3 x4 fuel k i j1 c1 = .ok c1' →
    X_pos_loop1 parent_2 parent_1 x1 x2 x3 x4 fuel k i j2 c2 = .ok c2' →
    X_pos_loop parent_1 parent_2 x1 x2 x3 x4 fuel k i j1 j2 c1 c2 = .ok (c1', c2') := by
  intro k
  induction k with
  | zero =>
    intro i j1 j2 c1 c2 c1' c2' h1 h2
    have h1' : Except.ok c1 = (Except.ok c1' : Except GAError Chrom) := h1
    have h2' : Except.ok c2 = (Except.ok c2' : Except GAError Chrom) := h2
    cases h1'
    cases h2'
    rfl
  | succ k ih =>
    intro i j1 j2 c1 c2 c1' c2' h1 h2
    rw [X_pos_loop1_succ] at h1 h2
    rw [X_pos_loop_succ]
    cases hp1 : X_pos_put parent_1 parent_2 x1 x2 x3 x4 fuel i j1 c1 with
    | error e => rw [hp1] at h1; cases h1
    | ok r1 =>
      cases hp2 : X_pos_put parent_2 parent_1 x1 x2 x3 x4 fuel i j2 c2 with
      | error e => rw [hp2] at h2; cases h2
      | ok r2 =>
        rw [hp1] at h1
        rw [hp2] at h2
        exact ih _ _ _ _ _ _ _ h1 h2

theorem pos_keys_set (src c : Chrom) {n x1 x2 x3 x4 : Nat} (hc : c.length = n)
    (h1 : x1 < n) (h2 : x2 < n) (h3 : x3 < n) (h4 : x4 < n) (p : Nat)
    (hp : p = x1 ∨ p = x2 ∨ p = x3 ∨ p = x4) :
    ((((c.setGene x1 (src.g x1)).setGene x2 (src.g x2)).setGene x3 (src.g x3)).setGene x4
      (src.g x4)).g p = src.g p := by
  simp only [Chrom.g_setGene, Chrom.length_setGene, hc, h1, h2, h3, h4, and_true]
  split_ifs with a b c d
  · rw [a]
  · rw [b]
  · rw [c]
  · rw [d]
  · omega

/-- C5. Position crossover: for valid permutation parents of length `n`,
children of `n` genes, and draws from which `X_gen_4_xp` (without the unique
mode) returns four positions of `[0, n-1]`, some of which may coincide, the
operator returns with any fuel of at least `n`: no write falls outside the
gene array (such a write is the error `outOfBounds`), and both children are
valid permutations of `1..n`. -/
theorem X_pos_valid (ga_info : GA_Info) (parent_1 parent_2 child_1 child_2 : Chrom)
    (n : Nat) (rnd rnd' : List Int) (xp1 xp2 xp3 xp4 : Int) (fuel : Nat)
    (hdt : ga_info.datatype = DataType.DT_INT_PERM)
    (hv1 : validPerm n parent_1.gene) (hv2 : validPerm n parent_2.gene)
    (hc1 : child_1.length = n) (hc2 : child_2.length = n)
    (hgen : X_gen_4_xp false 0 (n : Int) rnd = .ok (xp1, xp2, xp3, xp4, rnd'))
    (hr1 : 0 ≤ xp1 ∧ xp1 ≤ (n : Int) - 1) (hr2 : 0 ≤ xp2 ∧ xp2 ≤ (n : Int) - 1)
    (hr3 : 0 ≤ xp3 ∧ xp3 ≤ (n : Int) - 1) (hr4 : 0 ≤ xp4 ∧ xp4 ≤ (n : Int) - 1)
    (hfuel : n ≤ fuel) :
    ∃ c1 c2, X_pos ga_info parent_1 parent_2 child_1 child_2 rnd fuel = .ok (c1, c2) ∧
      validPerm n c1.gene ∧ validPerm n c2.gene := by
  have hl1 : parent_1.length = n := hv1.1
  have hl2 : parent_2.length = n := hv2.1
  have h1 : xp1.toNat < n := by omega
  have h2 : xp2.toNat < n := by omega
  have h3 : xp3.toNat < n := by omega
  have h4 : xp4.toNat < n := by omega
  obtain ⟨c1, e1, _, _, _, v1⟩ := pos_child hv1 hv2 h1 h2 h3 h4 _
    (by simp only [Chrom.length_setGene]; exact (hc1 : Chrom.length { child_1 with xp1 := xp1, xp2 := xp2 } = n))
    (pos_keys_set parent_1 { child_1 with xp1 := xp1, xp2 := xp2 } hc1 h1 h2 h3 h4) fuel hfuel
  obtain ⟨c2, e2, _, _, _, v2⟩ := pos_child hv2 hv1 h1 h2 h3 h4 _
    (by simp only [Chrom.length_setGene]; exact (hc2 : Chrom.length { child_2 with xp1 := xp3, xp2 := xp4 } = n))
    (pos_keys_set parent_2 { child_2 with xp1 := xp3, xp2 := xp4 } hc2 h1 h2 h3 h4) fuel hfuel
  refine ⟨c1, c2, ?_, v1, v2⟩
  have hg : ¬ (xp1 < 0 ∨ xp4 ≥ (n : Int)) := by omega
  simp only [X_pos, hdt, ne_eq, not_true_eq_false, if_false, hl1, hl2, hgen, if_neg hg]
  exact X_pos_loop_pair parent_1 parent_2 _ _ _ _ fuel n 0 0 0 _ _ c1 c2 e1 e2

/-- C5, at concrete parents of length 5 with the draws `4, 1, 1, 1`: two of
the four key positions are different. -/
theorem X_pos_valid_witness :
    ∃ c1 c2, X_pos CF_reset
        ⟨[1, 2, 3, 4, 5], 0, 0, -1, 0, 5, -1, -1, -1, -1⟩
        ⟨[3, 5, 1, 2, 4], 0, 0, -1, 0, 5, -1, -1, -1, -1⟩
        ⟨[0, 0, 0, 0, 0], 0, 0, -1, 0, 5, -1, -1, -1, -1⟩
        ⟨[0, 0, 0, 0, 0], 0, 0, -1, 0, 5, -1, -1, -1, -1⟩ [4, 1, 1, 1] 5 = .ok (c1, c2) ∧
      validPerm 5 c1.gene ∧ validPerm 5 c2.gene :=
  X_pos_valid CF_reset
    ⟨[1, 2, 3, 4, 5], 0, 0, -1, 0, 5, -1, -1, -1, -1⟩
    ⟨[3, 5, 1, 2, 4], 0, 0, -1, 0, 5, -1, -1, -1, -1⟩
    ⟨[0, 0, 0, 0, 0], 0, 0, -1, 0, 5, -1, -1, -1, -1⟩
    ⟨[0, 0, 0, 0, 0], 0, 0, -1, 0, 5, -1, -1, -1, -1⟩ 5 [4, 1, 1, 1] [] 1 1 1 4 5
    rfl (by decide!) (by decide!) rfl rfl rfl (by decide) (by decide) (by decide) (by decide)
    (le_refl _)

/-! ### Uniform order crossover -/

theorem filtPrefix_nth {α : Type} (f : Nat → α) (pr : α → Bool) (dflt : α) :
    ∀ (n t : Nat), t < (filtPrefix f pr n).length →
    ∃ q, q < n ∧ (filtPrefix f pr q).length = t ∧ pr (f q) = true ∧
      (filtPrefix f pr n).getD t dflt = f q := by
  intro n
  induction n with
  | zero => intro t h; simp [filtPrefix] at h
  | succ n ih =>
    intro t ht
    by_cases h : t < (filtPrefix f pr n).length
    · obtain ⟨q, h1, h2, h3, h4⟩ := ih t h
      refine ⟨q, by omega, h2, h3, ?_⟩
      rw [filtPrefix_getD_stable f pr dflt (Nat.le_succ n) h, h4]
    · rw [filtPrefix_succ] at ht
      by_cases hp : pr (f n) = true
      · rw [if_pos hp, List.length_append, List.length_singleton] at ht
        have ht' : t = (filtPrefix f pr n).length := by omega
        refine ⟨n, by omega, ht'.symm, hp, ?_⟩
        rw [filtPrefix_succ, if_pos hp, ht', List.getD_eq_getElem?_getD,
          List.getElem?_append_right (le_refl _)]
        simp
      · rw [if_neg hp, List.append_nil] at ht
        exact absurd ht h

theorem filtPrefix_length_succ_of_true {α : Type} (f : Nat → α) (pr : α → Bool) {q : Nat}
    (h : pr (f q) = true) : (filtPrefix f pr (q + 1)).length = (filtPrefix f pr q).length + 1 := by
  rw [filtPrefix_succ, if_pos h, List.length_append, List.length_singleton]

theorem filtPrefix_length_succ_of_false {α : Type} (f : Nat → α) (pr : α → Bool) {q : Nat}
    (h : pr (f q) = false) : (filtPrefix f pr (q + 1)).length = (filtPrefix f pr q).length := by
  rw [filtPrefix_succ, h]; simp

theorem filtPrefix_getD_at {α : Type} (f : Nat → α) (pr : α → Bool) (dflt : α) {q n : Nat}
    (hq : q < n) (h : pr (f q) = true) :
    (filtPrefix f pr n).getD (filtPrefix f pr q).length dflt = f q := by
  rw [filtPrefix_getD_stable f pr dflt (show q + 1 ≤ n by omega)
    (by rw [filtPrefix_length_succ_of_true f pr h]; omega), filtPrefix_succ, if_pos h,
    List.getD_eq_getElem?_getD, List.getElem?_append_right (le_refl _)]
  simp

theorem openRank_mono (m : List Bool) {p p' : Nat} (h : p ≤ p') : openRank m p ≤ openRank m p' :=
  filtPrefix_length_le _ _ h

theorem openRank_lt (m : List Bool) {p p' : Nat} (h : p < p') (hp : unmasked m p = true) :
    openRank m p < openRank m p' := by
  have h1 : openRank m (p + 1) = openRank m p + 1 :=
    filtPrefix_length_succ_of_true (fun q => q) (unmasked m) hp
  have h2 := openRank_mono m (show p + 1 ≤ p' by omega)
  omega

theorem toInt_neg_one : toInt (-1 : Gene) = -1 := by
  have : (-1 : Gene) = ((-1 : Int) : Gene) := by norm_num
  rw [this, toInt_intCast]

theorem toInt_pos_of_succ (k : Nat) : toInt ((k : Gene) + 1) ≠ -1 := by
  rw [toInt_natCast_succ]; omega

theorem X_uox_mask_length (parent : Chrom) (m : List Bool) (k : Nat) : ∀ (i : Nat) (child : Chrom),
    (X_uox_mask parent m k i child).length = child.length := by
  induction k with
  | zero => intro i child; rfl
  | succ k ih =>
    intro i child
    simp only [X_uox_mask]
    rw [ih]
    split_ifs <;> simp

theorem X_uox_mask_fields (parent : Chrom) (m : List Bool) (k : Nat) : ∀ (i : Nat) (child : Chrom),
    X_uox_mask parent m k i child = { child with gene := (X_uox_mask parent m k i child).gene } := by
  induction k with
  | zero => intro i child; rfl
  | succ k ih =>
    intro i child
    simp only [X_uox_mask]
    rw [ih]
    split_ifs <;> simp [Chrom.setGene]

theorem X_uox_mask_g (parent : Chrom) (m : List Bool) (k : Nat) :
    ∀ (i : Nat) (child : Chrom) (p : Nat),
    (X_uox_mask parent m k i child).g p =
      if i ≤ p ∧ p < i + k ∧ p < child.length then
        (if m.getD p false = true then parent.g p else -1)
      else child.g p := by
  induction k with
  | zero =>
    intro i child p
    have : ¬ (i ≤ p ∧ p < i + 0 ∧ p < child.length) := by omega
    simp only [X_uox_mask, if_neg this]
  | succ k ih =>
    intro i child p
    simp only [X_uox_mask]
    rw [ih]
    by_cases h2 : i + 1 ≤ p ∧ p < i + 1 + k ∧ p < child.length
    · have h3 : i ≤ p ∧ p < i + (k + 1) ∧ p < child.length := by omega
      have h4 : (if m.getD i false = true then child.setGene i (parent.g i)
          else child.setGene i (-1)).length = child.length := by split_ifs <;> simp
      rw [h4, if_pos h2, if_pos h3]
    · have h4 : (if m.getD i false = true then child.setGene i (parent.g i)
          else child.setGene i (-1)).length = child.length := by split_ifs <;> simp
      rw [h4, if_neg h2]
      by_cases h1 : i = p
      · subst h1
        by_cases h5 : i < child.length
        · have h3 : i ≤ i ∧ i < i + (k + 1) ∧ i < child.length := by omega
          rw [if_pos h3]
          split_ifs <;> simp [Chrom.g_setGene, h5]
        · have h3 : ¬ (i ≤ i ∧ i < i + (k + 1) ∧ i < child.length) := by omega
          rw [if_neg h3]
          split_ifs <;> simp [Chrom.g_setGene, h5]
      · have h3 : ¬ (i ≤ p ∧ p < i + (k + 1) ∧ p < child.length) := by omega
        rw [if_neg h3]
        split_ifs <;> simp [Chrom.g_setGene, h1]

theorem scan_ne_iff (v : Gene) (c : Chrom) :
    X_map_scan v c 0 c.length ≠ -1 ↔ ∃ p, p < c.length ∧ toInt v = toInt (c.g p) := by
  rcases X_map_scan_spec v c c.length 0 with ⟨h1, h2⟩ | ⟨j, _, h2, h3, h4, _⟩
  · constructor
    · intro h; exact absurd h1 h
    · rintro ⟨p, hp, e⟩
      exact absurd e (h2 p (Nat.zero_le _) (by omega))
  · constructor
    · intro _; exact ⟨j, by omega, h4⟩
    · intro _
      rw [h3]
      omega

theorem notFound_eq_true {c : Chrom} {v : Gene} :
    notFound c v = true ↔ ∀ p, p < c.length → toInt v ≠ toInt (c.g p) := by
  unfold notFound
  rw [decide_eq_true_iff]
  constructor
  · intro h p hp e
    exact (scan_ne_iff v c).2 ⟨p, hp, e⟩ h
  · intro h
    by_contra hne
    obtain ⟨p, hp, e⟩ := (scan_ne_iff v c).1 hne
    exact h p hp e

theorem X_uox_find_spec (other child : Chrom) (n : Nat) (ho : other.length = n)
    (hc : child.length = n) : ∀ (fuel j q : Nat), j ≤ q → q < n →
    (∀ q', j ≤ q' → q' < q → notFound child (other.g q') = false) →
    notFound child (other.g q) = true → q - j < fuel →
    X_uox_find other child fuel j = .ok q := by
  intro fuel
  induction fuel with
  | zero => intro j q _ _ _ _ h; omega
  | succ fuel ih =>
    intro j q hjq hq hskip hfree hfuel
    have hx : ∀ v, X_map v child 0 ((child.length : Int) - 1) = .ok (X_map_scan v child 0 child.length) := by
      intro v
      have := X_map_ok v child (Nat.zero_le (n - 1)) (by rw [hc]; omega)
      rw [show ((n - 1 : Nat) : Int) = (child.length : Int) - 1 by rw [hc]; omega,
        show n - 1 - 0 + 1 = child.length by rw [hc]; omega] at this
      exact this
    have hj : ¬ j ≥ other.length := by rw [ho]; omega
    simp only [X_uox_find, if_neg hj, hx]
    rcases Nat.eq_or_lt_of_le hjq with e1 | e1
    · subst e1
      have : X_map_scan (other.g j) child 0 child.length = -1 := by
        simpa [notFound] using hfree
      simp [this]
    · have h1 := hskip j (le_refl _) e1
      have : X_map_scan (other.g j) child 0 child.length ≠ -1 := by
        simpa [notFound] using h1
      have hj2 : j < other.length := by rw [ho]; omega
      simp only [ne_eq, this, not_false_eq_true, if_true, hj2]
      exact ih (j + 1) q e1 hq (fun q' h2 h3 => hskip q' (by omega) h3) hfree (by omega)

theorem X_uox_fill_succ (other : Chrom) (fuel k i j : Nat) (child : Chrom) :
    X_uox_fill other fuel (k + 1) i j child =
      if toInt (child.g i) = -1 then
        match X_uox_find other child fuel j with
        | .error e => .error e
        | .ok j' => X_uox_fill other fuel k (i + 1) j' (child.setGene i (other.g j'))
      else X_uox_fill other fuel k (i + 1) j child := rfl

theorem unmasked_eq_true {m : List Bool} {p : Nat} :
    unmasked m p = true ↔ ¬ m.getD p false = true := by
  unfold unmasked
  generalize m.getD p false = b
  cases b <;> decide

theorem unmasked_eq_false {m : List Bool} {p : Nat} :
    unmasked m p = false ↔ m.getD p false = true := by
  unfold unmasked
  generalize m.getD p false = b
  cases b <;> decide

/-- What the fill loop of `X_uox` needs to know about the masked child
`child0` it starts from. -/
theorem X_uox_fill_spec {n : Nat} {donor other child0 : Chrom} (m : List Bool)
    (hvd : validPerm n donor.gene) (hvo : validPerm n other.gene) (hc0 : child0.length = n)
    (h0 : ∀ p, p < n → child0.g p = if m.getD p false = true then donor.g p else -1)
    (fuel : Nat) (hfuel : n ≤ fuel)
    (hcount : (filtPrefix other.g (notFound child0) n).length =
      (filtPrefix (fun q => q) (unmasked m) n).length) :
    ∀ (k i j : Nat) (child : Chrom), i + k = n → j ≤ n → child.length = n →
      child = { child0 with gene := child.gene } →
      (filtPrefix other.g (notFound child0) j).length ≤ openRank m i →
      (∀ p, p < n → child.g p = if m.getD p false = true then donor.g p
        else if p < i then (filtPrefix other.g (notFound child0) n).getD (openRank m p) 0
        else -1) →
      ∃ child', X_uox_fill other fuel k i j child = .ok child' ∧ child'.length = n ∧
        child' = { child0 with gene := child'.gene } ∧
        ∀ p, p < n → child'.g p = if m.getD p false = true then donor.g p
          else (filtPrefix other.g (notFound child0) n).getD (openRank m p) 0 := by
  have hol : other.length = n := hvo.1
  have hpos : ∀ q, q < n → toInt (other.g q) ≠ -1 := by
    intro q hq
    obtain ⟨k, _, e⟩ := hvo.g_range hq
    rw [e]; exact toInt_pos_of_succ k
  intro k
  induction k with
  | zero =>
    intro i j child hik _ hc hf _ hg
    refine ⟨child, rfl, hc, hf, ?_⟩
    intro p hp
    rw [hg p hp]
    have : p < i := by omega
    by_cases hmp : m.getD p false = true
    · rw [if_pos hmp, if_pos hmp]
    · rw [if_neg hmp, if_neg hmp, if_pos this]
  | succ k ih =>
    intro i j child hik hj hc hf hcj hg
    have hi : i < n := by omega
    rw [X_uox_fill_succ]
    by_cases hm : m.getD i false = true
    · -- a masked position: nothing to place
      have hgi : child.g i = donor.g i := by rw [hg i hi, if_pos hm]
      obtain ⟨kk, _, e⟩ := hvd.g_range hi
      have hne : ¬ toInt (child.g i) = -1 := by rw [hgi, e]; exact toInt_pos_of_succ kk
      rw [if_neg hne]
      have hrank : openRank m (i + 1) = openRank m i :=
        filtPrefix_length_succ_of_false (fun q => q) (unmasked m) (unmasked_eq_false.2 hm)
      apply ih (i + 1) j child (by omega) hj hc hf (by rw [hrank]; exact hcj)
      intro p hp
      rw [hg p hp]
      by_cases hmp : m.getD p false = true
      · rw [if_pos hmp, if_pos hmp]
      · have hpi : p ≠ i := fun h => hmp (h ▸ hm)
        have : p < i + 1 ↔ p < i := by omega
        rw [if_neg hmp, if_neg hmp]
        simp only [this]
    · -- an open position: the next unused allele of the other parent goes there
      have hun : unmasked m i = true := unmasked_eq_true.2 hm
      have hgi : child.g i = -1 := by
        rw [hg i hi, if_neg hm, if_neg (lt_irrefl i)]
      rw [if_pos (by rw [hgi]; exact toInt_neg_one)]
      have hrank : openRank m (i + 1) = openRank m i + 1 :=
        filtPrefix_length_succ_of_true (fun q => q) (unmasked m) hun
      have htN : openRank m i < (filtPrefix (fun q => q) (unmasked m) n).length := by
        have := openRank_mono m (show i + 1 ≤ n by omega)
        unfold openRank at this hrank ⊢
        omega
      obtain ⟨q, hq1, hq2, hq3, hq4⟩ := filtPrefix_nth other.g (notFound child0) 0 n
        (openRank m i) (by rw [hcount]; exact htN)
      have hjq : j ≤ q := by
        by_contra hlt
        have h1 := filtPrefix_length_le other.g (notFound child0) (show q + 1 ≤ j by omega)
        rw [filtPrefix_length_succ_of_true other.g _ hq3, hq2] at h1
        omega
      have hUnd : (filtPrefix other.g (notFound child0) n).Nodup := by
        rw [← hol, filtPrefix_g]
        exact hvo.nodup.filter _
      have hUint : ∀ s, s < (filtPrefix other.g (notFound child0) n).length →
          isIntGene ((filtPrefix other.g (notFound child0) n).getD s 0) := by
        intro s hs
        obtain ⟨e, he, he2, _⟩ := (filtPrefix_mem _ _).1 (filtPrefix_getD_mem other.g _ 0 hs)
        rw [← he2]
        exact hvo.g_isInt he
      -- the alleles passed over on the way to `q` are already in the child
      have hskip : ∀ q', j ≤ q' → q' < q → notFound child (other.g q') = false := by
        intro q' h1 h2
        have hq'n : q' < n := by omega
        by_contra hnf
        have hnf' : notFound child (other.g q') = true := by simpa using hnf
        rw [notFound_eq_true] at hnf'
        by_cases hq' : notFound child0 (other.g q') = true
        · have hs1 := filtPrefix_length_succ_of_true other.g _ hq'
          have hs2 := filtPrefix_length_le other.g (notFound child0) (show q' + 1 ≤ q by omega)
          have hs : (filtPrefix other.g (notFound child0) q').length < openRank m i := by omega
          obtain ⟨p, hp1, hp2, hp3, _⟩ := filtPrefix_nth (fun q => q) (unmasked m) 0 n
            (filtPrefix other.g (notFound child0) q').length (by omega)
          have hpi : p < i := by
            by_contra hge
            have := openRank_mono m (show i ≤ p by omega)
            unfold openRank at this hs
            omega
          have hmp : ¬ m.getD p false = true := unmasked_eq_true.1 hp3
          have hgp := hg p hp1
          rw [if_neg hmp, if_pos hpi] at hgp
          have hrk : openRank m p = (filtPrefix other.g (notFound child0) q').length := hp2
          rw [hrk, filtPrefix_getD_at other.g _ 0 hq'n hq'] at hgp
          exact hnf' p (by rw [hc]; exact hp1) (by rw [hgp])
        · have hq'' : ¬ ∀ p, p < child0.length → toInt (other.g q') ≠ toInt (child0.g p) := by
            rw [← notFound_eq_true]; exact hq'
          push_neg at hq''
          obtain ⟨p, hp, e⟩ := hq''
          rw [hc0] at hp
          by_cases hmp : m.getD p false = true
          · have hgp := hg p hp
            rw [if_pos hmp] at hgp
            rw [h0 p hp, if_pos hmp, ← hgp] at e
            exact hnf' p (by rw [hc]; exact hp) e
          · rw [h0 p hp, if_neg hmp, toInt_neg_one] at e
            exact hpos q' hq'n e
      -- the allele at `q` is not in the child
      have hfree : notFound child (other.g q) = true := by
        rw [notFound_eq_true]
        intro p hp
        rw [hc] at hp
        rw [hg p hp]
        by_cases hmp : m.getD p false = true
        · rw [if_pos hmp]
          have := (notFound_eq_true.1 hq3) p (by rw [hc0]; exact hp)
          rw [h0 p hp, if_pos hmp] at this
          exact this
        · rw [if_neg hmp]
          by_cases hpi : p < i
          · rw [if_pos hpi]
            have hunp : unmasked m p = true := unmasked_eq_true.2 hmp
            have hlt := openRank_lt m hpi hunp
            have hlt2 : openRank m p < (filtPrefix other.g (notFound child0) n).length := by
              rw [hcount]; omega
            rw [← hq4]
            intro e
            have e' := ((hUint _ (by rw [hcount]; exact htN)).toInt_inj (hUint _ hlt2)).1 e
            rw [List.getD_eq_getElem?_getD, List.getD_eq_getElem?_getD,
              List.getElem?_eq_getElem (by rw [hcount]; exact htN),
              List.getElem?_eq_getElem hlt2] at e'
            have := (hUnd.getElem_inj_iff).1 (by simpa using e')
            omega
          · rw [if_neg hpi, toInt_neg_one]
            exact hpos q hq1
      have hfind := X_uox_find_spec other child n hol hc fuel j q hjq hq1 hskip hfree (by omega)
      rw [hfind]
      apply ih (i + 1) q (child.setGene i (other.g q)) (by omega) (by omega) (by simp [hc])
        (by rw [hf]; simp [Chrom.setGene]) (by rw [hq2, hrank]; omega)
      intro p hp
      rw [Chrom.g_setGene]
      by_cases hpi : i = p
      · subst hpi
        rw [if_pos ⟨rfl, by rw [hc]; exact hi⟩, if_neg hm, if_pos (Nat.lt_succ_self _), hq4]
      · have : ¬ (i = p ∧ i < child.length) := fun h => hpi h.1
        rw [if_neg this, hg p hp]
        have h2 : p < i + 1 ↔ p < i := by omega
        simp only [h2]

theorem notFound_g {n : Nat} {donor child0 : Chrom} (m : List Bool)
    (hvd : validPerm n donor.gene) (hc0 : child0.length = n)
    (h0 : ∀ p, p < n → child0.g p = if m.getD p false = true then donor.g p else -1)
    {p : Nat} (hp : p < n) : notFound child0 (donor.g p) = unmasked m p := by
  by_cases hm : m.getD p false = true
  · rw [unmasked_eq_false.2 hm]
    by_contra h
    have h' : notFound child0 (donor.g p) = true := by simpa using h
    have := (notFound_eq_true.1 h') p (by rw [hc0]; exact hp)
    rw [h0 p hp, if_pos hm] at this
    exact this rfl
  · rw [unmasked_eq_true.2 hm, notFound_eq_true]
    intro p' hp' e
    rw [hc0] at hp'
    rw [h0 p' hp'] at e
    by_cases hm' : m.getD p' false = true
    · rw [if_pos hm'] at e
      have := hvd.g_inj hp hp' (((hvd.g_isInt hp).toInt_inj (hvd.g_isInt hp')).1 e)
      rw [this] at hm
      exact hm hm'
    · rw [if_neg hm', toInt_neg_one] at e
      obtain ⟨k, _, e2⟩ := hvd.g_range hp
      rw [e2] at e
      exact toInt_pos_of_succ k e

/-- The other parent holds as many alleles that the masked child lacks as the
mask leaves positions open. -/
theorem uox_count {n : Nat} {donor other child0 : Chrom} (m : List Bool)
    (hvd : validPerm n donor.gene) (hvo : validPerm n other.gene) (hc0 : child0.length = n)
    (h0 : ∀ p, p < n → child0.g p = if m.getD p false = true then donor.g p else -1) :
    (filtPrefix other.g (notFound child0) n).length =
      (filtPrefix (fun q => q) (unmasked m) n).length := by
  have e1 : filtPrefix other.g (notFound child0) n = other.gene.filter (notFound child0) := by
    rw [← filtPrefix_g, Chrom.length, hvo.1]
  have e2 : donor.gene.filter (notFound child0) =
      ((List.range n).filter (unmasked m)).map donor.g := by
    conv_lhs => rw [← map_g_range donor]
    rw [List.filter_map, Chrom.length, hvd.1]
    congr 1
    apply List.filter_congr
    intro p hp
    exact notFound_g m hvd hc0 h0 (List.mem_range.1 hp)
  rw [e1, (List.Perm.filter _ (hvo.perm hvd)).length_eq, e2, List.length_map]
  simp [filtPrefix]

/-- One child of the uniform order crossover: on the masked child the fill loop
returns with any fuel of at least `n`, never reads the other parent past its
end, keeps the donor's alleles at the masked positions, and leaves a valid
permutation. -/
theorem uox_child {n : Nat} {donor other : Chrom} (m : List Bool)
    (hvd : validPerm n donor.gene) (hvo : validPerm n other.gene) (child0 : Chrom)
    (hc0 : child0.length = n)
    (h0 : ∀ p, p < n → child0.g p = if m.getD p false = true then donor.g p else -1)
    (fuel : Nat) (hfuel : n ≤ fuel) :
    ∃ child', X_uox_fill other fuel n 0 0 child0 = .ok child' ∧
      child' = { child0 with gene := child'.gene } ∧
      (∀ p, p < n → m.getD p false = true → child'.g p = donor.g p) ∧
      (∀ p, p < n → ¬ m.getD p false = true →
        child'.g p = (filtPrefix other.g (notFound child0) n).getD (openRank m p) 0) ∧
      validPerm n child'.gene := by
  have hcount := uox_count m hvd hvo hc0 h0
  obtain ⟨child', e1, e2, e3, e4⟩ := X_uox_fill_spec m hvd hvo hc0 h0 fuel hfuel hcount n 0 0 child0
    (by omega) (Nat.zero_le _) hc0 rfl (Nat.zero_le _) (by
      intro p hp
      rw [h0 p hp]
      by_cases hm : m.getD p false = true
      · rw [if_pos hm, if_pos hm]
      · rw [if_neg hm, if_neg hm, if_neg (Nat.not_lt_zero p)])
  have hmask : ∀ p, p < n → m.getD p false = true → child'.g p = donor.g p := by
    intro p hp hm; rw [e4 p hp, if_pos hm]
  have hopen : ∀ p, p < n → ¬ m.getD p false = true →
      child'.g p = (filtPrefix other.g (notFound child0) n).getD (openRank m p) 0 := by
    intro p hp hm; rw [e4 p hp, if_neg hm]
  refine ⟨child', e1, e3, hmask, hopen, ?_⟩
  have hrk : ∀ p, p < n → ¬ m.getD p false = true →
      openRank m p < (filtPrefix other.g (notFound child0) n).length := by
    intro p hp hm
    have h1 : openRank m (p + 1) = openRank m p + 1 :=
      filtPrefix_length_succ_of_true (fun q => q) (unmasked m) (unmasked_eq_true.2 hm)
    have h2 := openRank_mono m (show p + 1 ≤ n by omega)
    rw [hcount]
    unfold openRank at h1 h2 ⊢
    omega
  have hU : ∀ s, s < (filtPrefix other.g (notFound child0) n).length →
      (filtPrefix other.g (notFound child0) n).getD s 0 ∈ other.gene ∧
      notFound child0 ((filtPrefix other.g (notFound child0) n).getD s 0) = true := by
    intro s hs
    obtain ⟨e, he, he2, he3⟩ := (filtPrefix_mem _ _).1 (filtPrefix_getD_mem other.g _ 0 hs)
    refine ⟨?_, he3⟩
    rw [← he2]
    exact Chrom.g_mem other (by rw [Chrom.length, hvo.1]; exact he)
  have hUnd : (filtPrefix other.g (notFound child0) n).Nodup := by
    rw [← hvo.1, ← Chrom.length, filtPrefix_g]
    exact hvo.nodup.filter _
  have hcross : ∀ p s, p < n → m.getD p false = true →
      s < (filtPrefix other.g (notFound child0) n).length →
      donor.g p ≠ (filtPrefix other.g (notFound child0) n).getD s 0 := by
    intro p s hp hm hs e
    have := (notFound_eq_true.1 (hU s hs).2) p (by rw [hc0]; exact hp)
    rw [h0 p hp, if_pos hm, ← e] at this
    exact this rfl
  apply validPerm_of_g e2
  · intro i hi
    by_cases hm : m.getD i false = true
    · rw [hmask i hi hm]; exact hvd.g_range hi
    · rw [hopen i hi hm]; exact hvo.mem (hU _ (hrk i hi hm)).1
  · intro i j hi hj e
    by_cases hmi : m.getD i false = true
    · by_cases hmj : m.getD j false = true
      · rw [hmask i hi hmi, hmask j hj hmj] at e
        exact hvd.g_inj hi hj e
      · rw [hmask i hi hmi, hopen j hj hmj] at e
        exact absurd e (hcross i _ hi hmi (hrk j hj hmj))
    · by_cases hmj : m.getD j false = true
      · rw [hopen i hi hmi, hmask j hj hmj] at e
        exact absurd e.symm (hcross j _ hj hmj (hrk i hi hmi))
      · rw [hopen i hi hmi, hopen j hj hmj] at e
        have h1 := hrk i hi hmi
        have h2 := hrk j hj hmj
        rw [List.getD_eq_getElem?_getD, List.getD_eq_getElem?_getD, List.getElem?_eq_getElem h1,
          List.getElem?_eq_getElem h2] at e
        have hr : openRank m i = openRank m j := (hUnd.getElem_inj_iff).1 (by simpa using e)
        by_contra hne
        rcases Nat.lt_or_gt_of_ne hne with hlt | hlt
        · have := openRank_lt m hlt (unmasked_eq_true.2 hmi); omega
        · have := openRank_lt m hlt (unmasked_eq_true.2 hmj); omega

/-- C6. Uniform order crossover: for valid permutation parents of length `n`,
children of `n` genes and any mask of `n` bits, the operator returns with any
fuel of at least `n`; the scan index into the other parent never reaches the
end of the chromosome (reading there is the error `outOfBounds`), every masked
position of a child holds its primary parent's allele of that position, and
both children are valid permutations of `1..n`. -/
theorem X_uox_valid (ga_info : GA_Info) (parent_1 parent_2 child_1 child_2 : Chrom)
    (n : Nat) (bits : List Bool) (fuel : Nat)
    (hdt : ga_info.datatype = DataType.DT_INT_PERM)
    (hv1 : validPerm n parent_1.gene) (hv2 : validPerm n parent_2.gene)
    (hc1 : child_1.length = n) (hc2 : child_2.length = n)
    (hbits : bits.length = n) (hfuel : n ≤ fuel) :
    ∃ c1 c2, X_uox ga_info parent_1 parent_2 child_1 child_2 bits fuel = .ok (c1, c2) ∧
      validPerm n c1.gene ∧ validPerm n c2.gene ∧
      (∀ i, i < n → bits.getD i false = true → c1.g i = parent_1.g i ∧ c2.g i = parent_2.g i) := by
  have hl1 : parent_1.length = n := hv1.1
  have hl2 : parent_2.length = n := hv2.1
  have hmask : ∀ (src c : Chrom), c.length = n → ∀ p, p < n →
      (X_uox_mask src bits n 0 c).g p = if bits.getD p false = true then src.g p else -1 := by
    intro src c hc p hp
    rw [X_uox_mask_g, if_pos ⟨Nat.zero_le _, by omega, by omega⟩]
  obtain ⟨c1, e1, _, m1, _, v1⟩ := uox_child bits hv1 hv2 (X_uox_mask parent_1 bits n 0 child_1)
    (by rw [X_uox_mask_length]; exact hc1) (hmask parent_1 child_1 hc1) fuel hfuel
  obtain ⟨c2, e2, _, m2, _, v2⟩ := uox_child bits hv2 hv1 (X_uox_mask parent_2 bits n 0 child_2)
    (by rw [X_uox_mask_length]; exact hc2) (hmask parent_2 child_2 hc2) fuel hfuel
  refine ⟨c1, c2, ?_, v1, v2, fun i hi hb => ⟨m1 i hi hb, m2 i hi hb⟩⟩
  have hb : ¬ bits.length < n := by omega
  have ht : List.take n bits = bits := List.take_of_length_le (by omega)
  simp only [X_uox, hdt, ne_eq, not_true_eq_false, if_false, hl1, hl2, if_neg hb, ht, e1, e2]

/-- C6, at concrete parents of length 5 with the mask `1, 0, 0, 1, 0`. -/
theorem X_uox_valid_witness :
    ∃ c1 c2, X_uox CF_reset
        ⟨[1, 2, 3, 4, 5], 0, 0, -1, 0, 5, -1, -1, -1, -1⟩
        ⟨[3, 5, 1, 2, 4], 0, 0, -1, 0, 5, -1, -1, -1, -1⟩
        ⟨[0, 0, 0, 0, 0], 0, 0, -1, 0, 5, -1, -1, -1, -1⟩
        ⟨[0, 0, 0, 0, 0], 0, 0, -1, 0, 5, -1, -1, -1, -1⟩
        [true, false, false, true, false] 5 = .ok (c1, c2) ∧
      validPerm 5 c1.gene ∧ validPerm 5 c2.gene ∧
      (∀ i, i < 5 → [true, false, false, true, false].getD i false = true →
        c1.g i = Chrom.g ⟨[1, 2, 3, 4, 5], 0, 0, -1, 0, 5, -1, -1, -1, -1⟩ i ∧
        c2.g i = Chrom.g ⟨[3, 5, 1, 2, 4], 0, 0, -1, 0, 5, -1, -1, -1, -1⟩ i) :=
  X_uox_valid CF_reset
    ⟨[1, 2, 3, 4, 5], 0, 0, -1, 0, 5, -1, -1, -1, -1⟩
    ⟨[3, 5, 1, 2, 4], 0, 0, -1, 0, 5, -1, -1, -1, -1⟩
    ⟨[0, 0, 0, 0, 0], 0, 0, -1, 0, 5, -1, -1, -1, -1⟩
    ⟨[0, 0, 0, 0, 0], 0, 0, -1, 0, 5, -1, -1, -1, -1⟩ 5
    [true, false, false, true, false] 5 rfl (by decide!) (by decide!) rfl rfl rfl (le_refl _)

/-! ### PMX crossover -/

theorem X_pmx_chain_succ (parent : Chrom) (xp1 xp2 : Int) (i fuel j : Nat) (child : Chrom) :
    X_pmx_chain parent xp1 xp2 i (fuel + 1) j child =
      match X_map ((child.setGene i (parent.g j)).g i) (child.setGene i (parent.g j)) xp1 xp2 with
      | .error e => .error e
      | .ok r =>
        if r < 0 then .ok (child.setGene i (parent.g j))
        else X_pmx_chain parent xp1 xp2 i fuel r.toNat (child.setGene i (parent.g j)) := rfl

/-- The search of `X_map` in the segment `[a, b]` of a child that holds the
genes of `inner` there, for an allele `outer.g u`: either it is nowhere in the
segment, or it is found at the position `j` whose way back is `u`. -/
theorem pmx_map {n : Nat} {outer inner : Chrom} (hvo : validPerm n outer.gene)
    (hvi : validPerm n inner.gene) {a b : Nat} (hab : a ≤ b) (hbn : b < n) (child : Chrom)
    (hc : child.length = n) (hseg : ∀ x, a ≤ x → x ≤ b → child.g x = inner.g x)
    {u : Nat} (hu : u < n) :
    (X_map (outer.g u) child (a : Int) (b : Int) = .ok (-1) ∧
      ∀ x, a ≤ x → x ≤ b → inner.g x ≠ outer.g u) ∨
    (∃ j, a ≤ j ∧ j ≤ b ∧ X_map (outer.g u) child (a : Int) (b : Int) = .ok ((j : Nat) : Int) ∧
      inner.g j = outer.g u ∧ cycleMap outer inner j = u) := by
  rw [X_map_ok _ child hab (by rw [hc]; exact hbn)]
  rcases X_map_scan_spec (outer.g u) child (b - a + 1) a with ⟨h1, h2⟩ | ⟨j, h1, h2, h3, h4, _⟩
  · left
    refine ⟨by rw [h1], ?_⟩
    intro x hx1 hx2 e
    apply h2 x hx1 (by omega)
    rw [hseg x hx1 hx2, e]
  · right
    have hjb : j ≤ b := by omega
    have hjn : j < n := by omega
    rw [hseg j h1 hjb] at h4
    have e : inner.g j = outer.g u :=
      (((hvo.g_isInt hu).toInt_inj (hvi.g_isInt hjn)).1 h4).symm
    refine ⟨j, h1, hjb, by rw [h3], e, ?_⟩
    have hs := cycleMap_spec hvo hvi hjn
    rw [e] at hs
    exact hvo.g_inj hs.1 hu hs.2.1

theorem pmxBack_outside (outer inner : Chrom) {a b t : Nat} (h : ¬ (a ≤ t ∧ t ≤ b)) (f : Nat) :
    pmxBack outer inner a b f t = t := by
  cases f with
  | zero => rfl
  | succ f => simp only [pmxBack, if_neg h]

/-- The chain loop of `X_pmx` at an outside position `i`: `V` lists the
positions whose alleles the chain has gone through, `j` is the next one. -/
theorem X_pmx_chain_spec {n : Nat} {outer inner : Chrom} (hvo : validPerm n outer.gene)
    (hvi : validPerm n inner.gene) {a b : Nat} (hab : a ≤ b) (hbn : b < n) {i : Nat}
    (hin : i < n) (hi : ¬ (a ≤ i ∧ i ≤ b)) :
    ∀ (fuel j : Nat) (V : List Nat) (child : Chrom),
      a ≤ j → j ≤ b → (j :: V).Nodup → (∀ v, v ∈ V → v < n) → i ∈ V →
      (∀ v, v ∈ V → v ≠ i → (a ≤ v ∧ v ≤ b) ∧ cycleMap outer inner v ∈ V) →
      cycleMap outer inner j ∈ V →
      (∀ f, V.length ≤ f → pmxBack outer inner a b f j = i) →
      child.length = n → (∀ x, a ≤ x → x ≤ b → child.g x = inner.g x) →
      n - V.length ≤ fuel →
      ∃ child' t, X_pmx_chain outer (a : Int) (b : Int) i fuel j child = .ok child' ∧
        child'.length = n ∧ child' = { child with gene := child'.gene } ∧
        (∀ x, x ≠ i → child'.g x = child.g x) ∧
        t < n ∧ child'.g i = outer.g t ∧ (∀ x, a ≤ x → x ≤ b → inner.g x ≠ outer.g t) ∧
        pmxBack outer inner a b n t = i := by
  intro fuel
  induction fuel with
  | zero =>
    intro j V child _ hjb hnd hV _ _ _ _ _ _ hfuel
    have := @nodup_length_le n _ hnd (fun v hv => by
      rcases List.mem_cons.1 hv with e | e
      · rw [e]; omega
      · exact hV v e)
    simp only [List.length_cons] at this
    omega
  | succ fuel ih =>
    intro j V child hja hjb hnd hV hiV hpred hpj hback hc hseg hfuel
    have hjn : j < n := by omega
    have hji : i ≠ j := fun h => hi (by rw [h]; exact ⟨hja, hjb⟩)
    have hlen : V.length + 1 ≤ n := by
      have := @nodup_length_le n _ hnd (fun v hv => by
        rcases List.mem_cons.1 hv with e | e
        · rw [e]; exact hjn
        · exact hV v e)
      simpa using this
    have hc1 : (child.setGene i (outer.g j)).length = n := by simp [hc]
    have hseg1 : ∀ x, a ≤ x → x ≤ b → (child.setGene i (outer.g j)).g x = inner.g x := by
      intro x h1 h2
      rw [Chrom.g_setGene_ne _ _ (fun h => hi (by rw [h]; exact ⟨h1, h2⟩)), hseg x h1 h2]
    have hgi : (child.setGene i (outer.g j)).g i = outer.g j :=
      Chrom.g_setGene_self _ _ _ (by rw [hc]; exact hin)
    have hfld : child.setGene i (outer.g j) =
        { child with gene := (child.setGene i (outer.g j)).gene } := by simp [Chrom.setGene]
    rw [X_pmx_chain_succ, hgi]
    rcases pmx_map hvo hvi hab hbn _ hc1 hseg1 hjn with ⟨h1, h2⟩ | ⟨j', h1, h2, h3, h4, h5⟩
    · rw [h1]
      refine ⟨_, j, by simp, hc1, hfld, fun x hx => Chrom.g_setGene_ne _ _ (Ne.symm hx), hjn, hgi,
        h2, hback n (by omega)⟩
    · rw [h3]
      have hnn : ¬ ((j' : Nat) : Int) < 0 := by omega
      simp only [if_neg hnn, Int.toNat_ofNat]
      have hjV : j ∉ V := (List.nodup_cons.1 hnd).1
      have hnew : j' ∉ j :: V := by
        intro hmem
        rcases List.mem_cons.1 hmem with e | e
        · rw [e] at h5
          rw [h5] at hpj
          exact hjV hpj
        · have hne : j' ≠ i := fun h => hi (by rw [← h]; exact ⟨h1, h2⟩)
          have := (hpred j' e hne).2
          rw [h5] at this
          exact hjV this
      obtain ⟨child', t, e1, e2, e3, e4, e5, e6, e7, e8⟩ := ih j' (j :: V)
        (child.setGene i (outer.g j)) h1 h2 (List.nodup_cons.2 ⟨hnew, hnd⟩)
        (fun v hv => by
          rcases List.mem_cons.1 hv with e | e
          · rw [e]; exact hjn
          · exact hV v e)
        (List.mem_cons_of_mem _ hiV)
        (fun v hv hne => by
          rcases List.mem_cons.1 hv with e | e
          · rw [e]; exact ⟨⟨hja, hjb⟩, List.mem_cons_of_mem _ hpj⟩
          · exact ⟨(hpred v e hne).1, List.mem_cons_of_mem _ (hpred v e hne).2⟩)
        (by rw [h5]; exact List.mem_cons_self _ _)
        (fun f hf => by
          simp only [List.length_cons] at hf
          obtain ⟨f', rfl⟩ : ∃ f', f = f' + 1 := ⟨f - 1, by omega⟩
          simp only [pmxBack, if_pos (And.intro h1 h2), h5]
          exact hback f' (by omega))
        hc1 hseg1 (by simp only [List.length_cons]; omega)
      refine ⟨child', t, e1, e2, ?_, ?_, e5, e6, e7, e8⟩
      · rw [e3]; simp [Chrom.setGene]
      · intro x hx
        rw [e4 x hx, Chrom.g_setGene_ne _ _ (Ne.symm hx)]

/-- The fixup of one outside position `i` by `X_pmx`: the child ends with the
allele `outer.g t` there, an allele that is not in the child's segment, and
the way back from `t` ends at `i`. -/
theorem X_pmx_fix_spec {n : Nat} {outer inner : Chrom} (hvo : validPerm n outer.gene)
    (hvi : validPerm n inner.gene) {a b : Nat} (hab : a ≤ b) (hbn : b < n) {i : Nat}
    (hin : i < n) (hi : ¬ (a ≤ i ∧ i ≤ b)) (fuel : Nat) (hfuel : n ≤ fuel) (child : Chrom)
    (hc : child.length = n) (hseg : ∀ x, a ≤ x → x ≤ b → child.g x = inner.g x)
    (hgi : child.g i = outer.g i) :
    ∃ child' t, X_pmx_fix outer (a : Int) (b : Int) fuel i child = .ok child' ∧
      child'.length = n ∧ child' = { child with gene := child'.gene } ∧
      (∀ x, x ≠ i → child'.g x = child.g x) ∧
      t < n ∧ child'.g i = outer.g t ∧ (∀ x, a ≤ x → x ≤ b → inner.g x ≠ outer.g t) ∧
      pmxBack outer inner a b n t = i := by
  unfold X_pmx_fix
  rw [hgi]
  rcases pmx_map hvo hvi hab hbn child hc hseg hin with ⟨h1, h2⟩ | ⟨j, h1, h2, h3, h4, h5⟩
  · rw [h1]
    refine ⟨child, i, by simp, hc, rfl, fun _ _ => rfl, hin, hgi, h2, pmxBack_outside _ _ hi _⟩
  · rw [h3]
    have hnn : ((j : Nat) : Int) ≥ 0 := by omega
    simp only [if_pos hnn, Int.toNat_ofNat]
    have hji : j ≠ i := fun h => hi (by rw [← h]; exact ⟨h1, h2⟩)
    exact X_pmx_chain_spec hvo hvi hab hbn hin hi fuel j [i] child h1 h2
      (by simp [hji]) (fun v hv => by simp at hv; rw [hv]; exact hin) (by simp)
      (fun v hv hne => by simp at hv; exact absurd hv hne) (by rw [h5]; simp)
      (fun f hf => by
        simp only [List.length_singleton] at hf
        obtain ⟨f', rfl⟩ : ∃ f', f = f' + 1 := ⟨f - 1, by omega⟩
        simp only [pmxBack, if_pos (And.intro h1 h2), h5]
        exact pmxBack_outside _ _ hi _)
      hc hseg (by simp only [List.length_singleton]; omega)

theorem X_pmx_fixup1_succ (parent : Chrom) (xp1 xp2 : Int) (fuel k i : Nat) (child : Chrom) :
    X_pmx_fixup1 parent xp1 xp2 fuel (k + 1) i child =
      if (i : Int) ≥ xp1 ∧ (i : Int) ≤ xp2 then X_pmx_fixup1 parent xp1 xp2 fuel k (i + 1) child
      else
        match X_pmx_fix parent xp1 xp2 fuel i child with
        | .error e => .error e
        | .ok child => X_pmx_fixup1 parent xp1 xp2 fuel k (i + 1) child := rfl

theorem X_pmx_fixup_succ (parent_1 parent_2 : Chrom) (xp1 xp2 : Int) (fuel k i : Nat)
    (child_1 child_2 : Chrom) :
    X_pmx_fixup parent_1 parent_2 xp1 xp2 fuel (k + 1) i child_1 child_2 =
      if (i : Int) ≥ xp1 ∧ (i : Int) ≤ xp2 then
        X_pmx_fixup parent_1 parent_2 xp1 xp2 fuel k (i + 1) child_1 child_2
      else
        match X_pmx_fix parent_1 xp1 xp2 fuel i child_1 with
        | .error e => .error e
        | .ok child_1 =>
          match X_pmx_fix parent_2 xp1 xp2 fuel i child_2 with
          | .error e => .error e
          | .ok child_2 => X_pmx_fixup parent_1 parent_2 xp1 xp2 fuel k (i + 1) child_1 child_2 :=
  rfl

theorem X_pmx_fixup1_spec {n : Nat} {outer inner : Chrom} (hvo : validPerm n outer.gene)
    (hvi : validPerm n inner.gene) {a b : Nat} (hab : a ≤ b) (hbn : b < n)
    (fuel : Nat) (hfuel : n ≤ fuel) :
    ∀ (k i : Nat) (child : Chrom), i + k = n → child.length = n →
      (∀ x, a ≤ x → x ≤ b → child.g x = inner.g x) →
      (∀ x, i ≤ x → x < n → ¬ (a ≤ x ∧ x ≤ b) → child.g x = outer.g x) →
      ∃ child', X_pmx_fixup1 outer (a : Int) (b : Int) fuel k i child = .ok child' ∧
        child'.length = n ∧ child' = { child with gene := child'.gene } ∧
        (∀ x, (x < i ∨ (a ≤ x ∧ x ≤ b)) → child'.g x = child.g x) ∧
        (∀ x, i ≤ x → x < n → ¬ (a ≤ x ∧ x ≤ b) →
          ∃ t, t < n ∧ child'.g x = outer.g t ∧ (∀ y, a ≤ y → y ≤ b → inner.g y ≠ outer.g t) ∧
            pmxBack outer inner a b n t = x) := by
  intro k
  induction k with
  | zero =>
    intro i child hik hc _ _
    refine ⟨child, rfl, hc, rfl, fun _ _ => rfl, ?_⟩
    intro x h1 h2
    omega
  | succ k ih =>
    intro i child hik hc hseg hout
    have hin : i < n := by omega
    rw [X_pmx_fixup1_succ]
    by_cases hi : a ≤ i ∧ i ≤ b
    · have hcond : ((i : Nat) : Int) ≥ (a : Int) ∧ ((i : Nat) : Int) ≤ (b : Int) := by omega
      rw [if_pos hcond]
      obtain ⟨child', e1, e2, e3, e4, e5⟩ := ih (i + 1) child (by omega) hc hseg
        (fun x h1 h2 h3 => hout x (by omega) h2 h3)
      refine ⟨child', e1, e2, e3, fun x hx => e4 x (by omega), ?_⟩
      intro x h1 h2 h3
      have : i ≠ x := fun h => h3 (by rw [← h]; exact hi)
      exact e5 x (by omega) h2 h3
    · have hcond : ¬ (((i : Nat) : Int) ≥ (a : Int) ∧ ((i : Nat) : Int) ≤ (b : Int)) := by omega
      rw [if_neg hcond]
      obtain ⟨c1, t, f1, f2, f3, f4, f5, f6, f7, f8⟩ := X_pmx_fix_spec hvo hvi hab hbn hin hi fuel
        hfuel child hc hseg (hout i (le_refl _) hin hi)
      rw [f1]
      obtain ⟨child', e1, e2, e3, e4, e5⟩ := ih (i + 1) c1 (by omega) f2
        (fun x h1 h2 => by
          rw [f4 x (fun h => hi (by rw [← h]; exact ⟨h1, h2⟩)), hseg x h1 h2])
        (fun x h1 h2 h3 => by rw [f4 x (by omega), hout x (by omega) h2 h3])
      refine ⟨child', e1, e2, ?_, ?_, ?_⟩
      · rw [e3, f3]
      · intro x hx
        have hxi : x ≠ i := by
          rcases hx with h | h
          · omega
          · intro e; exact hi (by rw [← e]; exact h)
        rw [e4 x (by rcases hx with h | h; exact Or.inl (by omega); exact Or.inr h), f4 x hxi]
      · intro x h1 h2 h3
        rcases Nat.eq_or_lt_of_le h1 with e | e
        · subst e
          exact ⟨t, f5, by rw [e4 i (Or.inl (by omega)), f6], f7, f8⟩
        · exact e5 x e h2 h3

theorem X_pmx_copy1_length (outer inner : Chrom) (xp1 xp2 : Int) (k : Nat) :
    ∀ (i : Nat) (child : Chrom), (X_pmx_copy1 outer inner xp1 xp2 k i child).length = child.length := by
  induction k with
  | zero => intro i child; rfl
  | succ k ih =>
    intro i child
    simp only [X_pmx_copy1]
    rw [ih]
    split_ifs <;> simp

theorem X_pmx_copy1_g (outer inner : Chrom) (a b : Nat) (k : Nat) :
    ∀ (i : Nat) (child : Chrom) (p : Nat),
    (X_pmx_copy1 outer inner (a : Int) (b : Int) k i child).g p =
      if i ≤ p ∧ p < i + k ∧ p < child.length then
        (if a ≤ p ∧ p ≤ b then inner.g p else outer.g p)
      else child.g p := by
  induction k with
  | zero =>
    intro i child p
    have : ¬ (i ≤ p ∧ p < i + 0 ∧ p < child.length) := by omega
    simp only [X_pmx_copy1, if_neg this]
  | succ k ih =>
    intro i child p
    simp only [X_pmx_copy1]
    rw [ih]
    have h4 : (if ((i : Nat) : Int) < (a : Int) ∨ ((i : Nat) : Int) > (b : Int) then
        child.setGene i (outer.g i) else child.setGene i (inner.g i)).length = child.length := by
      split_ifs <;> simp
    rw [h4]
    by_cases h2 : i + 1 ≤ p ∧ p < i + 1 + k ∧ p < child.length
    · have h3 : i ≤ p ∧ p < i + (k + 1) ∧ p < child.length := by omega
      rw [if_pos h2, if_pos h3]
    · rw [if_neg h2]
      by_cases h1 : i = p
      · subst h1
        by_cases h5 : i < child.length
        · have h3 : i ≤ i ∧ i < i + (k + 1) ∧ i < child.length := by omega
          rw [if_pos h3]
          by_cases h6 : a ≤ i ∧ i ≤ b
          · have h7 : ¬ (((i : Nat) : Int) < (a : Int) ∨ ((i : Nat) : Int) > (b : Int)) := by omega
            rw [if_neg h7, if_pos h6, Chrom.g_setGene_self _ _ _ h5]
          · have h7 : ((i : Nat) : Int) < (a : Int) ∨ ((i : Nat) : Int) > (b : Int) := by omega
            rw [if_pos h7, if_neg h6, Chrom.g_setGene_self _ _ _ h5]
        · have h3 : ¬ (i ≤ i ∧ i < i + (k + 1) ∧ i < child.length) := by omega
          rw [if_neg h3]
          split_ifs <;> simp [Chrom.g_setGene, h5]
      · have h3 : ¬ (i ≤ p ∧ p < i + (k + 1) ∧ p < child.length) := by omega
        rw [if_neg h3]
        split_ifs <;> simp [Chrom.g_setGene, h1]

theorem X_pmx_copy_eq (parent_1 parent_2 : Chrom) (xp1 xp2 : Int) : ∀ (k i : Nat) (c1 c2 : Chrom),
    X_pmx_copy parent_1 parent_2 xp1 xp2 k i c1 c2 =
      (X_pmx_copy1 parent_1 parent_2 xp1 xp2 k i c1, X_pmx_copy1 parent_2 parent_1 xp1 xp2 k i c2) := by
  intro k
  induction k with
  | zero => intro i c1 c2; rfl
  | succ k ih =>
    intro i c1 c2
    simp only [X_pmx_copy, X_pmx_copy1]
    by_cases h : (i : Int) < xp1 ∨ (i : Int) > xp2
    · rw [if_pos h, if_pos h, if_pos h, ih]
    · rw [if_neg h, if_neg h, if_neg h, ih]

theorem X_pmx_fixup_pair (parent_1 parent_2 : Chrom) (xp1 xp2 : Int) (fuel : Nat) :
    ∀ (k i : Nat) (c1 c2 c1' c2' : Chrom),
    X_pmx_fixup1 parent_1 xp1 xp2 fuel k i c1 = .ok c1' →
    X_pmx_fixup1 parent_2 xp1 xp2 fuel k i c2 = .ok c2' →
    X_pmx_fixup parent_1 parent_2 xp1 xp2 fuel k i c1 c2 = .ok (c1', c2') := by
  intro k
  induction k with
  | zero =>
    intro i c1 c2 c1' c2' h1 h2
    have h1' : Except.ok c1 = (Except.ok c1' : Except GAError Chrom) := h1
    have h2' : Except.ok c2 = (Except.ok c2' : Except GAError Chrom) := h2
    cases h1'
    cases h2'
    rfl
  | succ k ih =>
    intro i c1 c2 c1' c2' h1 h2
    rw [X_pmx_fixup1_succ] at h1 h2
    rw [X_pmx_fixup_succ]
    by_cases h : (i : Int) ≥ xp1 ∧ (i : Int) ≤ xp2
    · rw [if_pos h] at h1 h2 ⊢
      exact ih _ _ _ _ _ h1 h2
    · rw [if_neg h] at h1 h2 ⊢
      cases hp1 : X_pmx_fix parent_1 xp1 xp2 fuel i c1 with
      | error e => rw [hp1] at h1; cases h1
      | ok r1 =>
        cases hp2 : X_pmx_fix parent_2 xp1 xp2 fuel i c2 with
        | error e => rw [hp2] at h2; cases h2
        | ok r2 =>
          rw [hp1] at h1
          rw [hp2] at h2
          exact ih _ _ _ _ _ h1 h2

/-- One child of PMX: on the child that holds `outer` outside `[a, b]` and
`inner` inside, the fixup loop returns with any fuel of at least `n` and leaves
a valid permutation whose segment is still that of `inner`. -/
theorem pmx_child {n : Nat} {outer inner : Chrom} (hvo : validPerm n outer.gene)
    (hvi : validPerm n inner.gene) {a b : Nat} (hab : a ≤ b) (hbn : b < n) (child0 : Chrom)
    (hc0 : child0.length = n)
    (h0 : ∀ x, x < n → child0.g x = if a ≤ x ∧ x ≤ b then inner.g x else outer.g x)
    (fuel : Nat) (hfuel : n ≤ fuel) :
    ∃ child', X_pmx_fixup1 outer (a : Int) (b : Int) fuel n 0 child0 = .ok child' ∧
      child' = { child0 with gene := child'.gene } ∧
      (∀ x, a ≤ x → x ≤ b → child'.g x = inner.g x) ∧
      validPerm n child'.gene := by
  have hseg0 : ∀ x, a ≤ x → x ≤ b → child0.g x = inner.g x := by
    intro x h1 h2
    rw [h0 x (by omega), if_pos ⟨h1, h2⟩]
  obtain ⟨child', e1, e2, e3, e4, e5⟩ := X_pmx_fixup1_spec hvo hvi hab hbn fuel hfuel n 0 child0
    (by omega) hc0 hseg0 (fun x _ h2 h3 => by rw [h0 x h2, if_neg h3])
  have hseg : ∀ x, a ≤ x → x ≤ b → child'.g x = inner.g x := by
    intro x h1 h2
    rw [e4 x (Or.inr ⟨h1, h2⟩), hseg0 x h1 h2]
  refine ⟨child', e1, e3, hseg, ?_⟩
  apply validPerm_of_g e2
  · intro i hi
    by_cases hs : a ≤ i ∧ i ≤ b
    · rw [hseg i hs.1 hs.2]; exact hvi.g_range hi
    · obtain ⟨t, ht, e, _, _⟩ := e5 i (Nat.zero_le _) hi hs
      rw [e]; exact hvo.g_range ht
  · intro i j hi hj e
    by_cases hsi : a ≤ i ∧ i ≤ b
    · by_cases hsj : a ≤ j ∧ j ≤ b
      · rw [hseg i hsi.1 hsi.2, hseg j hsj.1 hsj.2] at e
        exact hvi.g_inj hi hj e
      · obtain ⟨t, _, et, hstop, _⟩ := e5 j (Nat.zero_le _) hj hsj
        rw [hseg i hsi.1 hsi.2, et] at e
        exact absurd e (hstop i hsi.1 hsi.2)
    · obtain ⟨t, ht, et, hstop, hback⟩ := e5 i (Nat.zero_le _) hi hsi
      by_cases hsj : a ≤ j ∧ j ≤ b
      · rw [hseg j hsj.1 hsj.2, et] at e
        exact absurd e.symm (hstop j hsj.1 hsj.2)
      · obtain ⟨t', ht', et', _, hback'⟩ := e5 j (Nat.zero_le _) hj hsj
        rw [et, et'] at e
        have := hvo.g_inj ht ht' e
        rw [← hback, ← hback', this]

/-- C2. PMX crossover: for valid permutation parents of length `n`, children
of `n` genes, two draws of `[0, n-1]` (sorted into the cut points by
`X_gen_2_xp`) and any fuel of at least `n` for the conflict-resolution loops,
the operator returns, and both children are valid permutations of `1..n`. -/
theorem X_pmx_valid (ga_info : GA_Info) (parent_1 parent_2 child_1 child_2 : Chrom)
    (n : Nat) (r1 r2 : Int) (rnd : List Int) (fuel : Nat)
    (hdt : ga_info.datatype = DataType.DT_INT_PERM)
    (hv1 : validPerm n parent_1.gene) (hv2 : validPerm n parent_2.gene)
    (hc1 : child_1.length = n) (hc2 : child_2.length = n)
    (hr1 : 0 ≤ r1 ∧ r1 ≤ (n : Int) - 1) (hr2 : 0 ≤ r2 ∧ r2 ≤ (n : Int) - 1)
    (hfuel : n ≤ fuel) :
    ∃ c1 c2, X_pmx ga_info parent_1 parent_2 child_1 child_2 (r1 :: r2 :: rnd) fuel
        = .ok (c1, c2) ∧
      validPerm n c1.gene ∧ validPerm n c2.gene := by
  have hl1 : parent_1.length = n := hv1.1
  have hl2 : parent_2.length = n := hv2.1
  obtain ⟨a, ha⟩ : ∃ a : Nat, min r1 r2 = (a : Int) :=
    ⟨(min r1 r2).toNat, (Int.toNat_of_nonneg (le_min hr1.1 hr2.1)).symm⟩
  obtain ⟨b, hb⟩ : ∃ b : Nat, max r1 r2 = (b : Int) :=
    ⟨(max r1 r2).toNat, (Int.toNat_of_nonneg (le_trans hr1.1 (le_max_left _ _))).symm⟩
  have hab : a ≤ b := by
    have : min r1 r2 ≤ max r1 r2 := le_trans (min_le_left _ _) (le_max_left _ _)
    omega
  have hbn : b < n := by
    have : max r1 r2 ≤ (n : Int) - 1 := max_le hr1.2 hr2.2
    omega
  have hcopy : ∀ (outer inner c : Chrom), c.length = n → ∀ x, x < n →
      (X_pmx_copy1 outer inner (a : Int) (b : Int) n 0 c).g x =
        if a ≤ x ∧ x ≤ b then inner.g x else outer.g x := by
    intro outer inner c hc x hx
    rw [X_pmx_copy1_g, if_pos ⟨Nat.zero_le _, by omega, by omega⟩]
  obtain ⟨c1, e1, _, _, v1⟩ := pmx_child hv1 hv2 hab hbn
    (X_pmx_copy1 parent_1 parent_2 (a : Int) (b : Int) n 0
      { child_1 with xp1 := (a : Int), xp2 := (b : Int) })
    (by rw [X_pmx_copy1_length]; exact hc1) (hcopy parent_1 parent_2 _ hc1) fuel hfuel
  obtain ⟨c2, e2, _, _, v2⟩ := pmx_child hv2 hv1 hab hbn
    (X_pmx_copy1 parent_2 parent_1 (a : Int) (b : Int) n 0
      { child_2 with xp1 := (a : Int), xp2 := (b : Int) })
    (by rw [X_pmx_copy1_length]; exact hc2) (hcopy parent_2 parent_1 _ hc2) fuel hfuel
  refine ⟨c1, c2, ?_, v1, v2⟩
  simp only [X_pmx, hdt, ne_eq, not_true_eq_false, if_false, hl1, hl2, X_gen_2_xp_plain, ha, hb,
    X_pmx_copy_eq]
  exact X_pmx_fixup_pair parent_1 parent_2 _ _ fuel n 0 _ _ c1 c2 e1 e2

/-- C2, at concrete parents of length 5 with the draws `3, 0`: the chain at
the last position goes through the whole segment. -/
theorem X_pmx_valid_witness :
    ∃ c1 c2, X_pmx CF_reset
        ⟨[1, 2, 3, 4, 5], 0, 0, -1, 0, 5, -1, -1, -1, -1⟩
        ⟨[2, 3, 4, 5, 1], 0, 0, -1, 0, 5, -1, -1, -1, -1⟩
        ⟨[0, 0, 0, 0, 0], 0, 0, -1, 0, 5, -1, -1, -1, -1⟩
        ⟨[0, 0, 0, 0, 0], 0, 0, -1, 0, 5, -1, -1, -1, -1⟩ [3, 0] 5 = .ok (c1, c2) ∧
      validPerm 5 c1.gene ∧ validPerm 5 c2.gene :=
  X_pmx_valid CF_reset
    ⟨[1, 2, 3, 4, 5], 0, 0, -1, 0, 5, -1, -1, -1, -1⟩
    ⟨[2, 3, 4, 5, 1], 0, 0, -1, 0, 5, -1, -1, -1, -1⟩
    ⟨[0, 0, 0, 0, 0], 0, 0, -1, 0, 5, -1, -1, -1, -1⟩
    ⟨[0, 0, 0, 0, 0], 0, 0, -1, 0, 5, -1, -1, -1, -1⟩ 5 3 0 [] 5
    rfl (by decide!) (by decide!) rfl rfl (by decide) (by decide) (le_refl _)

/-- C16. `CH_cmp a b` is `-1` exactly when `a` is better, `1` exactly when `b`
is better and `0` exactly when the fitness values are equal, where better means
lower fitness when minimizing and higher fitness when maximizing; so
`CH_cmp a b = - CH_cmp b a`, "is better than" is irreflexive and transitive,
and "compares equal" is transitive. -/
theorem CH_cmp_spec (ga_info : GA_Info) (a b : Chrom) :
    (CH_cmp ga_info a b = -1 ↔ isBetter ga_info a b) ∧
    (CH_cmp ga_info a b = 1 ↔ isBetter ga_info b a) ∧
    (CH_cmp ga_info a b = 0 ↔ a.fitness = b.fitness) ∧
    CH_cmp ga_info a b = - CH_cmp ga_info b a ∧
    ¬ isBetter ga_info a a ∧
    (∀ c, isBetter ga_info a b → isBetter ga_info b c → isBetter ga_info a c) ∧
    (∀ c, CH_cmp ga_info a b = 0 → CH_cmp ga_info b c = 0 → CH_cmp ga_info a c = 0) := by
  have key : ∀ x y : Chrom, CH_cmp ga_info x y = 0 ↔ x.fitness = y.fitness := by
    intro x y
    unfold CH_cmp
    cases ga_info.minimize <;>
      rcases lt_trichotomy x.fitness y.fitness with h | h | h <;>
      first
        | (have h1 := lt_asymm h; have h2 := h.ne; have h3 := h.ne'; simp [h, h1, h2, h3])
        | simp [h]
  refine ⟨?_, ?_, key a b, ?_, ?_, ?_, ?_⟩
  · unfold CH_cmp isBetter
    cases ga_info.minimize <;>
      rcases lt_trichotomy a.fitness b.fitness with h | h | h <;>
      first
        | (have h1 := lt_asymm h; have h2 := h.ne; have h3 := h.ne'; simp [h, h1, h2, h3])
        | simp [h]
  · unfold CH_cmp isBetter
    cases ga_info.minimize <;>
      rcases lt_trichotomy a.fitness b.fitness with h | h | h <;>
      first
        | (have h1 := lt_asymm h; have h2 := h.ne; have h3 := h.ne'; simp [h, h1, h2, h3])
        | simp [h]
  · unfold CH_cmp
    cases ga_info.minimize <;>
      rcases lt_trichotomy a.fitness b.fitness with h | h | h <;>
      first
        | (have h1 := lt_asymm h; have h2 := h.ne; have h3 := h.ne'; simp [h, h1, h2, h3])
        | simp [h]
  · unfold isBetter
    cases ga_info.minimize <;> simp
  · intro c
    unfold isBetter
    cases ga_info.minimize
    · simp only [Bool.false_eq_true, if_false]
      exact fun h1 h2 => lt_trans h2 h1
    · simp only [if_true]
      exact fun h1 h2 => lt_trans h1 h2
  · intro c h1 h2
    rw [key] at h1 h2 ⊢
    rw [h1, h2]

/-- C16, at two concrete chromosomes under the default (minimizing)
configuration. -/
theorem CH_cmp_spec_witness :
    CH_cmp CF_reset ⟨[1], 1, 0, -1, 0, 1, -1, -1, -1, -1⟩ ⟨[1], 2, 0, -1, 0, 1, -1, -1, -1, -1⟩
      = -1 :=
  (CH_cmp_spec CF_reset ⟨[1], 1, 0, -1, 0, 1, -1, -1, -1, -1⟩
    ⟨[1], 2, 0, -1, 0, 1, -1, -1, -1, -1⟩).1.2 (by decide!)

theorem CH_reset_length (chrom : Chrom) : (CH_reset chrom).length = chrom.length := by
  simp [CH_reset, Chrom.length]

theorem CH_resize_length (chrom : Chrom) (n : Nat) (hn : 1 ≤ n) :
    ∃ c, CH_resize chrom (n : Int) = .ok c ∧ c.length = n := by
  have h : ¬ ((n : Int) ≤ 0) := by omega
  refine ⟨_, by unfold CH_resize; rw [if_neg h], ?_⟩
  rw [CH_reset_length]
  simp only [Chrom.length, Int.toNat_ofNat, List.length_append, List.length_take,
    List.length_replicate]
  omega

/-- C17. For a source of length at least 1 and any destination, `CH_copy`
succeeds and the new destination is the source itself: same length, same gene
sequence, same bookkeeping fields, and `CH_cmp` of the two is 0 under both
`minimize` settings.  The source is a value that the copy does not touch. -/
theorem CH_copy_spec (ga_info : GA_Info) (src dst : Chrom) (hlen : 1 ≤ src.length) :
    ∃ dst', CH_copy src dst = .ok dst' ∧
      dst'.length = src.length ∧ dst'.gene = src.gene ∧ dst' = src ∧
      CH_cmp { ga_info with minimize := true } src dst' = 0 ∧
      CH_cmp { ga_info with minimize := false } src dst' = 0 := by
  have hres : ∃ d, (if dst.length ≠ src.length then CH_resize dst (src.length : Int) else .ok dst)
      = .ok d ∧ d.length = src.length := by
    by_cases h : dst.length ≠ src.length
    · rw [if_pos h]; exact CH_resize_length dst src.length hlen
    · rw [if_neg h]; exact ⟨dst, rfl, not_not.1 h⟩
  obtain ⟨d, hd, hdl⟩ := hres
  have hg : src.gene.take src.length ++ d.gene.drop src.length = src.gene := by
    have h1 : d.gene.drop src.length = [] := by
      apply List.drop_eq_nil_of_le
      unfold Chrom.length at hdl ⊢
      omega
    rw [h1, List.append_nil]
    exact List.take_of_length_le (le_refl _)
  refine ⟨src, ?_, rfl, rfl, rfl, ?_, ?_⟩
  · unfold CH_copy
    rw [hd]
    simp only [hg]
  · simp [CH_cmp]
  · simp [CH_cmp]

/-- C17, at a source of length 3 and a destination of length 1. -/
theorem CH_copy_spec_witness :
    ∃ dst', CH_copy ⟨[1, 2, 3], 7, 1, 2, 0, 3, 4, 5, 6, 7⟩ ⟨[9], 1, 0, -1, 0, 1, -1, -1, -1, -1⟩
        = .ok dst' ∧
      dst'.length = 3 ∧ dst'.gene = [1, 2, 3] ∧
      dst' = ⟨[1, 2, 3], 7, 1, 2, 0, 3, 4, 5, 6, 7⟩ ∧
      CH_cmp { CF_reset with minimize := true } ⟨[1, 2, 3], 7, 1, 2, 0, 3, 4, 5, 6, 7⟩ dst' = 0 ∧
      CH_cmp { CF_reset with minimize := false } ⟨[1, 2, 3], 7, 1, 2, 0, 3, 4, 5, 6, 7⟩ dst' = 0 :=
  CH_copy_spec CF_reset ⟨[1, 2, 3], 7, 1, 2, 0, 3, 4, 5, 6, 7⟩
    ⟨[9], 1, 0, -1, 0, 1, -1, -1, -1, -1⟩ (by decide)

/-- C18. `CH_alloc` fails exactly when `length <= 0`; for a positive length it
returns a chromosome of that length whose genes are all 0, with `fitness = 0`,
`ptf = 0`, `index = -1`, `idx_min = 0`, `idx_max = length`, and the parents and
crossover points at `-1`. -/
theorem CH_alloc_spec (length : Int) :
    ((∃ e, CH_alloc length = .error e) ↔ length ≤ 0) ∧
    CH_alloc 0 = .error .badLength ∧ CH_alloc (-1) = .error .badLength ∧
    (0 < length →
      ∃ c, CH_alloc length = .ok c ∧ (c.length : Int) = length ∧
        c.gene = List.replicate length.toNat 0 ∧ (∀ x, x ∈ c.gene → x = 0) ∧
        c.fitness = 0 ∧ c.ptf = 0 ∧ c.index = -1 ∧ c.idx_min = 0 ∧ c.idx_max = length ∧
        c.parent_1 = -1 ∧ c.parent_2 = -1 ∧ c.xp1 = -1 ∧ c.xp2 = -1) := by
  refine ⟨?_, by simp [CH_alloc], by simp [CH_alloc], ?_⟩
  · by_cases h : length ≤ 0
    · simp [CH_alloc, h]
    · simp [CH_alloc, h]
  · intro h
    have h' : ¬ (length ≤ 0) := by omega
    refine ⟨_, by unfold CH_alloc; rw [if_neg h'], ?_⟩
    have hl : ((List.replicate length.toNat (0 : Gene)).length : Int) = length := by
      rw [List.length_replicate]; omega
    refine ⟨?_, ?_, ?_, rfl, rfl, rfl, rfl, hl, rfl, rfl, rfl, rfl⟩
    · rw [CH_reset_length]; exact hl
    · simp [CH_reset, Chrom.length]
    · intro x hx
      simp only [CH_reset] at hx
      exact (List.mem_replicate.1 hx).2

/-- C18, at length 3. -/
theorem CH_alloc_spec_witness :
    ∃ c, CH_alloc 3 = .ok c ∧ c.gene = [0, 0, 0] ∧ c.idx_max = 3 ∧ c.index = -1 := by
  obtain ⟨c, h1, _, h3, _, _, _, h7, _, h9, _⟩ := (CH_alloc_spec 3).2.2.2 (by decide)
  exact ⟨c, h1, h3, h9, h7⟩

/-- What the resampling loop returns: a value that passes the test, taken from
the current value or the draws, and the draws left are among those given. -/
theorem X_gen_redraw_sound (lo hi : Int) (bad : Int → Bool) :
    ∀ (rnd : List Int) (x y : Int) (rnd' : List Int),
      X_gen_redraw lo hi bad x rnd = .ok (y, rnd') →
      bad y = false ∧ y ∈ x :: rnd ∧ ∀ r, r ∈ rnd' → r ∈ rnd := by
  intro rnd
  induction rnd with
  | nil =>
    intro x y rnd' h
    by_cases hx : bad x = true
    · simp [X_gen_redraw, hx, X_gen_xp, RAND_DOM] at h
    · simp only [X_gen_redraw, hx, Bool.false_eq_true, if_false, Except.ok.injEq,
        Prod.mk.injEq] at h
      obtain ⟨rfl, rfl⟩ := h
      exact ⟨by simpa using hx, by simp, fun r hr => hr⟩
  | cons r rnd ih =>
    intro x y rnd' h
    by_cases hx : bad x = true
    · simp only [X_gen_redraw, hx, if_true] at h
      obtain ⟨h1, h2, h3⟩ := ih r y rnd' h
      exact ⟨h1, List.mem_cons_of_mem _ h2, fun q hq => List.mem_cons_of_mem _ (h3 q hq)⟩
    · simp only [X_gen_redraw, hx, Bool.false_eq_true, if_false, Except.ok.injEq,
        Prod.mk.injEq] at h
      obtain ⟨rfl, rfl⟩ := h
      exact ⟨by simpa using hx, by simp, fun r hr => hr⟩

/-- The five compare-and-swap steps of `X_gen_4_xp` return the four values
they are given, in some order. -/
theorem sort4_cases (a b c d x1 x2 x3 x4 : Int) (P : Int → Prop)
    (h : (match (if a > b then (b, a) else (a, b)) with
      | (xp1, xp2) =>
        match (if c > d then (d, c) else (c, d)) with
        | (xp3, xp4) =>
          match (if xp2 > xp3 then (xp3, xp2) else (xp2, xp3)) with
          | (xp2, xp3) =>
            match (if xp1 > xp2 then (xp2, xp1) else (xp1, xp2)) with
            | (xp1, xp2) =>
              match (if xp3 > xp4 then (xp4, xp3) else (xp3, xp4)) with
              | (xp3, xp4) => (xp1, xp2, xp3, xp4)) = (x1, x2, x3, x4))
    (hd : a ≠ b ∧ a ≠ c ∧ a ≠ d ∧ b ≠ c ∧ b ≠ d ∧ c ≠ d)
    (ha : P a) (hb : P b) (hc : P c) (hdd : P d) :
    (x1 ≠ x2 ∧ x1 ≠ x3 ∧ x1 ≠ x4 ∧ x2 ≠ x3 ∧ x2 ≠ x4 ∧ x3 ≠ x4) ∧ P x1 ∧ P x2 ∧ P x3 ∧ P x4 := by
  obtain ⟨d1, d2, d3, d4, d5, d6⟩ := hd
  by_cases h1 : a > b <;> by_cases h2 : c > d <;>
    simp only [h1, h2, if_true, if_false] at h
  all_goals
    split_ifs at h <;>
      simp only [Prod.mk.injEq] at h <;>
      obtain ⟨rfl, rfl, rfl, rfl⟩ := h <;>
      exact ⟨⟨by omega, by omega, by omega, by omega, by omega, by omega⟩, by assumption,
        by assumption, by assumption, by assumption⟩

/-- C19. In unique mode, for a range `[idx_min, idx_max-1]` of at least four
positions and draws of that range, whenever `X_gen_4_xp` returns (the
resampling loops have found their values among the draws), the four points are
pairwise distinct and each lies in `[idx_min, idx_max-1]`. -/
theorem X_gen_4_xp_unique (idx_min idx_max : Int) (rnd rnd' : List Int)
    (xp1 xp2 xp3 xp4 : Int) (_hrange : idx_min + 4 ≤ idx_max)
    (hrnd : ∀ r, r ∈ rnd → idx_min ≤ r ∧ r ≤ idx_max - 1)
    (hgen : X_gen_4_xp true idx_min idx_max rnd = .ok (xp1, xp2, xp3, xp4, rnd')) :
    (xp1 ≠ xp2 ∧ xp1 ≠ xp3 ∧ xp1 ≠ xp4 ∧ xp2 ≠ xp3 ∧ xp2 ≠ xp4 ∧ xp3 ≠ xp4) ∧
    (idx_min ≤ xp1 ∧ xp1 ≤ idx_max - 1) ∧ (idx_min ≤ xp2 ∧ xp2 ≤ idx_max - 1) ∧
    (idx_min ≤ xp3 ∧ xp3 ≤ idx_max - 1) ∧ (idx_min ≤ xp4 ∧ xp4 ≤ idx_max - 1) := by
  rcases rnd with _ | ⟨r1, _ | ⟨r2, _ | ⟨r3, _ | ⟨r4, rnd0⟩⟩⟩⟩
  · simp [X_gen_4_xp] at hgen
  · simp [X_gen_4_xp] at hgen
  · simp [X_gen_4_xp] at hgen
  · simp [X_gen_4_xp] at hgen
  simp only [X_gen_4_xp, if_true] at hgen
  cases h2 : X_gen_redraw idx_min idx_max (fun x => x == r1) r2 rnd0 with
  | error e => rw [h2] at hgen; cases hgen
  | ok p2 =>
    obtain ⟨y2, rnd1⟩ := p2
    rw [h2] at hgen
    simp only at hgen
    cases h3 : X_gen_redraw idx_min idx_max (fun x => x == r1 || x == y2) r3 rnd1 with
    | error e => rw [h3] at hgen; cases hgen
    | ok p3 =>
      obtain ⟨y3, rnd2⟩ := p3
      rw [h3] at hgen
      simp only at hgen
      cases h4 : X_gen_redraw idx_min idx_max (fun x => x == r1 || x == y2 || x == y3) r4 rnd2
        with
      | error e => rw [h4] at hgen; cases hgen
      | ok p4 =>
        obtain ⟨y4, rnd3⟩ := p4
        rw [h4] at hgen
        simp only [Except.ok.injEq] at hgen
        obtain ⟨b2, m2, s2⟩ := X_gen_redraw_sound _ _ _ _ _ _ _ h2
        obtain ⟨b3, m3, s3⟩ := X_gen_redraw_sound _ _ _ _ _ _ _ h3
        obtain ⟨b4, m4, _⟩ := X_gen_redraw_sound _ _ _ _ _ _ _ h4
        simp only [Bool.or_eq_false_iff, beq_eq_false_iff_ne, ne_eq] at b2 b3 b4
        have hr0 : ∀ r, r ∈ rnd0 → idx_min ≤ r ∧ r ≤ idx_max - 1 :=
          fun r hr => hrnd r (by simp [hr])
        have hr1 : ∀ r, r ∈ rnd1 → idx_min ≤ r ∧ r ≤ idx_max - 1 := fun r hr => hr0 r (s2 r hr)
        have hr2 : ∀ r, r ∈ rnd2 → idx_min ≤ r ∧ r ≤ idx_max - 1 := fun r hr => hr1 r (s3 r hr)
        have p1 : idx_min ≤ r1 ∧ r1 ≤ idx_max - 1 := hrnd r1 (by simp)
        have p2 : idx_min ≤ y2 ∧ y2 ≤ idx_max - 1 := by
          rcases List.mem_cons.1 m2 with e | e
          · rw [e]; exact hrnd r2 (by simp)
          · exact hr0 _ e
        have p3 : idx_min ≤ y3 ∧ y3 ≤ idx_max - 1 := by
          rcases List.mem_cons.1 m3 with e | e
          · rw [e]; exact hrnd r3 (by simp)
          · exact hr1 _ e
        have p4 : idx_min ≤ y4 ∧ y4 ≤ idx_max - 1 := by
          rcases List.mem_cons.1 m4 with e | e
          · rw [e]; exact hrnd r4 (by simp)
          · exact hr2 _ e
        have hq := sort4_cases r1 y2 y3 y4 xp1 xp2 xp3 xp4
          (fun x => idx_min ≤ x ∧ x ≤ idx_max - 1)
          (by
            have := congrArg (fun t : Int × Int × Int × Int × List Int =>
              (t.1, t.2.1, t.2.2.1, t.2.2.2.1)) hgen
            simpa using this)
          ⟨fun e => b2 e.symm, fun e => b3.1 e.symm, fun e => b4.1.1 e.symm,
            fun e => b3.2 e.symm, fun e => b4.1.2 e.symm, fun e => b4.2 e.symm⟩ p1 p2 p3 p4
        exact hq

/-- C19, at the range `[0, 4]` and the draws `3, 3, 3, 3, 1, 3, 0, 1, 4`: the
loops redraw five times. -/
theorem X_gen_4_xp_unique_witness :
    ((0 : Int) ≠ 1 ∧ (0 : Int) ≠ 3 ∧ (0 : Int) ≠ 4 ∧ (1 : Int) ≠ 3 ∧ (1 : Int) ≠ 4 ∧
      (3 : Int) ≠ 4) ∧
    ((0 : Int) ≤ 0 ∧ (0 : Int) ≤ 5 - 1) ∧ ((0 : Int) ≤ 1 ∧ (1 : Int) ≤ 5 - 1) ∧
    ((0 : Int) ≤ 3 ∧ (3 : Int) ≤ 5 - 1) ∧ ((0 : Int) ≤ 4 ∧ (4 : Int) ≤ 5 - 1) :=
  X_gen_4_xp_unique 0 5 [3, 3, 3, 3, 1, 3, 0, 1, 4] [] 0 1 3 4 (by decide)
    (by decide) (by decide)

/-- C20 (amended). The eight two-parent operators stop with the error of
heterozygous parents, giving no children, whenever the parents differ in
length and the datatype is one that the operator accepts: any but the
permutation datatype for `X_simple` and `X_uniform`, the permutation datatype
for `X_order1`, `X_order2`, `X_pos`, `X_cycle`, `X_pmx` and `X_uox`. -/
theorem X_heterozygous (ga_info : GA_Info) (parent_1 parent_2 child_1 child_2 : Chrom)
    (rnd : List Int) (bits : List Bool) (fuel : Nat)
    (hlen : parent_1.length ≠ parent_2.length) :
    (ga_info.datatype ≠ DataType.DT_INT_PERM →
      X_simple ga_info parent_1 parent_2 child_1 child_2 rnd = .error .heterozygous ∧
      X_uniform ga_info parent_1 parent_2 child_1 child_2 bits = .error .heterozygous) ∧
    (ga_info.datatype = DataType.DT_INT_PERM →
      X_order1 ga_info parent_1 parent_2 child_1 child_2 rnd fuel = .error .heterozygous ∧
      X_order2 ga_info parent_1 parent_2 child_1 child_2 rnd = .error .heterozygous ∧
      X_pos ga_info parent_1 parent_2 child_1 child_2 rnd fuel = .error .heterozygous ∧
      X_cycle ga_info parent_1 parent_2 child_1 child_2 rnd fuel = .error .heterozygous ∧
      X_pmx ga_info parent_1 parent_2 child_1 child_2 rnd fuel = .error .heterozygous ∧
      X_uox ga_info parent_1 parent_2 child_1 child_2 bits fuel = .error .heterozygous) := by
  constructor
  · intro hdt
    constructor
    · unfold X_simple; rw [if_neg hdt, if_pos hlen]
    · unfold X_uniform; rw [if_neg hdt, if_pos hlen]
  · intro hdt
    have hdt' : ¬ (ga_info.datatype ≠ DataType.DT_INT_PERM) := not_not.2 hdt
    refine ⟨?_, ?_, ?_, ?_, ?_, ?_⟩
    · unfold X_order1; rw [if_neg hdt', if_pos hlen]
    · unfold X_order2; rw [if_neg hdt', if_pos hlen]
    · unfold X_pos; rw [if_neg hdt', if_pos hlen]
    · unfold X_cycle; rw [if_neg hdt', if_pos hlen]
    · unfold X_pmx; rw [if_neg hdt', if_pos hlen]
    · unfold X_uox; rw [if_neg hdt', if_pos hlen]

/-- C20, at parents of lengths 3 and 2 under the permutation datatype. -/
theorem X_heterozygous_witness :
    X_order1 CF_reset ⟨[1, 2, 3], 0, 0, -1, 0, 3, -1, -1, -1, -1⟩
      ⟨[2, 1], 0, 0, -1, 0, 2, -1, -1, -1, -1⟩ ⟨[0, 0, 0], 0, 0, -1, 0, 3, -1, -1, -1, -1⟩
      ⟨[0, 0], 0, 0, -1, 0, 2, -1, -1, -1, -1⟩ [0, 1] 3 = .error .heterozygous :=
  ((X_heterozygous CF_reset ⟨[1, 2, 3], 0, 0, -1, 0, 3, -1, -1, -1, -1⟩
      ⟨[2, 1], 0, 0, -1, 0, 2, -1, -1, -1, -1⟩ ⟨[0, 0, 0], 0, 0, -1, 0, 3, -1, -1, -1, -1⟩
      ⟨[0, 0], 0, 0, -1, 0, 2, -1, -1, -1, -1⟩ [0, 1] [] 3 (by decide)).2 rfl).1

/-- C20, as stated, fails for the asexual operator: `X_asex` has no test on
the lengths of the parents and returns two children for parents of lengths 3
and 2. -/
theorem X_asex_accepts_heterozygous :
    Chrom.length ⟨[1, 2, 3], 0, 0, -1, 0, 3, -1, -1, -1, -1⟩ ≠
      Chrom.length ⟨[2, 1], 0, 0, -1, 0, 2, -1, -1, -1, -1⟩ ∧
    CF_reset.datatype = DataType.DT_INT_PERM ∧
    X_asex CF_reset ⟨[1, 2, 3], 0, 0, -1, 0, 3, -1, -1, -1, -1⟩
      ⟨[2, 1], 0, 0, -1, 0, 2, -1, -1, -1, -1⟩ ⟨[0, 0, 0], 0, 0, -1, 0, 3, -1, -1, -1, -1⟩
      ⟨[0, 0], 0, 0, -1, 0, 2, -1, -1, -1, -1⟩ [0, 2, 0, 1]
      = .ok (⟨[3, 2, 1], 0, 0, -1, 0, 3, -1, -1, 0, 2⟩, ⟨[1, 2], 0, 0, -1, 0, 2, -1, -1, 0, 1⟩) := by
  refine ⟨by decide, rfl, ?_⟩
  decide!

theorem Pool.setIndex_chrom_getElem? (pool : Pool) (i : Nat) (v : Int) (j : Nat) :
    ((pool.setIndex i v).chrom[j]?).map (fun c => c.fitness) =
      (pool.chrom[j]?).map (fun c => c.fitness) := by
  unfold Pool.setIndex
  cases h : pool.chrom[i]? with
  | none => rfl
  | some c =>
    simp only [List.getElem?_set]
    by_cases hij : i = j
    · subst hij
      rw [if_pos rfl]
      have hi : i < pool.chrom.length := by
        by_contra hc
        rw [List.getElem?_eq_none (by omega)] at h
        cases h
      rw [if_pos hi, h]
      rfl
    · rw [if_neg hij]

theorem Pool.fit_setIndex (pool : Pool) (i : Nat) (v : Int) (j : Nat) :
    (pool.setIndex i v).fit j = pool.fit j := by
  have h := Pool.setIndex_chrom_getElem? pool i v j
  unfold Pool.fit
  cases h1 : (pool.setIndex i v).chrom[j]? <;> cases h2 : pool.chrom[j]? <;>
    rw [h1, h2] at h <;> simp at h ⊢
  exact h

theorem Pool.fits_setIndex (pool : Pool) (i : Nat) (v : Int) :
    (pool.setIndex i v).fits = pool.fits := by
  apply List.ext_getElem?
  intro j
  unfold Pool.fits
  rw [List.getElem?_map, List.getElem?_map]
  exact Pool.setIndex_chrom_getElem? pool i v j

theorem Pool.size_setIndex (pool : Pool) (i : Nat) (v : Int) :
    (pool.setIndex i v).size = pool.size := by
  have h := congrArg List.length (Pool.fits_setIndex pool i v)
  simpa [Pool.fits, Pool.size] using h

theorem Pool.setIndex_frame (pool : Pool) (i : Nat) (v : Int) :
    pool.setIndex i v = { pool with chrom := (pool.setIndex i v).chrom } := by
  unfold Pool.setIndex
  cases h : pool.chrom[i]? <;> rfl

theorem Pool.frame_trans (pool q L : Pool) (hq : q = { pool with chrom := q.chrom })
    (hl : L = { q with chrom := L.chrom }) : L = { pool with chrom := L.chrom } := by
  cases q; cases L; cases pool
  simp only [Pool.mk.injEq] at hq hl ⊢
  simp_all

theorem Pool.fits_eq_range (pool : Pool) : pool.fits = (List.range pool.size).map pool.fit := by
  apply List.ext_getElem?
  intro j
  unfold Pool.fits Pool.size
  rw [List.getElem?_map, List.getElem?_map]
  by_cases hj : j < pool.chrom.length
  · rw [List.getElem?_range hj]
    simp only [Option.map_some', Pool.fit]
    rw [List.getElem?_eq_getElem hj]
    rfl
  · rw [List.getElem?_eq_none (by omega), List.getElem?_eq_none (by simp; omega)]
    rfl

theorem PL_stats_loop_succ (k i : Nat) (pool : Pool) (s : StatsAcc) :
    PL_stats_loop (k + 1) i pool s =
      PL_stats_loop k (i + 1) (pool.setIndex i i)
        { min := (if pool.fit i < s.min then (pool.fit i, i) else (s.min, s.min_index)).1,
          max := (if pool.fit i > s.max then (pool.fit i, i) else (s.max, s.max_index)).1,
          total := s.total + pool.fit i,
          var := s.var + toFloat (pool.fit i) * toFloat (pool.fit i),
          min_index := (if pool.fit i < s.min then (pool.fit i, i) else (s.min, s.min_index)).2,
          max_index := (if pool.fit i > s.max then (pool.fit i, i) else (s.max, s.max_index)).2,
          no_variance :=
            if i ≠ 0 ∧ s.no_variance ∧ pool.fit i ≠ pool.fit (i - 1) then false
            else s.no_variance,
          sorted :=
            if i ≠ 0 then
              (if s.sorted ∧ pool.minimize then
                 (if pool.fit i < pool.fit (i - 1) then false else s.sorted)
               else if s.sorted then
                 (if pool.fit i > pool.fit (i - 1) then false else s.sorted)
               else s.sorted)
            else s.sorted } := rfl

/-- The main loop of `PL_stats` keeps its invariant and leaves the pool as it
was but for the `index` fields. -/
theorem PL_stats_loop_inv (fit : Nat → ℚ) (n : Nat) :
    ∀ (k i : Nat) (pool : Pool) (s : StatsAcc), i + k = n → pool.size = n →
      (∀ j, pool.fit j = fit j) → StatsInv fit n i s →
      StatsInv fit n n (PL_stats_loop k i pool s).2 ∧
      (PL_stats_loop k i pool s).1.fits = pool.fits ∧
      (PL_stats_loop k i pool s).1 =
        { pool with chrom := (PL_stats_loop k i pool s).1.chrom } := by
  intro k
  induction k with
  | zero =>
    intro i pool s hik _ _ hinv
    have : i = n := by omega
    subst this
    exact ⟨hinv, rfl, rfl⟩
  | succ k ih =>
    intro i pool s hik hsize hfit hinv
    rw [PL_stats_loop_succ]
    obtain ⟨m1, m2, m3, x1, x2, x3, ht, hv, hnv⟩ := hinv
    have hin : i < n := by omega
    have hstep := ih (i + 1) (pool.setIndex i i)
      { min := (if pool.fit i < s.min then (pool.fit i, i) else (s.min, s.min_index)).1,
        max := (if pool.fit i > s.max then (pool.fit i, i) else (s.max, s.max_index)).1,
        total := s.total + pool.fit i,
        var := s.var + toFloat (pool.fit i) * toFloat (pool.fit i),
        min_index := (if pool.fit i < s.min then (pool.fit i, i) else (s.min, s.min_index)).2,
        max_index := (if pool.fit i > s.max then (pool.fit i, i) else (s.max, s.max_index)).2,
        no_variance :=
          if i ≠ 0 ∧ s.no_variance ∧ pool.fit i ≠ pool.fit (i - 1) then false
          else s.no_variance,
        sorted :=
          if i ≠ 0 then
            (if s.sorted ∧ pool.minimize then
               (if pool.fit i < pool.fit (i - 1) then false else s.sorted)
             else if s.sorted then
               (if pool.fit i > pool.fit (i - 1) then false else s.sorted)
             else s.sorted)
          else s.sorted }
      (by omega) (by rw [Pool.size_setIndex]; exact hsize)
      (fun j => by rw [Pool.fit_setIndex]; exact hfit j) ?_
    · obtain ⟨h1, h2, h3⟩ := hstep
      refine ⟨h1, by rw [h2, Pool.fits_setIndex], ?_⟩
      exact Pool.frame_trans _ _ _ (Pool.setIndex_frame pool i i) h3
    · simp only [hfit]
      refine ⟨?_, ?_, ?_, ?_, ?_, ?_, ?_, ?_, ?_⟩
      · by_cases h : fit i < s.min
        · simp only [if_pos h]
        · simp only [if_neg h]; exact m1
      · by_cases h : fit i < s.min
        · simp only [if_pos h]; exact hin
        · simp only [if_neg h]; exact m2
      · intro j hj
        by_cases h : fit i < s.min
        · simp only [if_pos h]
          rcases Nat.lt_succ_iff_lt_or_eq.1 hj with e | e
          · exact le_trans (le_of_lt h) (m3 j e)
          · rw [e]
        · simp only [if_neg h]
          rcases Nat.lt_succ_iff_lt_or_eq.1 hj with e | e
          · exact m3 j e
          · rw [e]; exact not_lt.1 h
      · by_cases h : fit i > s.max
        · simp only [if_pos h]
        · simp only [if_neg h]; exact x1
      · by_cases h : fit i > s.max
        · simp only [if_pos h]; exact hin
        · simp only [if_neg h]; exact x2
      · intro j hj
        by_cases h : fit i > s.max
        · simp only [if_pos h]
          rcases Nat.lt_succ_iff_lt_or_eq.1 hj with e | e
          · exact le_trans (x3 j e) (le_of_lt h)
          · rw [e]
        · simp only [if_neg h]
          rcases Nat.lt_succ_iff_lt_or_eq.1 hj with e | e
          · exact x3 j e
          · rw [e]; exact not_lt.1 h
      · rw [List.range_succ, List.map_append, List.sum_append, ht]
        simp
      · rw [List.range_succ, List.map_append, List.sum_append, hv]
        simp
      · by_cases hc : i ≠ 0 ∧ s.no_variance = true ∧ fit i ≠ fit (i - 1)
        · rw [if_pos hc]
          simp only [Bool.false_eq_true, false_iff]
          intro hall
          exact hc.2.2 (hall i (Nat.pos_of_ne_zero hc.1) (Nat.lt_succ_self i))
        · rw [if_neg hc, hnv]
          constructor
          · intro hall j hj0 hj
            rcases Nat.lt_succ_iff_lt_or_eq.1 hj with e | e
            · exact hall j hj0 e
            · subst e
              by_contra hne
              exact hc ⟨by omega, hnv.2 hall, hne⟩
          · intro hall j hj0 hj
            exact hall j hj0 (Nat.lt_succ_of_lt hj)

/-- The starting state of the main loop of `PL_stats` satisfies the
invariant. -/
theorem StatsInv_init (fit : Nat → ℚ) (n : Nat) (hn : 0 < n) :
    StatsInv fit n 0
      { min := fit 0, max := fit 0, total := 0, var := 0, min_index := 0, max_index := 0,
        no_variance := true, sorted := true } := by
  refine ⟨rfl, hn, ?_, rfl, hn, ?_, rfl, rfl, ?_⟩
  · intro j hj; omega
  · intro j hj; omega
  · simp only [true_iff]
    intro j _ hj; omega

theorem Pool.fit_eq_fits (p : Pool) (j : Nat) : p.fit j = (p.fits[j]?).getD 0 := by
  unfold Pool.fit Pool.fits
  rw [List.getElem?_map]
  cases p.chrom[j]? <;> rfl

theorem Pool.fit_congr {p q : Pool} (h : p.fits = q.fits) (j : Nat) : p.fit j = q.fit j := by
  rw [Pool.fit_eq_fits, Pool.fit_eq_fits, h]

theorem Pool.size_congr {p q : Pool} (h : p.fits = q.fits) : p.size = q.size := by
  have := congrArg List.length h
  simpa [Pool.fits, Pool.size] using this

/-- The general path of `PL_stats` (two chromosomes or more): the result in
terms of the final state `s` of the main loop. -/
theorem PL_stats_general (sqrt : ℚ → ℚ) (ga_info : GA_Info) (pool : Pool)
    (h : 2 ≤ pool.size) :
    ∃ (p1 : Pool) (s : StatsAcc),
      StatsInv pool.fit pool.size pool.size s ∧ p1.fits = pool.fits ∧
      p1 = { pool with chrom := p1.chrom } ∧
      PL_stats sqrt ga_info pool =
        (if s.no_variance = true ∨
            (s.var - s.total / (pool.size : ℚ) * s.total) / ((pool.size : ℚ) - 1) ≤ 0 then
          ({ ga_info with converged := true },
           { p1 with min := s.min, max := s.max, ave := s.total / (pool.size : ℚ),
                     min_index := s.min_index, max_index := s.max_index,
                     best_index := if pool.minimize then s.min_index else s.max_index,
                     total_fitness := s.total, var := 0, dev := 0 })
        else
          ({ ga_info with converged := false },
           { p1 with min := s.min, max := s.max, ave := s.total / (pool.size : ℚ),
                     min_index := s.min_index, max_index := s.max_index,
                     best_index := if pool.minimize then s.min_index else s.max_index,
                     total_fitness := s.total,
                     var := (s.var - s.total / (pool.size : ℚ) * s.total) / ((pool.size : ℚ) - 1),
                     dev := sqrt ((s.var - s.total / (pool.size : ℚ) * s.total) /
                       ((pool.size : ℚ) - 1)) })) := by
  have hinv := PL_stats_loop_inv pool.fit pool.size pool.size 0 pool
    { min := pool.fit 0, max := pool.fit 0, total := 0, var := 0, min_index := 0,
      max_index := 0, no_variance := true, sorted := true }
    (by omega) rfl (fun _ => rfl) (StatsInv_init pool.fit pool.size (by omega))
  have h0 : ¬ ((pool.size : Int) ≤ 0) := by omega
  have h1 : ¬ (pool.size = 1) := by omega
  unfold PL_stats
  rw [if_neg h0, if_neg h1]
  generalize PL_stats_loop pool.size 0 pool
    { min := pool.fit 0, max := pool.fit 0, total := 0, var := 0, min_index := 0,
      max_index := 0, no_variance := true, sorted := true } = r at hinv ⊢
  obtain ⟨p1, s⟩ := r
  obtain ⟨i1, i2, i3⟩ := hinv
  simp only at i1 i2 i3
  refine ⟨p1, s, i1, i2, i3, ?_⟩
  have hs : p1.size = pool.size := Pool.size_congr i2
  have hm : p1.minimize = pool.minimize := by rw [i3]
  simp only [Pool.size] at hs ⊢
  simp only [hs, hm]

/-- C11. For a pool of two chromosomes or more whose fitness values are all
the same, `PL_stats` sets `converged` to true, whatever it was; on a pool of
one chromosome it leaves `converged` as it was. -/
theorem PL_stats_equal_fitness (sqrt : ℚ → ℚ) (ga_info : GA_Info) (pool : Pool)
    (hall : ∀ i j, i < pool.size → j < pool.size → pool.fit i = pool.fit j) :
    (2 ≤ pool.size → (PL_stats sqrt ga_info pool).1.converged = true) ∧
    (pool.size = 1 → (PL_stats sqrt ga_info pool).1.converged = ga_info.converged) := by
  constructor
  · intro h
    obtain ⟨p1, s, hinv, _, _, heq⟩ := PL_stats_general sqrt ga_info pool h
    have hnv : s.no_variance = true :=
      hinv.2.2.2.2.2.2.2.2.2 (fun j _ hj => hall j (j - 1) hj (by omega))
    rw [heq, if_pos (Or.inl hnv)]
  · intro h
    have h0 : ¬ ((pool.size : Int) ≤ 0) := by omega
    unfold PL_stats
    rw [if_neg h0, if_pos h]

/-- C11, at a pool of two chromosomes of fitness 3 with `converged` false
before the call. -/
theorem PL_stats_equal_fitness_witness :
    (PL_stats (fun x => x) { CF_reset with converged := false }
      ⟨[⟨[1], 3, 0, -1, 0, 1, -1, -1, -1, -1⟩, ⟨[1], 3, 0, -1, 0, 1, -1, -1, -1, -1⟩],
        0, 0, 0, 0, 0, 0, -1, -1, -1, true, false⟩).1.converged = true :=
  (PL_stats_equal_fitness (fun x => x) { CF_reset with converged := false }
    ⟨[⟨[1], 3, 0, -1, 0, 1, -1, -1, -1, -1⟩, ⟨[1], 3, 0, -1, 0, 1, -1, -1, -1, -1⟩],
      0, 0, 0, 0, 0, 0, -1, -1, -1, true, false⟩
    (by
      intro i j hi hj
      have hi' : i < 2 := hi
      have hj' : j < 2 := hj
      interval_cases i <;> interval_cases j <;> rfl)).1 (by decide)

/-- The scaling loop of `PL_update_ptf`: the scale factor does not decrease,
it makes every scaled fitness positive, `all_positive` says whether every raw
fitness is positive, and a raw fitness that is not positive leaves a positive
scale factor when the starting one is not negative. -/
theorem PL_update_ptf_scale_spec : ∀ (cs : List Chrom) (sf : ℚ) (ch ap : Bool),
    sf ≤ (PL_update_ptf_scale cs (sf, ch, ap)).1 ∧
    (∀ c, c ∈ cs → 0 < c.fitness + (PL_update_ptf_scale cs (sf, ch, ap)).1) ∧
    ((PL_update_ptf_scale cs (sf, ch, ap)).2.2 = true ↔
      ap = true ∧ ∀ c, c ∈ cs → 0 < c.fitness) ∧
    ((∃ c, c ∈ cs ∧ c.fitness ≤ 0) → 0 ≤ sf → 0 < (PL_update_ptf_scale cs (sf, ch, ap)).1) := by
  intro cs
  induction cs with
  | nil =>
    intro sf ch ap
    refine ⟨le_refl _, ?_, ?_, ?_⟩
    · intro c hc; cases hc
    · simp [PL_update_ptf_scale]
    · rintro ⟨c, hc, _⟩; cases hc
  | cons c cs ih =>
    intro sf ch ap
    simp only [PL_update_ptf_scale]
    obtain ⟨h1, h2, h3, h4⟩ := ih
      (if c.fitness + sf ≤ 0 then sf + (1 - (c.fitness + sf)) else sf)
      (if c.fitness + sf ≤ 0 then true else ch)
      (if c.fitness ≤ 0 then false else ap)
    have hle : sf ≤ (if c.fitness + sf ≤ 0 then sf + (1 - (c.fitness + sf)) else sf) := by
      split_ifs with h
      · linarith
      · exact le_refl _
    have hpos : 0 < c.fitness + (if c.fitness + sf ≤ 0 then sf + (1 - (c.fitness + sf)) else sf) := by
      split_ifs with h
      · linarith
      · exact not_le.1 h
    refine ⟨le_trans hle h1, ?_, ?_, ?_⟩
    · intro x hx
      rcases List.mem_cons.1 hx with e | e
      · rw [e]; linarith
      · exact h2 x e
    · rw [h3]
      constructor
      · rintro ⟨ha, hall⟩
        by_cases hc : c.fitness ≤ 0
        · rw [if_pos hc] at ha; cases ha
        · rw [if_neg hc] at ha
          refine ⟨ha, ?_⟩
          intro x hx
          rcases List.mem_cons.1 hx with e | e
          · rw [e]; exact not_le.1 hc
          · exact hall x e
      · rintro ⟨ha, hall⟩
        have hc : ¬ c.fitness ≤ 0 := not_le.2 (hall c (List.mem_cons_self _ _))
        rw [if_neg hc]
        exact ⟨ha, fun x hx => hall x (List.mem_cons_of_mem _ hx)⟩
    · rintro ⟨x, hx, hx0⟩ hsf
      rcases List.mem_cons.1 hx with e | e
      · subst e
        have : 0 < (if x.fitness + sf ≤ 0 then sf + (1 - (x.fitness + sf)) else sf) := by
          split_ifs with h
          · linarith
          · have := not_le.1 h; linarith
        exact lt_of_lt_of_le this h1
      · exact h4 ⟨x, e, hx0⟩ (le_trans hsf hle)

theorem PL_update_ptf_total_spec (sf : ℚ) : ∀ (cs : List Chrom) (t : ℚ),
    PL_update_ptf_total sf cs t = t + (cs.map (fun c => c.fitness + sf)).sum := by
  intro cs
  induction cs with
  | nil => intro t; simp [PL_update_ptf_total]
  | cons c cs ih =>
    intro t
    simp only [PL_update_ptf_total, List.map_cons, List.sum_cons]
    rw [ih]; ring

theorem PL_update_ptf_max_spec (sf total : ℚ) : ∀ (cs : List Chrom),
    (cs ≠ [] → 0 < total) →
    PL_update_ptf_max sf total cs =
      .ok (cs.map (fun c => { c with ptf := (c.fitness + sf) / total * 100 })) := by
  intro cs
  induction cs with
  | nil => intro _; rfl
  | cons c cs ih =>
    intro h
    have ht : 0 < total := h (by simp)
    simp only [PL_update_ptf_max, if_neg (not_le.2 ht), ih (fun _ => ht), List.map_cons]

theorem PL_update_ptf_invert_spec (sf total : ℚ) : ∀ (cs : List Chrom) (nt : ℚ),
    (∀ c, c ∈ cs → 0 < c.fitness + sf) →
    PL_update_ptf_invert sf total cs nt =
      .ok (cs.map (fun c => { c with ptf := total / (c.fitness + sf) }),
           nt + (cs.map (fun c => total / (c.fitness + sf))).sum) := by
  intro cs
  induction cs with
  | nil => intro nt _; simp [PL_update_ptf_invert]
  | cons c cs ih =>
    intro nt h
    have hc : ¬ (c.fitness + sf ≤ 0) := not_le.2 (h c (List.mem_cons_self _ _))
    simp only [PL_update_ptf_invert, if_neg hc,
      ih _ (fun x hx => h x (List.mem_cons_of_mem _ hx)), List.map_cons, List.sum_cons,
      add_assoc]

theorem PL_update_ptf_renorm_spec (nt : ℚ) : ∀ (cs : List Chrom),
    (cs ≠ [] → 0 < nt) →
    PL_update_ptf_renorm nt cs = .ok (cs.map (fun c => { c with ptf := c.ptf * (100 / nt) })) := by
  intro cs
  induction cs with
  | nil => intro _; rfl
  | cons c cs ih =>
    intro h
    have ht : 0 < nt := h (by simp)
    simp only [PL_update_ptf_renorm, if_neg (not_le.2 ht), ih (fun _ => ht), List.map_cons]

theorem sum_map_pos {α : Type} (l : List α) (g : α → ℚ) (hne : l ≠ [])
    (h : ∀ x, x ∈ l → 0 < g x) : 0 < (l.map g).sum := by
  induction l with
  | nil => exact absurd rfl hne
  | cons a l ih =>
    simp only [List.map_cons, List.sum_cons]
    by_cases hl : l = []
    · subst hl
      simpa using h a (List.mem_cons_self _ _)
    · have h1 := h a (List.mem_cons_self _ _)
      have h2 := ih hl (fun x hx => h x (List.mem_cons_of_mem _ hx))
      linarith

theorem sum_map_mul_const {α : Type} (l : List α) (g : α → ℚ) (k : ℚ) :
    (l.map (fun x => g x * k)).sum = (l.map g).sum * k := by
  induction l with
  | nil => simp
  | cons a l ih => simp only [List.map_cons, List.sum_cons, ih]; ring

/-- What `PL_update_ptf` does: it returns, with the scale factor `sf` and the
total `T` of the scaled fitness values, and the `ptf` values written from
them. -/
theorem PL_update_ptf_ok (ga_info : GA_Info) (pool : Pool) :
    ∃ (sf : ℚ) (chrom : List Chrom),
      PL_update_ptf ga_info pool =
        .ok ({ ga_info with scale_factor := sf },
             { pool with total_fitness := (pool.chrom.map (fun c => c.fitness + sf)).sum,
                         chrom := chrom }) ∧
      sf = (if (PL_update_ptf_scale pool.chrom (ga_info.scale_factor, false, true)).2.2 then 0
            else (PL_update_ptf_scale pool.chrom (ga_info.scale_factor, false, true)).1) ∧
      (∀ c, c ∈ pool.chrom → 0 < c.fitness + sf) ∧
      chrom = (if ga_info.minimize then
          pool.chrom.map (fun c =>
            { c with ptf := (pool.chrom.map (fun c => c.fitness + sf)).sum / (c.fitness + sf) *
              (100 / (pool.chrom.map (fun c =>
                (pool.chrom.map (fun c => c.fitness + sf)).sum / (c.fitness + sf))).sum) })
        else
          pool.chrom.map (fun c =>
            { c with ptf := (c.fitness + sf) /
              (pool.chrom.map (fun c => c.fitness + sf)).sum * 100 })) := by
  obtain ⟨_, s2, s3, _⟩ := PL_update_ptf_scale_spec pool.chrom ga_info.scale_factor false true
  generalize hr : PL_update_ptf_scale pool.chrom (ga_info.scale_factor, false, true) = r
    at s2 s3
  have hsfpos : ∀ c, c ∈ pool.chrom → 0 < c.fitness + (if r.2.2 then 0 else r.1) := by
    intro c hc
    by_cases hb : r.2.2 = true
    · rw [if_pos hb, add_zero]; exact (s3.1 hb).2 c hc
    · rw [if_neg hb]; exact s2 c hc
  generalize hsf : (if r.2.2 then 0 else r.1) = sf at hsfpos
  have hT : ∀ l : List Chrom, l ≠ [] → (∀ c, c ∈ l → 0 < c.fitness + sf) →
      0 < (l.map (fun c => c.fitness + sf)).sum := fun l hl h => sum_map_pos l _ hl h
  refine ⟨sf, _, ?_, rfl, hsfpos, rfl⟩
  unfold PL_update_ptf
  simp only [hr, hsf, PL_update_ptf_total_spec, zero_add]
  by_cases hmin : ga_info.minimize = true
  · simp only [hmin, if_true]
    rw [PL_update_ptf_invert_spec _ _ _ _ hsfpos]
    simp only [zero_add]
    rw [PL_update_ptf_renorm_spec]
    · simp only [List.map_map]
      rfl
    · intro hne
      have hne' : pool.chrom ≠ [] := by
        intro e; rw [e] at hne; exact hne rfl
      have hTp := hT pool.chrom hne' hsfpos
      exact sum_map_pos _ _ hne' (fun c hc => div_pos hTp (hsfpos c hc))
  · simp only [hmin, if_false, Bool.false_eq_true]
    rw [PL_update_ptf_max_spec]
    intro hne
    exact hT pool.chrom hne hsfpos

/-- C13. With exact arithmetic, on a non-empty pool, for every fitness
assignment, every starting scale factor and both `minimize` settings,
`PL_update_ptf` returns, leaves the fitness values as they were, and every
`ptf` is strictly positive and the `ptf` values sum to exactly 100. -/
theorem PL_update_ptf_positive (ga_info : GA_Info) (pool : Pool) (hne : 0 < pool.size) :
    ∃ ga_info' pool', PL_update_ptf ga_info pool = .ok (ga_info', pool') ∧
      pool'.fits = pool.fits ∧
      (∀ c, c ∈ pool'.chrom → 0 < c.ptf) ∧ pool'.ptfs.sum = 100 := by
  obtain ⟨sf, chrom, heq, _, hpos, hchrom⟩ := PL_update_ptf_ok ga_info pool
  have hne' : pool.chrom ≠ [] := by
    intro e
    unfold Pool.size at hne
    rw [e] at hne
    exact absurd hne (by decide)
  have hT : 0 < (pool.chrom.map (fun c => c.fitness + sf)).sum := sum_map_pos _ _ hne' hpos
  obtain ⟨T, hTdef⟩ : ∃ T, T = (pool.chrom.map (fun c => c.fitness + sf)).sum := ⟨_, rfl⟩
  rw [← hTdef] at heq hchrom hT
  refine ⟨_, _, heq, ?_, ?_, ?_⟩
  · simp only [Pool.fits, hchrom]
    split_ifs <;> simp [List.map_map, Function.comp_def]
  · have hNT : 0 < (pool.chrom.map (fun c => T / (c.fitness + sf))).sum :=
      sum_map_pos _ _ hne' (fun c hc => div_pos hT (hpos c hc))
    intro c hc
    simp only [hchrom] at hc
    split_ifs at hc
    · obtain ⟨x, hx, rfl⟩ := List.mem_map.1 hc
      exact mul_pos (div_pos hT (hpos x hx)) (div_pos (by norm_num) hNT)
    · obtain ⟨x, hx, rfl⟩ := List.mem_map.1 hc
      exact mul_pos (div_pos (hpos x hx) hT) (by norm_num)
  · simp only [Pool.ptfs, hchrom]
    split_ifs
    · have hNT : 0 < (pool.chrom.map (fun c => T / (c.fitness + sf))).sum :=
        sum_map_pos _ _ hne' (fun c hc => div_pos hT (hpos c hc))
      simp only [List.map_map, Function.comp_def]
      rw [sum_map_mul_const pool.chrom (fun c => T / (c.fitness + sf))]
      field_simp
    · simp only [List.map_map, Function.comp_def]
      have : ∀ c : Chrom, (c.fitness + sf) / T * 100 = (c.fitness + sf) * (100 / T) := by
        intro c; ring
      simp only [this]
      rw [sum_map_mul_const pool.chrom (fun c => c.fitness + sf), ← hTdef]
      field_simp

/-- C13, at a pool of the fitness values `-3, 0, 2` that minimizes. -/
theorem PL_update_ptf_positive_witness :
    ∃ ga_info' pool', PL_update_ptf CF_reset
        ⟨[⟨[1], -3, 0, -1, 0, 1, -1, -1, -1, -1⟩, ⟨[1], 0, 0, -1, 0, 1, -1, -1, -1, -1⟩,
          ⟨[1], 2, 0, -1, 0, 1, -1, -1, -1, -1⟩],
          0, 0, 0, 0, 0, 0, -1, -1, -1, true, false⟩ = .ok (ga_info', pool') ∧
      pool'.fits = [-3, 0, 2] ∧
      (∀ c, c ∈ pool'.chrom → 0 < c.ptf) ∧ pool'.ptfs.sum = 100 :=
  PL_update_ptf_positive CF_reset
    ⟨[⟨[1], -3, 0, -1, 0, 1, -1, -1, -1, -1⟩, ⟨[1], 0, 0, -1, 0, 1, -1, -1, -1, -1⟩,
      ⟨[1], 2, 0, -1, 0, 1, -1, -1, -1, -1⟩],
      0, 0, 0, 0, 0, 0, -1, -1, -1, true, false⟩ (by decide)

/-- C14. For every pool and every starting scale factor `s >= 0`,
`PL_update_ptf` returns with a scale factor `s'` such that `s' >= s` or
`s' = 0`, and `s' = 0` exactly when every raw fitness of the pool is strictly
positive. -/
theorem PL_update_ptf_scale_factor (ga_info : GA_Info) (pool : Pool)
    (hs : 0 ≤ ga_info.scale_factor) :
    ∃ ga_info' pool', PL_update_ptf ga_info pool = .ok (ga_info', pool') ∧
      (ga_info.scale_factor ≤ ga_info'.scale_factor ∨ ga_info'.scale_factor = 0) ∧
      (ga_info'.scale_factor = 0 ↔ ∀ c, c ∈ pool.chrom → 0 < c.fitness) := by
  obtain ⟨sf, chrom, heq, hsf, _, _⟩ := PL_update_ptf_ok ga_info pool
  obtain ⟨s1, _, s3, s4⟩ := PL_update_ptf_scale_spec pool.chrom ga_info.scale_factor false true
  refine ⟨_, _, heq, ?_, ?_⟩
  · simp only [hsf]
    split_ifs
    · exact Or.inr rfl
    · exact Or.inl s1
  · simp only [hsf]
    by_cases hb : (PL_update_ptf_scale pool.chrom (ga_info.scale_factor, false, true)).2.2 = true
    · rw [if_pos hb]
      exact ⟨fun _ => (s3.1 hb).2, fun _ => rfl⟩
    · rw [if_neg hb]
      have hex : ∃ c, c ∈ pool.chrom ∧ c.fitness ≤ 0 := by
        by_contra hno
        apply hb
        rw [s3]
        refine ⟨rfl, fun c hc => ?_⟩
        by_contra hc0
        exact hno ⟨c, hc, not_lt.1 hc0⟩
      have hpos := s4 hex hs
      constructor
      · intro h0; rw [h0] at hpos; exact absurd hpos (lt_irrefl _)
      · intro hall
        obtain ⟨c, hc, hc0⟩ := hex
        exact absurd (hall c hc) (not_lt.2 hc0)

/-- C14, at a pool of the fitness values `-3, 2` and the starting scale factor
0: the new scale factor is 4. -/
theorem PL_update_ptf_scale_factor_witness :
    ∃ ga_info' pool', PL_update_ptf CF_reset
        ⟨[⟨[1], -3, 0, -1, 0, 1, -1, -1, -1, -1⟩, ⟨[1], 2, 0, -1, 0, 1, -1, -1, -1, -1⟩],
          0, 0, 0, 0, 0, 0, -1, -1, -1, true, false⟩ = .ok (ga_info', pool') ∧
      (CF_reset.scale_factor ≤ ga_info'.scale_factor ∨ ga_info'.scale_factor = 0) ∧
      (ga_info'.scale_factor = 0 ↔
        ∀ c, c ∈ [(⟨[1], -3, 0, -1, 0, 1, -1, -1, -1, -1⟩ : Chrom),
          ⟨[1], 2, 0, -1, 0, 1, -1, -1, -1, -1⟩] → 0 < c.fitness) :=
  PL_update_ptf_scale_factor CF_reset
    ⟨[⟨[1], -3, 0, -1, 0, 1, -1, -1, -1, -1⟩, ⟨[1], 2, 0, -1, 0, 1, -1, -1, -1, -1⟩],
      0, 0, 0, 0, 0, 0, -1, -1, -1, true, false⟩ (by decide!)

/-- The scaling loop on fitness values that are not negative, started at 0:
a fitness 0 brings the scale factor to 1, where it stays. -/
theorem PL_update_ptf_scale_nonneg : ∀ (cs : List Chrom) (sf : ℚ) (ch ap : Bool),
    (∀ c, c ∈ cs → 0 ≤ c.fitness) →
    (0 < sf → (PL_update_ptf_scale cs (sf, ch, ap)).1 = sf) ∧
    (sf = 0 → (∃ c, c ∈ cs ∧ c.fitness ≤ 0) → (PL_update_ptf_scale cs (sf, ch, ap)).1 = 1) := by
  intro cs
  induction cs with
  | nil =>
    intro sf ch ap _
    refine ⟨fun _ => rfl, ?_⟩
    rintro _ ⟨c, hc, _⟩
    cases hc
  | cons c cs ih =>
    intro sf ch ap hnn
    have hc0 : 0 ≤ c.fitness := hnn c (List.mem_cons_self _ _)
    have hcs : ∀ x, x ∈ cs → 0 ≤ x.fitness := fun x hx => hnn x (List.mem_cons_of_mem _ hx)
    simp only [PL_update_ptf_scale]
    constructor
    · intro hsf
      have h : ¬ (c.fitness + sf ≤ 0) := by
        intro h; linarith
      simp only [if_neg h]
      exact (ih sf ch _ hcs).1 hsf
    · intro hsf hex
      subst hsf
      by_cases h : c.fitness + 0 ≤ 0
      · have hc : c.fitness = 0 := by linarith
        simp only [if_pos h]
        have h1 := (ih (0 + (1 - (c.fitness + 0))) true (if c.fitness ≤ 0 then false else ap)
          hcs).1 (by rw [hc]; norm_num)
        rw [h1, hc]; norm_num
      · simp only [if_neg h]
        obtain ⟨x, hx, hx0⟩ := hex
        rcases List.mem_cons.1 hx with e | e
        · subst e
          exact absurd (by linarith) h
        · exact (ih 0 ch _ hcs).2 rfl ⟨x, e, hx0⟩

theorem sum_range_single (f : Nat → ℚ) (d : Nat) : ∀ n,
    (∀ j, j < n → j ≠ d → f j = 0) →
    ((List.range n).map f).sum = if d < n then f d else 0 := by
  intro n
  induction n with
  | zero => intro _; simp
  | succ n ih =>
    intro h
    rw [List.range_succ, List.map_append, List.sum_append,
      ih (fun j hj hne => h j (Nat.lt_succ_of_lt hj) hne)]
    simp only [List.map_cons, List.map_nil, List.sum_cons, List.sum_nil, add_zero]
    by_cases hd : d < n
    · have hne : n ≠ d := by omega
      rw [if_pos hd, if_pos (by omega), h n (Nat.lt_succ_self n) hne, add_zero]
    · rw [if_neg hd]
      by_cases he : n = d
      · subst he
        rw [if_pos (Nat.lt_succ_self _), zero_add]
      · rw [if_neg (by omega), h n (Nat.lt_succ_self n) he, add_zero]

theorem sum_map_add_const (cs : List Chrom) (sf : ℚ) :
    (cs.map (fun c => c.fitness + sf)).sum =
      (cs.map (fun c => c.fitness)).sum + (cs.length : ℚ) * sf := by
  induction cs with
  | nil => simp
  | cons c cs ih =>
    simp only [List.map_cons, List.sum_cons, ih, List.length_cons, Nat.cast_succ]
    ring

theorem SE_max_roulette_loop_succ (pool : Pool) (spin_val : ℚ) (k i : Nat) (val : ℚ) :
    SE_max_roulette_loop pool spin_val (k + 1) i val =
      if val < spin_val then SE_max_roulette_loop pool spin_val k (i + 1) (val + pool.fit i)
      else i := rfl

/-- The wheel of `SE_max_roulette` passes the chromosomes of fitness 0 that
come before position `d` whenever the spin value is positive. -/
theorem SE_max_roulette_loop_zeros (pool : Pool) (spin_val : ℚ) (hspin : 0 < spin_val)
    (d : Nat) (hz : ∀ j, j < d → pool.fit j = 0) : ∀ (m i k : Nat), i + m = d →
    SE_max_roulette_loop pool spin_val (m + k) i 0 = SE_max_roulette_loop pool spin_val k d 0 := by
  intro m
  induction m with
  | zero =>
    intro i k h
    have : i = d := by omega
    rw [this, Nat.zero_add]
  | succ m ih =>
    intro i k h
    have e : m + 1 + k = (m + k) + 1 := by omega
    rw [e, SE_max_roulette_loop_succ, if_pos hspin, hz i (by omega), add_zero]
    exact ih (i + 1) k (by omega)

/-- Once the accumulated value is below the spin value for good, the wheel
runs to the end of the pool. -/
theorem SE_max_roulette_loop_tail (pool : Pool) (spin_val val : ℚ) (hlt : val < spin_val) :
    ∀ (k i : Nat), (∀ j, i ≤ j → j < i + k → pool.fit j = 0) →
    SE_max_roulette_loop pool spin_val k i val = i + k := by
  intro k
  induction k with
  | zero => intro i _; rfl
  | succ k ih =>
    intro i h
    rw [SE_max_roulette_loop_succ, if_pos hlt, h i (le_refl _) (by omega), add_zero,
      ih (i + 1) (fun j h1 h2 => h j (by omega) (by omega))]
    omega

theorem SE_max_roulette_loop_stop (pool : Pool) (spin_val val : ℚ) (hge : ¬ val < spin_val)
    (k i : Nat) : SE_max_roulette_loop pool spin_val k i val = i := by
  cases k with
  | zero => rfl
  | succ k => rw [SE_max_roulette_loop_succ, if_neg hge]

/-- The wheel of `SE_max_roulette` on a pool whose only fitness that is not 0
is `pool.fit d`. -/
theorem SE_max_roulette_dominant (ga_info : GA_Info) (pool : Pool) (u : ℚ) (d : Nat)
    (hd : d < pool.size) (hz : ∀ j, j < pool.size → j ≠ d → pool.fit j = 0) :
    (u * pool.total_fitness ≤ 0 → SE_max_roulette ga_info pool u = 0) ∧
    (0 < u * pool.total_fitness → u * pool.total_fitness ≤ pool.fit d →
      SE_max_roulette ga_info pool u = (d : Int)) ∧
    (0 < u * pool.total_fitness → pool.fit d < u * pool.total_fitness →
      SE_max_roulette ga_info pool u = (pool.size : Int) - 1) := by
  obtain ⟨k, hk⟩ : ∃ k, pool.size = d + (k + 1) := ⟨pool.size - d - 1, by omega⟩
  refine ⟨?_, ?_, ?_⟩
  · intro h
    unfold SE_max_roulette
    rw [SE_max_roulette_loop_stop pool _ 0 (not_lt.2 h)]
    simp
  · intro hpos hle
    unfold SE_max_roulette
    rw [hk, SE_max_roulette_loop_zeros pool _ hpos d (fun j hj => hz j (by omega) (by omega)) d 0
      (k + 1) (by omega), SE_max_roulette_loop_succ, if_pos hpos, zero_add,
      SE_max_roulette_loop_stop pool _ _ (not_lt.2 hle)]
    simp
  · intro hpos hlt
    unfold SE_max_roulette
    rw [hk, SE_max_roulette_loop_zeros pool _ hpos d (fun j hj => hz j (by omega) (by omega)) d 0
      (k + 1) (by omega), SE_max_roulette_loop_succ, if_pos hpos, zero_add,
      SE_max_roulette_loop_tail pool _ _ hlt k (d + 1)
        (fun j h1 h2 => hz j (by omega) (by omega))]
    have : d + 1 + k > 0 := by omega
    simp only [this, if_true]
    push_cast
    ring

/-- What the wheel of `SE_max_roulette` does: roulette selection, maximizing,
from the scale factor 0, on a pool whose chromosome `d` has the positive
fitness `F` and whose other chromosomes have the fitness 0.  `SE_roulette`
returns; the total that
`PL_update_ptf` leaves is `F` for a pool of one and `F + size` otherwise (the
scale factor becomes 1); the index returned is `d` whenever the spin value
`u * total_fitness` lies in `(0, F]`, it is 0 for the spin draw 0 and `size-1`
when the spin value exceeds `F`; for a pool of one it is `d` for every draw of
`[0, 1]`. -/
theorem SE_roulette_dominant (ga_info : GA_Info) (pool : Pool) (u : ℚ) (d : Nat)
    (hmax : ga_info.minimize = false) (hsf : ga_info.scale_factor = 0)
    (hd : d < pool.size) (hF : 0 < pool.fit d)
    (hz : ∀ j, j < pool.size → j ≠ d → pool.fit j = 0) (hu : 0 ≤ u ∧ u ≤ 1) :
    ∃ idx ga_info' pool', SE_roulette ga_info pool u = .ok (idx, ga_info', pool') ∧
      pool'.total_fitness = (if pool.size = 1 then pool.fit d else pool.fit d + pool.size) ∧
      (0 < u * pool'.total_fitness → u * pool'.total_fitness ≤ pool.fit d → idx = (d : Int)) ∧
      (u = 0 → idx = 0) ∧
      (pool.fit d < u * pool'.total_fitness → idx = (pool.size : Int) - 1) ∧
      (pool.size = 1 → idx = (d : Int)) := by
  obtain ⟨sf, chrom, heq, hsfdef, _, hchrom⟩ := PL_update_ptf_ok ga_info pool
  have hfit_mem : ∀ c, c ∈ pool.chrom → ∃ j, j < pool.size ∧ pool.fit j = c.fitness := by
    intro c hc
    obtain ⟨j, hj, e⟩ := List.mem_iff_getElem.1 hc
    refine ⟨j, hj, ?_⟩
    unfold Pool.fit
    rw [List.getElem?_eq_getElem hj, e]
  have hnn : ∀ c, c ∈ pool.chrom → 0 ≤ c.fitness := by
    intro c hc
    obtain ⟨j, hj, e⟩ := hfit_mem c hc
    rw [← e]
    by_cases hjd : j = d
    · rw [hjd]; exact le_of_lt hF
    · rw [hz j hj hjd]
  have hsum : pool.fits.sum = pool.fit d := by
    rw [Pool.fits_eq_range, sum_range_single pool.fit d pool.size hz, if_pos hd]
  -- the scale factor and the total
  have hsfval : sf = if pool.size = 1 then 0 else 1 := by
    obtain ⟨_, _, s3, _⟩ := PL_update_ptf_scale_spec pool.chrom ga_info.scale_factor false true
    by_cases h1 : pool.size = 1
    · rw [if_pos h1, hsfdef]
      have hall : ∀ c, c ∈ pool.chrom → 0 < c.fitness := by
        intro c hc
        obtain ⟨j, hj, e⟩ := hfit_mem c hc
        have : j = d := by omega
        rw [← e, this]; exact hF
      rw [if_pos (s3.2 ⟨rfl, hall⟩)]
    · rw [if_neg h1, hsfdef]
      obtain ⟨j, hj, hjd⟩ : ∃ j, j < pool.size ∧ j ≠ d := by
        by_cases h0 : d = 0
        · exact ⟨1, by omega, by omega⟩
        · exact ⟨0, by omega, fun e => h0 e.symm⟩
      have hcj : pool.chrom[j]? = some (pool.chrom.get ⟨j, hj⟩) := List.getElem?_eq_getElem hj
      have hfj : (pool.chrom.get ⟨j, hj⟩).fitness = 0 := by
        have := hz j hj hjd
        unfold Pool.fit at this
        rw [hcj] at this
        exact this
      have hex : ∃ c, c ∈ pool.chrom ∧ c.fitness ≤ 0 :=
        ⟨_, List.get_mem _ _ _, le_of_eq hfj⟩
      have hnot : ¬ ((PL_update_ptf_scale pool.chrom (ga_info.scale_factor, false, true)).2.2
          = true) := by
        intro hb
        obtain ⟨c, hc, hc0⟩ := hex
        exact absurd ((s3.1 hb).2 c hc) (not_lt.2 hc0)
      rw [if_neg hnot]
      exact (PL_update_ptf_scale_nonneg pool.chrom ga_info.scale_factor false true hnn).2 hsf hex
  have hT : (pool.chrom.map (fun c => c.fitness + sf)).sum =
      (if pool.size = 1 then pool.fit d else pool.fit d + pool.size) := by
    rw [sum_map_add_const]
    have : (pool.chrom.map (fun c => c.fitness)).sum = pool.fit d := hsum
    rw [this, hsfval]
    unfold Pool.size
    split_ifs <;> simp
  rw [hT] at heq
  have hmin : ¬ (ga_info.minimize = true) := by rw [hmax]; simp
  rw [if_neg hmin] at hchrom
  -- the pool that the wheel reads
  have hfits : ∀ (T : ℚ), Pool.fits { pool with total_fitness := T, chrom := chrom } = pool.fits := by
    intro T
    simp only [Pool.fits, hchrom, List.map_map, Function.comp_def]
  generalize hTv : (if pool.size = 1 then pool.fit d else pool.fit d + (pool.size : ℚ)) = T
    at heq
  have hp_fit : ∀ j, Pool.fit { pool with total_fitness := T, chrom := chrom } j = pool.fit j :=
    fun j => Pool.fit_congr (hfits T) j
  have hp_size : Pool.size { pool with total_fitness := T, chrom := chrom } = pool.size :=
    Pool.size_congr (hfits T)
  obtain ⟨w0, w1, w2⟩ := SE_max_roulette_dominant { ga_info with scale_factor := sf }
    { pool with total_fitness := T, chrom := chrom } u d (by rw [hp_size]; exact hd)
    (fun j hj hjd => by rw [hp_fit]; exact hz j (by rw [hp_size] at hj; exact hj) hjd)
  rw [hp_fit] at w1 w2
  rw [hp_size] at w2
  have hTpos : 0 < T := by
    rw [← hTv]
    split_ifs
    · exact hF
    · have : (0 : ℚ) ≤ (pool.size : ℚ) := Nat.cast_nonneg _
      linarith
  have hrun : SE_roulette ga_info pool u =
      .ok (SE_max_roulette { ga_info with scale_factor := sf }
            { pool with total_fitness := T, chrom := chrom } u,
           { ga_info with scale_factor := sf },
           { pool with total_fitness := T, chrom := chrom }) := by
    unfold SE_roulette
    rw [heq]
    simp only [hmax, Bool.false_eq_true, if_false]
  refine ⟨_, _, _, hrun, rfl, w1, ?_, ?_, ?_⟩
  · intro h0
    exact w0 (by rw [h0, zero_mul])
  · intro hlt
    exact w2 (lt_trans hF hlt) hlt
  · intro h1
    have hd0 : d = 0 := by omega
    have hTF : T = pool.fit d := by rw [← hTv, if_pos h1]
    by_cases hu0 : u = 0
    · rw [w0 (by rw [hu0, zero_mul]), hd0]; rfl
    · have hupos : 0 < u := lt_of_le_of_ne hu.1 (Ne.symm hu0)
      refine w1 (mul_pos hupos hTpos) ?_
      show u * T ≤ pool.fit d
      rw [hTF]
      calc u * pool.fit d ≤ 1 * pool.fit d := mul_le_mul_of_nonneg_right hu.2 (le_of_lt hF)
        _ = pool.fit d := one_mul _

/-- The wheel at the pool of the fitness values `0, 5` and the spin draw `1/2`:
the total is 7, the spin value `7/2` lies in `(0, 5]`, the index is 1. -/
theorem SE_roulette_dominant_witness :
    ∃ ga_info' pool', SE_roulette { CF_reset with minimize := false }
        ⟨[⟨[1], 0, 0, -1, 0, 1, -1, -1, -1, -1⟩, ⟨[1], 5, 0, -1, 0, 1, -1, -1, -1, -1⟩],
          0, 0, 0, 0, 0, 0, -1, -1, -1, false, false⟩ (1 / 2) = .ok (1, ga_info', pool') := by
  obtain ⟨idx, g, p, h1, h2, h3, _⟩ := SE_roulette_dominant { CF_reset with minimize := false }
    ⟨[⟨[1], 0, 0, -1, 0, 1, -1, -1, -1, -1⟩, ⟨[1], 5, 0, -1, 0, 1, -1, -1, -1, -1⟩],
      0, 0, 0, 0, 0, 0, -1, -1, -1, false, false⟩ (1 / 2) 1 rfl rfl (by decide) (by decide!)
    (by
      intro j hj hjd
      have hj' : j < 2 := hj
      interval_cases j
      · rfl
      · exact absurd rfl hjd)
    (by constructor <;> norm_num)
  have hT : p.total_fitness = 7 := by
    rw [h2]
    have : Pool.size ⟨[⟨[1], 0, 0, -1, 0, 1, -1, -1, -1, -1⟩,
      ⟨[1], 5, 0, -1, 0, 1, -1, -1, -1, -1⟩], 0, 0, 0, 0, 0, 0, -1, -1, -1, false, false⟩ = 2 := rfl
    rw [this]
    have hf : Pool.fit ⟨[⟨[1], 0, 0, -1, 0, 1, -1, -1, -1, -1⟩,
      ⟨[1], 5, 0, -1, 0, 1, -1, -1, -1, -1⟩], 0, 0, 0, 0, 0, 0, -1, -1, -1, false, false⟩ 1 = 5 := rfl
    rw [hf]
    norm_num
  have hf : Pool.fit ⟨[⟨[1], 0, 0, -1, 0, 1, -1, -1, -1, -1⟩,
      ⟨[1], 5, 0, -1, 0, 1, -1, -1, -1, -1⟩], 0, 0, 0, 0, 0, 0, -1, -1, -1, false, false⟩ 1 = 5 := rfl
  rw [hT, hf] at h3
  have hidx : idx = 1 := by
    have := h3 (by norm_num) (by norm_num)
    simpa using this
  rw [hidx] at h1
  exact ⟨g, p, h1⟩

/-- C15: the code at the maximizing pool of the fitness values `5, 0, 0`, from
the scale factor 0, with the spin draw `9/10`.  `PL_update_ptf` raises the
scale factor to 1 and leaves `total_fitness = 8`, the total of the scaled
fitness values 6, 1, 1; `SE_max_roulette` spins over this total (spin value
`36/5`) and adds up the raw fitness values 5, 0, 0, which never reach it: the
loop runs off the end of the pool and the index 2 of a chromosome of fitness
0 is returned, not the index 0 of the only chromosome of positive fitness. -/
theorem SE_roulette_misses_dominant :
    (SE_roulette { CF_reset with minimize := false }
        ⟨[⟨[1], 5, 0, -1, 0, 1, -1, -1, -1, -1⟩, ⟨[1], 0, 0, -1, 0, 1, -1, -1, -1, -1⟩,
          ⟨[1], 0, 0, -1, 0, 1, -1, -1, -1, -1⟩],
          0, 0, 0, 0, 0, 0, -1, -1, -1, false, false⟩ (9 / 10)).map
      (fun out => (out.1, out.2.1.scale_factor, out.2.2.total_fitness, out.2.2.fits))
      = .ok (2, 1, 8, [5, 0, 0]) := by
  decide!

theorem strncmp_eq_min (s t : String) :
    strncmp_eq s t (min s.length t.length) = true ↔ namesAgree s t := by
  unfold strncmp_eq namesAgree
  simp only [beq_iff_eq, String.length]
  constructor
  · intro h
    rcases le_total s.data.length t.data.length with hl | hl
    · left
      rw [min_eq_left hl, List.take_length] at h
      rw [List.prefix_iff_eq_take]
      exact h
    · right
      rw [min_eq_right hl, List.take_length] at h
      rw [List.prefix_iff_eq_take]
      exact h.symm
  · rintro (h | h)
    · have hl := h.length_le
      rw [min_eq_left hl, List.take_length]
      exact List.prefix_iff_eq_take.1 h
    · have hl := h.length_le
      rw [min_eq_right hl, List.take_length]
      exact (List.prefix_iff_eq_take.1 h).symm

/-- The search loop of `FN_select` over built-in slots followed by the closing
slot: the first built-in whose name agrees with the given one. -/
theorem FN_select_scan_spec (fn_name : String) (tail : List FN_Table_Type) :
    ∀ (builtins : List (String × FN_Ptr)),
    FN_select_scan fn_name
        (builtins.map (fun e => FN_builtin e.1 e.2) ++ ⟨none, none⟩ :: tail) =
      match builtins.find? (fun e => decide (namesAgree fn_name e.1)) with
      | some e => .ok (some e.2)
      | none => .error .invalidSelection := by
  intro builtins
  induction builtins with
  | nil => rfl
  | cons e rest ih =>
    simp only [List.map_cons, List.cons_append, FN_select_scan, FN_builtin, List.find?_cons]
    by_cases h : namesAgree fn_name e.1
    · rw [if_pos ((strncmp_eq_min _ _).2 h)]
      simp [h]
    · have h' : ¬ (strncmp_eq fn_name e.1 (min fn_name.length e.1.length) = true) :=
        fun hc => h ((strncmp_eq_min _ _).1 hc)
      rw [if_neg h']
      simp only [h, decide_False]
      exact ih

/-- C21 (amended). With no user function registered, `FN_select` on a table of
built-in slots returns the function of the first built-in, in table order,
whose name agrees with the given name, that is, one of the two names is a
prefix of the other; it fails, writing no function, exactly when no built-in
name agrees with the given name; in particular it succeeds for every prefix of
a built-in name. -/
theorem FN_select_spec (builtins : List (String × FN_Ptr)) (tail : List FN_Table_Type)
    (fn_name : String) :
    (FN_select (⟨none, none⟩ :: builtins.map (fun e => FN_builtin e.1 e.2) ++
        ⟨none, none⟩ :: tail) fn_name =
      match builtins.find? (fun e => decide (namesAgree fn_name e.1)) with
      | some e => .ok (some e.2)
      | none => .error .invalidSelection) ∧
    ((∃ err, FN_select (⟨none, none⟩ :: builtins.map (fun e => FN_builtin e.1 e.2) ++
        ⟨none, none⟩ :: tail) fn_name = .error err) ↔
      ∀ e, e ∈ builtins → ¬ namesAgree fn_name e.1) ∧
    (∀ e, e ∈ builtins → fn_name.data <+: e.1.data →
      ∃ f, FN_select (⟨none, none⟩ :: builtins.map (fun e => FN_builtin e.1 e.2) ++
        ⟨none, none⟩ :: tail) fn_name = .ok (some f)) := by
  have hsel : FN_select (⟨none, none⟩ :: builtins.map (fun e => FN_builtin e.1 e.2) ++
        ⟨none, none⟩ :: tail) fn_name =
      match builtins.find? (fun e => decide (namesAgree fn_name e.1)) with
      | some e => .ok (some e.2)
      | none => .error .invalidSelection := by
    simp only [List.cons_append, FN_select]
    exact FN_select_scan_spec fn_name tail builtins
  refine ⟨hsel, ?_, ?_⟩
  · rw [hsel]
    cases hf : builtins.find? (fun e => decide (namesAgree fn_name e.1)) with
    | none =>
      constructor
      · intro _ e he
        have := List.find?_eq_none.1 hf e he
        simpa using this
      · intro _
        exact ⟨_, rfl⟩
    | some e =>
      have h1 := List.find?_some hf
      have h2 := List.mem_of_find?_eq_some hf
      constructor
      · rintro ⟨err, herr⟩
        cases herr
      · intro hall
        exact absurd (by simpa using h1) (hall e h2)
  · intro e he hpre
    rw [hsel]
    cases hf : builtins.find? (fun e => decide (namesAgree fn_name e.1)) with
    | none =>
      have := List.find?_eq_none.1 hf e he
      simp only [decide_eq_true_eq] at this
      exact absurd (Or.inl hpre) this
    | some e' => exact ⟨e'.2, rfl⟩

/-- C21 (amended), on the crossover table: the prefix `"or"` selects
`X_order1`, the first of the two built-ins that it abbreviates. -/
theorem FN_select_spec_witness :
    FN_select X_table "or" = .ok (some FN_Ptr.X_order1) := by
  have h := (FN_select_spec
    [("simple", FN_Ptr.X_simple), ("uniform", FN_Ptr.X_uniform), ("order1", FN_Ptr.X_order1),
     ("order2", FN_Ptr.X_order2), ("position", FN_Ptr.X_pos), ("cycle", FN_Ptr.X_cycle),
     ("pmx", FN_Ptr.X_pmx), ("uox", FN_Ptr.X_uox), ("rox", FN_Ptr.X_rox),
     ("asexual", FN_Ptr.X_asex)] [] "or").1
  exact h.trans (by decide)

/-- C21, as stated, fails: `"order12"` is not a prefix of any name of the
crossover table, and `FN_select` accepts it and selects `X_order1`, whose name
does not start with `"order12"`. -/
theorem FN_select_accepts_extension :
    FN_select X_table "order12" = .ok (some FN_Ptr.X_order1) ∧
    (∀ e, e ∈ X_table → ∀ name, e.name = some name → ¬ ("order12".data <+: name.data)) := by
  constructor
  · decide
  · intro e he name hname
    simp only [X_table, List.mem_cons, List.mem_singleton, List.not_mem_nil, or_false] at he
    rcases he with h | h | h | h | h | h | h | h | h | h | h | h <;>
      subst h <;> cases hname <;> decide

/-- A function that no slot holds has the name `"Unknown"`. -/
theorem FN_name_scan_unknown (f : Option FN_Ptr) : ∀ (T : List FN_Table_Type) (first : Bool),
    (∀ e, e ∈ T → e.fn ≠ f) → FN_name_scan f first T = "Unknown" := by
  intro T
  induction T with
  | nil => intro first _; cases first <;> rfl
  | cons e rest ih =>
    intro first h
    have he : ¬ (f = e.fn) := fun hc => h e (List.mem_cons_self _ _) hc.symm
    simp only [FN_name_scan, if_neg he, ih false (fun x hx => h x (List.mem_cons_of_mem _ hx))]
    split_ifs <;> rfl

/-- The first slot that holds the function, when the scan reaches it, gives
the name; a slot without a name gives `"Unspecified"`. -/
theorem FN_name_scan_found (f : Option FN_Ptr) (e : FN_Table_Type) (post : List FN_Table_Type)
    (hef : e.fn = f) :
    ∀ (pre : List FN_Table_Type) (first : Bool),
    (∀ x, x ∈ pre → x.fn ≠ f) →
    (first = false → ∀ x, x ∈ pre → x.fn ≠ none) →
    (first = true → ∀ x, x ∈ pre.tail → x.fn ≠ none) →
    (first = false ∨ pre ≠ [] → f ≠ none) →
    FN_name_scan f first (pre ++ e :: post) =
      (match e.name with
       | none => "Unspecified"
       | some name => name) := by
  intro pre
  induction pre with
  | nil =>
    intro first _ _ _ h4
    have hc : first = true ∨ e.fn ≠ none := by
      cases first
      · right; rw [hef]; exact h4 (Or.inl rfl)
      · left; rfl
    have hc' : first = true ∨ f ≠ none := by rw [← hef]; exact hc
    cases hn : e.name <;>
      simp only [List.nil_append, FN_name_scan, hef, if_true, if_pos hc', hn]
  | cons x pre ih =>
    intro first h1 h2 h3 h4
    have hx : ¬ (f = x.fn) := fun hc => h1 x (List.mem_cons_self _ _) hc.symm
    have hc : first = true ∨ x.fn ≠ none := by
      cases first
      · right; exact h2 rfl x (List.mem_cons_self _ _)
      · left; rfl
    simp only [List.cons_append, FN_name_scan, if_pos hc, if_neg hx]
    apply ih false (fun y hy => h1 y (List.mem_cons_of_mem _ hy))
    · intro _ y hy
      cases first
      · exact h2 rfl y (List.mem_cons_of_mem _ hy)
      · exact h3 rfl y hy
    · intro hc; cases hc
    · intro _; exact h4 (Or.inr (by simp))

/-- C22. For each of the five built-in tables, with no user function
registered, and every built-in name of it, `FN_select` of that name followed
by `FN_name` of the function selected gives the name back.  `FN_name` gives
`"Unknown"` for a function that no slot of the table holds, and
`"Unspecified"` when the first slot that holds the function has no name (the
scan reaching it). -/
theorem FN_select_name_roundtrip :
    (∀ T, T ∈ [SE_table, X_table, MU_table, RE_table, GA_table] →
      ∀ e, e ∈ T → ∀ name, e.name = some name →
        FN_select T name = .ok e.fn ∧ FN_name T e.fn = name) ∧
    (∀ (T : List FN_Table_Type) (f : Option FN_Ptr),
      (∀ e, e ∈ T → e.fn ≠ f) → FN_name T f = "Unknown") ∧
    (∀ (pre post : List FN_Table_Type) (e : FN_Table_Type) (f : Option FN_Ptr),
      e.fn = f → e.name = none → (∀ x, x ∈ pre → x.fn ≠ f) →
      (∀ x, x ∈ pre.tail → x.fn ≠ none) → (pre ≠ [] → f ≠ none) →
      FN_name (pre ++ e :: post) f = "Unspecified") := by
  refine ⟨?_, ?_, ?_⟩
  · intro T hT
    simp only [List.mem_cons, List.mem_singleton, List.not_mem_nil, or_false] at hT
    rcases hT with h | h | h | h | h <;> subst h
    · intro e he name hname
      simp only [SE_table, List.mem_cons, List.mem_singleton, List.not_mem_nil, or_false] at he
      rcases he with h | h | h | h | h <;> subst h <;> cases hname <;> decide
    · intro e he name hname
      simp only [X_table, List.mem_cons, List.mem_singleton, List.not_mem_nil, or_false] at he
      rcases he with h | h | h | h | h | h | h | h | h | h | h | h <;> subst h <;>
        cases hname <;> decide
    · intro e he name hname
      simp only [MU_table, List.mem_cons, List.mem_singleton, List.not_mem_nil, or_false] at he
      rcases he with h | h | h | h | h | h | h | h | h <;> subst h <;> cases hname <;> decide
    · intro e he name hname
      simp only [RE_table, List.mem_cons, List.mem_singleton, List.not_mem_nil, or_false] at he
      rcases he with h | h | h | h | h | h <;> subst h <;> cases hname <;> decide
    · intro e he name hname
      simp only [GA_table, List.mem_cons, List.mem_singleton, List.not_mem_nil, or_false] at he
      rcases he with h | h | h | h <;> subst h <;> cases hname <;> decide
  · intro T f h
    exact FN_name_scan_unknown f T true h
  · intro pre post e f hef hname h1 h2 h3
    have h := FN_name_scan_found f e post hef pre true h1 (fun hc => by cases hc) (fun _ => h2)
      (fun hc => by
        rcases hc with hc | hc
        · cases hc
        · exact h3 hc)
    rw [hname] at h
    exact h

/-- C22, on the scheduler table: the name `"steady_state"` comes back, a user
function that no slot holds is `"Unknown"`, and a user function registered
without a name is `"Unspecified"`. -/
theorem FN_select_name_roundtrip_witness :
    (FN_select GA_table "steady_state" = .ok (some FN_Ptr.GA_steady_state) ∧
      FN_name GA_table (some FN_Ptr.GA_steady_state) = "steady_state") ∧
    FN_name GA_table (some (FN_Ptr.user 7)) = "Unknown" ∧
    FN_name ([] ++ ⟨none, some (FN_Ptr.user 7)⟩ :: GA_table.tail) (some (FN_Ptr.user 7))
      = "Unspecified" :=
  ⟨FN_select_name_roundtrip.1 GA_table (by simp) ⟨some "steady_state", some FN_Ptr.GA_steady_state⟩
      (by simp [GA_table]) "steady_state" rfl,
    FN_select_name_roundtrip.2.1 GA_table (some (FN_Ptr.user 7)) (by decide),
    FN_select_name_roundtrip.2.2 [] GA_table.tail ⟨none, some (FN_Ptr.user 7)⟩
      (some (FN_Ptr.user 7)) rfl rfl (by simp) (by simp) (by simp)⟩

/-- A copy from a source with at least one gene succeeds and gives the
source. -/
theorem CH_copy_ok (src dst : Chrom) (hlen : 1 ≤ src.length) : CH_copy src dst = .ok src := by
  have hres : ∃ d, (if dst.length ≠ src.length then CH_resize dst (src.length : Int) else .ok dst)
      = .ok d ∧ d.length = src.length := by
    by_cases h : dst.length ≠ src.length
    · rw [if_pos h]; exact CH_resize_length dst src.length hlen
    · rw [if_neg h]; exact ⟨dst, rfl, not_not.1 h⟩
  obtain ⟨d, hd, hdl⟩ := hres
  have hg : src.gene.take src.length ++ d.gene.drop src.length = src.gene := by
    have h1 : d.gene.drop src.length = [] := by
      apply List.drop_eq_nil_of_le
      unfold Chrom.length at hdl ⊢
      omega
    rw [h1, List.append_nil]
    exact List.take_of_length_le (le_refl _)
  unfold CH_copy
  rw [hd]
  simp only [hg]

/-- C25 (amended). `PL_append`, `PL_insert`, `PL_remove`, `PL_swap` and
`PL_move` leave the `sorted` flag of the pool as it was: a pool whose flag is
true keeps it true, whatever the order of its chromosomes becomes. -/
theorem PL_ops_keep_sorted (pool pool' : Pool) (chrom : Chrom) (make_copy : Bool)
    (index idx1 idx2 : Int) :
    (PL_append pool chrom make_copy = .ok pool' → pool'.sorted = pool.sorted) ∧
    (PL_insert pool index chrom make_copy = .ok pool' → pool'.sorted = pool.sorted) ∧
    (PL_remove pool index = .ok pool' → pool'.sorted = pool.sorted) ∧
    (PL_swap pool idx1 idx2 = .ok pool' → pool'.sorted = pool.sorted) ∧
    (PL_move pool idx1 idx2 = .ok pool' → pool'.sorted = pool.sorted) := by
  have hins : ∀ (index : Int), PL_insert pool index chrom make_copy = .ok pool' →
      pool'.sorted = pool.sorted := by
    intro index h
    unfold PL_insert at h
    by_cases h0 : ¬ (CH_valid chrom = true)
    · rw [if_pos h0] at h; cases h
    rw [if_neg h0] at h
    by_cases h1 : index < 0 ∨ index > (pool.size : Int)
    · rw [if_pos h1] at h; cases h
    · rw [if_neg h1] at h
      by_cases h2 : make_copy = true
      · rw [if_pos h2] at h
        by_cases h3 : CH_valid (pool.chromAt index.toNat) = true
        · rw [if_pos h3] at h
          simp only at h
          cases hc : CH_copy chrom (pool.chromAt index.toNat) with
          | error e => rw [hc] at h; cases h
          | ok c => rw [hc] at h; cases h; rfl
        · rw [if_neg h3] at h
          cases ha : CH_alloc (chrom.length : Int) with
          | error e => rw [ha] at h; cases h
          | ok slot =>
            rw [ha] at h
            simp only at h
            cases hc : CH_copy chrom slot with
            | error e => rw [hc] at h; cases h
            | ok c => rw [hc] at h; cases h; rfl
      · rw [if_neg h2] at h; cases h; rfl
  refine ⟨?_, hins _, ?_, ?_, ?_⟩
  · intro h
    unfold PL_append at h
    by_cases h0 : ¬ (CH_valid chrom = true)
    · rw [if_pos h0] at h; cases h
    · rw [if_neg h0] at h; exact hins _ h
  · intro h
    unfold PL_remove at h
    by_cases h1 : index < 0 ∨ index ≥ (pool.size : Int)
    · rw [if_pos h1] at h; cases h
    · rw [if_neg h1] at h; cases h; rfl
  · intro h
    unfold PL_swap at h
    by_cases h1 : idx1 < 0 ∨ idx1 ≥ (pool.size : Int)
    · rw [if_pos h1] at h; cases h
    · rw [if_neg h1] at h
      by_cases h2 : idx2 < 0 ∨ idx2 ≥ (pool.size : Int)
      · rw [if_pos h2] at h; cases h
      · rw [if_neg h2] at h; cases h; rfl
  · intro h
    unfold PL_move at h
    by_cases h1 : idx1 < 0 ∨ idx1 ≥ (pool.size : Int)
    · rw [if_pos h1] at h; cases h
    · rw [if_neg h1] at h
      by_cases h2 : idx2 < 0 ∨ idx2 ≥ (pool.size : Int)
      · rw [if_pos h2] at h; cases h
      · rw [if_neg h2] at h; cases h; rfl

/-- C25 (amended), at a swap in a pool of two. -/
theorem PL_ops_keep_sorted_witness :
    Pool.sorted ⟨[⟨[1], 2, 0, -1, 0, 1, -1, -1, -1, -1⟩, ⟨[1], 1, 0, -1, 0, 1, -1, -1, -1, -1⟩],
      0, 0, 0, 0, 0, 0, -1, -1, -1, true, true⟩ = true :=
  (PL_ops_keep_sorted
    ⟨[⟨[1], 1, 0, -1, 0, 1, -1, -1, -1, -1⟩, ⟨[1], 2, 0, -1, 0, 1, -1, -1, -1, -1⟩],
      0, 0, 0, 0, 0, 0, -1, -1, -1, true, true⟩
    ⟨[⟨[1], 2, 0, -1, 0, 1, -1, -1, -1, -1⟩, ⟨[1], 1, 0, -1, 0, 1, -1, -1, -1, -1⟩],
      0, 0, 0, 0, 0, 0, -1, -1, -1, true, true⟩
    ⟨[1], 0, 0, -1, 0, 1, -1, -1, -1, -1⟩ true 0 0 1).2.2.2.1 (by decide!)

/-- C25, as stated, fails: a swap in a minimizing pool that is sorted and
flagged so (fitness 1, 2) leaves the flag true on a pool that is no longer in
fitness order (fitness 2, 1); an append of a chromosome of fitness 0 does the
same. -/
theorem PL_swap_keeps_sorted_flag :
    (∃ pool', PL_swap
        ⟨[⟨[1], 1, 0, -1, 0, 1, -1, -1, -1, -1⟩, ⟨[1], 2, 0, -1, 0, 1, -1, -1, -1, -1⟩],
          0, 0, 0, 0, 0, 0, -1, -1, -1, true, true⟩ 0 1 = .ok pool' ∧
      pool'.sorted = true ∧ pool'.fits = [2, 1]) ∧
    (∃ pool', PL_append
        ⟨[⟨[1], 1, 0, -1, 0, 1, -1, -1, -1, -1⟩, ⟨[1], 2, 0, -1, 0, 1, -1, -1, -1, -1⟩],
          0, 0, 0, 0, 0, 0, -1, -1, -1, true, true⟩
        ⟨[1], 0, 0, -1, 0, 1, -1, -1, -1, -1⟩ true = .ok pool' ∧
      pool'.sorted = true ∧ pool'.fits = [1, 2, 0]) := by
  constructor
  · exact ⟨⟨[⟨[1], 2, 0, -1, 0, 1, -1, -1, -1, -1⟩, ⟨[1], 1, 0, -1, 0, 1, -1, -1, -1, -1⟩],
      0, 0, 0, 0, 0, 0, -1, -1, -1, true, true⟩, by decide!, rfl, rfl⟩
  · exact ⟨⟨[⟨[1], 1, 0, -1, 0, 1, -1, -1, -1, -1⟩, ⟨[1], 2, 0, -1, 0, 1, -1, -1, -1, -1⟩,
        ⟨[1], 0, 0, -1, 0, 1, -1, -1, -1, -1⟩],
      0, 0, 0, 0, 0, 0, -1, -1, -1, true, true⟩, by decide!, rfl, rfl⟩

theorem Pool.setIndex_getElem? (pool : Pool) (i : Nat) (v : Int) (j : Nat) :
    (pool.setIndex i v).chrom[j]? =
      if j = i then (pool.chrom[j]?).map (fun c => { c with index := v }) else pool.chrom[j]? := by
  unfold Pool.setIndex
  cases h : pool.chrom[i]? with
  | none =>
    by_cases hji : j = i
    · rw [if_pos hji, hji, h]; rfl
    · rw [if_neg hji]
  | some c =>
    simp only [List.getElem?_set]
    by_cases hji : j = i
    · subst hji
      have hi : j < pool.chrom.length := by
        by_contra hc
        rw [List.getElem?_eq_none (by omega)] at h
        cases h
      rw [if_pos rfl, if_pos hi, if_pos rfl, h]
      rfl
    · rw [if_neg (fun e => hji e.symm), if_neg hji]

/-- The loop of `PL_index` writes its position into the `index` field of each
chromosome it passes and leaves the rest. -/
theorem PL_index_loop_getElem? : ∀ (k i : Nat) (pool : Pool) (j : Nat),
    (PL_index_loop k i pool).chrom[j]? =
      if i ≤ j ∧ j < i + k then (pool.chrom[j]?).map (fun c => { c with index := (j : Int) })
      else pool.chrom[j]? := by
  intro k
  induction k with
  | zero =>
    intro i pool j
    have : ¬ (i ≤ j ∧ j < i + 0) := by omega
    simp only [PL_index_loop, if_neg this]
  | succ k ih =>
    intro i pool j
    simp only [PL_index_loop]
    rw [ih, Pool.setIndex_getElem?]
    by_cases h1 : j = i
    · subst h1
      have h2 : ¬ (j + 1 ≤ j ∧ j < j + 1 + k) := by omega
      have h3 : j ≤ j ∧ j < j + (k + 1) := by omega
      rw [if_neg h2, if_pos rfl, if_pos h3]
    · rw [if_neg h1]
      by_cases h2 : i + 1 ≤ j ∧ j < i + 1 + k
      · rw [if_pos h2, if_pos (by omega)]
      · rw [if_neg h2, if_neg (by omega)]

theorem PL_index_loop_frame : ∀ (k i : Nat) (pool : Pool),
    PL_index_loop k i pool = { pool with chrom := (PL_index_loop k i pool).chrom } := by
  intro k
  induction k with
  | zero => intro i pool; rfl
  | succ k ih =>
    intro i pool
    simp only [PL_index_loop]
    exact Pool.frame_trans _ _ _ (Pool.setIndex_frame pool i i) (ih (i + 1) _)

theorem PL_index_getElem? (pool : Pool) (j : Nat) :
    (PL_index pool).chrom[j]? = (pool.chrom[j]?).map (fun c => { c with index := (j : Int) }) := by
  unfold PL_index
  rw [PL_index_loop_getElem?]
  by_cases h : 0 ≤ j ∧ j < 0 + pool.size
  · rw [if_pos h]
  · rw [if_neg h]
    have : pool.chrom.length ≤ j := by
      unfold Pool.size at h
      omega
    rw [List.getElem?_eq_none this]
    rfl

theorem PL_cmp_min_le (a b : Chrom) : PL_cmp_min a b ≤ 0 ↔ a.fitness ≤ b.fitness := by
  unfold PL_cmp_min
  rcases lt_trichotomy a.fitness b.fitness with h | h | h
  · simp [h, le_of_lt h]
  · simp [h]
  · simp [h, lt_asymm h, not_le.2 h]

theorem PL_cmp_max_le (a b : Chrom) : PL_cmp_max a b ≤ 0 ↔ b.fitness ≤ a.fitness := by
  unfold PL_cmp_max
  rcases lt_trichotomy a.fitness b.fitness with h | h | h
  · simp [h, not_le.2 h]
  · simp [h]
  · simp [h, lt_asymm h, le_of_lt h]

theorem qsort_min_sorted (l : List Chrom) :
    ((qsort PL_cmp_min l).map (fun c => c.fitness)).Sorted (fun x y => x ≤ y) := by
  unfold qsort
  have htot : IsTotal Chrom (fun a b => PL_cmp_min a b ≤ 0) :=
    ⟨fun a b => by
      simp only [PL_cmp_min_le]
      exact le_total _ _⟩
  have htr : IsTrans Chrom (fun a b => PL_cmp_min a b ≤ 0) :=
    ⟨fun a b c h1 h2 => by
      simp only [PL_cmp_min_le] at h1 h2 ⊢
      exact le_trans h1 h2⟩
  have hs := @List.sorted_insertionSort Chrom (fun a b => PL_cmp_min a b ≤ 0) _ htot htr l
  exact List.Pairwise.map _ (fun a b h => (PL_cmp_min_le a b).1 h) hs

theorem qsort_max_sorted (l : List Chrom) :
    ((qsort PL_cmp_max l).map (fun c => c.fitness)).Sorted (fun x y => x ≥ y) := by
  unfold qsort
  have htot : IsTotal Chrom (fun a b => PL_cmp_max a b ≤ 0) :=
    ⟨fun a b => by
      simp only [PL_cmp_max_le]
      exact le_total _ _⟩
  have htr : IsTrans Chrom (fun a b => PL_cmp_max a b ≤ 0) :=
    ⟨fun a b c h1 h2 => by
      simp only [PL_cmp_max_le] at h1 h2 ⊢
      exact le_trans h2 h1⟩
  have hs := @List.sorted_insertionSort Chrom (fun a b => PL_cmp_max a b ≤ 0) _ htot htr l
  exact List.Pairwise.map _ (fun a b h => (PL_cmp_max_le a b).1 h) hs

theorem qsort_perm (cmp : Chrom → Chrom → Int) (l : List Chrom) : (qsort cmp l).Perm l :=
  List.perm_insertionSort _ l

/-- C24. After `PL_sort` the chromosomes of the pool are, but for their
`index` fields, a permutation of those before; their fitness values are in
non-decreasing order when `ga_info` minimizes and in non-increasing order when
it maximizes; the chromosome of slot `i` has `index = i`; the pool has the size
it had; and the `sorted` flag is true. -/
theorem PL_sort_spec (ga_info : GA_Info) (pool : Pool) :
    ((PL_sort ga_info pool).chrom.map Chrom.unindexed).Perm (pool.chrom.map Chrom.unindexed) ∧
    (ga_info.minimize = true → (PL_sort ga_info pool).fits.Sorted (fun x y => x ≤ y)) ∧
    (ga_info.minimize = false → (PL_sort ga_info pool).fits.Sorted (fun x y => x ≥ y)) ∧
    (∀ i, i < (PL_sort ga_info pool).size → ((PL_sort ga_info pool).chromAt i).index = (i : Int)) ∧
    (PL_sort ga_info pool).size = pool.size ∧
    (PL_sort ga_info pool).sorted = true := by
  obtain ⟨S, hS⟩ : ∃ S, S = (if ga_info.minimize then qsort PL_cmp_min pool.chrom
      else qsort PL_cmp_max pool.chrom) := ⟨_, rfl⟩
  have hperm : S.Perm pool.chrom := by
    rw [hS]; split_ifs <;> exact qsort_perm _ _
  have hchrom : (PL_sort ga_info pool).chrom = (PL_index { pool with chrom := S }).chrom := by
    rw [hS]; rfl
  have hget : ∀ j : Nat, (PL_sort ga_info pool).chrom[j]? =
      (S[j]?).map (fun (c : Chrom) => { c with index := (j : Int) }) := by
    intro j
    rw [hchrom, PL_index_getElem?]
  have hun : (PL_sort ga_info pool).chrom.map Chrom.unindexed = S.map Chrom.unindexed := by
    apply List.ext_getElem?
    intro j
    rw [List.getElem?_map, List.getElem?_map, hget]
    cases S[j]? <;> rfl
  have hfit : (PL_sort ga_info pool).fits = S.map (fun c => c.fitness) := by
    apply List.ext_getElem?
    intro j
    unfold Pool.fits
    rw [List.getElem?_map, List.getElem?_map, hget]
    cases S[j]? <;> rfl
  have hsize : (PL_sort ga_info pool).size = pool.size := by
    have h1 := congrArg List.length hun
    have h2 := hperm.length_eq
    simp only [List.length_map] at h1
    unfold Pool.size
    omega
  refine ⟨?_, ?_, ?_, ?_, hsize, rfl⟩
  · rw [hun]; exact List.Perm.map _ hperm
  · intro hm
    rw [hfit, hS, if_pos hm]
    exact qsort_min_sorted _
  · intro hm
    rw [hfit, hS, if_neg (by rw [hm]; simp)]
    exact qsort_max_sorted _
  · intro i hi
    have hi' : i < (PL_sort ga_info pool).chrom.length := hi
    have hlen : i < S.length := by
      have h1 := congrArg List.length hun
      simp only [List.length_map] at h1
      omega
    have h1 := hget i
    rw [List.getElem?_eq_getElem hi', List.getElem?_eq_getElem hlen] at h1
    simp only [Option.map_some', Option.some.injEq] at h1
    unfold Pool.chromAt
    rw [List.getD_eq_getElem _ _ hi', h1]

/-- C24, at a minimizing pool of the fitness values 4, 1, 7: the sorted pool
holds 1, 4, 7. -/
theorem PL_sort_spec_witness :
    (PL_sort CF_reset
      ⟨[⟨[1], 4, 0, -1, 0, 1, -1, -1, -1, -1⟩, ⟨[1], 1, 0, -1, 0, 1, -1, -1, -1, -1⟩,
        ⟨[1], 7, 0, -1, 0, 1, -1, -1, -1, -1⟩],
        0, 0, 0, 0, 0, 0, -1, -1, -1, true, false⟩).fits.Sorted (fun x y => x ≤ y) :=
  (PL_sort_spec CF_reset
    ⟨[⟨[1], 4, 0, -1, 0, 1, -1, -1, -1, -1⟩, ⟨[1], 1, 0, -1, 0, 1, -1, -1, -1, -1⟩,
      ⟨[1], 7, 0, -1, 0, 1, -1, -1, -1, -1⟩],
      0, 0, 0, 0, 0, 0, -1, -1, -1, true, false⟩).2.1 rfl

theorem X_simple_head_eq (parent_1 parent_2 : Chrom) : ∀ (k i : Nat) (c1 c2 : Chrom),
    X_simple_head parent_1 parent_2 k i c1 c2 =
      (copy_genes parent_1 k i c1, copy_genes parent_2 k i c2) := by
  intro k
  induction k with
  | zero => intro i c1 c2; rfl
  | succ k ih => intro i c1 c2; simp only [X_simple_head, copy_genes, ih]

theorem X_simple_tail_eq (parent_1 parent_2 : Chrom) : ∀ (k i : Nat) (c1 c2 : Chrom),
    X_simple_tail parent_1 parent_2 k i c1 c2 =
      (copy_genes parent_2 k i c1, copy_genes parent_1 k i c2) := by
  intro k
  induction k with
  | zero => intro i c1 c2; rfl
  | succ k ih => intro i c1 c2; simp only [X_simple_tail, copy_genes, ih]

/-- The two copy loops of `X_simple` on one child: `own` up to the cut point
`a`, `other` after it. -/
theorem X_simple_child (own other c : Chrom) (n a : Nat) (hc : c.length = n) (ha : a < n) :
    (copy_genes other (n - (a + 1)) (a + 1) (copy_genes own (a + 1) 0 c)).xp1 = c.xp1 ∧
    (∀ i, i ≤ a → (copy_genes other (n - (a + 1)) (a + 1) (copy_genes own (a + 1) 0 c)).g i
      = own.g i) ∧
    (∀ i, a < i → i < n →
      (copy_genes other (n - (a + 1)) (a + 1) (copy_genes own (a + 1) 0 c)).g i = other.g i) := by
  refine ⟨?_, ?_, ?_⟩
  · rw [copy_genes_fields other, copy_genes_fields own]
  · intro i hi
    rw [copy_genes_g, copy_genes_length, if_neg (by omega), copy_genes_g,
      if_pos ⟨Nat.zero_le _, by omega, by omega⟩]
  · intro i h1 h2
    rw [copy_genes_g, copy_genes_length, if_pos ⟨by omega, by omega, by omega⟩]

/-- C26. Simple crossover, for a datatype other than the permutation one,
parents and children of `n >= 2` genes and the cut point `xp` that
`RAND_DOM(0, n-2)` delivers: the operator returns, both children record `xp`
in `xp1`, the genes of positions `0..xp` are those of the own parent, the genes
after `xp` those of the other parent, and `xp <= n-2`, so the last position is
exchanged. -/
theorem X_simple_spec (ga_info : GA_Info) (parent_1 parent_2 child_1 child_2 : Chrom)
    (n : Nat) (xp : Int) (rnd : List Int)
    (hdt : ga_info.datatype ≠ DataType.DT_INT_PERM) (hn : 2 ≤ n)
    (hl1 : parent_1.length = n) (hl2 : parent_2.length = n)
    (hc1 : child_1.length = n) (hc2 : child_2.length = n)
    (hxp : 0 ≤ xp ∧ xp ≤ ((n : Int) - 1) - 1) :
    ∃ c1 c2, X_simple ga_info parent_1 parent_2 child_1 child_2 (xp :: rnd) = .ok (c1, c2) ∧
      c1.xp1 = xp ∧ c2.xp1 = xp ∧
      (∀ i : Nat, (i : Int) ≤ xp → c1.g i = parent_1.g i ∧ c2.g i = parent_2.g i) ∧
      (∀ i : Nat, xp < (i : Int) → i < n → c1.g i = parent_2.g i ∧ c2.g i = parent_1.g i) ∧
      xp ≤ (n : Int) - 2 ∧
      c1.g (n - 1) = parent_2.g (n - 1) ∧ c2.g (n - 1) = parent_1.g (n - 1) := by
  obtain ⟨a, ha⟩ : ∃ a : Nat, xp = (a : Int) := ⟨xp.toNat, (Int.toNat_of_nonneg hxp.1).symm⟩
  subst ha
  have han : a < n := by omega
  obtain ⟨x1, x2, x3⟩ := X_simple_child parent_1 parent_2
    { child_1 with xp1 := ((a : Nat) : Int) } n a hc1 han
  obtain ⟨y1, y2, y3⟩ := X_simple_child parent_2 parent_1
    { child_2 with xp1 := ((a : Nat) : Int) } n a hc2 han
  have hguard : ¬ (((a : Nat) : Int) < 0 ∨ ((a : Nat) : Int) ≥ (n : Int)) := by omega
  have hrun : X_simple ga_info parent_1 parent_2 child_1 child_2 (((a : Nat) : Int) :: rnd) =
      .ok (copy_genes parent_2 (n - (a + 1)) (a + 1)
             (copy_genes parent_1 (a + 1) 0 { child_1 with xp1 := ((a : Nat) : Int) }),
           copy_genes parent_1 (n - (a + 1)) (a + 1)
             (copy_genes parent_2 (a + 1) 0 { child_2 with xp1 := ((a : Nat) : Int) })) := by
    unfold X_simple
    rw [if_neg hdt, if_neg (by rw [hl1, hl2]; exact fun h => h rfl)]
    simp only [X_gen_xp, RAND_DOM, X_simple_head_eq, X_simple_tail_eq, hl1, Int.toNat_ofNat]
    rw [if_neg hguard]
  refine ⟨_, _, hrun, x1, y1, ?_, ?_, by omega, ?_, ?_⟩
  · intro i hi
    exact ⟨x2 i (by omega), y2 i (by omega)⟩
  · intro i h1 h2
    exact ⟨x3 i (by omega) h2, y3 i (by omega) h2⟩
  · exact x3 (n - 1) (by omega) (by omega)
  · exact y3 (n - 1) (by omega) (by omega)

/-- C26, at bit-string parents of length 4 and the cut point 1. -/
theorem X_simple_spec_witness :
    ∃ c1 c2, X_simple { CF_reset with datatype := DataType.DT_BIT }
        ⟨[1, 1, 1, 1], 0, 0, -1, 0, 4, -1, -1, -1, -1⟩ ⟨[0, 0, 0, 0], 0, 0, -1, 0, 4, -1, -1, -1, -1⟩
        ⟨[0, 0, 0, 0], 0, 0, -1, 0, 4, -1, -1, -1, -1⟩ ⟨[0, 0, 0, 0], 0, 0, -1, 0, 4, -1, -1, -1, -1⟩
        [1] = .ok (c1, c2) ∧ c1.xp1 = 1 ∧ c2.xp1 = 1 := by
  obtain ⟨c1, c2, h, h1, h2, _⟩ := X_simple_spec { CF_reset with datatype := DataType.DT_BIT }
    ⟨[1, 1, 1, 1], 0, 0, -1, 0, 4, -1, -1, -1, -1⟩ ⟨[0, 0, 0, 0], 0, 0, -1, 0, 4, -1, -1, -1, -1⟩
    ⟨[0, 0, 0, 0], 0, 0, -1, 0, 4, -1, -1, -1, -1⟩ ⟨[0, 0, 0, 0], 0, 0, -1, 0, 4, -1, -1, -1, -1⟩
    4 1 [] (by decide) (by decide) rfl rfl rfl rfl (by decide)
  exact ⟨c1, c2, h, h1, h2⟩

theorem CH_cmp_pos (ga_info : GA_Info) (a b : Chrom) :
    CH_cmp ga_info a b > 0 ↔ isBetter ga_info b a := by
  unfold CH_cmp isBetter
  cases ga_info.minimize <;>
    rcases lt_trichotomy a.fitness b.fitness with h | h | h <;>
    first
      | (have h1 := lt_asymm h; simp [h, h1])
      | simp [h]

theorem CH_cmp_le (ga_info : GA_Info) (a b : Chrom) :
    CH_cmp ga_info a b ≤ 0 ↔ ¬ isBetter ga_info b a := by
  rw [← CH_cmp_pos]
  omega

theorem isBetter_trans (ga_info : GA_Info) {a b c : Chrom} (h1 : isBetter ga_info a b)
    (h2 : isBetter ga_info b c) : isBetter ga_info a c := by
  unfold isBetter at *
  by_cases hm : ga_info.minimize = true
  · rw [if_pos hm] at h1 h2 ⊢
    exact lt_trans h1 h2
  · rw [if_neg hm] at h1 h2 ⊢
    exact lt_trans h2 h1

theorem isBetter_congr (ga_info : GA_Info) {a a' b b' : Chrom} (ha : a.fitness = a'.fitness)
    (hb : b.fitness = b'.fitness) : isBetter ga_info a b ↔ isBetter ga_info a' b' := by
  unfold isBetter
  rw [ha, hb]

/-- One block of `RE_pick_best`: each child is as it was, or is the parent
with the child's crossover points, the parent being better than the child. -/
theorem RE_pick_best_step_spec (ga_info : GA_Info) (p c1 c2 : Chrom) (hp : 1 ≤ p.length) :
    ∃ e1 e2, RE_pick_best_step ga_info p c1 c2 = .ok (e1, e2) ∧
      (e1 = c1 ∨ (e1 = { p with xp1 := c1.xp1, xp2 := c1.xp2 } ∧ isBetter ga_info p c1)) ∧
      (e2 = c2 ∨ (e2 = { p with xp1 := c2.xp1, xp2 := c2.xp2 } ∧ isBetter ga_info p c2)) := by
  unfold RE_pick_best_step
  by_cases h1 : CH_cmp ga_info c1 c2 > 0
  · rw [if_pos h1]
    by_cases h2 : CH_cmp ga_info c1 p > 0
    · rw [if_pos h2, CH_copy_ok p c1 hp]
      exact ⟨_, _, rfl, Or.inr ⟨rfl, (CH_cmp_pos _ _ _).1 h2⟩, Or.inl rfl⟩
    · rw [if_neg h2]
      exact ⟨_, _, rfl, Or.inl rfl, Or.inl rfl⟩
  · rw [if_neg h1]
    by_cases h2 : CH_cmp ga_info c2 p > 0
    · rw [if_pos h2, CH_copy_ok p c2 hp]
      exact ⟨_, _, rfl, Or.inl rfl, Or.inr ⟨rfl, (CH_cmp_pos _ _ _).1 h2⟩⟩
    · rw [if_neg h2]
      exact ⟨_, _, rfl, Or.inl rfl, Or.inl rfl⟩

/-- One child through the two blocks of `RE_pick_best` and the final update of
its parent indices. -/
theorem RE_pick_best_child (ga_info : GA_Info) (p1 p2 c e f : Chrom) (i1 i2 : Int)
    (h1 : e = c ∨ (e = { p1 with xp1 := c.xp1, xp2 := c.xp2 } ∧ isBetter ga_info p1 c))
    (h2 : f = e ∨ (f = { p2 with xp1 := e.xp1, xp2 := e.xp2 } ∧ isBetter ga_info p2 e)) :
    ({ f with parent_1 := i1, parent_2 := i2 } : Chrom).xp1 = c.xp1 ∧
    ({ f with parent_1 := i1, parent_2 := i2 } : Chrom).xp2 = c.xp2 ∧
    ((({ f with parent_1 := i1, parent_2 := i2 } : Chrom).gene = c.gene ∧
        ({ f with parent_1 := i1, parent_2 := i2 } : Chrom).fitness = c.fitness) ∨
      (({ f with parent_1 := i1, parent_2 := i2 } : Chrom).gene = p1.gene ∧
        ({ f with parent_1 := i1, parent_2 := i2 } : Chrom).fitness = p1.fitness ∧
        isBetter ga_info p1 c) ∨
      (({ f with parent_1 := i1, parent_2 := i2 } : Chrom).gene = p2.gene ∧
        ({ f with parent_1 := i1, parent_2 := i2 } : Chrom).fitness = p2.fitness ∧
        isBetter ga_info p2 c)) := by
  rcases h1 with rfl | ⟨rfl, hb1⟩
  · rcases h2 with rfl | ⟨rfl, hb2⟩
    · exact ⟨rfl, rfl, Or.inl ⟨rfl, rfl⟩⟩
    · exact ⟨rfl, rfl, Or.inr (Or.inr ⟨rfl, rfl, hb2⟩)⟩
  · rcases h2 with rfl | ⟨rfl, hb2⟩
    · exact ⟨rfl, rfl, Or.inr (Or.inl ⟨rfl, rfl, hb1⟩)⟩
    · refine ⟨rfl, rfl, Or.inr (Or.inr ⟨rfl, rfl, ?_⟩)⟩
      exact isBetter_trans ga_info ((isBetter_congr ga_info rfl rfl).1 hb2) hb1

/-- C27. For parents with at least one gene, `RE_pick_best` returns; each
child keeps the `xp1` and `xp2` it had, and its genes and fitness are either
those it had or those of a parent that is strictly better than the child was
before the call.  The parents are values that the call does not change. -/
theorem RE_pick_best_spec (ga_info : GA_Info) (p1 p2 c1 c2 : Chrom)
    (h1 : 1 ≤ p1.length) (h2 : 1 ≤ p2.length) :
    ∃ d1 d2, RE_pick_best ga_info p1 p2 c1 c2 = .ok (d1, d2) ∧
      (d1.xp1 = c1.xp1 ∧ d1.xp2 = c1.xp2 ∧
        ((d1.gene = c1.gene ∧ d1.fitness = c1.fitness) ∨
         (d1.gene = p1.gene ∧ d1.fitness = p1.fitness ∧ isBetter ga_info p1 c1) ∨
         (d1.gene = p2.gene ∧ d1.fitness = p2.fitness ∧ isBetter ga_info p2 c1))) ∧
      (d2.xp1 = c2.xp1 ∧ d2.xp2 = c2.xp2 ∧
        ((d2.gene = c2.gene ∧ d2.fitness = c2.fitness) ∨
         (d2.gene = p1.gene ∧ d2.fitness = p1.fitness ∧ isBetter ga_info p1 c2) ∨
         (d2.gene = p2.gene ∧ d2.fitness = p2.fitness ∧ isBetter ga_info p2 c2))) := by
  obtain ⟨e1, e2, he, a1, a2⟩ := RE_pick_best_step_spec ga_info p1 c1 c2 h1
  obtain ⟨f1, f2, hf, b1, b2⟩ := RE_pick_best_step_spec ga_info p2 e1 e2 h2
  refine ⟨{ f1 with parent_1 := p1.index, parent_2 := p2.index },
    { f2 with parent_1 := p1.index, parent_2 := p2.index }, ?_,
    RE_pick_best_child ga_info p1 p2 c1 e1 f1 _ _ a1 b1,
    RE_pick_best_child ga_info p1 p2 c2 e2 f2 _ _ a2 b2⟩
  unfold RE_pick_best
  rw [he]
  simp only [hf]

/-- C27, at parents of fitness 1 and 2 and children of fitness 5 and 4 under
the default (minimizing) configuration. -/
theorem RE_pick_best_spec_witness :
    ∃ d1 d2, RE_pick_best CF_reset ⟨[1], 1, 0, 3, 0, 1, -1, -1, -1, -1⟩
        ⟨[2], 2, 0, 4, 0, 1, -1, -1, -1, -1⟩ ⟨[5], 5, 0, -1, 0, 1, -1, -1, 7, 8⟩
        ⟨[4], 4, 0, -1, 0, 1, -1, -1, 9, 10⟩ = .ok (d1, d2) ∧
      d1.xp1 = 7 ∧ d1.xp2 = 8 ∧ d2.xp1 = 9 ∧ d2.xp2 = 10 := by
  obtain ⟨d1, d2, h, ⟨a1, a2, _⟩, ⟨b1, b2, _⟩⟩ := RE_pick_best_spec CF_reset
    ⟨[1], 1, 0, 3, 0, 1, -1, -1, -1, -1⟩ ⟨[2], 2, 0, 4, 0, 1, -1, -1, -1, -1⟩
    ⟨[5], 5, 0, -1, 0, 1, -1, -1, 7, 8⟩ ⟨[4], 4, 0, -1, 0, 1, -1, -1, 9, 10⟩
    (by decide) (by decide)
  exact ⟨d1, d2, h, a1, a2, b1, b2⟩

theorem CH_cmp_le_iff (ga_info : GA_Info) (a b : Chrom) :
    CH_cmp ga_info a b ≤ 0 ↔
      (if ga_info.minimize then a.fitness ≤ b.fitness else b.fitness ≤ a.fitness) := by
  unfold CH_cmp
  cases ga_info.minimize <;>
    rcases lt_trichotomy a.fitness b.fitness with h | h | h <;>
    first
      | (have h1 := lt_asymm h; have h2 := le_of_lt h; have h3 := not_le.2 h
         simp [h, h1, h2, h3])
      | simp [h]

theorem CH_cmp_le_trans (ga_info : GA_Info) {a b c : Chrom} (h1 : CH_cmp ga_info a b ≤ 0)
    (h2 : CH_cmp ga_info b c ≤ 0) : CH_cmp ga_info a c ≤ 0 := by
  rw [CH_cmp_le_iff] at h1 h2 ⊢
  by_cases hm : ga_info.minimize = true
  · rw [if_pos hm] at h1 h2 ⊢; exact le_trans h1 h2
  · rw [if_neg hm] at h1 h2 ⊢; exact le_trans h2 h1

theorem CH_cmp_le_of_pos (ga_info : GA_Info) {a b : Chrom} (h : CH_cmp ga_info a b > 0) :
    CH_cmp ga_info b a ≤ 0 := by
  rw [CH_cmp_le_iff]
  have h' : ¬ CH_cmp ga_info a b ≤ 0 := by omega
  rw [CH_cmp_le_iff] at h'
  by_cases hm : ga_info.minimize = true
  · rw [if_pos hm] at h' ⊢; exact le_of_lt (not_le.1 h')
  · rw [if_neg hm] at h' ⊢; exact le_of_lt (not_le.1 h')

theorem Pool.chromAt_append (pool : Pool) (pre suf : List Chrom) (c : Chrom)
    (h : pool.chrom = pre ++ c :: suf) : pool.chromAt pre.length = c := by
  unfold Pool.chromAt
  rw [h, List.getD_append_right _ _ _ _ (le_refl _), Nat.sub_self]
  rfl

theorem Pool.chromAt_append_succ (pool : Pool) (pre suf : List Chrom) (x c : Chrom)
    (h : pool.chrom = pre ++ x :: c :: suf) : pool.chromAt (pre.length + 1) = c := by
  unfold Pool.chromAt
  rw [h, List.getD_append_right _ _ _ _ (by omega)]
  have : pre.length + 1 - pre.length = 1 := by omega
  rw [this]
  rfl

/-- A swap of two neighbours. -/
theorem PL_swap_adjacent (pool : Pool) (pre suf : List Chrom) (x c : Chrom)
    (h : pool.chrom = pre ++ x :: c :: suf) :
    PL_swap pool (pre.length : Int) ((pre.length : Int) + 1) =
      .ok { pool with chrom := pre ++ c :: x :: suf } := by
  have hsize : pool.size = pre.length + (suf.length + 2) := by
    unfold Pool.size
    rw [h]
    simp only [List.length_append, List.length_cons]
  have g1 : ¬ ((pre.length : Int) < 0 ∨ (pre.length : Int) ≥ (pool.size : Int)) := by omega
  have g2 : ¬ ((pre.length : Int) + 1 < 0 ∨ (pre.length : Int) + 1 ≥ (pool.size : Int)) := by
    omega
  have t1 : ((pre.length : Int) + 1).toNat = pre.length + 1 := by omega
  unfold PL_swap
  rw [if_neg g1, if_neg g2, Int.toNat_ofNat, t1, Pool.chromAt_append pool pre _ x h,
    Pool.chromAt_append_succ pool pre suf x c h, h,
    List.set_append_right _ _ (le_refl _), Nat.sub_self,
    List.set_append_right _ _ (by omega)]
  have : pre.length + 1 - pre.length = 1 := by omega
  rw [this]
  rfl

/-- A copy into the last slot of the pool. -/
theorem PL_insert_last (pool : Pool) (pre : List Chrom) (last chrom : Chrom)
    (h : pool.chrom = pre ++ [last]) (hlen : 1 ≤ chrom.length) :
    PL_insert pool ((pool.size : Int) - 1) chrom true =
      .ok { pool with chrom := pre ++ [chrom] } := by
  have hsize : pool.size = pre.length + 1 := by
    unfold Pool.size
    rw [h]
    simp only [List.length_append, List.length_singleton]
  have g1 : ¬ ((pool.size : Int) - 1 < 0 ∨ (pool.size : Int) - 1 > (pool.size : Int)) := by omega
  have t1 : ((pool.size : Int) - 1).toNat = pre.length := by omega
  have hslot : ∃ slot, (if CH_valid (pool.chromAt pre.length) then
      Except.ok (pool.chromAt pre.length) else CH_alloc (chrom.length : Int)) = .ok slot := by
    by_cases hv : CH_valid (pool.chromAt pre.length) = true
    · rw [if_pos hv]; exact ⟨_, rfl⟩
    · rw [if_neg hv]
      have hz : ¬ ((chrom.length : Int) ≤ 0) := by omega
      unfold CH_alloc
      rw [if_neg hz]
      exact ⟨_, rfl⟩
  obtain ⟨slot, hs⟩ := hslot
  have hv : ¬ ¬ (CH_valid chrom = true) := by
    rw [not_not]
    unfold CH_valid
    cases hg : chrom.gene with
    | nil => unfold Chrom.length at hlen; rw [hg] at hlen; exact absurd hlen (by decide)
    | cons a l => rfl
  unfold PL_insert
  rw [if_neg hv, if_neg g1, if_pos rfl, t1, hs]
  simp only [CH_copy_ok chrom slot hlen, Pool.setChrom]
  rw [if_pos (by omega), h, List.set_append_right _ _ (le_refl _), Nat.sub_self]
  rfl

/-- The bubbling loop of `RE_do_by_rank`: the new chromosome `c` moves left
past the chromosomes that compare worse and stops behind the first that does
not. -/
theorem RE_do_by_rank_bubble_spec (ga_info : GA_Info) (c : Chrom) :
    ∀ (pre suf : List Chrom) (pool : Pool), pool.chrom = pre ++ c :: suf →
    ∃ pre1 pre2, pre = pre1 ++ pre2 ∧
      RE_do_by_rank_bubble ga_info pre.length pool =
        .ok { pool with chrom := pre1 ++ c :: (pre2 ++ suf) } ∧
      (∀ x, x ∈ pre2 → CH_cmp ga_info x c > 0) ∧
      (∀ x, pre1.getLast? = some x → CH_cmp ga_info x c ≤ 0) := by
  intro pre
  induction pre using List.reverseRecOn with
  | nil =>
    intro suf pool h
    refine ⟨[], [], rfl, ?_, ?_, ?_⟩
    · simp only [List.length_nil, RE_do_by_rank_bubble, List.nil_append]
      rw [← List.nil_append (c :: suf), ← h]
    · intro x hx; cases hx
    · intro x hx; cases hx
  | append_singleton pre x ih =>
    intro suf pool h
    have h' : pool.chrom = pre ++ x :: c :: suf := by
      rw [h, List.append_assoc]; rfl
    have hlen : (pre ++ [x]).length = pre.length + 1 := by simp
    rw [hlen]
    simp only [RE_do_by_rank_bubble]
    rw [Pool.chromAt_append pool pre _ x h', Pool.chromAt_append_succ pool pre suf x c h']
    by_cases hc : CH_cmp ga_info x c ≤ 0
    · rw [if_pos hc]
      refine ⟨pre ++ [x], [], by simp, ?_, ?_, ?_⟩
      · rw [List.nil_append, ← h]
      · intro y hy; cases hy
      · intro y hy
        rw [List.getLast?_concat] at hy
        cases hy
        exact hc
    · rw [if_neg hc, PL_swap_adjacent pool pre suf x c h']
      simp only
      obtain ⟨pre1, pre2, e1, e2, e3, e4⟩ := ih (x :: suf)
        { pool with chrom := pre ++ c :: x :: suf } rfl
      refine ⟨pre1, pre2 ++ [x], by rw [e1, List.append_assoc], ?_, ?_, e4⟩
      · rw [e2]
        simp only [List.append_assoc, List.singleton_append]
      · intro y hy
        rcases List.mem_append.1 hy with hy | hy
        · exact e3 y hy
        · simp only [List.mem_singleton] at hy
          rw [hy]; omega

/-- C28. On a non-empty pool ordered best first by `CH_cmp` and a child with at
least one gene, `RE_do_by_rank` returns; the pool has the size it had and is
still ordered best first; when the child is not strictly better than the last
member the pool is as it was, and otherwise the fitness values of the pool are
the old ones with that of the last member replaced by the child's. -/
theorem RE_do_by_rank_spec (ga_info : GA_Info) (pool : Pool) (chrom : Chrom)
    (hne : 0 < pool.size) (hsorted : bestFirst ga_info pool.chrom) (hlen : 1 ≤ chrom.length) :
    ∃ pool', RE_do_by_rank ga_info pool chrom = .ok pool' ∧
      pool'.size = pool.size ∧ bestFirst ga_info pool'.chrom ∧
      (¬ isBetter ga_info chrom (pool.chromAt (pool.size - 1)) → pool' = pool) ∧
      (isBetter ga_info chrom (pool.chromAt (pool.size - 1)) →
        pool'.fits.Perm (pool.fits.dropLast ++ [chrom.fitness])) := by
  have hnil : pool.chrom ≠ [] := by
    intro e
    unfold Pool.size at hne
    rw [e] at hne
    exact absurd hne (by decide)
  obtain ⟨pre, last, hpl⟩ : ∃ pre last, pool.chrom = pre ++ [last] :=
    ⟨pool.chrom.dropLast, pool.chrom.getLast hnil, (List.dropLast_append_getLast hnil).symm⟩
  have hsize : pool.size = pre.length + 1 := by
    unfold Pool.size
    rw [hpl]
    simp only [List.length_append, List.length_singleton]
  have hlast : pool.chromAt (pool.size - 1) = last := by
    rw [hsize, Nat.add_sub_cancel]
    exact Pool.chromAt_append pool pre [] last hpl
  have h0 : ¬ (pool.size = 0) := by omega
  unfold RE_do_by_rank
  rw [if_neg h0, hlast]
  by_cases hc : CH_cmp ga_info last chrom ≤ 0
  · rw [if_pos hc]
    refine ⟨pool, rfl, rfl, hsorted, fun _ => rfl, ?_⟩
    intro hb
    exact absurd hb ((CH_cmp_le _ _ _).1 hc)
  · rw [if_neg hc, PL_insert_last pool pre last chrom hpl hlen]
    simp only
    have hsz : Pool.size { pool with chrom := pre ++ [chrom] } = pre.length + 1 := by
      simp only [Pool.size, List.length_append, List.length_singleton]
    rw [hsz, Nat.add_sub_cancel]
    obtain ⟨pre1, pre2, e1, e2, e3, e4⟩ := RE_do_by_rank_bubble_spec ga_info chrom pre []
      { pool with chrom := pre ++ [chrom] } rfl
    rw [e2]
    simp only [List.append_nil]
    have hpre : List.Pairwise (fun a b => CH_cmp ga_info a b ≤ 0) (pre1 ++ pre2) := by
      have : List.Pairwise (fun a b => CH_cmp ga_info a b ≤ 0) (pre ++ [last]) := by
        rw [← hpl]; exact hsorted
      rw [← e1]
      exact (List.pairwise_append.1 this).1
    obtain ⟨q1, q2, q3⟩ := List.pairwise_append.1 hpre
    refine ⟨_, rfl, ?_, ?_, ?_, ?_⟩
    · simp only [Pool.size, List.length_append, List.length_cons]
      rw [hpl, e1]
      simp only [List.length_append, List.length_singleton]
      omega
    · show List.Pairwise _ (pre1 ++ chrom :: pre2)
      rw [List.pairwise_append]
      refine ⟨q1, ?_, ?_⟩
      · rw [List.pairwise_cons]
        exact ⟨fun b hb => CH_cmp_le_of_pos ga_info (e3 b hb), q2⟩
      · intro a ha b hb
        rcases List.mem_cons.1 hb with hb | hb
        · rw [hb]
          rcases List.eq_nil_or_concat pre1 with hn | ⟨init, x, hx⟩
          · rw [hn] at ha; cases ha
          · rw [List.concat_eq_append] at hx
            have hxc : CH_cmp ga_info x chrom ≤ 0 := e4 x (by rw [hx, List.getLast?_concat])
            rw [hx] at ha q1
            rcases List.mem_append.1 ha with ha | ha
            · have := (List.pairwise_append.1 q1).2.2 a ha x (by simp)
              exact CH_cmp_le_trans ga_info this hxc
            · simp only [List.mem_singleton] at ha
              rw [ha]; exact hxc
        · exact q3 a ha b hb
    · intro hnb
      exact absurd ((CH_cmp_pos _ _ _).1 (by omega)) hnb
    · intro _
      simp only [Pool.fits]
      rw [hpl, e1]
      simp only [List.map_append, List.map_cons, List.map_nil, List.dropLast_concat]
      rw [List.append_assoc]
      exact List.Perm.append_left _ (@List.perm_append_comm _ [chrom.fitness] _).symm.symm

/-- C28, at a minimizing pool of the fitness values 1, 3, 5 and a child of
fitness 2. -/
theorem RE_do_by_rank_spec_witness :
    ∃ pool', RE_do_by_rank CF_reset
        ⟨[⟨[1], 1, 0, -1, 0, 1, -1, -1, -1, -1⟩, ⟨[1], 3, 0, -1, 0, 1, -1, -1, -1, -1⟩,
          ⟨[1], 5, 0, -1, 0, 1, -1, -1, -1, -1⟩],
          0, 0, 0, 0, 0, 0, -1, -1, -1, true, true⟩
        ⟨[1], 2, 0, -1, 0, 1, -1, -1, -1, -1⟩ = .ok pool' ∧
      pool'.size = 3 ∧ bestFirst CF_reset pool'.chrom := by
  obtain ⟨p, h1, h2, h3, _⟩ := RE_do_by_rank_spec CF_reset
    ⟨[⟨[1], 1, 0, -1, 0, 1, -1, -1, -1, -1⟩, ⟨[1], 3, 0, -1, 0, 1, -1, -1, -1, -1⟩,
      ⟨[1], 5, 0, -1, 0, 1, -1, -1, -1, -1⟩],
      0, 0, 0, 0, 0, 0, -1, -1, -1, true, true⟩
    ⟨[1], 2, 0, -1, 0, 1, -1, -1, -1, -1⟩ (by decide)
    (by
      unfold bestFirst
      simp only [List.pairwise_cons, List.mem_cons, List.mem_singleton, List.not_mem_nil,
        List.Pairwise.nil, and_true]
      refine ⟨?_, ?_, ?_⟩
      · intro b hb
        rcases hb with rfl | rfl | hb
        · decide!
        · decide!
        · exact absurd hb (by simp)
      · intro b hb
        rcases hb with rfl | hb
        · decide!
        · exact absurd hb (by simp)
      · intro b hb
        exact absurd hb (by simp))
    (by decide)
  exact ⟨p, h1, h2, h3⟩

/-! ## The generational scheduler: the fields of the loop test -/

theorem GA_Info.sameControl_refl (a : GA_Info) : a.sameControl a := ⟨rfl, rfl, rfl⟩

theorem GA_Info.sameControl_trans {a b c : GA_Info} (h1 : a.sameControl b)
    (h2 : b.sameControl c) : a.sameControl c :=
  ⟨h1.1.trans h2.1, h1.2.1.trans h2.2.1, h1.2.2.trans h2.2.2⟩

/-- The only field of `ga_info` that `PL_stats` writes is `converged`. -/
theorem PL_stats_control (sqrt : ℚ → ℚ) (ga_info : GA_Info) (pool : Pool) :
    (PL_stats sqrt ga_info pool).1.sameControl ga_info := by
  by_cases h0 : (pool.size : Int) ≤ 0
  · unfold PL_stats; rw [if_pos h0]; exact ⟨rfl, rfl, rfl⟩
  by_cases h1 : pool.size = 1
  · unfold PL_stats; rw [if_neg h0, if_pos h1]; exact ⟨rfl, rfl, rfl⟩
  obtain ⟨p1, s, _, _, _, heq⟩ := PL_stats_general sqrt ga_info pool (by omega)
  rw [heq]
  by_cases hv : s.no_variance = true ∨
      (s.var - s.total / (pool.size : ℚ) * s.total) / ((pool.size : ℚ) - 1) ≤ 0
  · rw [if_pos hv]; exact ⟨rfl, rfl, rfl⟩
  · rw [if_neg hv]; exact ⟨rfl, rfl, rfl⟩

theorem SE_fun_control {R : Type}
    (select : GA_Info → Pool → R → Except GAError (Int × GA_Info × Pool × R))
    (hsel : ∀ gi p r idx gi' p' r', select gi p r = .ok (idx, gi', p', r') → gi'.sameControl gi)
    (gi : GA_Info) (p : Pool) (r : R) (i : Nat) (gi' : GA_Info) (p' : Pool) (r' : R)
    (h : SE_fun select gi p r = .ok (i, gi', p', r')) : gi'.sameControl gi := by
  unfold SE_fun at h
  by_cases h0 : gi.SE_fun = none
  · rw [if_pos h0] at h; cases h
  rw [if_neg h0] at h
  cases hs : select gi p r with
  | error e => rw [hs] at h; cases h
  | ok v =>
    obtain ⟨idx, g2, p2, r2⟩ := v
    rw [hs] at h
    simp only at h
    by_cases h1 : idx < 0 ∨ idx ≥ (p2.size : Int)
    · rw [if_pos h1] at h; cases h
    rw [if_neg h1] at h
    by_cases h2 : p2.chromAt idx.toNat = CH_null
    · rw [if_pos h2] at h; cases h
    rw [if_neg h2] at h
    cases h
    exact hsel _ _ _ _ _ _ _ hs

theorem GA_init_trial_info (run run' : GA_Run) (h : GA_init_trial run = .ok run') :
    run'.ga_info = run.ga_info := by
  unfold GA_init_trial at h
  simp only at h
  by_cases h0 : ¬ (run.ga_info.elitist = true)
  · rw [if_pos h0] at h; cases h; rfl
  rw [if_neg h0] at h
  cases he : run.old_pool.chromAtIdx
      (if run.ga_info.minimize then run.old_pool.min_index else run.old_pool.max_index) with
  | error e => rw [he] at h; cases h
  | ok elite =>
    rw [he] at h
    simp only at h
    cases h1 : PL_append { run.new_pool with chrom := [] } elite true with
    | error e => rw [h1] at h; cases h
    | ok np =>
      rw [h1] at h
      simp only at h
      cases h2 : PL_append np elite true with
      | error e => rw [h2] at h; cases h
      | ok np2 => rw [h2] at h; cases h; rfl

theorem GA_gap_loop_succ {R : Type}
    (select : GA_Info → Pool → R → Except GAError (Int × GA_Info × Pool × R))
    (k : Nat) (run : GA_Run) (r : R) :
    GA_gap_loop select (k + 1) run r =
      if run.new_pool.size < run.old_pool.size then
        match SE_fun select run.ga_info run.old_pool r with
        | .error e => .error e
        | .ok (i, ga_info, old_pool, r) =>
          match PL_append run.new_pool (old_pool.chromAt i) true with
          | .error e => .error e
          | .ok new_pool =>
            GA_gap_loop select k
              { run with ga_info := ga_info, old_pool := old_pool, new_pool := new_pool } r
      else .ok (run, r) := rfl

theorem GA_gap_loop_control {R : Type}
    (select : GA_Info → Pool → R → Except GAError (Int × GA_Info × Pool × R))
    (hsel : ∀ gi p r idx gi' p' r', select gi p r = .ok (idx, gi', p', r') → gi'.sameControl gi) :
    ∀ (k : Nat) (run : GA_Run) (r : R) (run' : GA_Run) (r' : R),
      GA_gap_loop select k run r = .ok (run', r') → run'.ga_info.sameControl run.ga_info
  | 0, run, r, run', r', h => by
    have h0 : GA_gap_loop select 0 run r = .ok (run, r) := rfl
    rw [h0] at h
    cases h
    exact GA_Info.sameControl_refl _
  | k + 1, run, r, run', r', h => by
    rw [GA_gap_loop_succ] at h
    by_cases hlt : run.new_pool.size < run.old_pool.size
    · rw [if_pos hlt] at h
      cases hs : SE_fun select run.ga_info run.old_pool r with
      | error e => rw [hs] at h; cases h
      | ok v =>
        obtain ⟨i, g2, p2, r2⟩ := v
        rw [hs] at h
        simp only at h
        cases hp : PL_append run.new_pool (p2.chromAt i) true with
        | error e => rw [hp] at h; cases h
        | ok np =>
          rw [hp] at h
          simp only at h
          have ih := GA_gap_loop_control select hsel k _ _ _ _ h
          exact GA_Info.sameControl_trans ih (SE_fun_control select hsel _ _ _ _ _ _ _ hs)
    · rw [if_neg hlt] at h
      cases h
      exact GA_Info.sameControl_refl _

theorem GA_gap_control {R : Type}
    (select : GA_Info → Pool → R → Except GAError (Int × GA_Info × Pool × R))
    (hsel : ∀ gi p r idx gi' p' r', select gi p r = .ok (idx, gi', p', r') → gi'.sameControl gi)
    (sqrt : ℚ → ℚ) (run : GA_Run) (r : R) (run' : GA_Run) (r' : R)
    (h : GA_gap select sqrt run r = .ok (run', r')) :
    run'.ga_info.sameControl run.ga_info := by
  unfold GA_gap at h
  by_cases h0 : run.ga_info.gap ≤ 0
  · rw [if_pos h0] at h; cases h; exact GA_Info.sameControl_refl _
  rw [if_neg h0] at h
  simp only at h
  cases hl : GA_gap_loop select
      (toInt ((run.ga_info.pool_size : ℚ) * run.ga_info.gap)).toNat run r with
  | error e => rw [hl] at h; cases h
  | ok v =>
    obtain ⟨run1, r1⟩ := v
    rw [hl] at h
    simp only at h
    have c1 := GA_gap_loop_control select hsel _ _ _ _ _ hl
    by_cases hsz : run1.new_pool.size = run1.old_pool.size
    · rw [if_pos hsz] at h
      cases h
      exact GA_Info.sameControl_trans (PL_stats_control sqrt _ _) c1
    · rw [if_neg hsz] at h
      cases h
      exact c1

theorem GA_trial_control {R : Type}
    (select : GA_Info → Pool → R → Except GAError (Int × GA_Info × Pool × R))
    (hsel : ∀ gi p r idx gi' p' r', select gi p r = .ok (idx, gi', p', r') → gi'.sameControl gi)
    (breed : GA_Info → Chrom → Chrom → Chrom → Chrom → R → Except GAError (Chrom × Chrom × R))
    (sqrt : ℚ → ℚ) (ga_table : List FN_Table_Type) (run : GA_Run) (r : R) (run' : GA_Run) (r' : R)
    (h : GA_trial select breed sqrt ga_table run r = .ok (run', r')) :
    run'.ga_info.sameControl run.ga_info := by
  unfold GA_trial at h
  cases hs1 : SE_fun select run.ga_info run.old_pool r with
  | error e => rw [hs1] at h; cases h
  | ok v1 =>
    obtain ⟨i1, g1, p1, r1⟩ := v1
    rw [hs1] at h
    simp only at h
    cases hs2 : SE_fun select g1 p1 r1 with
    | error e => rw [hs2] at h; cases h
    | ok v2 =>
      obtain ⟨i2, g2, p2, r2⟩ := v2
      rw [hs2] at h
      simp only at h
      cases hv1 : CH_verify g2 (p2.chromAt i1) with
      | error e => rw [hv1] at h; cases h
      | ok u1 =>
        rw [hv1] at h
        simp only at h
        cases hv2 : CH_verify g2 (p2.chromAt i2) with
        | error e => rw [hv2] at h; cases h
        | ok u2 =>
          rw [hv2] at h
          simp only at h
          cases hb : breed g2 (p2.chromAt i1) (p2.chromAt i2) run.child1 run.child2 r2 with
          | error e => rw [hb] at h; cases h
          | ok v3 =>
            obtain ⟨c1, c2, r3⟩ := v3
            rw [hb] at h
            simp only at h
            cases hv3 : CH_verify g2 c1 with
            | error e => rw [hv3] at h; cases h
            | ok u3 =>
              rw [hv3] at h
              simp only at h
              cases hv4 : CH_verify g2 c2 with
              | error e => rw [hv4] at h; cases h
              | ok u4 =>
                rw [hv4] at h
                simp only at h
                cases hr : RE_fun ga_table g2 run.new_pool (p2.chromAt i1) (p2.chromAt i2)
                    c1 c2 with
                | error e => rw [hr] at h; cases h
                | ok v4 =>
                  obtain ⟨np, d1, d2⟩ := v4
                  rw [hr] at h
                  simp only at h
                  cases hc : GA_cum g2 run.best d1 d2 with
                  | error e => rw [hc] at h; cases h
                  | ok best =>
                    rw [hc] at h
                    simp only at h
                    cases h
                    exact GA_Info.sameControl_trans (PL_stats_control sqrt _ _)
                      (GA_Info.sameControl_trans
                        (SE_fun_control select hsel _ _ _ _ _ _ _ hs2)
                        (SE_fun_control select hsel _ _ _ _ _ _ _ hs1))

theorem GA_trials_succ {R : Type}
    (select : GA_Info → Pool → R → Except GAError (Int × GA_Info × Pool × R))
    (breed : GA_Info → Chrom → Chrom → Chrom → Chrom → R → Except GAError (Chrom × Chrom × R))
    (sqrt : ℚ → ℚ) (ga_table : List FN_Table_Type) (fuel : Nat) (run : GA_Run) (r : R) :
    GA_trials select breed sqrt ga_table (fuel + 1) run r =
      if run.new_pool.size < run.old_pool.size then
        match GA_trial select breed sqrt ga_table run r with
        | .error e => .error e
        | .ok (run, r) => GA_trials select breed sqrt ga_table fuel run r
      else .ok (run, r) := rfl

theorem GA_trials_control {R : Type}
    (select : GA_Info → Pool → R → Except GAError (Int × GA_Info × Pool × R))
    (hsel : ∀ gi p r idx gi' p' r', select gi p r = .ok (idx, gi', p', r') → gi'.sameControl gi)
    (breed : GA_Info → Chrom → Chrom → Chrom → Chrom → R → Except GAError (Chrom × Chrom × R))
    (sqrt : ℚ → ℚ) (ga_table : List FN_Table_Type) :
    ∀ (fuel : Nat) (run : GA_Run) (r : R) (run' : GA_Run) (r' : R),
      GA_trials select breed sqrt ga_table fuel run r = .ok (run', r') →
      run'.ga_info.sameControl run.ga_info
  | 0, run, r, run', r', h => by
    have h0 : GA_trials select breed sqrt ga_table 0 run r =
        if run.new_pool.size < run.old_pool.size then .error .noFuel else .ok (run, r) := rfl
    rw [h0] at h
    by_cases hlt : run.new_pool.size < run.old_pool.size
    · rw [if_pos hlt] at h; cases h
    · rw [if_neg hlt] at h; cases h; exact GA_Info.sameControl_refl _
  | fuel + 1, run, r, run', r', h => by
    rw [GA_trials_succ] at h
    by_cases hlt : run.new_pool.size < run.old_pool.size
    · rw [if_pos hlt] at h
      cases ht : GA_trial select breed sqrt ga_table run r with
      | error e => rw [ht] at h; cases h
      | ok v =>
        obtain ⟨run1, r1⟩ := v
        rw [ht] at h
        simp only at h
        exact GA_Info.sameControl_trans
          (GA_trials_control select hsel breed sqrt ga_table fuel _ _ _ _ h)
          (GA_trial_control select hsel breed sqrt ga_table _ _ _ _ ht)
    · rw [if_neg hlt] at h; cases h; exact GA_Info.sameControl_refl _

/-- A generation leaves `max_iter`, `iter` and `use_convergence` as they
were, when the selection does. -/
theorem GA_generation_control {R : Type}
    (select : GA_Info → Pool → R → Except GAError (Int × GA_Info × Pool × R))
    (hsel : ∀ gi p r idx gi' p' r', select gi p r = .ok (idx, gi', p', r') → gi'.sameControl gi)
    (breed : GA_Info → Chrom → Chrom → Chrom → Chrom → R → Except GAError (Chrom × Chrom × R))
    (sqrt : ℚ → ℚ) (ga_table : List FN_Table_Type) (inner : Nat) (run : GA_Run) (r : R)
    (run' : GA_Run) (r' : R)
    (h : GA_generation select breed sqrt ga_table inner run r = .ok (run', r')) :
    run'.ga_info.sameControl run.ga_info := by
  unfold GA_generation at h
  cases hi : GA_init_trial run with
  | error e => rw [hi] at h; cases h
  | ok run1 =>
    rw [hi] at h
    simp only at h
    cases hg : GA_gap select sqrt run1 r with
    | error e => rw [hg] at h; cases h
    | ok v =>
      obtain ⟨run2, r2⟩ := v
      rw [hg] at h
      simp only at h
      cases ht : GA_trials select breed sqrt ga_table inner run2 r2 with
      | error e => rw [ht] at h; cases h
      | ok w =>
        obtain ⟨run3, r3⟩ := w
        rw [ht] at h
        simp only at h
        cases h
        have c1 := GA_init_trial_info _ _ hi
        have c2 := GA_gap_control select hsel sqrt _ _ _ _ hg
        have c3 := GA_trials_control select hsel breed sqrt ga_table _ _ _ _ _ ht
        rw [c1] at c2
        exact GA_Info.sameControl_trans c3 c2

/-! ## The generational scheduler: the outer loop -/

theorem GA_generational_state_succ {R : Type}
    (select : GA_Info → Pool → R → Except GAError (Int × GA_Info × Pool × R))
    (breed : GA_Info → Chrom → Chrom → Chrom → Chrom → R → Except GAError (Chrom × Chrom × R))
    (sqrt : ℚ → ℚ) (ga_table : List FN_Table_Type) (inner g : Nat) (run : GA_Run) (r : R) :
    GA_generational_state select breed sqrt ga_table inner (g + 1) run r =
      match GA_generational_state select breed sqrt ga_table inner g run r with
      | .error e => .error e
      | .ok (run, r) =>
        match GA_generation select breed sqrt ga_table inner run r with
        | .error e => .error e
        | .ok (run, r) =>
          .ok ({ run with ga_info := { run.ga_info with iter := run.ga_info.iter + 1 } }, r) := rfl

/-- At the start of generation `g` the counter `iter` is `g`, and `max_iter`
and `use_convergence` are those of the start of the run. -/
theorem GA_generational_state_control {R : Type}
    (select : GA_Info → Pool → R → Except GAError (Int × GA_Info × Pool × R))
    (hsel : ∀ gi p r idx gi' p' r', select gi p r = .ok (idx, gi', p', r') → gi'.sameControl gi)
    (breed : GA_Info → Chrom → Chrom → Chrom → Chrom → R → Except GAError (Chrom × Chrom × R))
    (sqrt : ℚ → ℚ) (ga_table : List FN_Table_Type) (inner : Nat) (run : GA_Run) (r : R) :
    ∀ (g : Nat) (s : GA_Run) (r' : R),
      GA_generational_state select breed sqrt ga_table inner g run r = .ok (s, r') →
      s.ga_info.max_iter = run.ga_info.max_iter ∧ s.ga_info.iter = (g : Int) ∧
      s.ga_info.use_convergence = run.ga_info.use_convergence
  | 0, s, r', h => by
    have h0 : GA_generational_state select breed sqrt ga_table inner 0 run r =
        .ok ({ run with ga_info := { run.ga_info with iter := 0 } }, r) := rfl
    rw [h0] at h
    cases h
    exact ⟨rfl, rfl, rfl⟩
  | g + 1, s, r', h => by
    rw [GA_generational_state_succ] at h
    cases hs : GA_generational_state select breed sqrt ga_table inner g run r with
    | error e => rw [hs] at h; cases h
    | ok v =>
      obtain ⟨s1, r1⟩ := v
      rw [hs] at h
      simp only at h
      cases hg : GA_generation select breed sqrt ga_table inner s1 r1 with
      | error e => rw [hg] at h; cases h
      | ok w =>
        obtain ⟨s2, r2⟩ := w
        rw [hg] at h
        simp only at h
        cases h
        obtain ⟨a1, a2, a3⟩ :=
          GA_generational_state_control select hsel breed sqrt ga_table inner run r g s1 r1 hs
        obtain ⟨b1, b2, b3⟩ := GA_generation_control select hsel breed sqrt ga_table inner _ _ _ _ hg
        refine ⟨b1.trans a1, ?_, b3.trans a3⟩
        show s2.ga_info.iter + 1 = ((g + 1 : Nat) : Int)
        rw [b2, a2]
        push_cast
        rfl

/-- The outer loop returns at once when the loop test fails. -/
theorem GA_generational_loop_done {R : Type}
    (select : GA_Info → Pool → R → Except GAError (Int × GA_Info × Pool × R))
    (breed : GA_Info → Chrom → Chrom → Chrom → Chrom → R → Except GAError (Chrom × Chrom × R))
    (sqrt : ℚ → ℚ) (ga_table : List FN_Table_Type) (inner fuel : Nat) (run : GA_Run) (r : R)
    (h : ¬ (run.ga_info.max_iter < 0 ∨ run.ga_info.iter < run.ga_info.max_iter)) :
    GA_generational_loop select breed sqrt ga_table inner fuel run r = .ok (run, r) := by
  cases fuel with
  | zero =>
    have h0 : GA_generational_loop select breed sqrt ga_table inner 0 run r =
        if run.ga_info.max_iter < 0 ∨ run.ga_info.iter < run.ga_info.max_iter then
          if run.ga_info.use_convergence = true ∧ run.ga_info.converged = true then .ok (run, r)
          else .error .noFuel
        else .ok (run, r) := rfl
    rw [h0, if_neg h]
  | succ fuel =>
    unfold GA_generational_loop
    rw [if_neg h]

/-- The outer loop returns at once when the pool has converged and convergence
is in use. -/
theorem GA_generational_loop_stop {R : Type}
    (select : GA_Info → Pool → R → Except GAError (Int × GA_Info × Pool × R))
    (breed : GA_Info → Chrom → Chrom → Chrom → Chrom → R → Except GAError (Chrom × Chrom × R))
    (sqrt : ℚ → ℚ) (ga_table : List FN_Table_Type) (inner fuel : Nat) (run : GA_Run) (r : R)
    (h : GA_stop run.ga_info) :
    GA_generational_loop select breed sqrt ga_table inner fuel run r = .ok (run, r) := by
  unfold GA_stop at h
  by_cases hc : run.ga_info.max_iter < 0 ∨ run.ga_info.iter < run.ga_info.max_iter
  · cases fuel with
    | zero =>
      have h0 : GA_generational_loop select breed sqrt ga_table inner 0 run r =
          if run.ga_info.max_iter < 0 ∨ run.ga_info.iter < run.ga_info.max_iter then
            if run.ga_info.use_convergence = true ∧ run.ga_info.converged = true then .ok (run, r)
            else .error .noFuel
          else .ok (run, r) := rfl
      rw [h0, if_pos hc, if_pos h]
    | succ fuel =>
      unfold GA_generational_loop
      rw [if_pos hc, if_pos h]
  · exact GA_generational_loop_done select breed sqrt ga_table inner fuel run r hc

/-- The outer loop runs a generation when the loop test holds and the
convergence test fails. -/
theorem GA_generational_loop_step {R : Type}
    (select : GA_Info → Pool → R → Except GAError (Int × GA_Info × Pool × R))
    (breed : GA_Info → Chrom → Chrom → Chrom → Chrom → R → Except GAError (Chrom × Chrom × R))
    (sqrt : ℚ → ℚ) (ga_table : List FN_Table_Type) (inner fuel : Nat) (run : GA_Run) (r : R)
    (run' : GA_Run) (r' : R)
    (hc : run.ga_info.max_iter < 0 ∨ run.ga_info.iter < run.ga_info.max_iter)
    (hn : ¬ GA_stop run.ga_info)
    (hg : GA_generation select breed sqrt ga_table inner run r = .ok (run', r')) :
    GA_generational_loop select breed sqrt ga_table inner (fuel + 1) run r =
      GA_generational_loop select breed sqrt ga_table inner fuel
        { run' with ga_info := { run'.ga_info with iter := run'.ga_info.iter + 1 } } r' := by
  unfold GA_stop at hn
  have h0 : GA_generational_loop select breed sqrt ga_table inner (fuel + 1) run r =
      if run.ga_info.max_iter < 0 ∨ run.ga_info.iter < run.ga_info.max_iter then
        if run.ga_info.use_convergence = true ∧ run.ga_info.converged = true then .ok (run, r)
        else
          match GA_generation select breed sqrt ga_table inner run r with
          | .error e => .error e
          | .ok (run, r) =>
            GA_generational_loop select breed sqrt ga_table inner fuel
              { run with ga_info := { run.ga_info with iter := run.ga_info.iter + 1 } } r
      else .ok (run, r) := rfl
  rw [h0, if_pos hc, if_neg hn, hg]

/-- The outer loop from the start of generation `k`, with `d` generations
left before `max_iter`. -/
theorem GA_generational_loop_spec {R : Type}
    (select : GA_Info → Pool → R → Except GAError (Int × GA_Info × Pool × R))
    (breed : GA_Info → Chrom → Chrom → Chrom → Chrom → R → Except GAError (Chrom × Chrom × R))
    (sqrt : ℚ → ℚ) (ga_table : List FN_Table_Type) (inner N : Nat) (run : GA_Run) (r : R)
    (hN : run.ga_info.max_iter = (N : Int))
    (hsel : ∀ gi p r idx gi' p' r', select gi p r = .ok (idx, gi', p', r') → gi'.sameControl gi)
    (hgen : ∀ g s r', g < N →
      GA_generational_state select breed sqrt ga_table inner g run r = .ok (s, r') →
      ¬ GA_stop s.ga_info →
      ∃ out, GA_generation select breed sqrt ga_table inner s r' = .ok out) :
    ∀ (d fuel k : Nat) (s : GA_Run) (rk : R), k + d = N → d ≤ fuel →
      GA_generational_state select breed sqrt ga_table inner k run r = .ok (s, rk) →
      (∀ g, g < k → ∃ sg rg,
        GA_generational_state select breed sqrt ga_table inner g run r = .ok (sg, rg) ∧
        ¬ GA_stop sg.ga_info) →
      ∃ G s' r', G ≤ N ∧
        GA_generational_loop select breed sqrt ga_table inner fuel s rk = .ok (s', r') ∧
        GA_generational_state select breed sqrt ga_table inner G run r = .ok (s', r') ∧
        s'.ga_info.iter = (G : Int) ∧
        (∀ g, g < G → ∃ sg rg,
          GA_generational_state select breed sqrt ga_table inner g run r = .ok (sg, rg) ∧
          ¬ GA_stop sg.ga_info) ∧
        (G < N → GA_stop s'.ga_info) ∧
        (run.ga_info.use_convergence = false → G = N)
  | 0, fuel, k, s, rk, hk, _, hst, hall => by
    obtain ⟨a1, a2, _⟩ :=
      GA_generational_state_control select hsel breed sqrt ga_table inner run r k s rk hst
    have hkN : k = N := by omega
    have hc : ¬ (s.ga_info.max_iter < 0 ∨ s.ga_info.iter < s.ga_info.max_iter) := by
      rw [a1, a2, hN]
      omega
    refine ⟨k, s, rk, by omega,
      GA_generational_loop_done select breed sqrt ga_table inner fuel s rk hc, hst, a2, hall,
      fun hlt => absurd hlt (by omega), fun _ => hkN⟩
  | d + 1, fuel, k, s, rk, hk, hf, hst, hall => by
    obtain ⟨a1, a2, a3⟩ :=
      GA_generational_state_control select hsel breed sqrt ga_table inner run r k s rk hst
    have hc : s.ga_info.max_iter < 0 ∨ s.ga_info.iter < s.ga_info.max_iter := by
      rw [a1, a2, hN]
      right
      omega
    by_cases hstop : GA_stop s.ga_info
    · refine ⟨k, s, rk, by omega,
        GA_generational_loop_stop select breed sqrt ga_table inner fuel s rk hstop, hst, a2,
        hall, fun _ => hstop, ?_⟩
      intro hu
      unfold GA_stop at hstop
      rw [a3, hu] at hstop
      exact absurd hstop.1 (by decide)
    · obtain ⟨out, hout⟩ := hgen k s rk (by omega) hst hstop
      obtain ⟨s1, r1⟩ := out
      obtain ⟨f, hfe⟩ : ∃ f, fuel = f + 1 := ⟨fuel - 1, by omega⟩
      have hnext : GA_generational_state select breed sqrt ga_table inner (k + 1) run r =
          .ok ({ s1 with ga_info := { s1.ga_info with iter := s1.ga_info.iter + 1 } }, r1) := by
        rw [GA_generational_state_succ, hst]
        simp only
        rw [hout]
      have hall1 : ∀ g, g < k + 1 → ∃ sg rg,
          GA_generational_state select breed sqrt ga_table inner g run r = .ok (sg, rg) ∧
          ¬ GA_stop sg.ga_info := by
        intro g hg
        by_cases hgk : g < k
        · exact hall g hgk
        · have hge : g = k := by omega
          rw [hge]
          exact ⟨s, rk, hst, hstop⟩
      have ih := GA_generational_loop_spec select breed sqrt ga_table inner N run r hN hsel hgen
        d f (k + 1) _ _ (by omega) (by omega) hnext hall1
      rw [hfe, GA_generational_loop_step select breed sqrt ga_table inner f s rk s1 r1 hc hstop
        hout]
      exact ih

/-- C29. With `max_iter = N >= 0`, enough fuel for `N` generations, a
selection that leaves `max_iter`, `iter` and `use_convergence` as they are,
and every generation that is started returning, `GA_generational` returns the
state at the start of some generation `G <= N` with `iter = G`: the
generations `0 .. G-1` have run, each started with `use_convergence &&
converged` false; generation `G` does not run, because `G = N` or because
`use_convergence && converged` holds at its start; and with
`use_convergence = false` exactly `N` generations run. -/
theorem GA_generational_spec {R : Type}
    (select : GA_Info → Pool → R → Except GAError (Int × GA_Info × Pool × R))
    (breed : GA_Info → Chrom → Chrom → Chrom → Chrom → R → Except GAError (Chrom × Chrom × R))
    (sqrt : ℚ → ℚ) (ga_table : List FN_Table_Type) (inner fuel N : Nat) (run : GA_Run) (r : R)
    (hN : run.ga_info.max_iter = (N : Int))
    (hfuel : N ≤ fuel)
    (hsel : ∀ gi p r idx gi' p' r', select gi p r = .ok (idx, gi', p', r') → gi'.sameControl gi)
    (hgen : ∀ g s r', g < N →
      GA_generational_state select breed sqrt ga_table inner g run r = .ok (s, r') →
      ¬ GA_stop s.ga_info →
      ∃ out, GA_generation select breed sqrt ga_table inner s r' = .ok out) :
    ∃ G s r', G ≤ N ∧
      GA_generational select breed sqrt ga_table inner fuel run r = .ok (s, r') ∧
      GA_generational_state select breed sqrt ga_table inner G run r = .ok (s, r') ∧
      s.ga_info.iter = (G : Int) ∧ s.ga_info.iter ≤ (N : Int) ∧
      (∀ g, g < G → ∃ sg rg,
        GA_generational_state select breed sqrt ga_table inner g run r = .ok (sg, rg) ∧
        ¬ GA_stop sg.ga_info) ∧
      (G < N → GA_stop s.ga_info) ∧
      (run.ga_info.use_convergence = false → G = N) := by
  obtain ⟨G, s, r', h1, h2, h3, h4, h5, h6, h7⟩ :=
    GA_generational_loop_spec select breed sqrt ga_table inner N run r hN hsel hgen
      N fuel 0 { run with ga_info := { run.ga_info with iter := 0 } } r (by omega) hfuel rfl
      (fun g hg => absurd hg (by omega))
  refine ⟨G, s, r', h1, h2, h3, h4, ?_, h5, h6, h7⟩
  rw [h4]
  exact_mod_cast h1

theorem Except.exists_ok_of_toBool {α : Type} (x : Except GAError α) (h : x.toBool = true) :
    ∃ a, x = .ok a := by
  cases x with
  | error e => cases h
  | ok a => exact ⟨a, rfl⟩

theorem SE_uniform_random_call_control (gi : GA_Info) (p : Pool) (r : List Int) (idx : Int)
    (gi' : GA_Info) (p' : Pool) (r' : List Int)
    (h : SE_uniform_random_call gi p r = .ok (idx, gi', p', r')) : gi'.sameControl gi := by
  unfold SE_uniform_random_call at h
  cases hs : SE_uniform_random gi p r with
  | error e => rw [hs] at h; cases h
  | ok v =>
    obtain ⟨i, rnd⟩ := v
    rw [hs] at h
    simp only at h
    cases h
    exact GA_Info.sameControl_refl _

/-- C29, at a run of `max_iter = 2` without convergence test on a pool of two
permutations, with uniform random selection, cloning and append replacement:
the run returns with `iter = 2`. -/
theorem GA_generational_spec_witness :
    (GA_generational SE_uniform_random_call X_fun_clone (fun x => x) GA_table 4 2
        ⟨{ CF_reset with elitist := false, use_convergence := false, pool_size := 2,
                         max_iter := 2, SE_fun := some FN_Ptr.SE_uniform_random },
         ⟨[⟨[1, 2], 1, 0, 0, 0, 2, -1, -1, -1, -1⟩, ⟨[2, 1], 2, 0, 1, 0, 2, -1, -1, -1, -1⟩],
           3, 1, 2, 3 / 2, 1 / 2, 1 / 2, 0, 1, 0, true, false⟩,
         ⟨[], 0, 0, 0, 0, 0, 0, -1, -1, -1, true, false⟩,
         ⟨[1, 2], 1, 0, 0, 0, 2, -1, -1, -1, -1⟩,
         ⟨[1, 2], 0, 0, -1, 0, 2, -1, -1, -1, -1⟩,
         ⟨[1, 2], 0, 0, -1, 0, 2, -1, -1, -1, -1⟩⟩ [0, 1, 1, 0]).map
      (fun out => out.1.ga_info.iter) = .ok 2 := by
  obtain ⟨G, s, r', _, hrun, _, hiter, _, _, _, hconv⟩ :=
    GA_generational_spec SE_uniform_random_call X_fun_clone (fun x => x) GA_table 4 2 2
      ⟨{ CF_reset with elitist := false, use_convergence := false, pool_size := 2,
                       max_iter := 2, SE_fun := some FN_Ptr.SE_uniform_random },
       ⟨[⟨[1, 2], 1, 0, 0, 0, 2, -1, -1, -1, -1⟩, ⟨[2, 1], 2, 0, 1, 0, 2, -1, -1, -1, -1⟩],
         3, 1, 2, 3 / 2, 1 / 2, 1 / 2, 0, 1, 0, true, false⟩,
       ⟨[], 0, 0, 0, 0, 0, 0, -1, -1, -1, true, false⟩,
       ⟨[1, 2], 1, 0, 0, 0, 2, -1, -1, -1, -1⟩,
       ⟨[1, 2], 0, 0, -1, 0, 2, -1, -1, -1, -1⟩,
       ⟨[1, 2], 0, 0, -1, 0, 2, -1, -1, -1, -1⟩⟩ [0, 1, 1, 0]
      rfl (le_refl 2) SE_uniform_random_call_control
      (by
        intro g s r' hg hst _
        have key : ∀ g, g < 2 →
            (match GA_generational_state SE_uniform_random_call X_fun_clone (fun x => x)
                GA_table 4 g
                ⟨{ CF_reset with elitist := false, use_convergence := false, pool_size := 2,
                                 max_iter := 2, SE_fun := some FN_Ptr.SE_uniform_random },
                 ⟨[⟨[1, 2], 1, 0, 0, 0, 2, -1, -1, -1, -1⟩,
                   ⟨[2, 1], 2, 0, 1, 0, 2, -1, -1, -1, -1⟩],
                   3, 1, 2, 3 / 2, 1 / 2, 1 / 2, 0, 1, 0, true, false⟩,
                 ⟨[], 0, 0, 0, 0, 0, 0, -1, -1, -1, true, false⟩,
                 ⟨[1, 2], 1, 0, 0, 0, 2, -1, -1, -1, -1⟩,
                 ⟨[1, 2], 0, 0, -1, 0, 2, -1, -1, -1, -1⟩,
                 ⟨[1, 2], 0, 0, -1, 0, 2, -1, -1, -1, -1⟩⟩ [0, 1, 1, 0] with
              | .ok (s, r') =>
                (GA_generation SE_uniform_random_call X_fun_clone (fun x => x) GA_table 4
                  s r').toBool
              | .error _ => true) = true := by decide!
        have hk := key g hg
        rw [hst] at hk
        exact Except.exists_ok_of_toBool _ hk)
  have hG : G = 2 := hconv rfl
  rw [hrun]
  show Except.ok s.ga_info.iter = Except.ok 2
  rw [hiter, hG]
  rfl

/-- C30: the code at a run that is not elitist, with `pool_size = 2`,
`gap = 1/2` and append replacement, from an old pool of two chromosomes: the
gap clones one chromosome, the inner loop then runs one trial, which appends
two, and the generation ends with three chromosomes in the new pool against
two in the old one (after the swap the pool of three is `old_pool`).  With
elitism on, `pool_size = 4` and `gap = 1/4` the new pool ends with five
against four. -/
theorem GA_generational_overshoots :
    (GA_generational SE_uniform_random_call X_fun_clone (fun x => x) GA_table 4 1
        ⟨{ CF_reset with elitist := false, pool_size := 2, gap := 1 / 2, max_iter := 1,
                         SE_fun := some FN_Ptr.SE_uniform_random },
         ⟨[⟨[1, 2], 1, 0, 0, 0, 2, -1, -1, -1, -1⟩, ⟨[2, 1], 2, 0, 1, 0, 2, -1, -1, -1, -1⟩],
           3, 1, 2, 3 / 2, 1 / 2, 1 / 2, 0, 1, 0, true, false⟩,
         ⟨[], 0, 0, 0, 0, 0, 0, -1, -1, -1, true, false⟩,
         ⟨[1, 2], 1, 0, 0, 0, 2, -1, -1, -1, -1⟩,
         ⟨[1, 2], 0, 0, -1, 0, 2, -1, -1, -1, -1⟩,
         ⟨[1, 2], 0, 0, -1, 0, 2, -1, -1, -1, -1⟩⟩ [0, 0, 1]).map
      (fun out => (out.1.old_pool.size, out.1.new_pool.size, out.1.ga_info.iter)) = .ok (3, 2, 1) ∧
    (GA_generational SE_uniform_random_call X_fun_clone (fun x => x) GA_table 4 1
        ⟨{ CF_reset with elitist := true, pool_size := 4, gap := 1 / 4, max_iter := 1,
                         SE_fun := some FN_Ptr.SE_uniform_random },
         ⟨[⟨[1, 2], 1, 0, 0, 0, 2, -1, -1, -1, -1⟩, ⟨[2, 1], 2, 0, 1, 0, 2, -1, -1, -1, -1⟩,
           ⟨[1, 2], 1, 0, 2, 0, 2, -1, -1, -1, -1⟩, ⟨[2, 1], 2, 0, 3, 0, 2, -1, -1, -1, -1⟩],
           6, 1, 2, 3 / 2, 1 / 3, 1 / 3, 0, 1, 0, true, false⟩,
         ⟨[], 0, 0, 0, 0, 0, 0, -1, -1, -1, true, false⟩,
         ⟨[1, 2], 1, 0, 0, 0, 2, -1, -1, -1, -1⟩,
         ⟨[1, 2], 0, 0, -1, 0, 2, -1, -1, -1, -1⟩,
         ⟨[1, 2], 0, 0, -1, 0, 2, -1, -1, -1, -1⟩⟩ [0, 0, 1]).map
      (fun out => (out.1.old_pool.size, out.1.new_pool.size, out.1.ga_info.iter)) = .ok (5, 4, 1) := by
  constructor <;> decide!

/-- C32: the code at the draws 3, 4, 1, 2 (all different, so the unique mode
redraws nothing): the five compare-and-swap steps `(1,2) (3,4) (2,3) (1,2)
(3,4)` return the points 1, 3, 2, 4, with `xp2 > xp3`.  The smallest point is
first and the largest last; the two in the middle are never compared after
the last exchange with their outer neighbours. -/
theorem X_gen_4_xp_unsorted :
    X_gen_4_xp true 0 5 [3, 4, 1, 2] = .ok (1, 3, 2, 4, []) ∧
    X_gen_4_xp false 0 5 [3, 4, 1, 2] = .ok (1, 3, 2, 4, []) := by
  constructor <;> decide

/-- C33: the code at the parents `1 2 3 4 5` and `5 4 3 2 1` and the draws 3,
4, 1, 2, for which `X_gen_4_xp` gives the key positions 1, 3, 2, 4: child 1 is
`1 5 3 4 2`, where the key alleles 2, 3, 4, 5 read `5 3 4 2` from left to
right, against `5 4 3 2` in parent 2; child 2 is `5 1 3 2 4`, where the key
alleles 1, 2, 3, 4 read `1 3 2 4`, against `1 2 3 4` in parent 1. -/
theorem X_order2_order_broken :
    (X_order2 CF_reset ⟨[1, 2, 3, 4, 5], 0, 0, -1, 0, 5, -1, -1, -1, -1⟩
        ⟨[5, 4, 3, 2, 1], 0, 0, -1, 0, 5, -1, -1, -1, -1⟩
        ⟨[0, 0, 0, 0, 0], 0, 0, -1, 0, 5, -1, -1, -1, -1⟩
        ⟨[0, 0, 0, 0, 0], 0, 0, -1, 0, 5, -1, -1, -1, -1⟩ [3, 4, 1, 2]).map
      (fun out => (out.1.gene, out.2.gene)) = .ok ([1, 5, 3, 4, 2], [5, 1, 3, 2, 4]) ∧
    ([1, 5, 3, 4, 2] : List Gene).filter (fun v => decide (v ∈ ([2, 4, 3, 5] : List Gene)))
      = [5, 3, 4, 2] ∧
    ([5, 4, 3, 2, 1] : List Gene).filter (fun v => decide (v ∈ ([2, 4, 3, 5] : List Gene)))
      = [5, 4, 3, 2] ∧
    ([5, 1, 3, 2, 4] : List Gene).filter (fun v => decide (v ∈ ([4, 2, 3, 1] : List Gene)))
      = [1, 3, 2, 4] ∧
    ([1, 2, 3, 4, 5] : List Gene).filter (fun v => decide (v ∈ ([4, 2, 3, 1] : List Gene)))
      = [1, 2, 3, 4] := by
  refine ⟨by decide!, by decide!, by decide!, by decide!, by decide!⟩

/-- C36 (amended). With arithmetic taken as exact, on a non-empty pool, for every fitness
assignment, every starting scale factor and both `minimize` settings: after
the scaling pass every chromosome has `fitness + scale_factor > 0`; the total
of the scaled fitness values and the inverted total are strictly positive;
each of the three loops that hold an error check returns without it firing,
and `PL_update_ptf` returns. -/
theorem PL_update_ptf_no_error (ga_info : GA_Info) (pool : Pool) (hne : 0 < pool.size) :
    ∃ (sf total new_total : ℚ) (inv : List Chrom) (ga_info' : GA_Info) (pool' : Pool),
      sf = (if (PL_update_ptf_scale pool.chrom (ga_info.scale_factor, false, true)).2.2 then 0
            else (PL_update_ptf_scale pool.chrom (ga_info.scale_factor, false, true)).1) ∧
      (∀ c, c ∈ pool.chrom → 0 < c.fitness + sf) ∧
      total = PL_update_ptf_total sf pool.chrom 0 ∧ 0 < total ∧
      PL_update_ptf_invert sf total pool.chrom 0 = .ok (inv, new_total) ∧ 0 < new_total ∧
      (∃ l, PL_update_ptf_renorm new_total inv = .ok l) ∧
      (∃ l, PL_update_ptf_max sf total pool.chrom = .ok l) ∧
      PL_update_ptf ga_info pool = .ok (ga_info', pool') ∧
      ga_info'.scale_factor = sf ∧ pool'.total_fitness = total := by
  obtain ⟨sf, chrom, hok, hsf, hpos, _⟩ := PL_update_ptf_ok ga_info pool
  have hnil : pool.chrom ≠ [] := by
    intro e
    unfold Pool.size at hne
    rw [e] at hne
    exact absurd hne (by decide)
  have htot : PL_update_ptf_total sf pool.chrom 0 = (pool.chrom.map (fun c => c.fitness + sf)).sum := by
    rw [PL_update_ptf_total_spec, zero_add]
  have hT : 0 < (pool.chrom.map (fun c => c.fitness + sf)).sum := sum_map_pos _ _ hnil hpos
  have hN : 0 < (pool.chrom.map (fun c =>
      (pool.chrom.map (fun c => c.fitness + sf)).sum / (c.fitness + sf))).sum :=
    sum_map_pos _ _ hnil (fun c hc => div_pos hT (hpos c hc))
  refine ⟨sf, (pool.chrom.map (fun c => c.fitness + sf)).sum,
    0 + (pool.chrom.map (fun c =>
      (pool.chrom.map (fun c => c.fitness + sf)).sum / (c.fitness + sf))).sum,
    pool.chrom.map (fun c =>
      { c with ptf := (pool.chrom.map (fun c => c.fitness + sf)).sum / (c.fitness + sf) }),
    _, _, hsf, hpos, htot.symm, hT, ?_, ?_, ?_, ?_, hok, rfl, rfl⟩
  · rw [PL_update_ptf_invert_spec _ _ _ _ hpos]
  · rw [zero_add]; exact hN
  · rw [PL_update_ptf_renorm_spec]
    · exact ⟨_, rfl⟩
    · intro _
      rw [zero_add]; exact hN
  · rw [PL_update_ptf_max_spec _ _ _ (fun _ => hT)]
    exact ⟨_, rfl⟩

/-- C36 (amended), at a minimizing pool of the fitness values `-3, 0, 2` and the
starting scale factor 0: the call returns with the scale factor 4 and the
total 11. -/
theorem PL_update_ptf_no_error_witness :
    (PL_update_ptf CF_reset
        ⟨[⟨[1], -3, 0, -1, 0, 1, -1, -1, -1, -1⟩, ⟨[1], 0, 0, -1, 0, 1, -1, -1, -1, -1⟩,
          ⟨[1], 2, 0, -1, 0, 1, -1, -1, -1, -1⟩],
          0, 0, 0, 0, 0, 0, -1, -1, -1, true, false⟩).map
      (fun out => (out.1.scale_factor, out.2.total_fitness)) = .ok (4, 11) := by
  obtain ⟨sf, total, _, _, ga_info', pool', hsf, _, htot, _, _, _, _, _, hok, h1, h2⟩ :=
    PL_update_ptf_no_error CF_reset
      ⟨[⟨[1], -3, 0, -1, 0, 1, -1, -1, -1, -1⟩, ⟨[1], 0, 0, -1, 0, 1, -1, -1, -1, -1⟩,
        ⟨[1], 2, 0, -1, 0, 1, -1, -1, -1, -1⟩],
        0, 0, 0, 0, 0, 0, -1, -1, -1, true, false⟩ (by decide)
  rw [hok]
  show Except.ok (ga_info'.scale_factor, pool'.total_fitness) = Except.ok (4, 11)
  have e1 : sf = 4 := by rw [hsf]; decide!
  have e2 : total = 11 := by rw [htot, e1]; decide!
  rw [h1, h2, e1, e2]

/-! ## Mutation of real-valued genes -/

/-- Store and clamp: gene `i` ends in `[0, 1]`, every other gene and the
length stay as they were. -/
theorem clampStore_spec (chrom : Chrom) (i : Nat) (v : Gene) (hi : i < chrom.length) :
    (clampStore chrom i v).length = chrom.length ∧
    0 ≤ (clampStore chrom i v).g i ∧ (clampStore chrom i v).g i ≤ 1 ∧
    (∀ j, j ≠ i → (clampStore chrom i v).g j = chrom.g j) := by
  have h0 : (chrom.setGene i v).g i = v := Chrom.g_setGene_self chrom i v hi
  have hl0 : (chrom.setGene i v).length = chrom.length := Chrom.length_setGene chrom i v
  unfold clampStore
  simp only
  rw [h0]
  by_cases h1 : v > 1
  · rw [if_pos h1]
    have h2 : ((chrom.setGene i v).setGene i 1).g i = 1 :=
      Chrom.g_setGene_self _ i 1 (by rw [hl0]; exact hi)
    rw [h2, if_neg (by norm_num)]
    refine ⟨by rw [Chrom.length_setGene, hl0], by rw [h2]; norm_num, by rw [h2], ?_⟩
    intro j hj
    rw [Chrom.g_setGene_ne _ _ (Ne.symm hj), Chrom.g_setGene_ne _ _ (Ne.symm hj)]
  · rw [if_neg h1, h0]
    by_cases h3 : v < 0
    · rw [if_pos h3]
      have h4 : ((chrom.setGene i v).setGene i 0).g i = 0 :=
        Chrom.g_setGene_self _ i 0 (by rw [hl0]; exact hi)
      refine ⟨by rw [Chrom.length_setGene, hl0], by rw [h4], by rw [h4]; norm_num, ?_⟩
      intro j hj
      rw [Chrom.g_setGene_ne _ _ (Ne.symm hj), Chrom.g_setGene_ne _ _ (Ne.symm hj)]
    · rw [if_neg h3]
      refine ⟨hl0, by rw [h0]; exact not_lt.1 h3, by rw [h0]; exact not_lt.1 h1, ?_⟩
      intro j hj
      rw [Chrom.g_setGene_ne _ _ (Ne.symm hj)]

theorem clampStore_oneGene (chrom : Chrom) (i : Nat) (v : Gene) (hi : i < chrom.length) :
    oneGeneClamped chrom (clampStore chrom i v) := by
  obtain ⟨h1, h2, h3, h4⟩ := clampStore_spec chrom i v hi
  exact ⟨h1, i, h4, fun _ => ⟨h2, h3⟩⟩

theorem oneGeneClamped_refl (chrom : Chrom) : oneGeneClamped chrom chrom :=
  ⟨rfl, 0, fun _ _ => rfl, fun h => absurd rfl h⟩

/-- The result of `MU_float_random` on a first draw `i`. -/
theorem MU_float_random_eq (ga_info : GA_Info) (chrom : Chrom) (i : Int) (rnd : List Int)
    (u : ℚ) :
    MU_float_random ga_info chrom (i :: rnd) u =
      if i < 0 ∨ i ≥ (chrom.length : Int) then .error .outOfBounds
      else .ok (clampStore chrom i.toNat u, rnd) := rfl

/-- The result of `MU_float_rnd_pert` on a first draw `i`. -/
theorem MU_float_rnd_pert_eq (ga_info : GA_Info) (pert_range : ℚ) (chrom : Chrom) (i : Int)
    (rnd : List Int) (u : ℚ) :
    MU_float_rnd_pert ga_info pert_range chrom (i :: rnd) u =
      if i ≠ (chrom.length : Int) then
        if i < 0 ∨ i > (chrom.length : Int) then .error .outOfBounds
        else .ok (clampStore chrom i.toNat (chrom.g i.toNat + pert_range * (1 - 2 * u)), rnd)
      else .ok (chrom, rnd) := rfl

/-- The result of `MU_float_gauss_pert` on the first four draws. -/
theorem MU_float_gauss_pert_eq (ga_info : GA_Info) (pert_range : ℚ) (chrom : Chrom)
    (d1 d2 d3 i : Int) (rnd : List Int) :
    MU_float_gauss_pert ga_info pert_range chrom (d1 :: d2 :: d3 :: i :: rnd) =
      if i < 0 ∨ i ≥ (chrom.length : Int) then .error .outOfBounds
      else .ok (clampStore chrom i.toNat (chrom.g i.toNat +
        pert_range * (((2 * (d1 + d2 + d3) - 3 * 10922 : Int) : ℚ) * (305185 / 10000000000))),
        rnd) := rfl

/-- C31. With exact arithmetic, for every chromosome, every `pert_range` and
every outcome of the draws: when `MU_float_random`, `MU_float_rnd_pert` or
`MU_float_gauss_pert` returns, the result differs from the input in at most
one gene, and a gene that differs holds a value of `[0, 1]`; each of the three
returns when the index drawn is one that `RAND_DOM` can deliver (an index of
the gene array; for `MU_float_rnd_pert` also `length`, where nothing is
written). -/
theorem MU_float_clamped (ga_info : GA_Info) (pert_range : ℚ) (chrom : Chrom) (u : ℚ) :
    (∀ rnd out, MU_float_random ga_info chrom rnd u = .ok out → oneGeneClamped chrom out.1) ∧
    (∀ rnd out, MU_float_rnd_pert ga_info pert_range chrom rnd u = .ok out →
      oneGeneClamped chrom out.1) ∧
    (∀ rnd out, MU_float_gauss_pert ga_info pert_range chrom rnd = .ok out →
      oneGeneClamped chrom out.1) ∧
    (∀ (i : Int) rnd, 0 ≤ i → i < (chrom.length : Int) →
      ∃ c, MU_float_random ga_info chrom (i :: rnd) u = .ok (c, rnd)) ∧
    (∀ (i : Int) rnd, 0 ≤ i → i ≤ (chrom.length : Int) →
      ∃ c, MU_float_rnd_pert ga_info pert_range chrom (i :: rnd) u = .ok (c, rnd)) ∧
    (∀ (d1 d2 d3 i : Int) rnd, 0 ≤ i → i < (chrom.length : Int) →
      ∃ c, MU_float_gauss_pert ga_info pert_range chrom (d1 :: d2 :: d3 :: i :: rnd)
        = .ok (c, rnd)) := by
  refine ⟨?_, ?_, ?_, ?_, ?_, ?_⟩
  · intro rnd out h
    cases rnd with
    | nil => cases h
    | cons i rnd =>
      rw [MU_float_random_eq] at h
      by_cases hi : i < 0 ∨ i ≥ (chrom.length : Int)
      · rw [if_pos hi] at h; cases h
      · rw [if_neg hi] at h
        cases h
        exact clampStore_oneGene chrom _ _ (by omega)
  · intro rnd out h
    cases rnd with
    | nil => cases h
    | cons i rnd =>
      rw [MU_float_rnd_pert_eq] at h
      by_cases hl : i ≠ (chrom.length : Int)
      · rw [if_pos hl] at h
        by_cases hi : i < 0 ∨ i > (chrom.length : Int)
        · rw [if_pos hi] at h; cases h
        · rw [if_neg hi] at h
          cases h
          exact clampStore_oneGene chrom _ _ (by omega)
      · rw [if_neg hl] at h
        cases h
        exact oneGeneClamped_refl chrom
  · intro rnd out h
    match rnd, h with
    | [], h => cases h
    | [_], h => cases h
    | [_, _], h => cases h
    | [_, _, _], h => cases h
    | d1 :: d2 :: d3 :: i :: rnd, h =>
      rw [MU_float_gauss_pert_eq] at h
      by_cases hi : i < 0 ∨ i ≥ (chrom.length : Int)
      · rw [if_pos hi] at h; cases h
      · rw [if_neg hi] at h
        cases h
        exact clampStore_oneGene chrom _ _ (by omega)
  · intro i rnd h0 h1
    rw [MU_float_random_eq, if_neg (by omega)]
    exact ⟨_, rfl⟩
  · intro i rnd h0 h1
    rw [MU_float_rnd_pert_eq]
    by_cases hl : i ≠ (chrom.length : Int)
    · rw [if_pos hl, if_neg (by omega)]
      exact ⟨_, rfl⟩
    · rw [if_neg hl]
      exact ⟨_, rfl⟩
  · intro d1 d2 d3 i rnd h0 h1
    rw [MU_float_gauss_pert_eq, if_neg (by omega)]
    exact ⟨_, rfl⟩

/-- C31, at the chromosome `0.5 0.9`: `MU_float_rnd_pert` with `pert_range =
1/2`, the index 1 and the draw `u = 0` returns `0.5 1` (the sum `1.4` is
clamped), which differs from the input in gene 1 only. -/
theorem MU_float_clamped_witness :
    MU_float_rnd_pert CF_reset (1 / 2) ⟨[1 / 2, 9 / 10], 0, 0, -1, 0, 2, -1, -1, -1, -1⟩ [1] 0
      = .ok (⟨[1 / 2, 1], 0, 0, -1, 0, 2, -1, -1, -1, -1⟩, []) ∧
    oneGeneClamped ⟨[1 / 2, 9 / 10], 0, 0, -1, 0, 2, -1, -1, -1, -1⟩
      ⟨[1 / 2, 1], 0, 0, -1, 0, 2, -1, -1, -1, -1⟩ :=
  ⟨by decide!,
   (MU_float_clamped CF_reset (1 / 2) ⟨[1 / 2, 9 / 10], 0, 0, -1, 0, 2, -1, -1, -1, -1⟩ 0).2.1
     [1] (⟨[1 / 2, 1], 0, 0, -1, 0, 2, -1, -1, -1, -1⟩, []) (by decide!)⟩

/-- A sweep of `MU_float_LS` never writes the fitness field: no evaluation is
made, so the test `new_fit > prev_fit` compares the field with itself and the
branch that restores the gene is never taken. -/
theorem MU_float_LS_sweep_fitness : ∀ (k i : Nat) (chrom : Chrom) (us : List ℚ)
    (out : Chrom × List ℚ), MU_float_LS_sweep k i chrom us = .ok out →
    out.1.fitness = chrom.fitness
  | 0, i, chrom, us, out, h => by
    have h0 : MU_float_LS_sweep 0 i chrom us = .ok (chrom, us) := by
      cases us <;> rfl
    rw [h0] at h
    cases h
    rfl
  | k + 1, i, chrom, [], out, h => by cases h
  | k + 1, i, chrom, u :: us, out, h => by
    have hf : ∀ (c : Chrom) (j : Nat) (v : Gene), (c.setGene j v).fitness = c.fitness :=
      fun c j v => rfl
    have hc : (clampStore chrom i (chrom.g i + 1 / 10 * (1 - 2 * u))).fitness = chrom.fitness := by
      unfold clampStore
      simp only
      split_ifs <;> simp only [hf]
    have hstep : MU_float_LS_sweep (k + 1) i chrom (u :: us) =
        MU_float_LS_sweep k (i + 1)
          (if (clampStore chrom i (chrom.g i + 1 / 10 * (1 - 2 * u))).fitness > chrom.fitness then
            { (clampStore chrom i (chrom.g i + 1 / 10 * (1 - 2 * u))).setGene i (chrom.g i) with
              fitness := chrom.fitness }
           else clampStore chrom i (chrom.g i + 1 / 10 * (1 - 2 * u))) us := rfl
    rw [hstep, hc, if_neg (lt_irrefl _)] at h
    rw [MU_float_LS_sweep_fitness k (i + 1) _ us out h, hc]

/-- C37: the code at a chromosome of one gene `0.5` whose fitness field holds
`0.5`, the value of the evaluation function "fitness = gene 0".  Minimizing,
with the draw `u = 0`, the sweep moves the gene to `0.6`, makes no evaluation,
keeps the move and returns after one sweep with the fitness field still
`0.5`: the genes returned evaluate to `0.6`, worse than the `0.5` of the genes
given.  Maximizing, with the draw `u = 1`, the gene returned is `0.4`, again
worse. -/
theorem MU_float_LS_keeps_worse :
    MU_float_LS { CF_reset with minimize := true }
        ⟨[1 / 2], 1 / 2, 0, -1, 0, 1, -1, -1, -1, -1⟩ [0] 1
      = .ok (⟨[3 / 5], 1 / 2, 0, -1, 0, 1, -1, -1, -1, -1⟩, []) ∧
    MU_float_LS { CF_reset with minimize := false }
        ⟨[1 / 2], 1 / 2, 0, -1, 0, 1, -1, -1, -1, -1⟩ [1] 1
      = .ok (⟨[2 / 5], 1 / 2, 0, -1, 0, 1, -1, -1, -1, -1⟩, []) := by
  constructor <;> decide!

/-! ## The variance of `PL_stats` -/

theorem sum_sq_dev (l : List ℚ) (a : ℚ) :
    (l.map (fun x => (x - a) * (x - a))).sum =
      (l.map (fun x => x * x)).sum - 2 * a * l.sum + (l.length : ℚ) * (a * a) := by
  induction l with
  | nil => simp
  | cons x l ih =>
    simp only [List.map_cons, List.sum_cons, List.length_cons, ih]
    push_cast
    ring

theorem sum_sq_nonneg (l : List ℚ) (a : ℚ) : 0 ≤ (l.map (fun x => (x - a) * (x - a))).sum := by
  induction l with
  | nil => simp
  | cons x l ih =>
    simp only [List.map_cons, List.sum_cons]
    exact add_nonneg (mul_self_nonneg _) ih

theorem sum_sq_eq_zero (l : List ℚ) (a : ℚ)
    (h : (l.map (fun x => (x - a) * (x - a))).sum = 0) : ∀ x, x ∈ l → x = a := by
  induction l with
  | nil => intro x hx; cases hx
  | cons y l ih =>
    simp only [List.map_cons, List.sum_cons] at h
    have h1 : 0 ≤ (y - a) * (y - a) := mul_self_nonneg _
    have h2 := sum_sq_nonneg l a
    have h3 : (y - a) * (y - a) = 0 := by linarith
    have h4 : (l.map (fun x => (x - a) * (x - a))).sum = 0 := by linarith
    intro x hx
    rcases List.mem_cons.1 hx with e | e
    · rw [e]
      have := mul_self_eq_zero.1 h3
      linarith
    · exact ih h4 x e

/-- The numerator of the variance of `PL_stats` is the sum of the squared
deviations from the average. -/
theorem var_numerator (l : List ℚ) (hl : l ≠ []) :
    (l.map (fun x => x * x)).sum - l.sum / (l.length : ℚ) * l.sum =
      (l.map (fun x => (x - l.sum / (l.length : ℚ)) * (x - l.sum / (l.length : ℚ)))).sum := by
  have hn : (l.length : ℚ) ≠ 0 := by
    have : l.length ≠ 0 := fun e => hl (List.length_eq_zero.1 e)
    exact_mod_cast this
  rw [sum_sq_dev]
  field_simp
  ring

theorem Pool.fit_mem_fits (pool : Pool) {j : Nat} (hj : j < pool.size) :
    pool.fit j ∈ pool.fits := by
  rw [Pool.fits_eq_range]
  exact List.mem_map.2 ⟨j, List.mem_range.2 hj, rfl⟩

theorem Pool.fits_length (pool : Pool) : pool.fits.length = pool.size := by
  simp [Pool.fits, Pool.size]

/-- On a pool of two chromosomes or more whose fitness values the cast to
`float` leaves as they are: the variance that `PL_stats` computes, `(sum of
squares - ave * total) / (size - 1)`, is non-negative; the call sets
`converged` to true exactly when all the fitness values of the pool are the
same, and then `var` is 0; otherwise it sets `converged` to false and `var` is
the computed variance, which is strictly positive. -/
theorem PL_stats_variance (sqrt : ℚ → ℚ) (ga_info : GA_Info) (pool : Pool)
    (h : 2 ≤ pool.size) (hrep : ∀ j, j < pool.size → toFloat (pool.fit j) = pool.fit j) :
    0 ≤ ((pool.fits.map (fun x => x * x)).sum -
        pool.fits.sum / (pool.size : ℚ) * pool.fits.sum) / ((pool.size : ℚ) - 1) ∧
    ((PL_stats sqrt ga_info pool).1.converged = true ↔
      ∀ i j, i < pool.size → j < pool.size → pool.fit i = pool.fit j) ∧
    ((∀ i j, i < pool.size → j < pool.size → pool.fit i = pool.fit j) →
      (PL_stats sqrt ga_info pool).2.var = 0) ∧
    (¬ (∀ i j, i < pool.size → j < pool.size → pool.fit i = pool.fit j) →
      (PL_stats sqrt ga_info pool).1.converged = false ∧
      (PL_stats sqrt ga_info pool).2.var =
        ((pool.fits.map (fun x => x * x)).sum -
          pool.fits.sum / (pool.size : ℚ) * pool.fits.sum) / ((pool.size : ℚ) - 1) ∧
      0 < (PL_stats sqrt ga_info pool).2.var) := by
  obtain ⟨p1, s, hinv, _, _, heq⟩ := PL_stats_general sqrt ga_info pool h
  obtain ⟨_, _, _, _, _, _, htot, hvar, hnv⟩ := hinv
  have hne : pool.fits ≠ [] := by
    intro e
    have := Pool.fits_length pool
    rw [e] at this
    simp at this
    omega
  have hT : s.total = pool.fits.sum := by rw [htot, Pool.fits_eq_range]
  have hQ : s.var = (pool.fits.map (fun x => x * x)).sum := by
    rw [hvar, Pool.fits_eq_range, List.map_map]
    congr 1
    apply List.map_congr_left
    intro j hj
    have hj' : j < pool.size := List.mem_range.1 hj
    show toFloat (pool.fit j) * toFloat (pool.fit j) = pool.fit j * pool.fit j
    rw [hrep j hj']
  have hn1 : (0 : ℚ) < (pool.size : ℚ) - 1 := by
    have : (2 : ℚ) ≤ (pool.size : ℚ) := by exact_mod_cast h
    linarith
  have hnum := var_numerator pool.fits hne
  rw [Pool.fits_length] at hnum
  have hnn : 0 ≤ (pool.fits.map (fun x => x * x)).sum -
      pool.fits.sum / (pool.size : ℚ) * pool.fits.sum := by
    rw [hnum]; exact sum_sq_nonneg _ _
  have hV0 : 0 ≤ ((pool.fits.map (fun x => x * x)).sum -
      pool.fits.sum / (pool.size : ℚ) * pool.fits.sum) / ((pool.size : ℚ) - 1) :=
    div_nonneg hnn hn1.le
  have hsame_of_le : ((pool.fits.map (fun x => x * x)).sum -
      pool.fits.sum / (pool.size : ℚ) * pool.fits.sum) / ((pool.size : ℚ) - 1) ≤ 0 →
      ∀ i j, i < pool.size → j < pool.size → pool.fit i = pool.fit j := by
    intro hle i j hi hj
    have hz : (pool.fits.map (fun x => x * x)).sum -
        pool.fits.sum / (pool.size : ℚ) * pool.fits.sum = 0 := by
      have h0 := le_antisymm hle hV0
      rcases div_eq_zero_iff.1 h0 with e | e
      · exact e
      · exact absurd e hn1.ne'
    rw [hnum] at hz
    have hall := sum_sq_eq_zero _ _ hz
    rw [hall _ (Pool.fit_mem_fits pool hi), hall _ (Pool.fit_mem_fits pool hj)]
  have hle_of_same : (∀ i j, i < pool.size → j < pool.size → pool.fit i = pool.fit j) →
      s.no_variance = true := by
    intro hs
    exact hnv.2 (fun j _ hj => hs j (j - 1) hj (by omega))
  have hsame_of_nv : s.no_variance = true →
      ∀ i j, i < pool.size → j < pool.size → pool.fit i = pool.fit j := by
    intro hs
    have hstep := hnv.1 hs
    have h0 : ∀ i, i < pool.size → pool.fit i = pool.fit 0 := by
      intro i
      induction i with
      | zero => intro _; rfl
      | succ i ih =>
        intro hi
        have := hstep (i + 1) (by omega) hi
        rw [this]
        simp only [Nat.add_sub_cancel]
        exact ih (by omega)
    intro i j hi hj
    rw [h0 i hi, h0 j hj]
  have hcond : (s.no_variance = true ∨
      (s.var - s.total / (pool.size : ℚ) * s.total) / ((pool.size : ℚ) - 1) ≤ 0) ↔
      ∀ i j, i < pool.size → j < pool.size → pool.fit i = pool.fit j := by
    rw [hT, hQ]
    constructor
    · rintro (h1 | h1)
      · exact hsame_of_nv h1
      · exact hsame_of_le h1
    · intro hs
      exact Or.inl (hle_of_same hs)
  refine ⟨hV0, ?_, ?_, ?_⟩
  · rw [heq]
    by_cases hc : s.no_variance = true ∨
        (s.var - s.total / (pool.size : ℚ) * s.total) / ((pool.size : ℚ) - 1) ≤ 0
    · rw [if_pos hc]
      exact ⟨fun _ => hcond.1 hc, fun _ => rfl⟩
    · rw [if_neg hc]
      constructor
      · intro hf
        cases hf
      · intro hs
        exact absurd (hcond.2 hs) hc
  · intro hs
    rw [heq, if_pos (hcond.2 hs)]
  · intro hns
    have hc : ¬ (s.no_variance = true ∨
        (s.var - s.total / (pool.size : ℚ) * s.total) / ((pool.size : ℚ) - 1) ≤ 0) :=
      fun hc => hns (hcond.1 hc)
    rw [heq, if_neg hc]
    refine ⟨rfl, ?_, ?_⟩
    · show (s.var - s.total / (pool.size : ℚ) * s.total) / ((pool.size : ℚ) - 1) = _
      rw [hT, hQ]
    · show 0 < (s.var - s.total / (pool.size : ℚ) * s.total) / ((pool.size : ℚ) - 1)
      have := fun hle => hc (Or.inr hle)
      exact not_le.1 this

/-- The cast `(float)` at some values: small integers and `1/2` are kept, `1/3`
and `1/10` go to the nearest of the values with 24 significant bits, and the
two ties 16777217 and 16777219 go to the neighbour whose last bit is 0. -/
theorem toFloat_values :
    toFloat 0 = 0 ∧ toFloat 3 = 3 ∧ toFloat (-3) = -3 ∧ toFloat (1 / 2) = 1 / 2 ∧
    toFloat (1 / 3) = 11184811 / 33554432 ∧ toFloat (1 / 10) = 13421773 / 134217728 ∧
    toFloat 16777216 = 16777216 ∧ toFloat 16777217 = 16777216 ∧
    toFloat 16777218 = 16777218 ∧ toFloat 16777219 = 16777220 := by
  refine ⟨by decide!, by decide!, by decide!, by decide!, by decide!, by decide!, by decide!,
    by decide!, by decide!, by decide!⟩

/-- The variance of `PL_stats` at a pool of the fitness values 1, 2, 3, which
the cast to `float` leaves as they are: `converged` is set to false. -/
theorem PL_stats_variance_witness :
    (PL_stats (fun x => x) { CF_reset with converged := true }
      ⟨[⟨[1], 1, 0, -1, 0, 1, -1, -1, -1, -1⟩, ⟨[1], 2, 0, -1, 0, 1, -1, -1, -1, -1⟩,
        ⟨[1], 3, 0, -1, 0, 1, -1, -1, -1, -1⟩],
        0, 0, 0, 0, 0, 0, -1, -1, -1, true, false⟩).1.converged = false :=
  ((PL_stats_variance (fun x => x) { CF_reset with converged := true }
      ⟨[⟨[1], 1, 0, -1, 0, 1, -1, -1, -1, -1⟩, ⟨[1], 2, 0, -1, 0, 1, -1, -1, -1, -1⟩,
        ⟨[1], 3, 0, -1, 0, 1, -1, -1, -1, -1⟩],
        0, 0, 0, 0, 0, 0, -1, -1, -1, true, false⟩ (by decide)
      (by
        intro j hj
        have hj' : j < 3 := hj
        interval_cases j <;> decide!)).2.2.2
    (by
      intro hs
      have := hs 0 1 (by decide) (by decide)
      revert this
      decide!)).1

/-- C39: the code at the pool of the two fitness values 16777217 and 16777216,
which differ.  The cast `(float)` takes 16777217 to 16777216, so the sum of
squares is `2 * 16777216^2 = 562949953421312`, while `total` is 33554433 and
`ave` is `33554433 / 2`; the variance computed is
`(562949953421312 - 33554433 / 2 * 33554433) / (2 - 1) = -67108865 / 2`, which
is negative, and `PL_stats` sets `converged` to true and `var` to 0 on a pool
whose fitness values are not identical. -/
theorem PL_stats_negative_variance :
    toFloat 16777217 = 16777216 ∧
    (PL_stats_loop 2 0
      ⟨[⟨[1], 16777217, 0, -1, 0, 1, -1, -1, -1, -1⟩,
        ⟨[1], 16777216, 0, -1, 0, 1, -1, -1, -1, -1⟩],
        0, 0, 0, 0, 0, 0, -1, -1, -1, true, false⟩
      ⟨16777217, 16777217, 0, 0, 0, 0, true, true⟩).2.var = 562949953421312 ∧
    ((562949953421312 : ℚ) - 33554433 / 2 * 33554433) / (2 - 1) = -67108865 / 2 ∧
    (PL_stats (fun x => x) { CF_reset with converged := false }
      ⟨[⟨[1], 16777217, 0, -1, 0, 1, -1, -1, -1, -1⟩,
        ⟨[1], 16777216, 0, -1, 0, 1, -1, -1, -1, -1⟩],
        0, 0, 0, 0, 0, 0, -1, -1, -1, true, false⟩).1.converged = true ∧
    (PL_stats (fun x => x) { CF_reset with converged := false }
      ⟨[⟨[1], 16777217, 0, -1, 0, 1, -1, -1, -1, -1⟩,
        ⟨[1], 16777216, 0, -1, 0, 1, -1, -1, -1, -1⟩],
        0, 0, 0, 0, 0, 0, -1, -1, -1, true, false⟩).2.var = 0 := by
  refine ⟨by decide!, by decide!, by norm_num, by decide!, by decide!⟩

/-! ## The best two of four -/

theorem fitLE_total (ga_info : GA_Info) (x y : ℚ) : fitLE ga_info x y ∨ fitLE ga_info y x := by
  unfold fitLE
  by_cases hm : ga_info.minimize = true
  · rw [if_pos hm, if_pos hm]; exact le_total x y
  · rw [if_neg hm, if_neg hm]; exact le_total y x

theorem fitLE_trans (ga_info : GA_Info) {x y z : ℚ} (h1 : fitLE ga_info x y)
    (h2 : fitLE ga_info y z) : fitLE ga_info x z := by
  unfold fitLE at h1 h2 ⊢
  by_cases hm : ga_info.minimize = true
  · rw [if_pos hm] at h1 h2 ⊢; exact le_trans h1 h2
  · rw [if_neg hm] at h1 h2 ⊢; exact le_trans h2 h1

theorem fitLE_antisymm (ga_info : GA_Info) {x y : ℚ} (h1 : fitLE ga_info x y)
    (h2 : fitLE ga_info y x) : x = y := by
  unfold fitLE at h1 h2
  by_cases hm : ga_info.minimize = true
  · rw [if_pos hm] at h1 h2; exact le_antisymm h1 h2
  · rw [if_neg hm] at h1 h2; exact le_antisymm h2 h1

theorem CH_cmp_le_fitLE (ga_info : GA_Info) (a b : Chrom) :
    CH_cmp ga_info a b ≤ 0 ↔ fitLE ga_info a.fitness b.fitness := by
  rw [CH_cmp_le_iff]; rfl

theorem CH_cmp_pos_fitLE (ga_info : GA_Info) {a b : Chrom} (h : CH_cmp ga_info a b > 0) :
    fitLE ga_info b.fitness a.fitness := by
  rcases fitLE_total ga_info b.fitness a.fitness with h1 | h1
  · exact h1
  · have := (CH_cmp_le_fitLE ga_info a b).2 h1
    omega

/-- A list sorted by `fitLE` that holds `a`, `b` and two values that are no
better than either starts with `a` and `b`, in some order. -/
theorem take_two_of_sorted (ga_info : GA_Info) (F : List ℚ) (a b x y : ℚ)
    (hs : F.Sorted (fitLE ga_info)) (hp : F.Perm [a, b, x, y])
    (hax : fitLE ga_info a x) (hay : fitLE ga_info a y)
    (hbx : fitLE ga_info b x) (hby : fitLE ga_info b y) :
    (F.take 2).Perm [a, b] := by
  have htot : IsTotal ℚ (fitLE ga_info) := ⟨fitLE_total ga_info⟩
  have htr : IsTrans ℚ (fitLE ga_info) := ⟨fun _ _ _ h1 h2 => fitLE_trans ga_info h1 h2⟩
  have has : IsAntisymm ℚ (fitLE ga_info) := ⟨fun _ _ h1 h2 => fitLE_antisymm ga_info h1 h2⟩
  have hA := @List.sorted_insertionSort ℚ (fitLE ga_info) _ htot htr [a, b]
  have hB := @List.sorted_insertionSort ℚ (fitLE ga_info) _ htot htr [x, y]
  have pA : ([a, b].insertionSort (fitLE ga_info)).Perm [a, b] := List.perm_insertionSort _ _
  have pB : ([x, y].insertionSort (fitLE ga_info)).Perm [x, y] := List.perm_insertionSort _ _
  have hAB : ([a, b].insertionSort (fitLE ga_info) ++
      [x, y].insertionSort (fitLE ga_info)).Sorted (fitLE ga_info) := by
    unfold List.Sorted
    rw [List.pairwise_append]
    refine ⟨hA, hB, ?_⟩
    intro u hu v hv
    have hu' := pA.mem_iff.1 hu
    have hv' := pB.mem_iff.1 hv
    simp only [List.mem_cons, List.mem_singleton, List.not_mem_nil, or_false] at hu' hv'
    rcases hu' with e | e <;> rcases hv' with e' | e' <;> rw [e, e'] <;> assumption
  have pAB : ([a, b].insertionSort (fitLE ga_info) ++
      [x, y].insertionSort (fitLE ga_info)).Perm F :=
    (List.Perm.append pA pB).trans hp.symm
  have heq := @List.eq_of_perm_of_sorted ℚ (fitLE ga_info) has _ _ pAB hAB hs
  rw [← heq]
  have hlen : ([a, b].insertionSort (fitLE ga_info)).length = 2 := by
    rw [List.length_insertionSort]; rfl
  rw [List.take_left' hlen]
  exact pA

/-- One block of `RE_pick_best` on the fitness values: the two children after
it and a third value `z` are the two children before it and the parent; `z`
is no better than either child, and no child got worse. -/
theorem RE_pick_best_step_fit (ga_info : GA_Info) (p c1 c2 : Chrom) (hp : 1 ≤ p.length) :
    ∃ e1 e2 z, RE_pick_best_step ga_info p c1 c2 = .ok (e1, e2) ∧
      [e1.fitness, e2.fitness, z].Perm [c1.fitness, c2.fitness, p.fitness] ∧
      fitLE ga_info e1.fitness z ∧ fitLE ga_info e2.fitness z ∧
      fitLE ga_info e1.fitness c1.fitness ∧ fitLE ga_info e2.fitness c2.fitness := by
  have hrefl : ∀ x, fitLE ga_info x x := fun x => (fitLE_total ga_info x x).elim id id
  unfold RE_pick_best_step
  by_cases h12 : CH_cmp ga_info c1 c2 > 0
  · rw [if_pos h12]
    have w12 := CH_cmp_pos_fitLE ga_info h12
    by_cases h1p : CH_cmp ga_info c1 p > 0
    · rw [if_pos h1p, CH_copy_ok p c1 hp]
      have w1p := CH_cmp_pos_fitLE ga_info h1p
      refine ⟨_, _, c1.fitness, rfl, ?_, w1p, w12, w1p, hrefl _⟩
      show [p.fitness, c2.fitness, c1.fitness].Perm [c1.fitness, c2.fitness, p.fitness]
      exact (List.Perm.swap c2.fitness p.fitness [c1.fitness]).trans
        ((List.Perm.cons c2.fitness (List.Perm.swap c1.fitness p.fitness [])).trans
          (List.Perm.swap c1.fitness c2.fitness [p.fitness]))
    · rw [if_neg h1p]
      have w1p : fitLE ga_info c1.fitness p.fitness :=
        (CH_cmp_le_fitLE ga_info c1 p).1 (by omega)
      exact ⟨_, _, p.fitness, rfl, List.Perm.refl _, w1p, fitLE_trans ga_info w12 w1p,
        hrefl _, hrefl _⟩
  · rw [if_neg h12]
    have w12 : fitLE ga_info c1.fitness c2.fitness :=
      (CH_cmp_le_fitLE ga_info c1 c2).1 (by omega)
    by_cases h2p : CH_cmp ga_info c2 p > 0
    · rw [if_pos h2p, CH_copy_ok p c2 hp]
      have w2p := CH_cmp_pos_fitLE ga_info h2p
      refine ⟨_, _, c2.fitness, rfl, ?_, w12, w2p, hrefl _, w2p⟩
      show [c1.fitness, p.fitness, c2.fitness].Perm [c1.fitness, c2.fitness, p.fitness]
      exact List.Perm.cons c1.fitness (List.Perm.swap c2.fitness p.fitness [])
    · rw [if_neg h2p]
      have w2p : fitLE ga_info c2.fitness p.fitness :=
        (CH_cmp_le_fitLE ga_info c2 p).1 (by omega)
      exact ⟨_, _, p.fitness, rfl, List.Perm.refl _, fitLE_trans ga_info w12 w2p, w2p,
        hrefl _, hrefl _⟩

/-- The fitness values of a list sorted by `CH_cmp` are sorted by `fitLE`. -/
theorem qsort_CH_cmp_sorted (ga_info : GA_Info) (l : List Chrom) :
    ((qsort (CH_cmp ga_info) l).map (fun c => c.fitness)).Sorted (fitLE ga_info) := by
  unfold qsort
  have htot : IsTotal Chrom (fun a b => CH_cmp ga_info a b ≤ 0) :=
    ⟨fun a b => by
      simp only [CH_cmp_le_fitLE]
      exact fitLE_total ga_info _ _⟩
  have htr : IsTrans Chrom (fun a b => CH_cmp ga_info a b ≤ 0) :=
    ⟨fun a b c h1 h2 => CH_cmp_le_trans ga_info h1 h2⟩
  have hs := @List.sorted_insertionSort Chrom (fun a b => CH_cmp ga_info a b ≤ 0) _ htot htr l
  exact List.Pairwise.map _ (fun a b h => (CH_cmp_le_fitLE ga_info a b).1 h) hs

/-- C40. For parents with at least one gene and both `minimize` settings,
`RE_pick_best` returns, and the two fitness values of the children after the
call are, as a multiset, the fitness values of the best two (by `CH_cmp`) of
the four chromosomes `p1`, `p2`, `c1`, `c2` before the call. -/
theorem RE_pick_best_two (ga_info : GA_Info) (p1 p2 c1 c2 : Chrom)
    (h1 : 1 ≤ p1.length) (h2 : 1 ≤ p2.length) :
    ∃ d1 d2, RE_pick_best ga_info p1 p2 c1 c2 = .ok (d1, d2) ∧
      [d1.fitness, d2.fitness].Perm (bestTwo ga_info [p1, p2, c1, c2]) := by
  obtain ⟨e1, e2, z, hs1, hp1, a1, a2, a3, a4⟩ := RE_pick_best_step_fit ga_info p1 c1 c2 h1
  obtain ⟨f1, f2, w, hs2, hp2, b1, b2, b3, b4⟩ := RE_pick_best_step_fit ga_info p2 e1 e2 h2
  refine ⟨{ f1 with parent_1 := p1.index, parent_2 := p2.index },
    { f2 with parent_1 := p1.index, parent_2 := p2.index }, ?_, ?_⟩
  · unfold RE_pick_best
    rw [hs1]
    simp only
    rw [hs2]
  · show [f1.fitness, f2.fitness].Perm (bestTwo ga_info [p1, p2, c1, c2])
    have hF := qsort_CH_cmp_sorted ga_info [p1, p2, c1, c2]
    have hP : ((qsort (CH_cmp ga_info) [p1, p2, c1, c2]).map (fun c => c.fitness)).Perm
        [f1.fitness, f2.fitness, w, z] := by
      have q1 : ((qsort (CH_cmp ga_info) [p1, p2, c1, c2]).map (fun c => c.fitness)).Perm
          [p1.fitness, p2.fitness, c1.fitness, c2.fitness] :=
        List.Perm.map _ (qsort_perm _ _)
      have q2 : [f1.fitness, f2.fitness, w, z].Perm
          [e1.fitness, e2.fitness, p2.fitness, z] := by
        have := List.Perm.append_right [z] hp2
        simpa using this
      have q3 : [e1.fitness, e2.fitness, p2.fitness, z].Perm
          [e1.fitness, e2.fitness, z, p2.fitness] :=
        List.Perm.cons _ (List.Perm.cons _ (List.Perm.swap z p2.fitness []))
      have q4 : [e1.fitness, e2.fitness, z, p2.fitness].Perm
          [c1.fitness, c2.fitness, p1.fitness, p2.fitness] := by
        have := List.Perm.append_right [p2.fitness] hp1
        simpa using this
      have q5 : [c1.fitness, c2.fitness, p1.fitness, p2.fitness].Perm
          [p1.fitness, p2.fitness, c1.fitness, c2.fitness] := by
        have := @List.perm_append_comm _ [c1.fitness, c2.fitness] [p1.fitness, p2.fitness]
        simpa using this
      exact q1.trans (((q2.trans q3).trans q4).trans q5).symm
    have key := take_two_of_sorted ga_info _ f1.fitness f2.fitness w z hF hP b1
      (fitLE_trans ga_info b3 a1) b2 (fitLE_trans ga_info b4 a2)
    unfold bestTwo
    rw [List.map_take]
    exact key.symm

/-- C40, at parents of fitness 1 and 2 and children of fitness 5 and 4,
maximizing: the children keep the fitness values 5 and 4. -/
theorem RE_pick_best_two_witness :
    ∃ d1 d2, RE_pick_best { CF_reset with minimize := false }
        ⟨[1], 1, 0, 3, 0, 1, -1, -1, -1, -1⟩ ⟨[2], 2, 0, 4, 0, 1, -1, -1, -1, -1⟩
        ⟨[5], 5, 0, -1, 0, 1, -1, -1, 7, 8⟩ ⟨[4], 4, 0, -1, 0, 1, -1, -1, 9, 10⟩ = .ok (d1, d2) ∧
      [d1.fitness, d2.fitness].Perm [5, 4] := by
  obtain ⟨d1, d2, h, hp⟩ := RE_pick_best_two { CF_reset with minimize := false }
    ⟨[1], 1, 0, 3, 0, 1, -1, -1, -1, -1⟩ ⟨[2], 2, 0, 4, 0, 1, -1, -1, -1, -1⟩
    ⟨[5], 5, 0, -1, 0, 1, -1, -1, 7, 8⟩ ⟨[4], 4, 0, -1, 0, 1, -1, -1, 9, 10⟩
    (by decide) (by decide)
  refine ⟨d1, d2, h, ?_⟩
  have hb : bestTwo { CF_reset with minimize := false }
      [⟨[1], 1, 0, 3, 0, 1, -1, -1, -1, -1⟩, ⟨[2], 2, 0, 4, 0, 1, -1, -1, -1, -1⟩,
       ⟨[5], 5, 0, -1, 0, 1, -1, -1, 7, 8⟩, ⟨[4], 4, 0, -1, 0, 1, -1, -1, 9, 10⟩] = [5, 4] := by
    decide!
  rw [hb] at hp
  exact hp

/-! ## The structure of the children of Order1 -/

/-- On the alleles of a valid permutation, the test of `X_order1` through
`X_map` is non-membership in the donor's segment. -/
theorem notInSeg_eq_decide {n : Nat} {other donor : Chrom} (hvo : validPerm n other.gene)
    (hvd : validPerm n donor.gene) {a b : Nat} (hab : a ≤ b) (hbn : b < n) {j : Nat}
    (hj : j < n) :
    notInSeg donor a b (other.g j) = decide (other.g j ∉ segGenes donor a b) := by
  rw [Bool.eq_iff_iff, notInSeg_eq_true hab, decide_eq_true_iff, segGenes_mem]
  constructor
  · rintro h ⟨i, h1, h2, e⟩
    exact h i h1 h2 (by rw [e])
  · intro h i h1 h2 e
    have hi : i < n := by omega
    have := ((hvo.g_isInt hj).toInt_inj (hvd.g_isInt hi)).1 e
    exact h ⟨i, h1, h2, this.symm⟩

/-- One child of Order1, position by position: the segment is the donor's, and
the positions after it, taken circularly, hold the alleles of the other parent
that are not in the donor's segment, in the order of the other parent read
circularly from the position after the segment. -/
theorem order1_child_structure {n : Nat} {other donor : Chrom} (hvo : validPerm n other.gene)
    (hvd : validPerm n donor.gene) {a b : Nat} (hab : a ≤ b) (hbn : b < n) (child : Chrom)
    (hlen : child.length = n)
    (hrot : child.gene.rotate (b + 1) =
      filtPrefix (rotG other n b) (notInSeg donor a b) n ++ segGenes donor a b) :
    (∀ i, a ≤ i → i ≤ b → child.g i = donor.g i) ∧
    (List.range (n - (b + 1 - a))).map (fun e => child.g ((b + 1 + e) % n)) =
      ((List.range n).map (fun e => other.g ((b + 1 + e) % n))).filter
        (fun v => decide (v ∉ segGenes donor a b)) := by
  have hperm := order1_perm hvo hvd hab hbn
  have hFlen : (filtPrefix (rotG other n b) (notInSeg donor a b) n).length = n - (b + 1 - a) := by
    have := hperm.length_eq
    rw [List.length_append, hvd.1] at this
    have hs : (segGenes donor a b).length = b + 1 - a := by simp [segGenes]
    omega
  have hF : filtPrefix (rotG other n b) (notInSeg donor a b) n =
      ((List.range n).map (fun e => other.g ((b + 1 + e) % n))).filter
        (fun v => decide (v ∉ segGenes donor a b)) := by
    unfold filtPrefix
    apply List.filter_congr
    intro v hv
    obtain ⟨e, he, rfl⟩ := List.mem_map.1 hv
    have hn : 0 < n := by omega
    exact notInSeg_eq_decide hvo hvd hab hbn (Nat.mod_lt _ hn)
  have hget : ∀ t, t < n → child.g ((b + 1 + t) % n) =
      (filtPrefix (rotG other n b) (notInSeg donor a b) n ++ segGenes donor a b).getD t 0 := by
    intro t ht
    have hl : t < (child.gene.rotate (b + 1)).length := by
      rw [List.length_rotate]; rw [Chrom.length] at hlen; omega
    have h1 : (child.gene.rotate (b + 1)).getD t 0 = (child.gene.rotate (b + 1))[t] := by
      rw [List.getD_eq_getElem?_getD, List.getElem?_eq_getElem hl]; rfl
    rw [← hrot, h1, List.getElem_rotate]
    have hlt : (t + (b + 1)) % child.gene.length < child.gene.length :=
      Nat.mod_lt _ (by rw [Chrom.length] at hlen; omega)
    rw [← Chrom.g_eq_getElem child hlt]
    congr 1
    rw [← Chrom.length, hlen]
    congr 1
    omega
  constructor
  · intro i hai hib
    have hs : a + (i - a) ≤ b := by omega
    have hpos := order1_pos_seg hab hbn hs
    have hi : a + (i - a) = i := by omega
    rw [hi] at hpos
    have := hget (n - (b + 1 - a) + (i - a)) (by omega)
    rw [hpos] at this
    rw [this, List.getD_append_right _ _ _ _ (by rw [hFlen]; omega), hFlen]
    have hidx : n - (b + 1 - a) + (i - a) - (n - (b + 1 - a)) = i - a := by omega
    rw [hidx]
    simp only [segGenes]
    rw [List.getD_eq_getElem?_getD, List.getElem?_map, List.getElem?_range (by omega)]
    simp only [Option.map_some', Option.getD_some]
    rw [hi]
  · rw [← hF]
    apply List.ext_getElem
    · rw [List.length_map, List.length_range, hFlen]
    · intro t ht1 ht2
      rw [List.length_map, List.length_range] at ht1
      rw [List.getElem_map, List.getElem_range, hget t (by omega),
        List.getD_append _ _ _ _ (by rw [hFlen]; exact ht1), List.getD_eq_getElem?_getD,
        List.getElem?_eq_getElem ht2]
      rfl

/-- C34. Order1 crossover, for valid permutation parents of length `n >= 1`
and the draws `r1`, `r2` of `[0, n-1]`, with `a = min r1 r2`, `b = max r1 r2`
the cut points: the operator returns; child 1 holds parent 1's genes on
`[a, b]`, and its other positions, visited circularly from `(b+1) mod n`, hold
the alleles of parent 2 that are not in parent 1's segment, in the order in
which parent 2 holds them when read circularly from `(b+1) mod n`; the same
for child 2 with the parents exchanged. -/
theorem X_order1_structure (ga_info : GA_Info) (parent_1 parent_2 child_1 child_2 : Chrom)
    (n : Nat) (r1 r2 : Int) (rnd : List Int) (fuel : Nat)
    (hdt : ga_info.datatype = DataType.DT_INT_PERM) (_hn : 1 ≤ n)
    (hv1 : validPerm n parent_1.gene) (hv2 : validPerm n parent_2.gene)
    (hc1 : child_1.length = n) (hc2 : child_2.length = n)
    (hr1 : 0 ≤ r1 ∧ r1 ≤ (n : Int) - 1) (hr2 : 0 ≤ r2 ∧ r2 ≤ (n : Int) - 1)
    (hfuel : n ≤ fuel) :
    ∃ (c1 c2 : Chrom) (a b : Nat), (a : Int) = min r1 r2 ∧ (b : Int) = max r1 r2 ∧
      X_order1 ga_info parent_1 parent_2 child_1 child_2 (r1 :: r2 :: rnd) fuel = .ok (c1, c2) ∧
      (∀ i, a ≤ i → i ≤ b → c1.g i = parent_1.g i) ∧
      (List.range (n - (b + 1 - a))).map (fun e => c1.g ((b + 1 + e) % n)) =
        ((List.range n).map (fun e => parent_2.g ((b + 1 + e) % n))).filter
          (fun v => decide (v ∉ segGenes parent_1 a b)) ∧
      (∀ i, a ≤ i → i ≤ b → c2.g i = parent_2.g i) ∧
      (List.range (n - (b + 1 - a))).map (fun e => c2.g ((b + 1 + e) % n)) =
        ((List.range n).map (fun e => parent_1.g ((b + 1 + e) % n))).filter
          (fun v => decide (v ∉ segGenes parent_2 a b)) := by
  have hl1 : parent_1.length = n := hv1.1
  have hl2 : parent_2.length = n := hv2.1
  obtain ⟨a, ha⟩ : ∃ a : Nat, min r1 r2 = (a : Int) :=
    ⟨(min r1 r2).toNat, (Int.toNat_of_nonneg (le_min hr1.1 hr2.1)).symm⟩
  obtain ⟨b, hb⟩ : ∃ b : Nat, max r1 r2 = (b : Int) :=
    ⟨(max r1 r2).toNat, (Int.toNat_of_nonneg (le_trans hr1.1 (le_max_left _ _))).symm⟩
  have hab : a ≤ b := by
    have : min r1 r2 ≤ max r1 r2 := le_trans (min_le_left _ _) (le_max_left _ _)
    omega
  have hbn : b < n := by
    have : max r1 r2 ≤ (n : Int) - 1 := max_le hr1.2 hr2.2
    omega
  have hk1 : ((b : Int) - (a : Int) + 1).toNat = b + 1 - a := by omega
  have hk2 : ((n : Int) - ((b : Int) - (a : Int) + 1)).toNat = n - (b + 1 - a) := by omega
  have hcopy : ∀ (src c : Chrom), c.length = n → ∀ j, a ≤ j → j ≤ b →
      (copy_genes src (b + 1 - a) a c).g j = src.g j := by
    intro src c hc j h1 h2
    rw [copy_genes_g, if_pos ⟨h1, by omega, by omega⟩]
  obtain ⟨c1, e1, _, rot1, v1⟩ := order1_child hv2 hv1 hab hbn
    (copy_genes parent_1 (b + 1 - a) a { child_1 with xp1 := (a : Int), xp2 := (b : Int) })
    (by rw [copy_genes_length]; exact hc1) (hcopy parent_1 _ hc1) fuel hfuel
  obtain ⟨c2, e2, _, rot2, v2⟩ := order1_child hv1 hv2 hab hbn
    (copy_genes parent_2 (b + 1 - a) a { child_2 with xp1 := (a : Int), xp2 := (b : Int) })
    (by rw [copy_genes_length]; exact hc2) (hcopy parent_2 _ hc2) fuel hfuel
  obtain ⟨s1, s2⟩ := order1_child_structure hv2 hv1 hab hbn c1 v1.1 rot1
  obtain ⟨s3, s4⟩ := order1_child_structure hv1 hv2 hab hbn c2 v2.1 rot2
  refine ⟨c1, c2, a, b, ha.symm, hb.symm, ?_, s1, s2, s3, s4⟩
  have hg : ¬ ((a : Int) < 0 ∨ (b : Int) ≥ (parent_1.length : Int)) := by rw [hl1]; omega
  simp only [X_order1, hdt, ne_eq, not_true_eq_false, if_false, hl1, hl2, X_gen_2_xp_plain, ha, hb,
    X_order1_copy_eq, hk1, hk2, Int.toNat_ofNat]
  rw [if_neg (by omega)]
  apply X_order1_fill_pair parent_1 parent_2 (hl1.trans hl2.symm)
  · rw [hl1]; exact e1
  · rw [hl1]; exact e2

/-- C34, at concrete parents of length 5 with the draws `3, 1`: the segment
`[1, 3]` of child 1 is parent 1's, and the positions 4 and 0 hold 5 and 1, the
alleles of parent 2 outside the segment in the order of parent 2 read from
position 4. -/
theorem X_order1_structure_witness :
    ∃ c1 c2, X_order1 CF_reset
        ⟨[1, 2, 3, 4, 5], 0, 0, -1, 0, 5, -1, -1, -1, -1⟩
        ⟨[3, 5, 1, 2, 4], 0, 0, -1, 0, 5, -1, -1, -1, -1⟩
        ⟨[0, 0, 0, 0, 0], 0, 0, -1, 0, 5, -1, -1, -1, -1⟩
        ⟨[0, 0, 0, 0, 0], 0, 0, -1, 0, 5, -1, -1, -1, -1⟩ [3, 1] 5 = .ok (c1, c2) ∧
      (List.range 2).map (fun e => c1.g ((3 + 1 + e) % 5)) = [5, 1] ∧
      c1.g 1 = 2 ∧ c1.g 2 = 3 ∧ c1.g 3 = 4 := by
  obtain ⟨c1, c2, a, b, ha, hb, hx, s1, s2, _, _⟩ := X_order1_structure CF_reset
    ⟨[1, 2, 3, 4, 5], 0, 0, -1, 0, 5, -1, -1, -1, -1⟩
    ⟨[3, 5, 1, 2, 4], 0, 0, -1, 0, 5, -1, -1, -1, -1⟩
    ⟨[0, 0, 0, 0, 0], 0, 0, -1, 0, 5, -1, -1, -1, -1⟩
    ⟨[0, 0, 0, 0, 0], 0, 0, -1, 0, 5, -1, -1, -1, -1⟩ 5 3 1 [] 5
    rfl (by decide) (by decide!) (by decide!) rfl rfl (by decide) (by decide) (le_refl _)
  have hmin : min (3 : Int) 1 = 1 := by decide
  have hmax : max (3 : Int) 1 = 3 := by decide
  have ha1 : a = 1 := by omega
  have hb3 : b = 3 := by omega
  subst ha1
  subst hb3
  refine ⟨c1, c2, hx, s2.trans (by decide!), ?_, ?_, ?_⟩
  · rw [s1 1 (by decide) (by decide)]; decide!
  · rw [s1 2 (by decide) (by decide)]; decide!
  · rw [s1 3 (by decide) (by decide)]; decide!

/-! ## The structure of the children of the cycle crossover -/

/-- The positions that a cycle-following loop of `X_cycle` visits are exactly
the iterates of the start index under the index map. -/
theorem X_cycle_loop_orbit {n : Nat} {donor other : Chrom} (hvd : validPerm n donor.gene)
    (hvo : validPerm n other.gene) (xp : Nat) (child0 : Chrom) :
    ∀ (fuel i : Nat) (child child' : Chrom) (V : List Nat),
      i < n → (∀ v, v ∈ V → v < n) →
      (∀ v, v ∈ V → ∃ k, (cycleMap donor other)^[k] xp = v) →
      (∃ k, (cycleMap donor other)^[k] xp = i) →
      (∀ v, v ∈ V → cycleMap donor other v ∈ V ∨ cycleMap donor other v = i) →
      (xp ∈ V ∨ i = xp) →
      child.length = n →
      (∀ x, child.g x = if x ∈ V then donor.g x else child0.g x) →
      X_cycle_loop donor other xp fuel i child = .ok child' →
      ∃ O : List Nat, (∀ x, child'.g x = if x ∈ O then donor.g x else child0.g x) ∧
        (∀ v, v ∈ O ↔ ∃ k, (cycleMap donor other)^[k] xp = v) := by
  intro fuel
  induction fuel with
  | zero =>
    intro i child child' V _ _ _ _ _ _ _ _ h
    cases h
  | succ fuel ih =>
    intro i child child' V hi hV horb hiorb hclo hxp hlen hg h
    obtain ⟨hs1, _, hs3⟩ := cycleMap_spec hvd hvo hi
    have hg' : ∀ x, (child.setGene i (donor.g i)).g x =
        if x ∈ i :: V then donor.g x else child0.g x := by
      intro x
      rw [Chrom.g_setGene, hg x]
      by_cases hx : i = x
      · subst hx; simp [hlen, hi]
      · have : ¬ (i = x ∧ i < child.length) := fun h => hx h.1
        rw [if_neg this]
        simp [List.mem_cons, Ne.symm hx]
    have hV' : ∀ v, v ∈ i :: V → v < n := by
      intro v hv
      rcases List.mem_cons.1 hv with e | e
      · rw [e]; exact hi
      · exact hV v e
    have horb' : ∀ v, v ∈ i :: V → ∃ k, (cycleMap donor other)^[k] xp = v := by
      intro v hv
      rcases List.mem_cons.1 hv with e | e
      · rw [e]; exact hiorb
      · exact horb v e
    have hxp' : xp ∈ i :: V := by
      rcases hxp with h | h
      · exact List.mem_cons_of_mem _ h
      · rw [h]; exact List.mem_cons_self _ _
    simp only [X_cycle_loop, hs3] at h
    have hnn : ¬ ((cycleMap donor other i : Nat) : Int) < 0 := by omega
    rw [if_neg hnn] at h
    by_cases hr : ((cycleMap donor other i : Nat) : Int) = (xp : Int)
    · rw [if_pos hr] at h
      cases h
      have hr' : cycleMap donor other i = xp := by exact_mod_cast hr
      refine ⟨i :: V, hg', ?_⟩
      intro v
      constructor
      · exact horb' v
      · rintro ⟨k, rfl⟩
        induction k with
        | zero => exact hxp'
        | succ k ihk =>
          rw [Function.iterate_succ_apply']
          rcases List.mem_cons.1 ihk with e | e
          · rw [e, hr']; exact hxp'
          · rcases hclo _ e with c | c
            · exact List.mem_cons_of_mem _ c
            · rw [c]; exact List.mem_cons_self _ _
    · rw [if_neg hr] at h
      simp only [Int.toNat_ofNat] at h
      apply ih (cycleMap donor other i) (child.setGene i (donor.g i)) child' (i :: V) hs1 hV'
        horb' ?_ ?_ (Or.inl hxp') (by simp [hlen]) hg' h
      · obtain ⟨k, hk⟩ := hiorb
        exact ⟨k + 1, by rw [Function.iterate_succ_apply', hk]⟩
      · intro v hv
        rcases List.mem_cons.1 hv with e | e
        · right; rw [e]
        · rcases hclo v e with c | c
          · left; exact List.mem_cons_of_mem _ c
          · left; rw [c]; exact List.mem_cons_self _ _

/-- One child of the cycle crossover, position by position: on the cycle of
the start index it holds the donor's genes, elsewhere the other parent's. -/
theorem cycle_child_orbit {n : Nat} {donor other : Chrom} (hvd : validPerm n donor.gene)
    (hvo : validPerm n other.gene) {xp : Nat} (hxp : xp < n) (child0 child' : Chrom)
    (hc0 : child0.gene = other.gene) (fuel : Nat)
    (h : X_cycle_loop donor other xp fuel xp child0 = .ok child') :
    (∀ i, (∃ k, (cycleMap donor other)^[k] xp = i) → child'.g i = donor.g i) ∧
    (∀ i, ¬ (∃ k, (cycleMap donor other)^[k] xp = i) → child'.g i = other.g i) := by
  have hg0 : ∀ x, child0.g x = other.g x := fun x => by simp only [Chrom.g, hc0]
  obtain ⟨O, h1, h2⟩ := X_cycle_loop_orbit hvd hvo xp child0 fuel xp child0 child' [] hxp
    (fun v hv => by simp at hv) (fun v hv => by simp at hv) ⟨0, rfl⟩
    (fun v hv => by simp at hv) (Or.inr rfl) (by rw [Chrom.length, hc0]; exact hvo.1)
    (fun x => by simp) h
  constructor
  · intro i hi
    rw [h1 i, if_pos ((h2 i).2 hi)]
  · intro i hi
    rw [h1 i, if_neg (fun hc => hi ((h2 i).1 hc)), hg0]

/-- C35. Cycle crossover, for valid permutation parents of length `n` and a
start index `xp < n`: the operator returns; every gene of each child is the
gene of one of the parents at the same position; child 1 holds parent 1's gene
at every position of the cycle through `xp` of the index map that sends `i` to
the position in parent 1 of the allele `parent2[i]`, in particular at `xp`,
and parent 2's gene at every other position; the same for child 2 with the
parents exchanged. -/
theorem X_cycle_structure (ga_info : GA_Info) (parent_1 parent_2 child_1 child_2 : Chrom)
    (n xp : Nat) (rnd : List Int) (fuel : Nat)
    (hdt : ga_info.datatype = DataType.DT_INT_PERM)
    (hv1 : validPerm n parent_1.gene) (hv2 : validPerm n parent_2.gene)
    (hc1 : child_1.length = n) (hc2 : child_2.length = n)
    (hxp : xp < n) (hfuel : n ≤ fuel) :
    ∃ c1 c2, X_cycle ga_info parent_1 parent_2 child_1 child_2 ((xp : Int) :: rnd) fuel
        = .ok (c1, c2) ∧
      (∀ i, i < n → cycleMap parent_1 parent_2 i < n ∧
        parent_1.g (cycleMap parent_1 parent_2 i) = parent_2.g i) ∧
      (∀ i, c1.g i = parent_1.g i ∨ c1.g i = parent_2.g i) ∧
      (∀ i, c2.g i = parent_1.g i ∨ c2.g i = parent_2.g i) ∧
      c1.g xp = parent_1.g xp ∧ c2.g xp = parent_2.g xp ∧
      (∀ i, (∃ k, (cycleMap parent_1 parent_2)^[k] xp = i) → c1.g i = parent_1.g i) ∧
      (∀ i, ¬ (∃ k, (cycleMap parent_1 parent_2)^[k] xp = i) → c1.g i = parent_2.g i) ∧
      (∀ i, (∃ k, (cycleMap parent_2 parent_1)^[k] xp = i) → c2.g i = parent_2.g i) ∧
      (∀ i, ¬ (∃ k, (cycleMap parent_2 parent_1)^[k] xp = i) → c2.g i = parent_1.g i) := by
  have hl1 : parent_1.length = n := hv1.1
  have hl2 : parent_2.length = n := hv2.1
  have hk1 : (copy_genes parent_2 n 0 { child_1 with xp1 := (xp : Int) }).gene = parent_2.gene := by
    rw [← hl2]; exact copy_genes_all parent_2 _ (hc1.trans hl2.symm)
  have hk2 : (copy_genes parent_1 n 0 { child_2 with xp1 := (xp : Int) }).gene = parent_1.gene := by
    rw [← hl1]; exact copy_genes_all parent_1 _ (hc2.trans hl1.symm)
  obtain ⟨c1, _, e1, _, _, _, _, _⟩ := cycle_child hv1 hv2 hxp
    (copy_genes parent_2 n 0 { child_1 with xp1 := (xp : Int) }) hk1 fuel hfuel
  obtain ⟨c2, _, e2, _, _, _, _, _⟩ := cycle_child hv2 hv1 hxp
    (copy_genes parent_1 n 0 { child_2 with xp1 := (xp : Int) }) hk2 fuel hfuel
  obtain ⟨a1, a2⟩ := cycle_child_orbit hv1 hv2 hxp _ c1 hk1 fuel e1
  obtain ⟨b1, b2⟩ := cycle_child_orbit hv2 hv1 hxp _ c2 hk2 fuel e2
  refine ⟨c1, c2, ?_, ?_, ?_, ?_, a1 xp ⟨0, rfl⟩, b1 xp ⟨0, rfl⟩, a1, a2, b1, b2⟩
  · have hg : ¬ ((xp : Int) < 0 ∨ (xp : Int) ≥ (n : Int)) := by omega
    simp only [X_cycle, hdt, ne_eq, not_true_eq_false, if_false, hl1, hl2, X_gen_xp, RAND_DOM,
      if_neg hg, Int.toNat_ofNat, e1, e2]
  · intro i hi
    exact ⟨(cycleMap_spec hv1 hv2 hi).1, (cycleMap_spec hv1 hv2 hi).2.1⟩
  · intro i
    by_cases h : ∃ k, (cycleMap parent_1 parent_2)^[k] xp = i
    · exact Or.inl (a1 i h)
    · exact Or.inr (a2 i h)
  · intro i
    by_cases h : ∃ k, (cycleMap parent_2 parent_1)^[k] xp = i
    · exact Or.inr (b1 i h)
    · exact Or.inl (b2 i h)

/-- C35, at concrete parents of length 5 with the start index 4, whose cycle
is 4, 3, 1: child 1 holds parent 1's genes 5, 4, 2 there. -/
theorem X_cycle_structure_witness :
    ∃ c1 c2, X_cycle CF_reset
        ⟨[1, 2, 3, 4, 5], 0, 0, -1, 0, 5, -1, -1, -1, -1⟩
        ⟨[3, 5, 1, 2, 4], 0, 0, -1, 0, 5, -1, -1, -1, -1⟩
        ⟨[0, 0, 0, 0, 0], 0, 0, -1, 0, 5, -1, -1, -1, -1⟩
        ⟨[0, 0, 0, 0, 0], 0, 0, -1, 0, 5, -1, -1, -1, -1⟩ [4] 5 = .ok (c1, c2) ∧
      c1.g 4 = 5 ∧ c1.g 3 = 4 ∧ c1.g 1 = 2 := by
  obtain ⟨c1, c2, hx, _, _, _, h4, _, horb, _, _, _⟩ := X_cycle_structure CF_reset
    ⟨[1, 2, 3, 4, 5], 0, 0, -1, 0, 5, -1, -1, -1, -1⟩
    ⟨[3, 5, 1, 2, 4], 0, 0, -1, 0, 5, -1, -1, -1, -1⟩
    ⟨[0, 0, 0, 0, 0], 0, 0, -1, 0, 5, -1, -1, -1, -1⟩
    ⟨[0, 0, 0, 0, 0], 0, 0, -1, 0, 5, -1, -1, -1, -1⟩ 5 4 [] 5
    rfl (by decide!) (by decide!) rfl rfl (by decide) (le_refl _)
  refine ⟨c1, c2, hx, ?_, ?_, ?_⟩
  · rw [h4]; decide!
  · rw [horb 3 ⟨1, by decide!⟩]; decide!
  · rw [horb 1 ⟨2, by decide!⟩]; decide!

/-! ## Elitism under the generational scheduler -/

theorem CH_valid_length {c : Chrom} (h : CH_valid c = true) : 1 ≤ c.length := by
  unfold CH_valid at h
  unfold Chrom.length
  cases hg : c.gene with
  | nil => rw [hg] at h; cases h
  | cons a l => simp

/-- An append that returns has put a copy of the chromosome behind the last
slot. -/
theorem PL_append_ok (pool : Pool) (c : Chrom) (pool' : Pool)
    (h : PL_append pool c true = .ok pool') :
    pool' = { pool with chrom := pool.chrom ++ [c] } := by
  unfold PL_append at h
  by_cases hv : ¬ (CH_valid c = true)
  · rw [if_pos hv] at h; cases h
  rw [if_neg hv] at h
  have hv' : CH_valid c = true := not_not.1 hv
  have hlen := CH_valid_length hv'
  unfold PL_insert at h
  have g1 : ¬ ((pool.size : Int) < 0 ∨ (pool.size : Int) > (pool.size : Int)) := by omega
  rw [if_neg hv, if_neg g1, if_pos rfl] at h
  have hnull : pool.chromAt (pool.size : Int).toNat = CH_null := by
    unfold Pool.chromAt
    rw [Int.toNat_ofNat]
    exact List.getD_eq_default _ _ (le_refl _)
  rw [hnull] at h
  have hnv : ¬ (CH_valid CH_null = true) := by decide
  rw [if_neg hnv] at h
  cases ha : CH_alloc (c.length : Int) with
  | error e => rw [ha] at h; cases h
  | ok slot =>
    rw [ha] at h
    simp only [CH_copy_ok c slot hlen] at h
    cases h
    unfold Pool.setChrom
    rw [Int.toNat_ofNat, if_neg (lt_irrefl _)]

theorem Pool.holdsElite_append (E : Chrom) (pool : Pool) (l : List Chrom)
    (h : pool.holdsElite E) : Pool.holdsElite E { pool with chrom := pool.chrom ++ l } := by
  obtain ⟨c, rest, h1, h2, h3⟩ := h
  exact ⟨c, rest ++ l, by show pool.chrom ++ l = _; rw [h1]; rfl, h2, h3⟩

theorem Pool.setIndex_unindexed (pool : Pool) (i : Nat) (v : Int) :
    (pool.setIndex i v).chrom.map Chrom.unindexed = pool.chrom.map Chrom.unindexed := by
  apply List.ext_getElem?
  intro j
  rw [List.getElem?_map, List.getElem?_map, Pool.setIndex_getElem?]
  by_cases hj : j = i
  · rw [if_pos hj]
    cases pool.chrom[j]? with
    | none => rfl
    | some c => rfl
  · rw [if_neg hj]

theorem PL_stats_loop_unindexed : ∀ (k i : Nat) (pool : Pool) (s : StatsAcc),
    (PL_stats_loop k i pool s).1.chrom.map Chrom.unindexed = pool.chrom.map Chrom.unindexed
  | 0, i, pool, s => rfl
  | k + 1, i, pool, s => by
    rw [PL_stats_loop_succ, PL_stats_loop_unindexed k, Pool.setIndex_unindexed]

/-- The statistics pass writes the `index` field of the chromosomes and
nothing else of them. -/
theorem PL_stats_unindexed (sqrt : ℚ → ℚ) (ga_info : GA_Info) (pool : Pool) :
    (PL_stats sqrt ga_info pool).2.chrom.map Chrom.unindexed = pool.chrom.map Chrom.unindexed := by
  by_cases h0 : (pool.size : Int) ≤ 0
  · unfold PL_stats; rw [if_pos h0]
  by_cases h1 : pool.size = 1
  · unfold PL_stats; rw [if_neg h0, if_pos h1]
  have hl := PL_stats_loop_unindexed pool.size 0 pool
    { min := pool.fit 0, max := pool.fit 0, total := 0, var := 0, min_index := 0,
      max_index := 0, no_variance := true, sorted := true }
  unfold PL_stats
  rw [if_neg h0, if_neg h1]
  generalize PL_stats_loop pool.size 0 pool
    { min := pool.fit 0, max := pool.fit 0, total := 0, var := 0, min_index := 0,
      max_index := 0, no_variance := true, sorted := true } = r at hl ⊢
  obtain ⟨p1, s⟩ := r
  simp only at hl ⊢
  split_ifs <;> exact hl

theorem PL_stats_RE_fun (sqrt : ℚ → ℚ) (ga_info : GA_Info) (pool : Pool) :
    (PL_stats sqrt ga_info pool).1.RE_fun = ga_info.RE_fun := by
  by_cases h0 : (pool.size : Int) ≤ 0
  · unfold PL_stats; rw [if_pos h0]
  by_cases h1 : pool.size = 1
  · unfold PL_stats; rw [if_neg h0, if_pos h1]
  obtain ⟨p1, s, _, _, _, heq⟩ := PL_stats_general sqrt ga_info pool (by omega)
  rw [heq]
  by_cases hv : s.no_variance = true ∨
      (s.var - s.total / (pool.size : ℚ) * s.total) / ((pool.size : ℚ) - 1) ≤ 0
  · rw [if_pos hv]
  · rw [if_neg hv]

theorem PL_stats_holdsElite (sqrt : ℚ → ℚ) (ga_info : GA_Info) (pool : Pool) (E : Chrom)
    (h : pool.holdsElite E) : (PL_stats sqrt ga_info pool).2.holdsElite E := by
  obtain ⟨c, rest, h1, h2, h3⟩ := h
  have hu := PL_stats_unindexed sqrt ga_info pool
  rw [h1] at hu
  cases hc : (PL_stats sqrt ga_info pool).2.chrom with
  | nil => rw [hc] at hu; cases hu
  | cons c' rest' =>
    rw [hc] at hu
    simp only [List.map_cons, List.cons.injEq] at hu
    have hg : c'.unindexed.gene = c.unindexed.gene := congrArg Chrom.gene hu.1
    have hf : c'.unindexed.fitness = c.unindexed.fitness := congrArg Chrom.fitness hu.1
    exact ⟨c', rest', hc, hg.trans h2, hf.trans h3⟩

/-- With append replacement, the replacement step leaves the slots that the
pool had and adds two. -/
theorem RE_fun_append (ga_table : List FN_Table_Type) (ga_info : GA_Info) (pool : Pool)
    (p1 p2 c1 c2 : Chrom) (out : Pool × Chrom × Chrom)
    (hre : ga_info.RE_fun = some FN_Ptr.RE_append)
    (h : RE_fun ga_table ga_info pool p1 p2 c1 c2 = .ok out) :
    out.1 = { pool with chrom := pool.chrom ++ [out.2.1, out.2.2] } := by
  unfold RE_fun at h
  by_cases hn : p1 = CH_null ∨ p2 = CH_null ∨ c1 = CH_null ∨ c2 = CH_null
  · rw [if_pos hn] at h; cases h
  rw [if_neg hn] at h
  by_cases hf : ga_info.RE_fun = none
  · rw [if_pos hf] at h; cases h
  rw [if_neg hf] at h
  cases hb : (if ga_info.elitist = true then RE_pick_best ga_info p1 p2 c1 c2
      else Except.ok (c1, c2)) with
  | error e => rw [hb] at h; cases h
  | ok d =>
    obtain ⟨d1, d2⟩ := d
    rw [hb] at h
    simp only at h
    rw [hre] at h
    have hcall : RE_call ga_table (some FN_Ptr.RE_append) ga_info pool p1 p2 d1 d2 =
        RE_append ga_info pool p1 p2 d1 d2 := rfl
    rw [hcall] at h
    unfold RE_append at h
    cases ha1 : PL_append pool d1 true with
    | error e => rw [ha1] at h; cases h
    | ok q1 =>
      rw [ha1] at h
      simp only at h
      cases ha2 : PL_append q1 d2 true with
      | error e => rw [ha2] at h; cases h
      | ok q2 =>
        rw [ha2] at h
        cases h
        rw [PL_append_ok _ _ _ ha2, PL_append_ok _ _ _ ha1]
        simp only [List.append_assoc, List.singleton_append]

theorem SE_fun_RE_fun {R : Type}
    (select : GA_Info → Pool → R → Except GAError (Int × GA_Info × Pool × R))
    (hsel : ∀ gi p r idx gi' p' r', select gi p r = .ok (idx, gi', p', r') →
      gi'.RE_fun = gi.RE_fun)
    (gi : GA_Info) (p : Pool) (r : R) (i : Nat) (gi' : GA_Info) (p' : Pool) (r' : R)
    (h : SE_fun select gi p r = .ok (i, gi', p', r')) : gi'.RE_fun = gi.RE_fun := by
  unfold SE_fun at h
  by_cases h0 : gi.SE_fun = none
  · rw [if_pos h0] at h; cases h
  rw [if_neg h0] at h
  cases hs : select gi p r with
  | error e => rw [hs] at h; cases h
  | ok v =>
    obtain ⟨idx, g2, p2, r2⟩ := v
    rw [hs] at h
    simp only at h
    by_cases h1 : idx < 0 ∨ idx ≥ (p2.size : Int)
    · rw [if_pos h1] at h; cases h
    rw [if_neg h1] at h
    by_cases h2 : p2.chromAt idx.toNat = CH_null
    · rw [if_pos h2] at h; cases h
    rw [if_neg h2] at h
    cases h
    exact hsel _ _ _ _ _ _ _ hs

/-- With elitism on, `GA_init_trial` leaves `ga_info` as it is and starts the
new pool with two copies of the elite of the old pool. -/
theorem GA_init_trial_elite (run run' : GA_Run) (helit : run.ga_info.elitist = true)
    (h : GA_init_trial run = .ok run') :
    run'.ga_info = run.ga_info ∧ run'.old_pool = run.old_pool ∧
    run'.new_pool.chrom =
      [run.old_pool.elite run.ga_info, run.old_pool.elite run.ga_info] := by
  unfold GA_init_trial at h
  simp only at h
  have h0 : ¬ ¬ (run.ga_info.elitist = true) := not_not.2 helit
  rw [if_neg h0] at h
  cases he : run.old_pool.chromAtIdx
      (if run.ga_info.minimize then run.old_pool.min_index else run.old_pool.max_index) with
  | error e => rw [he] at h; cases h
  | ok elite =>
    rw [he] at h
    simp only at h
    have hel : elite = run.old_pool.elite run.ga_info := by
      unfold Pool.chromAtIdx at he
      by_cases hb : (if run.ga_info.minimize then run.old_pool.min_index
          else run.old_pool.max_index) < 0 ∨
          (if run.ga_info.minimize then run.old_pool.min_index
          else run.old_pool.max_index) ≥ (run.old_pool.size : Int)
      · rw [if_pos hb] at he; cases he
      · rw [if_neg hb] at he
        cases he
        rfl
    cases h1 : PL_append { run.new_pool with chrom := [] } elite true with
    | error e => rw [h1] at h; cases h
    | ok np =>
      rw [h1] at h
      simp only at h
      cases h2 : PL_append np elite true with
      | error e => rw [h2] at h; cases h
      | ok np2 =>
        rw [h2] at h
        cases h
        refine ⟨rfl, rfl, ?_⟩
        rw [PL_append_ok _ _ _ h2, PL_append_ok _ _ _ h1, ← hel]
        rfl

theorem GA_gap_loop_elite {R : Type}
    (select : GA_Info → Pool → R → Except GAError (Int × GA_Info × Pool × R))
    (hsel : ∀ gi p r idx gi' p' r', select gi p r = .ok (idx, gi', p', r') →
      gi'.RE_fun = gi.RE_fun) (E : Chrom) :
    ∀ (k : Nat) (run : GA_Run) (r : R) (run' : GA_Run) (r' : R),
      GA_gap_loop select k run r = .ok (run', r') →
      run.new_pool.holdsElite E →
      run'.ga_info.RE_fun = run.ga_info.RE_fun ∧ run'.new_pool.holdsElite E
  | 0, run, r, run', r', h, hE => by
    have h0 : GA_gap_loop select 0 run r = .ok (run, r) := rfl
    rw [h0] at h
    cases h
    exact ⟨rfl, hE⟩
  | k + 1, run, r, run', r', h, hE => by
    rw [GA_gap_loop_succ] at h
    by_cases hlt : run.new_pool.size < run.old_pool.size
    · rw [if_pos hlt] at h
      cases hs : SE_fun select run.ga_info run.old_pool r with
      | error e => rw [hs] at h; cases h
      | ok v =>
        obtain ⟨i, g2, p2, r2⟩ := v
        rw [hs] at h
        simp only at h
        cases hp : PL_append run.new_pool (p2.chromAt i) true with
        | error e => rw [hp] at h; cases h
        | ok np =>
          rw [hp] at h
          simp only at h
          have hnp : np.holdsElite E := by
            rw [PL_append_ok _ _ _ hp]
            exact Pool.holdsElite_append E _ _ hE
          obtain ⟨i1, i2⟩ := GA_gap_loop_elite select hsel E k _ _ _ _ h hnp
          exact ⟨i1.trans (SE_fun_RE_fun select hsel _ _ _ _ _ _ _ hs), i2⟩
    · rw [if_neg hlt] at h
      cases h
      exact ⟨rfl, hE⟩

theorem GA_gap_elite {R : Type}
    (select : GA_Info → Pool → R → Except GAError (Int × GA_Info × Pool × R))
    (hsel : ∀ gi p r idx gi' p' r', select gi p r = .ok (idx, gi', p', r') →
      gi'.RE_fun = gi.RE_fun) (E : Chrom)
    (sqrt : ℚ → ℚ) (run : GA_Run) (r : R) (run' : GA_Run) (r' : R)
    (h : GA_gap select sqrt run r = .ok (run', r')) (hE : run.new_pool.holdsElite E) :
    run'.ga_info.RE_fun = run.ga_info.RE_fun ∧ run'.new_pool.holdsElite E := by
  unfold GA_gap at h
  by_cases h0 : run.ga_info.gap ≤ 0
  · rw [if_pos h0] at h; cases h; exact ⟨rfl, hE⟩
  rw [if_neg h0] at h
  simp only at h
  cases hl : GA_gap_loop select
      (toInt ((run.ga_info.pool_size : ℚ) * run.ga_info.gap)).toNat run r with
  | error e => rw [hl] at h; cases h
  | ok v =>
    obtain ⟨run1, r1⟩ := v
    rw [hl] at h
    simp only at h
    obtain ⟨c1, c2⟩ := GA_gap_loop_elite select hsel E _ _ _ _ _ hl hE
    by_cases hsz : run1.new_pool.size = run1.old_pool.size
    · rw [if_pos hsz] at h
      cases h
      exact ⟨(PL_stats_RE_fun sqrt _ _).trans c1, PL_stats_holdsElite sqrt _ _ E c2⟩
    · rw [if_neg hsz] at h
      cases h
      exact ⟨c1, c2⟩

theorem GA_trial_elite {R : Type}
    (select : GA_Info → Pool → R → Except GAError (Int × GA_Info × Pool × R))
    (hsel : ∀ gi p r idx gi' p' r', select gi p r = .ok (idx, gi', p', r') →
      gi'.RE_fun = gi.RE_fun) (E : Chrom)
    (breed : GA_Info → Chrom → Chrom → Chrom → Chrom → R → Except GAError (Chrom × Chrom × R))
    (sqrt : ℚ → ℚ) (ga_table : List FN_Table_Type) (run : GA_Run) (r : R) (run' : GA_Run) (r' : R)
    (h : GA_trial select breed sqrt ga_table run r = .ok (run', r'))
    (hre : run.ga_info.RE_fun = some FN_Ptr.RE_append) (hE : run.new_pool.holdsElite E) :
    run'.ga_info.RE_fun = some FN_Ptr.RE_append ∧ run'.new_pool.holdsElite E := by
  unfold GA_trial at h
  cases hs1 : SE_fun select run.ga_info run.old_pool r with
  | error e => rw [hs1] at h; cases h
  | ok v1 =>
    obtain ⟨i1, g1, p1, r1⟩ := v1
    rw [hs1] at h
    simp only at h
    cases hs2 : SE_fun select g1 p1 r1 with
    | error e => rw [hs2] at h; cases h
    | ok v2 =>
      obtain ⟨i2, g2, p2, r2⟩ := v2
      rw [hs2] at h
      simp only at h
      have hg2 : g2.RE_fun = some FN_Ptr.RE_append :=
        ((SE_fun_RE_fun select hsel _ _ _ _ _ _ _ hs2).trans
          (SE_fun_RE_fun select hsel _ _ _ _ _ _ _ hs1)).trans hre
      cases hv1 : CH_verify g2 (p2.chromAt i1) with
      | error e => rw [hv1] at h; cases h
      | ok u1 =>
        rw [hv1] at h
        simp only at h
        cases hv2 : CH_verify g2 (p2.chromAt i2) with
        | error e => rw [hv2] at h; cases h
        | ok u2 =>
          rw [hv2] at h
          simp only at h
          cases hb : breed g2 (p2.chromAt i1) (p2.chromAt i2) run.child1 run.child2 r2 with
          | error e => rw [hb] at h; cases h
          | ok v3 =>
            obtain ⟨c1, c2, r3⟩ := v3
            rw [hb] at h
            simp only at h
            cases hv3 : CH_verify g2 c1 with
            | error e => rw [hv3] at h; cases h
            | ok u3 =>
              rw [hv3] at h
              simp only at h
              cases hv4 : CH_verify g2 c2 with
              | error e => rw [hv4] at h; cases h
              | ok u4 =>
                rw [hv4] at h
                simp only at h
                cases hr : RE_fun ga_table g2 run.new_pool (p2.chromAt i1) (p2.chromAt i2)
                    c1 c2 with
                | error e => rw [hr] at h; cases h
                | ok v4 =>
                  have hnp := RE_fun_append ga_table g2 run.new_pool _ _ _ _ v4 hg2 hr
                  obtain ⟨np, d1, d2⟩ := v4
                  rw [hr] at h
                  simp only at h hnp
                  cases hc : GA_cum g2 run.best d1 d2 with
                  | error e => rw [hc] at h; cases h
                  | ok best =>
                    rw [hc] at h
                    simp only at h
                    cases h
                    refine ⟨(PL_stats_RE_fun sqrt _ _).trans hg2,
                      PL_stats_holdsElite sqrt _ _ E ?_⟩
                    rw [hnp]
                    exact Pool.holdsElite_append E _ _ hE

theorem GA_trials_elite {R : Type}
    (select : GA_Info → Pool → R → Except GAError (Int × GA_Info × Pool × R))
    (hsel : ∀ gi p r idx gi' p' r', select gi p r = .ok (idx, gi', p', r') →
      gi'.RE_fun = gi.RE_fun) (E : Chrom)
    (breed : GA_Info → Chrom → Chrom → Chrom → Chrom → R → Except GAError (Chrom × Chrom × R))
    (sqrt : ℚ → ℚ) (ga_table : List FN_Table_Type) :
    ∀ (fuel : Nat) (run : GA_Run) (r : R) (run' : GA_Run) (r' : R),
      GA_trials select breed sqrt ga_table fuel run r = .ok (run', r') →
      run.ga_info.RE_fun = some FN_Ptr.RE_append → run.new_pool.holdsElite E →
      run'.new_pool.holdsElite E
  | 0, run, r, run', r', h, _, hE => by
    have h0 : GA_trials select breed sqrt ga_table 0 run r =
        if run.new_pool.size < run.old_pool.size then .error .noFuel else .ok (run, r) := rfl
    rw [h0] at h
    by_cases hlt : run.new_pool.size < run.old_pool.size
    · rw [if_pos hlt] at h; cases h
    · rw [if_neg hlt] at h; cases h; exact hE
  | fuel + 1, run, r, run', r', h, hre, hE => by
    rw [GA_trials_succ] at h
    by_cases hlt : run.new_pool.size < run.old_pool.size
    · rw [if_pos hlt] at h
      cases ht : GA_trial select breed sqrt ga_table run r with
      | error e => rw [ht] at h; cases h
      | ok v =>
        obtain ⟨run1, r1⟩ := v
        rw [ht] at h
        simp only at h
        obtain ⟨t1, t2⟩ := GA_trial_elite select hsel E breed sqrt ga_table _ _ _ _ ht hre hE
        exact GA_trials_elite select hsel E breed sqrt ga_table fuel _ _ _ _ h t1 t2
    · rw [if_neg hlt] at h; cases h; exact hE

/-- C38. Under the generational scheduler with elitism on and append
replacement, for a selection that leaves the replacement function as it is: a
generation that returns leaves, in the first slot of the pool it has built, a
chromosome with the genes and the fitness of the elite of the old pool (the
chromosome at `min_index` when minimizing, at `max_index` otherwise); so when
the elite is the best of the old pool, as its statistics say, the pool built
holds a chromosome that is at least as good as every chromosome of the old
pool. -/
theorem GA_generation_elitist {R : Type}
    (select : GA_Info → Pool → R → Except GAError (Int × GA_Info × Pool × R))
    (breed : GA_Info → Chrom → Chrom → Chrom → Chrom → R → Except GAError (Chrom × Chrom × R))
    (sqrt : ℚ → ℚ) (ga_table : List FN_Table_Type) (inner : Nat) (run : GA_Run) (r : R)
    (run' : GA_Run) (r' : R)
    (helit : run.ga_info.elitist = true)
    (hre : run.ga_info.RE_fun = some FN_Ptr.RE_append)
    (hsel : ∀ gi p r idx gi' p' r', select gi p r = .ok (idx, gi', p', r') →
      gi'.RE_fun = gi.RE_fun)
    (hgen : GA_generation select breed sqrt ga_table inner run r = .ok (run', r')) :
    ∃ c, c ∈ run'.old_pool.chrom ∧ run'.old_pool.chromAt 0 = c ∧
      c.gene = (run.old_pool.elite run.ga_info).gene ∧
      c.fitness = (run.old_pool.elite run.ga_info).fitness ∧
      ((∀ x, x ∈ run.old_pool.chrom →
          fitLE run.ga_info (run.old_pool.elite run.ga_info).fitness x.fitness) →
        ∀ x, x ∈ run.old_pool.chrom → fitLE run.ga_info c.fitness x.fitness) := by
  unfold GA_generation at hgen
  cases hi : GA_init_trial run with
  | error e => rw [hi] at hgen; cases hgen
  | ok run1 =>
    rw [hi] at hgen
    simp only at hgen
    obtain ⟨i1, _, i3⟩ := GA_init_trial_elite run run1 helit hi
    have hE1 : run1.new_pool.holdsElite (run.old_pool.elite run.ga_info) :=
      ⟨_, _, i3, rfl, rfl⟩
    cases hg : GA_gap select sqrt run1 r with
    | error e => rw [hg] at hgen; cases hgen
    | ok v =>
      obtain ⟨run2, r2⟩ := v
      rw [hg] at hgen
      simp only at hgen
      obtain ⟨g1, g2⟩ := GA_gap_elite select hsel _ sqrt _ _ _ _ hg hE1
      cases ht : GA_trials select breed sqrt ga_table inner run2 r2 with
      | error e => rw [ht] at hgen; cases hgen
      | ok w =>
        obtain ⟨run3, r3⟩ := w
        rw [ht] at hgen
        simp only at hgen
        cases hgen
        have hre2 : run2.ga_info.RE_fun = some FN_Ptr.RE_append := by
          rw [g1, i1]; exact hre
        obtain ⟨c, rest, t1, t2, t3⟩ :=
          GA_trials_elite select hsel _ breed sqrt ga_table inner _ _ _ _ ht hre2 g2
        refine ⟨c, ?_, ?_, t2, t3, ?_⟩
        · show c ∈ run3.new_pool.chrom
          rw [t1]; exact List.mem_cons_self _ _
        · show run3.new_pool.chromAt 0 = c
          unfold Pool.chromAt
          rw [t1]
          rfl
        · intro hb x hx
          rw [t3]
          exact hb x hx

theorem SE_uniform_random_call_RE_fun (gi : GA_Info) (p : Pool) (r : List Int) (idx : Int)
    (gi' : GA_Info) (p' : Pool) (r' : List Int)
    (h : SE_uniform_random_call gi p r = .ok (idx, gi', p', r')) : gi'.RE_fun = gi.RE_fun := by
  unfold SE_uniform_random_call at h
  cases hs : SE_uniform_random gi p r with
  | error e => rw [hs] at h; cases h
  | ok v =>
    obtain ⟨i, rnd⟩ := v
    rw [hs] at h
    simp only at h
    cases h
    rfl

/-- C38, at a minimizing pool of four permutations of fitness 1, 2, 1, 2 with
`min_index = 0`, uniform random selection, cloning and append replacement: the
generation returns, and the pool it has built holds a chromosome with the
genes `1 2` and the fitness 1 of the elite. -/
theorem GA_generation_elitist_witness :
    ∃ out c, GA_generation SE_uniform_random_call X_fun_clone (fun x => x) GA_table 4
        ⟨{ CF_reset with pool_size := 4, max_iter := 1,
                         SE_fun := some FN_Ptr.SE_uniform_random },
         ⟨[⟨[1, 2], 1, 0, 0, 0, 2, -1, -1, -1, -1⟩, ⟨[2, 1], 2, 0, 1, 0, 2, -1, -1, -1, -1⟩,
           ⟨[1, 2], 1, 0, 2, 0, 2, -1, -1, -1, -1⟩, ⟨[2, 1], 2, 0, 3, 0, 2, -1, -1, -1, -1⟩],
           6, 1, 2, 3 / 2, 1 / 3, 1 / 3, 0, 1, 0, true, false⟩,
         ⟨[], 0, 0, 0, 0, 0, 0, -1, -1, -1, true, false⟩,
         ⟨[1, 2], 1, 0, 0, 0, 2, -1, -1, -1, -1⟩,
         ⟨[1, 2], 0, 0, -1, 0, 2, -1, -1, -1, -1⟩,
         ⟨[1, 2], 0, 0, -1, 0, 2, -1, -1, -1, -1⟩⟩ [2, 3] = .ok out ∧
      c ∈ out.1.old_pool.chrom ∧ c.gene = [1, 2] ∧ c.fitness = 1 := by
  obtain ⟨out, hout⟩ := Except.exists_ok_of_toBool
    (GA_generation SE_uniform_random_call X_fun_clone (fun x => x) GA_table 4
        ⟨{ CF_reset with pool_size := 4, max_iter := 1,
                         SE_fun := some FN_Ptr.SE_uniform_random },
         ⟨[⟨[1, 2], 1, 0, 0, 0, 2, -1, -1, -1, -1⟩, ⟨[2, 1], 2, 0, 1, 0, 2, -1, -1, -1, -1⟩,
           ⟨[1, 2], 1, 0, 2, 0, 2, -1, -1, -1, -1⟩, ⟨[2, 1], 2, 0, 3, 0, 2, -1, -1, -1, -1⟩],
           6, 1, 2, 3 / 2, 1 / 3, 1 / 3, 0, 1, 0, true, false⟩,
         ⟨[], 0, 0, 0, 0, 0, 0, -1, -1, -1, true, false⟩,
         ⟨[1, 2], 1, 0, 0, 0, 2, -1, -1, -1, -1⟩,
         ⟨[1, 2], 0, 0, -1, 0, 2, -1, -1, -1, -1⟩,
         ⟨[1, 2], 0, 0, -1, 0, 2, -1, -1, -1, -1⟩⟩ [2, 3]) (by decide!)
  obtain ⟨c, hc, _, hg, hf, _⟩ := GA_generation_elitist SE_uniform_random_call X_fun_clone
    (fun x => x) GA_table 4 _ _ out.1 out.2 rfl rfl SE_uniform_random_call_RE_fun hout
  exact ⟨out, c, hout, hc, hg.trans (by decide!), hf.trans (by decide!)⟩

/-! ## Percent of total fitness: exact and rounded arithmetic -/

theorem PL_update_ptf_scale_fl_id : ∀ (cs : List Chrom) (s : ℚ × Bool × Bool),
    PL_update_ptf_scale_fl (fun x => x) cs s = PL_update_ptf_scale cs s
  | [], s => rfl
  | c :: cs, (sf, ch, ap) => by
    show PL_update_ptf_scale_fl (fun x => x) cs _ = PL_update_ptf_scale cs _
    exact PL_update_ptf_scale_fl_id cs _

theorem PL_update_ptf_total_fl_id (sf : ℚ) : ∀ (cs : List Chrom) (t : ℚ),
    PL_update_ptf_total_fl (fun x => x) sf cs t = PL_update_ptf_total sf cs t
  | [], t => rfl
  | c :: cs, t => by
    show PL_update_ptf_total_fl (fun x => x) sf cs _ = PL_update_ptf_total sf cs _
    exact PL_update_ptf_total_fl_id sf cs _

theorem PL_update_ptf_invert_fl_id (sf total : ℚ) : ∀ (cs : List Chrom) (nt : ℚ),
    PL_update_ptf_invert_fl (fun x => x) sf total cs nt = PL_update_ptf_invert sf total cs nt
  | [], nt => rfl
  | c :: cs, nt => by
    show (if c.fitness + sf ≤ 0 then Except.error GAError.scaledFitnessNonPos
      else
        match PL_update_ptf_invert_fl (fun x => x) sf total cs
            (nt + total / (c.fitness + sf)) with
        | .error e => .error e
        | .ok (cs, new_total) =>
          .ok ({ c with ptf := total / (c.fitness + sf) } :: cs, new_total))
      = (if c.fitness + sf ≤ 0 then Except.error GAError.scaledFitnessNonPos
      else
        match PL_update_ptf_invert sf total cs (nt + total / (c.fitness + sf)) with
        | .error e => .error e
        | .ok (cs, new_total) =>
          .ok ({ c with ptf := total / (c.fitness + sf) } :: cs, new_total))
    rw [PL_update_ptf_invert_fl_id sf total cs]

theorem PL_update_ptf_renorm_fl_id (nt : ℚ) : ∀ (cs : List Chrom),
    PL_update_ptf_renorm_fl (fun x => x) nt cs = PL_update_ptf_renorm nt cs
  | [] => rfl
  | c :: cs => by
    show (if nt ≤ 0 then Except.error GAError.newTotalNonPos
      else
        match PL_update_ptf_renorm_fl (fun x => x) nt cs with
        | .error e => .error e
        | .ok cs => .ok ({ c with ptf := c.ptf * (100 / nt) } :: cs))
      = (if nt ≤ 0 then Except.error GAError.newTotalNonPos
      else
        match PL_update_ptf_renorm nt cs with
        | .error e => .error e
        | .ok cs => .ok ({ c with ptf := c.ptf * (100 / nt) } :: cs))
    rw [PL_update_ptf_renorm_fl_id nt cs]

theorem PL_update_ptf_max_fl_id (sf total : ℚ) : ∀ (cs : List Chrom),
    PL_update_ptf_max_fl (fun x => x) sf total cs = PL_update_ptf_max sf total cs
  | [] => rfl
  | c :: cs => by
    show (if total ≤ 0 then Except.error GAError.totalNonPos
      else
        match PL_update_ptf_max_fl (fun x => x) sf total cs with
        | .error e => .error e
        | .ok cs => .ok ({ c with ptf := (c.fitness + sf) / total * 100 } :: cs))
      = (if total ≤ 0 then Except.error GAError.totalNonPos
      else
        match PL_update_ptf_max sf total cs with
        | .error e => .error e
        | .ok cs => .ok ({ c with ptf := (c.fitness + sf) / total * 100 } :: cs))
    rw [PL_update_ptf_max_fl_id sf total cs]

/-- With the identity for the rounding, the rounded translation of
`PL_update_ptf` is the exact one. -/
theorem PL_update_ptf_fl_id (ga_info : GA_Info) (pool : Pool) :
    PL_update_ptf_fl (fun x => x) ga_info pool = PL_update_ptf ga_info pool := by
  have h1 : ∀ cs s, PL_update_ptf_scale_fl (fun x => x) cs s = PL_update_ptf_scale cs s :=
    PL_update_ptf_scale_fl_id
  have h2 : ∀ sf cs t, PL_update_ptf_total_fl (fun x => x) sf cs t = PL_update_ptf_total sf cs t :=
    PL_update_ptf_total_fl_id
  have h3 : ∀ sf total cs nt, PL_update_ptf_invert_fl (fun x => x) sf total cs nt
      = PL_update_ptf_invert sf total cs nt := PL_update_ptf_invert_fl_id
  have h4 : ∀ nt cs, PL_update_ptf_renorm_fl (fun x => x) nt cs = PL_update_ptf_renorm nt cs :=
    PL_update_ptf_renorm_fl_id
  have h5 : ∀ sf total cs, PL_update_ptf_max_fl (fun x => x) sf total cs
      = PL_update_ptf_max sf total cs := PL_update_ptf_max_fl_id
  unfold PL_update_ptf_fl PL_update_ptf
  simp only [h1, h2, h3, h4, h5]

/-- C36, as stated, fails in floating-point arithmetic.  On the pool of one
chromosome of fitness `-2^70`, from the scale factor 0, with the result of
every operation rounded to double precision (53 bits) or to single precision
(24 bits): `fitness + scale_factor` is `-2^70`, and
`1.0 - (fitness + scale_factor)` is `2^70 + 1`, which rounds to `2^70`; the
scale factor becomes `2^70`, and `fitness + scale_factor` is 0 after the
scaling pass.  Minimizing, the check `fitness + scale <= 0.0` fires;
maximizing, the total is 0 and the check `pool->total_fitness <= 0.0` fires.
In double precision the same happens at the fitness `-10^17`. -/
theorem PL_update_ptf_fl_error :
    roundBits 53 (1180591620717411303424 + 1) = 1180591620717411303424 ∧
    roundBits 24 (1180591620717411303424 + 1) = 1180591620717411303424 ∧
    PL_update_ptf_scale_fl (roundBits 53)
        [⟨[1], -1180591620717411303424, 0, -1, 0, 1, -1, -1, -1, -1⟩] (0, false, true)
      = (1180591620717411303424, true, false) ∧
    PL_update_ptf_fl (roundBits 53) { CF_reset with minimize := true }
        ⟨[⟨[1], -1180591620717411303424, 0, -1, 0, 1, -1, -1, -1, -1⟩],
          0, 0, 0, 0, 0, 0, -1, -1, -1, true, false⟩ = .error .scaledFitnessNonPos ∧
    PL_update_ptf_fl (roundBits 53) { CF_reset with minimize := false }
        ⟨[⟨[1], -1180591620717411303424, 0, -1, 0, 1, -1, -1, -1, -1⟩],
          0, 0, 0, 0, 0, 0, -1, -1, -1, false, false⟩ = .error .totalNonPos ∧
    PL_update_ptf_fl (roundBits 24) { CF_reset with minimize := true }
        ⟨[⟨[1], -1180591620717411303424, 0, -1, 0, 1, -1, -1, -1, -1⟩],
          0, 0, 0, 0, 0, 0, -1, -1, -1, true, false⟩ = .error .scaledFitnessNonPos ∧
    PL_update_ptf_fl (roundBits 24) { CF_reset with minimize := false }
        ⟨[⟨[1], -1180591620717411303424, 0, -1, 0, 1, -1, -1, -1, -1⟩],
          0, 0, 0, 0, 0, 0, -1, -1, -1, false, false⟩ = .error .totalNonPos ∧
    PL_update_ptf_fl (roundBits 53) { CF_reset with minimize := true }
        ⟨[⟨[1], -100000000000000000, 0, -1, 0, 1, -1, -1, -1, -1⟩],
          0, 0, 0, 0, 0, 0, -1, -1, -1, true, false⟩ = .error .scaledFitnessNonPos ∧
    PL_update_ptf_fl (roundBits 53) { CF_reset with minimize := false }
        ⟨[⟨[1], -100000000000000000, 0, -1, 0, 1, -1, -1, -1, -1⟩],
          0, 0, 0, 0, 0, 0, -1, -1, -1, false, false⟩ = .error .totalNonPos := by
  refine ⟨by decide!, by decide!, by decide!, by decide!, by decide!, by decide!, by decide!,
    by decide!, by decide!⟩

end LibGA
